import Mathlib

/-!
# frpcGUI configuration engine: range expansion, aliases and completion

A shallow embedding of `pkg/config/client.go` and `pkg/util/misc.go`.

Conventions of the embedding.
* A Go `string` is a Lean `String`; the parsing helpers work on its list of characters.
* Go's `int` is the 64-bit signed integer; values are kept in `Int` and the places where
  the bound is observable (`strconv.Atoi`, the counter of the range loop) check it explicitly.
* A call that never returns is `none` in an outer `Option`.
* A Go map is `Option (List (String × String))`, `none` being the nil map; a slice whose
  nil-ness is observable is `Option (List α)`.
-/

namespace FrpcGUI

/-! ## Strings -/

/-- Go `unicode.IsSpace`, the predicate `strings.TrimSpace` trims with. -/
def isSpace (c : Char) : Bool :=
  c.toNat = 0x20 || (0x09 ≤ c.toNat && c.toNat ≤ 0x0D) || c.toNat = 0x85 || c.toNat = 0xA0 ||
  c.toNat = 0x1680 || (0x2000 ≤ c.toNat && c.toNat ≤ 0x200A) || c.toNat = 0x2028 ||
  c.toNat = 0x2029 || c.toNat = 0x202F || c.toNat = 0x205F || c.toNat = 0x3000

/-- Go `strings.TrimSpace`: leading and trailing white space removed. -/
def TrimSpace (s : List Char) : List Char :=
  ((s.dropWhile isSpace).reverse.dropWhile isSpace).reverse

/-- Go `strings.Split(s, sep)` for a one-character separator: the pieces between the
separators, in order; the empty string gives one empty piece. -/
def Split : List Char → Char → List (List Char)
  | [], _ => [[]]
  | c :: cs, sep =>
    if c = sep then [] :: Split cs sep
    else
      match Split cs sep with
      | [] => [[c]]
      | piece :: pieces => (c :: piece) :: pieces

/-- Largest value of Go's `int` (64-bit). -/
def maxInt : Int := 9223372036854775807

/-- Value of a run of ASCII decimal digits, `none` at the first other character. -/
def digitsValue : List Char → Nat → Option Nat
  | [], acc => some acc
  | c :: cs, acc =>
    if 48 ≤ c.toNat ∧ c.toNat ≤ 57 then digitsValue cs (acc * 10 + (c.toNat - 48)) else none

/-- Go `strconv.Atoi` (the error value is dropped, every caller replaces it): an optional
sign, at least one decimal digit, and a value that fits the 64-bit `int`. -/
def Atoi (s : List Char) : Option Int :=
  let body := if s.head? = some '-' ∨ s.head? = some '+' then s.tail else s
  if body = [] then none
  else
    match digitsValue body 0 with
    | none => none
    | some n =>
      if s.head? = some '-' then (if n ≤ 9223372036854775808 then some (-(n : Int)) else none)
      else (if n ≤ 9223372036854775807 then some (n : Int) else none)

/-! ## Range expansion -/

/-- Result pair `([]int, error)` of `parseRangeNumbers`. -/
inductive ParseResult where
  | ok (nums : List Int)
  | err (msg : String)
  deriving DecidableEq, Repr

/-- The loop `for i := start; i <= end; i++ { result = append(result, i) }`.
The first argument bounds the number of iterations; the caller passes `end - start + 1`.
When the counter stands at the largest `int` and is still `<= end`, `i++` wraps to the
smallest `int`, which is again `<= end`: the loop never exits, which is `none`. -/
def rangeLoop : Nat → Int → Int → List Int → Option (List Int)
  | 0, i, stop, result => if i ≤ stop then none else some result
  | fuel + 1, i, stop, result =>
    if i ≤ stop then
      if i = maxInt then none else rangeLoop fuel (i + 1) stop (result ++ [i])
    else some result

/-- Body of the `for _, part := range parts` loop of `parseRangeNumbers`, over the parts
still to visit and the numbers collected so far. -/
def parseParts : List (List Char) → List Int → Option ParseResult
  | [], result => some (.ok result)
  | rawPart :: rest, result =>
    if TrimSpace rawPart = [] then parseParts rest result
    else if '-' ∈ TrimSpace rawPart then
      match Split (TrimSpace rawPart) '-' with
      | [p0, p1] =>
        match Atoi (TrimSpace p0) with
        | none => some (.err ("invalid start number in range: " ++ String.mk p0))
        | some start =>
          match Atoi (TrimSpace p1) with
          | none => some (.err ("invalid end number in range: " ++ String.mk p1))
          | some stop =>
            if start > stop then
              some (.err ("start number must be less than or equal to end number in range: "
                ++ String.mk (TrimSpace rawPart)))
            else
              match rangeLoop (stop - start + 1).toNat start stop result with
              | none => none
              | some result1 => parseParts rest result1
      | _ => some (.err ("invalid range format: " ++ String.mk (TrimSpace rawPart)))
    else
      match Atoi (TrimSpace rawPart) with
      | none => some (.err ("invalid number: " ++ String.mk (TrimSpace rawPart)))
      | some num => parseParts rest (result ++ [num])

/-- Go `parseRangeNumbers`: a range string like "1000-1002,1004" as individual numbers. -/
def parseRangeNumbers (rangeStr : String) : Option ParseResult :=
  if rangeStr = "" then some (.err "empty range string")
  else parseParts (Split rangeStr.data ',') []

/-! ## Constants of `pkg/consts` -/

/-- Modelled from the spec: constant `consts.AuthToken`, declared outside the sources at
hand; the shared-secret token method, the label of the struct tag `token:"true"`. -/
def AuthToken : String := "token"

/-- Modelled from the spec: constant `consts.ProxyTypeTCP` ("tcp/udp/http/https/stcp/xtcp/
sudp/tcpmux"), declared outside the sources at hand. -/
def ProxyTypeTCP : String := "tcp"

/-- Modelled from the spec: constant `consts.ProxyTypeUDP`, see `ProxyTypeTCP`. -/
def ProxyTypeUDP : String := "udp"

/-- Modelled from the spec: constant `consts.ProxyTypeXTCP`, see `ProxyTypeTCP`. -/
def ProxyTypeXTCP : String := "xtcp"

/-- Modelled from the spec: constant `consts.ProxyTypeSTCP`, see `ProxyTypeTCP`. -/
def ProxyTypeSTCP : String := "stcp"

/-- Modelled from the spec: constant `consts.ProxyTypeSUDP`, see `ProxyTypeTCP`. -/
def ProxyTypeSUDP : String := "sudp"

/-- Modelled from the spec: constant `consts.ProtoQUIC`, the QUIC variant of the transport
protocol, declared outside the sources at hand. -/
def ProtoQUIC : String := "quic"

/-- Modelled from the spec: constant `consts.DeleteAbsolute`, the absolute-date method of the
self-destruct policy (`frpcgui_delete_method = absolute` in the decode test). -/
def DeleteAbsolute : String := "absolute"

/-- Modelled from the spec: constant `consts.DeleteRelative`, the relative day-count method
of the self-destruct policy. -/
def DeleteRelative : String := "relative"

/-! ## Helpers of `samber/lo` -/

/-- The library function `lo.Some(collection, subset)`: some element of `subset` occurs in
`collection`. -/
def lo.Some {α : Type} [BEq α] (collection subset : List α) : Bool :=
  subset.any (fun elem => collection.contains elem)

/-- The library function `lo.Every(collection, subset)`: every element of `subset` occurs in
`collection`. -/
def lo.Every {α : Type} [BEq α] (collection subset : List α) : Bool :=
  subset.all (fun elem => collection.contains elem)

/-! ## Data model -/

/-- A Go `map[string]string`; `none` is the nil map. -/
abbrev GoMap := Option (List (String × String))

/-- A Go slice whose nil-ness can be observed; `none` is the nil slice. -/
abbrev Slice (α : Type) := Option (List α)

/-- Go `len` of a slice. -/
def Slice.len {α : Type} (s : Slice α) : Nat := (s.getD []).length

/-- The elements of a slice, none for the nil slice. -/
def Slice.elems {α : Type} (s : Slice α) : List α := s.getD []

/-- A Go `time.Time`, as the distance from the zero time. -/
structure GoTime where
  nanos : Int := 0
  deriving DecidableEq

/-- Struct `ClientAuth`. -/
structure ClientAuth where
  AuthMethod : String := ""
  AuthenticateHeartBeats : Bool := false
  AuthenticateNewWorkConns : Bool := false
  Token : String := ""
  TokenSource : String := ""
  TokenSourceFile : String := ""
  OIDCClientId : String := ""
  OIDCClientSecret : String := ""
  OIDCAudience : String := ""
  OIDCScope : String := ""
  OIDCTokenEndpoint : String := ""
  OIDCAdditionalEndpointParams : GoMap := none
  deriving DecidableEq

/-- Struct `AutoDelete`; its declaration is outside the sources at hand, the three fields
are the ones `client.go` reads and writes. -/
structure AutoDelete where
  DeleteMethod : String := ""
  DeleteAfterDays : Int := 0
  DeleteAfterDate : GoTime := {}
  deriving DecidableEq

/-- Struct `ClientCommon`; the embedded `ClientAuth` and `AutoDelete` are its parents. -/
structure ClientCommon extends ClientAuth, AutoDelete where
  ServerAddress : String := ""
  ServerPort : Int := 0
  NatHoleSTUNServer : String := ""
  DialServerTimeout : Int := 0
  DialServerKeepAlive : Int := 0
  ConnectServerLocalIP : String := ""
  HTTPProxy : String := ""
  LogFile : String := ""
  LogLevel : String := ""
  LogMaxDays : Int := 0
  AdminAddr : String := ""
  AdminPort : Int := 0
  AdminUser : String := ""
  AdminPwd : String := ""
  AssetsDir : String := ""
  PoolCount : Int := 0
  DNSServer : String := ""
  Protocol : String := ""
  QUICKeepalivePeriod : Int := 0
  QUICMaxIdleTimeout : Int := 0
  QUICMaxIncomingStreams : Int := 0
  LoginFailExit : Bool := false
  User : String := ""
  HeartbeatInterval : Int := 0
  HeartbeatTimeout : Int := 0
  TCPMux : Bool := false
  TCPMuxKeepaliveInterval : Int := 0
  TLSEnable : Bool := false
  TLSCertFile : String := ""
  TLSKeyFile : String := ""
  TLSTrustedCaFile : String := ""
  TLSServerName : String := ""
  UDPPacketSize : Int := 0
  Start : Slice String := none
  PprofEnable : Bool := false
  DisableCustomTLSFirstByte : Bool := false
  Name : String := ""
  ManualStart : Bool := false
  Metas : GoMap := none
  LegacyFormat : Bool := false
  deriving DecidableEq

/-- Struct `PluginParams`. -/
structure PluginParams where
  PluginLocalAddr : String := ""
  PluginCrtPath : String := ""
  PluginKeyPath : String := ""
  PluginHostHeaderRewrite : String := ""
  PluginHttpUser : String := ""
  PluginHttpPasswd : String := ""
  PluginUser : String := ""
  PluginPasswd : String := ""
  PluginLocalPath : String := ""
  PluginStripPrefix : String := ""
  PluginUnixPath : String := ""
  PluginHeaders : GoMap := none
  PluginEnableHTTP2 : Bool := false
  deriving DecidableEq

/-- Struct `HealthCheckConf`. -/
structure HealthCheckConf where
  HealthCheckTimeoutS : Int := 0
  HealthCheckMaxFailed : Int := 0
  HealthCheckIntervalS : Int := 0
  HealthCheckURL : String := ""
  HealthCheckHTTPHeaders : GoMap := none
  deriving DecidableEq

/-- Struct `BaseProxyConf`; the embedded `PluginParams` and `HealthCheckConf` are its
parents. The field `Type` of the source is `Type_` here. -/
structure BaseProxyConf extends PluginParams, HealthCheckConf where
  Name : String := ""
  Type_ : String := ""
  UseEncryption : Bool := false
  UseCompression : Bool := false
  Group : String := ""
  GroupKey : String := ""
  ProxyProtocolVersion : String := ""
  BandwidthLimit : String := ""
  BandwidthLimitMode : String := ""
  LocalIP : String := ""
  LocalPort : String := ""
  Plugin : String := ""
  HealthCheckType : String := ""
  Metas : GoMap := none
  Annotations : GoMap := none
  Disabled : Bool := false
  deriving DecidableEq

/-- Struct `Proxy`; the embedded `BaseProxyConf` is its parent. -/
structure Proxy extends BaseProxyConf where
  RemotePort : String := ""
  Role : String := ""
  SK : String := ""
  AllowUsers : String := ""
  ServerUser : String := ""
  ServerName : String := ""
  BindAddr : String := ""
  BindPort : Int := 0
  CustomDomains : String := ""
  SubDomain : String := ""
  Locations : String := ""
  HTTPUser : String := ""
  HTTPPwd : String := ""
  HostHeaderRewrite : String := ""
  Headers : GoMap := none
  ResponseHeaders : GoMap := none
  Multiplexer : String := ""
  RouteByHTTPUser : String := ""
  Protocol : String := ""
  KeepTunnelOpen : Bool := false
  MaxRetriesAnHour : Int := 0
  MinRetryInterval : Int := 0
  FallbackTo : String := ""
  FallbackTimeoutMs : Int := 0
  deriving DecidableEq

/-- Struct `ClientConfig`: the embedded `ClientCommon` and the proxies in list order. -/
structure ClientConfig extends ClientCommon where
  Proxies : List Proxy := []
  deriving DecidableEq

/-! ## Capability projection (`util.PruneByTag`) -/

/-- A struct tag: the `key:"value"` pairs written after a field. -/
abbrev StructTag := List (String × String)

/-- The test of `prune` on one field: `f.Tag.Lookup(tag)` finds a key, and the key is the
wildcard or equals `value`. -/
def tagAccepts (fieldTag : StructTag) (value tag : String) : Bool :=
  match fieldTag.lookup tag with
  | some key => key == "*" || key == value
  | none => false

/-- One step of the field loop of `prune`: the field is copied when its tag accepts, and
keeps the zero value of the fresh struct otherwise. -/
def pruneField {α : Type} (fieldTag : StructTag) (value tag : String) (field zero : α) : α :=
  if tagAccepts fieldTag value tag then field else zero

/-- The struct types `PruneByTag` is called with: what reflection reads off the type, that
is the top-level fields with their tags, as the field-by-field copy. -/
class Taggable (α : Type) where
  /-- The loop of `prune` over the fields of the struct. -/
  prune : α → String → String → α

/-- Go `util.PruneByTag(in, value, tag)`: a copy of `in` that only contains the fields with
the given tag and value. `prune` returns no error on a struct, so the error result of the
source is always nil and is left out. -/
def PruneByTag {α : Type} [Taggable α] (inValue : α) (value tag : String) : α :=
  Taggable.prune inValue value tag

instance : Taggable ClientAuth where
  prune ca value tag :=
    { AuthMethod := pruneField [("ini", "authentication_method,omitempty")] value tag
        ca.AuthMethod "",
      AuthenticateHeartBeats := pruneField [("ini", "authenticate_heartbeats,omitempty"),
        ("token", "true"), ("oidc", "true")] value tag ca.AuthenticateHeartBeats false,
      AuthenticateNewWorkConns := pruneField [("ini", "authenticate_new_work_conns,omitempty"),
        ("token", "true"), ("oidc", "true")] value tag ca.AuthenticateNewWorkConns false,
      Token := pruneField [("ini", "token,omitempty"), ("token", "true")] value tag ca.Token "",
      TokenSource := pruneField [("ini", "-"), ("token", "true")] value tag ca.TokenSource "",
      TokenSourceFile := pruneField [("ini", "-"), ("token", "true")] value tag
        ca.TokenSourceFile "",
      OIDCClientId := pruneField [("ini", "oidc_client_id,omitempty"), ("oidc", "true")]
        value tag ca.OIDCClientId "",
      OIDCClientSecret := pruneField [("ini", "oidc_client_secret,omitempty"), ("oidc", "true")]
        value tag ca.OIDCClientSecret "",
      OIDCAudience := pruneField [("ini", "oidc_audience,omitempty"), ("oidc", "true")]
        value tag ca.OIDCAudience "",
      OIDCScope := pruneField [("ini", "oidc_scope,omitempty"), ("oidc", "true")]
        value tag ca.OIDCScope "",
      OIDCTokenEndpoint := pruneField [("ini", "oidc_token_endpoint_url,omitempty"),
        ("oidc", "true")] value tag ca.OIDCTokenEndpoint "",
      OIDCAdditionalEndpointParams := pruneField [("ini", "-"), ("oidc", "true")] value tag
        ca.OIDCAdditionalEndpointParams none }

instance : Taggable PluginParams where
  prune pp value tag :=
    { PluginLocalAddr := pruneField [("ini", "plugin_local_addr,omitempty"),
        ("http2https", "true"), ("http2http", "true"), ("https2https", "true"),
        ("https2http", "true"), ("tls2raw", "true")] value tag pp.PluginLocalAddr "",
      PluginCrtPath := pruneField [("ini", "plugin_crt_path,omitempty"),
        ("https2https", "true"), ("https2http", "true"), ("tls2raw", "true")] value tag
        pp.PluginCrtPath "",
      PluginKeyPath := pruneField [("ini", "plugin_key_path,omitempty"),
        ("https2https", "true"), ("https2http", "true"), ("tls2raw", "true")] value tag
        pp.PluginKeyPath "",
      PluginHostHeaderRewrite := pruneField [("ini", "plugin_host_header_rewrite,omitempty"),
        ("http2https", "true"), ("http2http", "true"), ("https2https", "true"),
        ("https2http", "true")] value tag pp.PluginHostHeaderRewrite "",
      PluginHttpUser := pruneField [("ini", "plugin_http_user,omitempty"),
        ("http_proxy", "true"), ("static_file", "true")] value tag pp.PluginHttpUser "",
      PluginHttpPasswd := pruneField [("ini", "plugin_http_passwd,omitempty"),
        ("http_proxy", "true"), ("static_file", "true")] value tag pp.PluginHttpPasswd "",
      PluginUser := pruneField [("ini", "plugin_user,omitempty"), ("socks5", "true")]
        value tag pp.PluginUser "",
      PluginPasswd := pruneField [("ini", "plugin_passwd,omitempty"), ("socks5", "true")]
        value tag pp.PluginPasswd "",
      PluginLocalPath := pruneField [("ini", "plugin_local_path,omitempty"),
        ("static_file", "true")] value tag pp.PluginLocalPath "",
      PluginStripPrefix := pruneField [("ini", "plugin_strip_prefix,omitempty"),
        ("static_file", "true")] value tag pp.PluginStripPrefix "",
      PluginUnixPath := pruneField [("ini", "plugin_unix_path,omitempty"),
        ("unix_domain_socket", "true")] value tag pp.PluginUnixPath "",
      PluginHeaders := pruneField [("ini", "-"), ("http2https", "true"), ("http2http", "true"),
        ("https2https", "true"), ("https2http", "true")] value tag pp.PluginHeaders none,
      PluginEnableHTTP2 := pruneField [("ini", "-"), ("https2https", "true"),
        ("https2http", "true")] value tag pp.PluginEnableHTTP2 false }

instance : Taggable HealthCheckConf where
  prune hc value tag :=
    { HealthCheckTimeoutS := pruneField [("ini", "health_check_timeout_s,omitempty"),
        ("tcp", "true"), ("http", "true")] value tag hc.HealthCheckTimeoutS 0,
      HealthCheckMaxFailed := pruneField [("ini", "health_check_max_failed,omitempty"),
        ("tcp", "true"), ("http", "true")] value tag hc.HealthCheckMaxFailed 0,
      HealthCheckIntervalS := pruneField [("ini", "health_check_interval_s,omitempty"),
        ("tcp", "true"), ("http", "true")] value tag hc.HealthCheckIntervalS 0,
      HealthCheckURL := pruneField [("ini", "health_check_url,omitempty"), ("http", "true")]
        value tag hc.HealthCheckURL "",
      HealthCheckHTTPHeaders := pruneField [("ini", "-"), ("http", "true")] value tag
        hc.HealthCheckHTTPHeaders none }

instance : Taggable Proxy where
  prune p value tag :=
    { toBaseProxyConf := pruneField [("ini", ",extends")] value tag p.toBaseProxyConf {},
      RemotePort := pruneField [("ini", "remote_port,omitempty"), ("tcp", "true"),
        ("udp", "true")] value tag p.RemotePort "",
      Role := pruneField [("ini", "role,omitempty"), ("stcp", "true"), ("xtcp", "true"),
        ("sudp", "true"), ("visitor", "*")] value tag p.Role "",
      SK := pruneField [("ini", "sk,omitempty"), ("stcp", "true"), ("xtcp", "true"),
        ("sudp", "true"), ("visitor", "*")] value tag p.SK "",
      AllowUsers := pruneField [("ini", "allow_users,omitempty"), ("stcp", "true"),
        ("xtcp", "true"), ("sudp", "true")] value tag p.AllowUsers "",
      ServerUser := pruneField [("ini", "server_user,omitempty"), ("visitor", "*")] value tag
        p.ServerUser "",
      ServerName := pruneField [("ini", "server_name,omitempty"), ("visitor", "*")] value tag
        p.ServerName "",
      BindAddr := pruneField [("ini", "bind_addr,omitempty"), ("visitor", "*")] value tag
        p.BindAddr "",
      BindPort := pruneField [("ini", "bind_port,omitempty"), ("visitor", "*")] value tag
        p.BindPort 0,
      CustomDomains := pruneField [("ini", "custom_domains,omitempty"), ("http", "true"),
        ("https", "true"), ("tcpmux", "true")] value tag p.CustomDomains "",
      SubDomain := pruneField [("ini", "subdomain,omitempty"), ("http", "true"),
        ("https", "true"), ("tcpmux", "true")] value tag p.SubDomain "",
      Locations := pruneField [("ini", "locations,omitempty"), ("http", "true")] value tag
        p.Locations "",
      HTTPUser := pruneField [("ini", "http_user,omitempty"), ("http", "true"),
        ("tcpmux", "true")] value tag p.HTTPUser "",
      HTTPPwd := pruneField [("ini", "http_pwd,omitempty"), ("http", "true"),
        ("tcpmux", "true")] value tag p.HTTPPwd "",
      HostHeaderRewrite := pruneField [("ini", "host_header_rewrite,omitempty"),
        ("http", "true")] value tag p.HostHeaderRewrite "",
      Headers := pruneField [("ini", "-"), ("http", "true")] value tag p.Headers none,
      ResponseHeaders := pruneField [("ini", "-"), ("http", "true")] value tag
        p.ResponseHeaders none,
      Multiplexer := pruneField [("ini", "multiplexer,omitempty"), ("tcpmux", "true")]
        value tag p.Multiplexer "",
      RouteByHTTPUser := pruneField [("ini", "route_by_http_user,omitempty"), ("http", "true"),
        ("tcpmux", "true")] value tag p.RouteByHTTPUser "",
      Protocol := pruneField [("ini", "protocol,omitempty"), ("visitor", "xtcp")] value tag
        p.Protocol "",
      KeepTunnelOpen := pruneField [("ini", "keep_tunnel_open,omitempty"), ("visitor", "xtcp")]
        value tag p.KeepTunnelOpen false,
      MaxRetriesAnHour := pruneField [("ini", "max_retries_an_hour,omitempty"),
        ("visitor", "xtcp")] value tag p.MaxRetriesAnHour 0,
      MinRetryInterval := pruneField [("ini", "min_retry_interval,omitempty"),
        ("visitor", "xtcp")] value tag p.MinRetryInterval 0,
      FallbackTo := pruneField [("ini", "fallback_to,omitempty"), ("visitor", "xtcp")]
        value tag p.FallbackTo "",
      FallbackTimeoutMs := pruneField [("ini", "fallback_timeout_ms,omitempty"),
        ("visitor", "xtcp")] value tag p.FallbackTimeoutMs 0 }

/-! ## Completion -/

/-- Go `ClientAuth.Complete`. -/
def ClientAuth.Complete (ca : ClientAuth) : ClientAuth :=
  let authMethod := ca.AuthMethod
  if authMethod ≠ "" then
    let ca1 : ClientAuth := { PruneByTag ca "true" authMethod with AuthMethod := authMethod }
    if authMethod = AuthToken then
      if ca1.TokenSource ≠ "" then { ca1 with Token := "" }
      else
        let ca2 : ClientAuth := { ca1 with TokenSourceFile := "" }
        if ca2.Token = "" then { ca2 with AuthMethod := "" } else ca2
    else ca1
  else {}

/-- Modelled from the spec: `AutoDelete.Complete`, declared outside the sources at hand.
"A method (none / absolute date / relative day-count) plus the corresponding value.
Invariant: only the field matching the active method is retained"; completion projects the
policy onto its active method. -/
def AutoDelete.Complete (ad : AutoDelete) : AutoDelete :=
  { DeleteMethod := ad.DeleteMethod,
    DeleteAfterDays := if ad.DeleteMethod = DeleteRelative then ad.DeleteAfterDays else 0,
    DeleteAfterDate := if ad.DeleteMethod = DeleteAbsolute then ad.DeleteAfterDate else {} }

/-- Go `Proxy.IsVisitor`: whether the proxy has a visitor role. -/
def Proxy.IsVisitor (p : Proxy) : Bool :=
  (p.Type_ == ProxyTypeXTCP || p.Type_ == ProxyTypeSTCP || p.Type_ == ProxyTypeSUDP) &&
    p.Role == "visitor"

/-- Go `Proxy.IsRange`. -/
def Proxy.IsRange (p : Proxy) : Bool :=
  (p.Type_ == ProxyTypeTCP || p.Type_ == ProxyTypeUDP) &&
    lo.Some (p.LocalPort ++ p.RemotePort).data [',', '-']

/-- The alias `fmt.Sprintf("%s_%d", name, i)`. -/
def aliasName (name : String) (i : Nat) : String := name ++ "_" ++ toString i

/-- Go `Proxy.GetAlias`: the alias of this proxy; `none` when `parseRangeNumbers` does not
return. -/
def Proxy.GetAlias (p : Proxy) : Option (List String) :=
  if p.IsRange then
    match parseRangeNumbers p.LocalPort with
    | none => none
    | some (.err _) => some [p.Name]
    | some (.ok localPorts) => some ((List.range localPorts.length).map (aliasName p.Name))
  else some [p.Name]

/-- The visitor branch of `Proxy.Complete`, up to the assignment of `p.BaseProxyConf`: the
projection of the proxy onto its type under the visitor grouping, with the base block
rebuilt from `Name`, `Type`, `UseEncryption`, `UseCompression` and `Disabled` of the
original base. -/
def Proxy.visitorProjection (p : Proxy) : Proxy :=
  let base := p.toBaseProxyConf
  let p1 : Proxy := PruneByTag p p.Type_ "visitor"
  { p1 with toBaseProxyConf :=
      { Name := base.Name, Type_ := base.Type_, UseEncryption := base.UseEncryption,
        UseCompression := base.UseCompression, Disabled := base.Disabled } }

/-- The visitor branch of `Proxy.Complete`, `if !p.KeepTunnelOpen { ... }`. -/
def Proxy.resetRetries (p : Proxy) : Proxy :=
  if !p.KeepTunnelOpen then { p with MaxRetriesAnHour := 0, MinRetryInterval := 0 } else p

/-- The visitor branch of `Proxy.Complete`, `if p.FallbackTo == "" { ... }`. -/
def Proxy.resetFallback (p : Proxy) : Proxy :=
  if p.FallbackTo = "" then { p with FallbackTimeoutMs := 0 } else p

/-- The other branch of `Proxy.Complete`, `// Plugins`, on the local copy `base`. -/
def BaseProxyConf.completePlugin (base : BaseProxyConf) : BaseProxyConf :=
  if base.Plugin ≠ "" then
    { base with LocalIP := "", LocalPort := "",
                toPluginParams := PruneByTag base.toPluginParams "true" base.Plugin }
  else { base with toPluginParams := {} }

/-- The other branch of `Proxy.Complete`, `// Health Check`, on the local copy `base`. -/
def BaseProxyConf.completeHealthCheck (base : BaseProxyConf) : BaseProxyConf :=
  if base.HealthCheckType ≠ "" then
    { base with toHealthCheckConf :=
        PruneByTag base.toHealthCheckConf "true" base.HealthCheckType }
  else { base with toHealthCheckConf := {} }

/-- Go `Proxy.Complete`: removes redundant parameters based on the proxy type. -/
def Proxy.Complete (p : Proxy) : Proxy :=
  if p.IsVisitor then p.visitorProjection.resetRetries.resetFallback
  else
    let base := p.toBaseProxyConf.completePlugin.completeHealthCheck
    let p1 : Proxy := PruneByTag p "true" p.Type_
    { p1 with toBaseProxyConf := base }

/-- The loop of `gatherStart` over the proxies still to visit, with the current values of
`allStart` and `start`. -/
def gatherLoop : List Proxy → Bool → List String → Option (Bool × List String)
  | [], allStart, start => some (allStart, start)
  | proxy :: rest, allStart, start =>
    if !proxy.Disabled then
      match proxy.GetAlias with
      | none => none
      | some aliases => gatherLoop rest allStart (start ++ aliases)
    else gatherLoop rest false start

/-- Go `ClientConfig.gatherStart`: the names of the enabled proxies, or a nil slice if all
proxies are enabled. -/
def ClientConfig.gatherStart (conf : ClientConfig) : Option (Slice String) :=
  match gatherLoop conf.Proxies true [] with
  | none => none
  | some (allStart, start) => if allStart then some none else some (some start)

/-- The assignment `proxy.Disabled = disabled`. -/
def Proxy.setDisabled (p : Proxy) (disabled : Bool) : Proxy := { p with Disabled := disabled }

/-- The body of the proxy loop of `ClientConfig.Complete` for one proxy; `start` is
`conf.Start`, which the loop does not assign. `none` when `GetAlias` does not return. -/
def completeProxy (read : Bool) (start : Slice String) (proxy : Proxy) : Option Proxy :=
  let proxy1 := proxy.Complete
  if read && start.len > 0 then
    match proxy1.GetAlias with
    | none => none
    | some aliases => some (proxy1.setDisabled (!lo.Every start.elems aliases))
  else some proxy1

/-- The proxy loop of `ClientConfig.Complete`, over the proxies still to visit. -/
def completeProxies (read : Bool) (start : Slice String) : List Proxy → Option (List Proxy)
  | [] => some []
  | proxy :: rest =>
    match completeProxy read start proxy with
    | none => none
    | some proxy1 =>
      match completeProxies read start rest with
      | none => none
      | some rest1 => some (proxy1 :: rest1)

/-- The statements of `ClientConfig.Complete` on the auth block: a legacy config loses
`TokenSource`, then `conf.ClientAuth = conf.ClientAuth.Complete()`. -/
def ClientCommon.completeAuth (c : ClientCommon) : ClientCommon :=
  let c1 : ClientCommon := if c.LegacyFormat then { c with TokenSource := "" } else c
  { c1 with toClientAuth := c1.toClientAuth.Complete }

/-- The statement `if conf.AdminPort == 0 { ... }` of `ClientConfig.Complete`. -/
def ClientCommon.completeAdmin (c : ClientCommon) : ClientCommon :=
  if c.AdminPort = 0 then
    { c with AdminUser := "", AdminPwd := "", AssetsDir := "", PprofEnable := false }
  else c

/-- The statement `conf.AutoDelete = conf.AutoDelete.Complete()`. -/
def ClientCommon.completeAutoDelete (c : ClientCommon) : ClientCommon :=
  { c with toAutoDelete := c.toAutoDelete.Complete }

/-- The statement `if !conf.TCPMux { ... }` of `ClientConfig.Complete`. -/
def ClientCommon.completeTCPMux (c : ClientCommon) : ClientCommon :=
  if !c.TCPMux then { c with TCPMuxKeepaliveInterval := 0 } else c

/-- The statement `if !conf.TLSEnable { ... }` of `ClientConfig.Complete`. -/
def ClientCommon.completeTLS (c : ClientCommon) : ClientCommon :=
  if !c.TLSEnable then
    { c with TLSServerName := "", TLSCertFile := "", TLSKeyFile := "", TLSTrustedCaFile := "" }
  else c

/-- The statement `if conf.Protocol == consts.ProtoQUIC { ... } else { ... }`. -/
def ClientCommon.completeProtocol (c : ClientCommon) : ClientCommon :=
  if c.Protocol = ProtoQUIC then { c with DialServerTimeout := 0, DialServerKeepAlive := 0 }
  else { c with QUICMaxIdleTimeout := 0, QUICKeepalivePeriod := 0, QUICMaxIncomingStreams := 0 }

/-- The part of `ClientConfig.Complete` before the proxy loop: the common config, its
statements in source order. -/
def ClientCommon.Complete (c : ClientCommon) : ClientCommon :=
  c.completeAuth.completeAdmin.completeAutoDelete.completeTCPMux.completeTLS.completeProtocol

/-- The assignment `conf.Start = start`. -/
def ClientConfig.setStart (conf : ClientConfig) (start : Slice String) : ClientConfig :=
  { conf with Start := start }

/-- Go `ClientConfig.Complete(read)`: prunes and completes this config; `none` when an alias
computation does not return. -/
def ClientConfig.Complete (conf : ClientConfig) (read : Bool) : Option ClientConfig :=
  let conf1 : ClientConfig := { conf with toClientCommon := conf.toClientCommon.Complete }
  match completeProxies read conf1.Start conf1.Proxies with
  | none => none
  | some proxies =>
    let conf2 : ClientConfig := { conf1 with Proxies := proxies }
    if !read then
      match conf2.gatherStart with
      | none => none
      | some start => some (conf2.setStart start)
    else some conf2

/-! ## The two on-disk formats -/

/-- Go `strings.Join(pieces, sep)` for a one-character separator. -/
def Join : List (List Char) → Char → List Char
  | [], _ => []
  | [piece], _ => piece
  | piece :: next :: rest, sep => piece ++ sep :: Join (next :: rest) sep

/-- Go `strings.Contains(s, substr)`. -/
def Contains (s substr : List Char) : Bool :=
  s.tails.any (fun t => substr.isPrefixOf t)

/-- Go `strings.HasPrefix(s, prefix)`. -/
def HasPrefix (s pre : String) : Bool := pre.data.isPrefixOf s.data

/-- Go `strings.TrimPrefix(s, prefix)`. -/
def TrimPrefix (s pre : String) : String :=
  if HasPrefix s pre then String.mk (s.data.drop pre.data.length) else s

/-- Go `DetectLegacyINIFormat`: whether the configuration is in INI format, by the simple
heuristic that the file contains the text "[common]". -/
def DetectLegacyINIFormat (data : String) : Bool :=
  Contains data.data "[common]".data

/-- Assignment `m[k] = v` on a Go map kept as an association list with distinct keys. -/
def mapSet {β : Type} : List (String × β) → String → β → List (String × β)
  | [], k, v => [(k, v)]
  | (k1, v1) :: rest, k, v => if k1 = k then (k, v) :: rest else (k1, v1) :: mapSet rest k v

/-- A value inside a table of a TOML document, as far as the codec tells values apart: a
string, an integer (`int64`), a boolean, or anything else. -/
inductive TomlScalar where
  | str (s : String)
  | int (i : Int)
  | bool (b : Bool)
  | other
  deriving DecidableEq

/-- A `map[string]interface{}` holding the keys of one block; the list order stands for the
order in which a `range` loop happens to visit the map. -/
abbrev TomlTable := List (String × TomlScalar)

/-- A top-level entry of a decoded document: a table, or a value that is not a table. -/
inductive TomlItem where
  | table (t : TomlTable)
  | value (v : TomlScalar)
  deriving DecidableEq

/-- A decoded document, the `map[string]interface{}` filled by `toml.Unmarshal`. -/
abbrev TomlDoc := List (String × TomlItem)

/-- The type assertion `t[k].(string)`. -/
def TomlTable.getString (t : TomlTable) (k : String) : Option String :=
  match t.lookup k with
  | some (TomlScalar.str s) => some s
  | _ => none

/-- The type assertion `t[k].(int64)`. -/
def TomlTable.getInt (t : TomlTable) (k : String) : Option Int :=
  match t.lookup k with
  | some (TomlScalar.int i) => some i
  | _ => none

/-- The type assertion `t[k].(bool)`. -/
def TomlTable.getBool (t : TomlTable) (k : String) : Option Bool :=
  match t.lookup k with
  | some (TomlScalar.bool b) => some b
  | _ => none

/-- A section of an INI file: its name and its keys with their values. -/
structure IniSection where
  name : String
  keys : List (String × String)
  deriving DecidableEq

/-- What the codec takes from its libraries (go-toml/v2, gopkg.in/ini.v1, `time`), kept as
parameters: nothing is assumed about them. -/
structure Libs where
  /-- The library call `toml.Unmarshal(b, &tomlData)`. -/
  tomlUnmarshal : String → Except String TomlDoc
  /-- The text `toml.Marshal` writes for a value. -/
  tomlValue : TomlScalar → List Char
  /-- The text `toml.Marshal` writes for a key that is not a bare key. -/
  tomlQuoteKey : String → List Char
  /-- The library call `ini.LoadSources(...)` followed by `cfg.Sections()`. -/
  iniLoad : String → Except String (List IniSection)
  /-- The library call `section.MapTo(&conf.ClientCommon)`. -/
  iniMapCommon : IniSection → ClientCommon → Except String ClientCommon
  /-- The library call `section.MapTo(&proxy)`. -/
  iniMapProxy : IniSection → Proxy → Except String Proxy
  /-- The keys `section.ReflectFrom(&conf.ClientCommon)` writes. -/
  iniReflectCommon : ClientCommon → Except String (List (String × String))
  /-- The keys `section.ReflectFrom(&proxy)` writes. -/
  iniReflectProxy : Proxy → Except String (List (String × String))
  /-- The text `cfg.SaveTo` writes for the sections. -/
  iniRender : List IniSection → String
  /-- The format call `t.Format("2006-01-02T15:04:05Z")`. -/
  timeFormat : GoTime → String
  /-- The parse call `time.Parse("2006-01-02T15:04:05Z", s)`. -/
  timeParse : String → Option GoTime

/-- The constants of `pkg/consts` used by the default configuration, declared outside the
sources at hand and kept as parameters. -/
structure Defaults where
  DefaultServerPort : Int
  LogLevelInfo : String
  DefaultLogMaxDays : Int

/-- Modelled from the spec: constant `consts.ProxyTypeHTTP`, see `ProxyTypeTCP`. -/
def ProxyTypeHTTP : String := "http"

/-- Modelled from the spec: constant `consts.ProxyTypeHTTPS`, see `ProxyTypeTCP`. -/
def ProxyTypeHTTPS : String := "https"

/-- Modelled from the spec: constant `consts.RangePrefix`, the reserved marker of range-proxy
section names in the legacy format (`[range:test_tcp]` in the alias test). -/
def RangePrefix : String := "range:"

/-- Go `NewDefaultClientConfig`. -/
def NewDefaultClientConfig (k : Defaults) : ClientConfig :=
  { AuthMethod := AuthToken,
    ServerPort := k.DefaultServerPort,
    LogLevel := k.LogLevelInfo,
    LogMaxDays := k.DefaultLogMaxDays,
    TCPMux := true,
    TLSEnable := true,
    DisableCustomTLSFirstByte := true,
    DeleteMethod := DeleteRelative,
    Proxies := [] }

/-- Go `NewDefaultProxyConfig`. -/
def NewDefaultProxyConfig (name : String) : Proxy :=
  { Name := name, Type_ := ProxyTypeTCP }

/-! ### Encoding the modern format -/

/-- The statement `data[k] = v`, with the table last. -/
def put (k : String) (v : TomlScalar) (t : TomlTable) : TomlTable := mapSet t k v

/-- The statement `if c { data[k] = v }`, with the table last. -/
def putIf (c : Bool) (k : String) (v : TomlScalar) (t : TomlTable) : TomlTable :=
  if c then mapSet t k v else t

/-- The loop `for k, v := range m { data[prefix+k] = v }`, with the table last. -/
def putAll (pre : String) (m : GoMap) (t : TomlTable) : TomlTable :=
  (m.getD []).foldl (fun acc kv => mapSet acc (pre ++ kv.1) (TomlScalar.str kv.2)) t

/-- The block `common` built by `saveTOML`. -/
def saveTOMLCommon (lib : Libs) (conf : ClientConfig) : TomlTable :=
  ([] : TomlTable)
  |> put "server_addr" (.str conf.ServerAddress)
  |> put "server_port" (.int conf.ServerPort)
  |> put "token" (.str conf.Token)
  |> putIf (conf.User ≠ "") "user" (.str conf.User)
  |> putIf (conf.LogFile ≠ "") "log_file" (.str conf.LogFile)
  |> putIf (conf.LogLevel ≠ "") "log_level" (.str conf.LogLevel)
  |> putIf (conf.LogMaxDays > 0) "log_max_days" (.int conf.LogMaxDays)
  |> putIf (conf.AdminAddr ≠ "") "admin_addr" (.str conf.AdminAddr)
  |> putIf (conf.AdminPort > 0) "admin_port" (.int conf.AdminPort)
  |> putIf (conf.AdminUser ≠ "") "admin_user" (.str conf.AdminUser)
  |> putIf (conf.AdminPwd ≠ "") "admin_pwd" (.str conf.AdminPwd)
  |> putIf conf.TLSEnable "tls_enable" (.bool true)
  |> putIf (conf.TLSEnable ∧ conf.TLSCertFile ≠ "") "tls_cert_file" (.str conf.TLSCertFile)
  |> putIf (conf.TLSEnable ∧ conf.TLSKeyFile ≠ "") "tls_key_file" (.str conf.TLSKeyFile)
  |> putIf (conf.TLSEnable ∧ conf.TLSTrustedCaFile ≠ "") "tls_trusted_ca_file"
      (.str conf.TLSTrustedCaFile)
  |> putIf (conf.TLSEnable ∧ conf.TLSServerName ≠ "") "tls_server_name"
      (.str conf.TLSServerName)
  |> putIf (conf.Protocol ≠ "") "protocol" (.str conf.Protocol)
  |> putIf conf.TCPMux "tcp_mux" (.bool true)
  |> putIf (conf.HeartbeatInterval > 0) "heartbeat_interval" (.int conf.HeartbeatInterval)
  |> putIf (conf.HeartbeatTimeout > 0) "heartbeat_timeout" (.int conf.HeartbeatTimeout)
  |> putIf (conf.UDPPacketSize > 0) "udp_packet_size" (.int conf.UDPPacketSize)
  |> put "frpcgui_name" (.str conf.Name)
  |> putIf conf.ManualStart "frpcgui_manual_start" (.bool true)
  |> putIf (conf.DeleteMethod ≠ "") "frpcgui_delete_method" (.str conf.DeleteMethod)
  |> putIf (conf.DeleteMethod ≠ "" ∧ conf.DeleteMethod = DeleteAbsolute ∧
        conf.DeleteAfterDate.nanos ≠ 0) "frpcgui_delete_after_date"
      (.str (lib.timeFormat conf.DeleteAfterDate))
  |> putIf (conf.DeleteMethod ≠ "" ∧
        ¬ (conf.DeleteMethod = DeleteAbsolute ∧ conf.DeleteAfterDate.nanos ≠ 0) ∧
        conf.DeleteMethod = DeleteRelative ∧ conf.DeleteAfterDays > 0)
      "frpcgui_delete_after_days" (.int conf.DeleteAfterDays)
  |> putAll "meta_" conf.Metas
  |> putAll "oidc_additional_" conf.OIDCAdditionalEndpointParams

/-- The `case consts.ProxyTypeHTTP, consts.ProxyTypeHTTPS` of the type switch of `saveTOML`. -/
def saveTOMLProxyHTTP (proxy : Proxy) (t : TomlTable) : TomlTable :=
  t
  |> putIf (proxy.CustomDomains ≠ "") "custom_domains" (.str proxy.CustomDomains)
  |> putIf (proxy.SubDomain ≠ "") "subdomain" (.str proxy.SubDomain)
  |> putIf (proxy.Locations ≠ "") "locations" (.str proxy.Locations)
  |> putIf (proxy.HTTPUser ≠ "") "http_user" (.str proxy.HTTPUser)
  |> putIf (proxy.HTTPPwd ≠ "") "http_pwd" (.str proxy.HTTPPwd)
  |> putIf (proxy.HostHeaderRewrite ≠ "") "host_header_rewrite" (.str proxy.HostHeaderRewrite)
  |> putIf (proxy.Multiplexer ≠ "") "multiplexer" (.str proxy.Multiplexer)

/-- The `case consts.ProxyTypeSTCP, consts.ProxyTypeXTCP, consts.ProxyTypeSUDP` of the type
switch of `saveTOML`. -/
def saveTOMLProxySecret (proxy : Proxy) (t : TomlTable) : TomlTable :=
  t
  |> putIf (proxy.Role ≠ "") "role" (.str proxy.Role)
  |> putIf (proxy.SK ≠ "") "sk" (.str proxy.SK)
  |> putIf (proxy.AllowUsers ≠ "") "allow_users" (.str proxy.AllowUsers)
  |> putIf (proxy.IsVisitor ∧ proxy.ServerUser ≠ "") "server_user" (.str proxy.ServerUser)
  |> putIf (proxy.IsVisitor ∧ proxy.ServerName ≠ "") "server_name" (.str proxy.ServerName)
  |> putIf (proxy.IsVisitor ∧ proxy.BindAddr ≠ "") "bind_addr" (.str proxy.BindAddr)
  |> putIf (proxy.IsVisitor ∧ proxy.BindPort > 0) "bind_port" (.int proxy.BindPort)
  |> putIf (proxy.IsVisitor ∧ proxy.KeepTunnelOpen) "keep_tunnel_open" (.bool true)
  |> putIf (proxy.IsVisitor ∧ proxy.MaxRetriesAnHour > 0) "max_retries_an_hour"
      (.int proxy.MaxRetriesAnHour)
  |> putIf (proxy.IsVisitor ∧ proxy.MinRetryInterval > 0) "min_retry_interval"
      (.int proxy.MinRetryInterval)
  |> putIf (proxy.IsVisitor ∧ proxy.FallbackTo ≠ "") "fallback_to" (.str proxy.FallbackTo)
  |> putIf (proxy.IsVisitor ∧ proxy.FallbackTimeoutMs > 0) "fallback_timeout_ms"
      (.int proxy.FallbackTimeoutMs)

/-- The type switch of `saveTOML`; the constants of the cases are distinct, and the case for
tcp and udp adds nothing. -/
def saveTOMLProxyTyped (proxy : Proxy) (t : TomlTable) : TomlTable :=
  if proxy.Type_ = ProxyTypeHTTP ∨ proxy.Type_ = ProxyTypeHTTPS then saveTOMLProxyHTTP proxy t
  else if proxy.Type_ = ProxyTypeTCP ∨ proxy.Type_ = ProxyTypeUDP then t
  else if proxy.Type_ = ProxyTypeSTCP ∨ proxy.Type_ = ProxyTypeXTCP ∨
      proxy.Type_ = ProxyTypeSUDP then saveTOMLProxySecret proxy t
  else t

/-- The block `proxyData` built by `saveTOML` for one proxy. -/
def saveTOMLProxy (proxy : Proxy) : TomlTable :=
  ([] : TomlTable)
  |> put "type" (.str proxy.Type_)
  |> putIf (proxy.LocalIP ≠ "") "local_ip" (.str proxy.LocalIP)
  |> putIf (proxy.LocalPort ≠ "") "local_port" (.str proxy.LocalPort)
  |> putIf (proxy.RemotePort ≠ "") "remote_port" (.str proxy.RemotePort)
  |> putIf proxy.UseEncryption "use_encryption" (.bool true)
  |> putIf proxy.UseCompression "use_compression" (.bool true)
  |> putIf (proxy.Group ≠ "") "group" (.str proxy.Group)
  |> putIf (proxy.GroupKey ≠ "") "group_key" (.str proxy.GroupKey)
  |> saveTOMLProxyTyped proxy
  |> putIf (proxy.Plugin ≠ "") "plugin" (.str proxy.Plugin)
  |> putIf (proxy.Plugin ≠ "" ∧ proxy.PluginLocalAddr ≠ "") "plugin_local_addr"
      (.str proxy.PluginLocalAddr)
  |> putIf (proxy.Plugin ≠ "" ∧ proxy.PluginCrtPath ≠ "") "plugin_crt_path"
      (.str proxy.PluginCrtPath)
  |> putIf (proxy.Plugin ≠ "" ∧ proxy.PluginKeyPath ≠ "") "plugin_key_path"
      (.str proxy.PluginKeyPath)
  |> putIf (proxy.Plugin ≠ "" ∧ proxy.PluginHostHeaderRewrite ≠ "")
      "plugin_host_header_rewrite" (.str proxy.PluginHostHeaderRewrite)
  |> putIf (proxy.Plugin ≠ "" ∧ proxy.PluginHttpUser ≠ "") "plugin_http_user"
      (.str proxy.PluginHttpUser)
  |> putIf (proxy.Plugin ≠ "" ∧ proxy.PluginHttpPasswd ≠ "") "plugin_http_passwd"
      (.str proxy.PluginHttpPasswd)
  |> putIf (proxy.Plugin ≠ "" ∧ proxy.PluginUser ≠ "") "plugin_user" (.str proxy.PluginUser)
  |> putIf (proxy.Plugin ≠ "" ∧ proxy.PluginPasswd ≠ "") "plugin_passwd"
      (.str proxy.PluginPasswd)
  |> putIf (proxy.Plugin ≠ "" ∧ proxy.PluginLocalPath ≠ "") "plugin_local_path"
      (.str proxy.PluginLocalPath)
  |> putIf (proxy.Plugin ≠ "" ∧ proxy.PluginStripPrefix ≠ "") "plugin_strip_prefix"
      (.str proxy.PluginStripPrefix)
  |> putIf (proxy.Plugin ≠ "" ∧ proxy.PluginUnixPath ≠ "") "plugin_unix_path"
      (.str proxy.PluginUnixPath)
  |> putIf (proxy.HealthCheckType ≠ "") "health_check_type" (.str proxy.HealthCheckType)
  |> putIf (proxy.HealthCheckType ≠ "" ∧ proxy.HealthCheckTimeoutS > 0)
      "health_check_timeout_s" (.int proxy.HealthCheckTimeoutS)
  |> putIf (proxy.HealthCheckType ≠ "" ∧ proxy.HealthCheckMaxFailed > 0)
      "health_check_max_failed" (.int proxy.HealthCheckMaxFailed)
  |> putIf (proxy.HealthCheckType ≠ "" ∧ proxy.HealthCheckIntervalS > 0)
      "health_check_interval_s" (.int proxy.HealthCheckIntervalS)
  |> putIf (proxy.HealthCheckType ≠ "" ∧ proxy.HealthCheckURL ≠ "") "health_check_url"
      (.str proxy.HealthCheckURL)
  |> putAll "meta_" proxy.Metas
  |> putAll "header_" proxy.Headers
  |> putAll "plugin_header_" proxy.PluginHeaders
  |> putIf (proxy.BandwidthLimit ≠ "") "bandwidth_limit" (.str proxy.BandwidthLimit)
  |> putIf (proxy.BandwidthLimitMode ≠ "") "bandwidth_limit_mode"
      (.str proxy.BandwidthLimitMode)
  |> putIf (proxy.ProxyProtocolVersion ≠ "") "proxy_protocol_version"
      (.str proxy.ProxyProtocolVersion)

/-- The map `tomlData` built by `saveTOML`: the block `common`, then
`tomlData[proxy.Name] = proxyData` for every proxy in list order. -/
def saveTOMLData (lib : Libs) (conf : ClientConfig) : List (String × TomlTable) :=
  conf.Proxies.foldl (fun doc proxy => mapSet doc proxy.Name (saveTOMLProxy proxy))
    [("common", saveTOMLCommon lib conf)]

/-- A key that `toml.Marshal` writes without quotes: not empty, and made of ASCII letters,
digits, `-` and `_`. -/
def isBareKey (k : String) : Bool :=
  k.data ≠ [] && k.data.all (fun c =>
    (65 ≤ c.toNat && c.toNat ≤ 90) || (97 ≤ c.toNat && c.toNat ≤ 122) ||
      (48 ≤ c.toNat && c.toNat ≤ 57) || c = '-' || c = '_')

/-- The text `toml.Marshal` writes for a key. -/
def tomlKey (lib : Libs) (k : String) : List Char :=
  if isBareKey k then k.data else lib.tomlQuoteKey k

/-- The order in which `toml.Marshal` writes the entries of a map: by key. -/
def sortByKey {β : Type} (m : List (String × β)) : List (String × β) :=
  m.insertionSort (fun a b => ¬ b.1 < a.1)

/-- One `key = value` line of `toml.Marshal`. -/
def tomlLine (lib : Libs) (entry : String × TomlScalar) : List Char :=
  tomlKey lib entry.1 ++ " = ".data ++ lib.tomlValue entry.2 ++ ['\n']

/-- The text `toml.Marshal` writes for a top-level key that holds a map: the table header
`[key]` on a line of its own, then the entries of the map. -/
def tomlTableText (lib : Libs) (entry : String × TomlTable) : List Char :=
  '[' :: tomlKey lib entry.1 ++ ']' :: '\n' ::
    ((sortByKey entry.2).map (tomlLine lib)).flatten

/-- The library call `toml.Marshal(tomlData)` on the map built by `saveTOML`: one table per
top-level key, in key order, with an empty line between two tables. -/
def tomlMarshal (lib : Libs) (doc : List (String × TomlTable)) : String :=
  String.mk (Join ((sortByKey doc).map (tomlTableText lib)) '\n')

/-- Go `ClientConfig.saveTOML`: the bytes handed to `os.WriteFile`. -/
def ClientConfig.saveTOML (lib : Libs) (conf : ClientConfig) : String :=
  tomlMarshal lib (saveTOMLData lib conf)

/-! ### Encoding the legacy format -/

/-- The loop `for k, v := range m { section.Key(prefix + k).SetValue(v) }`. -/
def iniSetAll (pre : String) (m : GoMap) (keys : List (String × String)) :
    List (String × String) :=
  (m.getD []).foldl (fun acc kv => mapSet acc (pre ++ kv.1) kv.2) keys

/-- The library call `cfg.NewSection(name)` followed by the writes to the section: an empty
name is an error, an existing section of that name is written to again. -/
def iniWriteSection (sections : List IniSection) (name : String)
    (write : List (String × String) → List (String × String)) :
    Except String (List IniSection) :=
  if name = "" then Except.error "empty section name"
  else if sections.any (fun s => s.name = name) then
    Except.ok (sections.map (fun s => if s.name = name then { s with keys := write s.keys } else s))
  else Except.ok (sections ++ [{ name := name, keys := write [] }])

/-- The section name `saveINI` gives a proxy: a range proxy gets the reserved marker, unless
its name already starts with it. -/
def iniSectionName (proxy : Proxy) : String :=
  if proxy.IsRange && !HasPrefix proxy.Name RangePrefix then RangePrefix ++ proxy.Name
  else proxy.Name

/-- The proxy loop of `saveINI` over the proxies still to write. -/
def saveINIProxies (lib : Libs) : List Proxy → List IniSection → Except String (List IniSection)
  | [], sections => Except.ok sections
  | proxy :: rest, sections =>
    match lib.iniReflectProxy proxy with
    | Except.error e => Except.error e
    | Except.ok reflected =>
      match iniWriteSection sections (iniSectionName proxy) (fun keys =>
          reflected.foldl (fun acc kv => mapSet acc kv.1 kv.2) keys
          |> iniSetAll "meta_" proxy.Metas
          |> iniSetAll "header_" proxy.Headers
          |> iniSetAll "plugin_header_" proxy.PluginHeaders) with
      | Except.error e => Except.error e
      | Except.ok sections1 => saveINIProxies lib rest sections1

/-- Go `ClientConfig.saveINI`: the bytes `cfg.SaveTo` writes, or the error. The file starts
with the default section of the library, which has no keys. -/
def ClientConfig.saveINI (lib : Libs) (conf : ClientConfig) : Except String String :=
  match lib.iniReflectCommon conf.toClientCommon with
  | Except.error e => Except.error e
  | Except.ok reflected =>
    match iniWriteSection [{ name := "DEFAULT", keys := [] }] "common" (fun keys =>
        reflected.foldl (fun acc kv => mapSet acc kv.1 kv.2) keys
        |> iniSetAll "meta_" conf.Metas
        |> iniSetAll "oidc_additional_" conf.OIDCAdditionalEndpointParams) with
    | Except.error e => Except.error e
    | Except.ok sections =>
      match saveINIProxies lib conf.Proxies sections with
      | Except.error e => Except.error e
      | Except.ok sections1 => Except.ok (lib.iniRender sections1)

/-- The body of `ClientConfig.saveINI` up to the call of `cfg.SaveTo`: the sections `cfg`
holds when `saveINI` reaches that call, or the error `saveINI` returns before it. -/
def ClientConfig.saveINISections (lib : Libs) (conf : ClientConfig) :
    Except String (List IniSection) :=
  match lib.iniReflectCommon conf.toClientCommon with
  | Except.error e => Except.error e
  | Except.ok reflected =>
    match iniWriteSection [{ name := "DEFAULT", keys := [] }] "common" (fun keys =>
        reflected.foldl (fun acc kv => mapSet acc kv.1 kv.2) keys
        |> iniSetAll "meta_" conf.Metas
        |> iniSetAll "oidc_additional_" conf.OIDCAdditionalEndpointParams) with
    | Except.error e => Except.error e
    | Except.ok sections => saveINIProxies lib conf.Proxies sections

/-- Go `ClientConfig.Save`: the bytes written to the path, or the error. -/
def ClientConfig.Save (lib : Libs) (conf : ClientConfig) : Except String String :=
  if conf.LegacyFormat then conf.saveINI lib else Except.ok (conf.saveTOML lib)

/-! ### Decoding -/

/-- The statement `if v, ok := data[k].(string); ok { ... }`, with the record last. -/
def withStr {σ : Type} (t : TomlTable) (k : String) (set : String → σ → σ) (s : σ) : σ :=
  match t.getString k with
  | some v => set v s
  | none => s

/-- The statement `if v, ok := data[k].(int64); ok { ... }`, with the record last. -/
def withInt {σ : Type} (t : TomlTable) (k : String) (set : Int → σ → σ) (s : σ) : σ :=
  match t.getInt k with
  | some v => set v s
  | none => s

/-- The statement `if v, ok := data[k].(bool); ok { ... }`, with the record last. -/
def withBool {σ : Type} (t : TomlTable) (k : String) (set : Bool → σ → σ) (s : σ) : σ :=
  match t.getBool k with
  | some v => set v s
  | none => s

/-- The loop that fills a fresh map with the string values of the keys that carry the
prefix, the prefix stripped. -/
def collectPrefixed (pre : String) (t : TomlTable) : GoMap :=
  some (t.foldl (fun acc kv =>
    if HasPrefix kv.1 pre then
      match kv.2 with
      | TomlScalar.str v => mapSet acc (TrimPrefix kv.1 pre) v
      | _ => acc
    else acc) [])

/-- The auto-delete part of the decoder of the modern format. -/
def decodeTOMLAutoDelete (lib : Libs) (commonData : TomlTable) (c : ClientCommon) :
    ClientCommon :=
  match commonData.getString "frpcgui_delete_method" with
  | none => c
  | some deleteMethod =>
    let c1 : ClientCommon := { c with DeleteMethod := deleteMethod }
    if deleteMethod = DeleteAbsolute then
      match commonData.getString "frpcgui_delete_after_date" with
      | none => c1
      | some deleteAfterDate =>
        match lib.timeParse deleteAfterDate with
        | none => c1
        | some date => { c1 with DeleteAfterDate := date }
    else if deleteMethod = DeleteRelative then
      match commonData.getInt "frpcgui_delete_after_days" with
      | none => c1
      | some deleteAfterDays => { c1 with DeleteAfterDays := deleteAfterDays }
    else c1

/-- The common part of the decoder of the modern format, given the table `common`. -/
def decodeTOMLCommon (lib : Libs) (commonData : TomlTable) (c : ClientCommon) : ClientCommon :=
  c
  |> withStr commonData "server_addr" (fun v c => { c with ServerAddress := v })
  |> withInt commonData "server_port" (fun v c => { c with ServerPort := v })
  |> withStr commonData "token" (fun v c => { c with Token := v })
  |> withStr commonData "user" (fun v c => { c with User := v })
  |> withStr commonData "log_file" (fun v c => { c with LogFile := v })
  |> withStr commonData "log_level" (fun v c => { c with LogLevel := v })
  |> withInt commonData "log_max_days" (fun v c => { c with LogMaxDays := v })
  |> withStr commonData "admin_addr" (fun v c => { c with AdminAddr := v })
  |> withInt commonData "admin_port" (fun v c => { c with AdminPort := v })
  |> withStr commonData "admin_user" (fun v c => { c with AdminUser := v })
  |> withStr commonData "admin_pwd" (fun v c => { c with AdminPwd := v })
  |> withBool commonData "tls_enable" (fun v c => { c with TLSEnable := v })
  |> withStr commonData "tls_cert_file" (fun v c => { c with TLSCertFile := v })
  |> withStr commonData "tls_key_file" (fun v c => { c with TLSKeyFile := v })
  |> withStr commonData "tls_trusted_ca_file" (fun v c => { c with TLSTrustedCaFile := v })
  |> withStr commonData "tls_server_name" (fun v c => { c with TLSServerName := v })
  |> withStr commonData "protocol" (fun v c => { c with Protocol := v })
  |> withBool commonData "tcp_mux" (fun v c => { c with TCPMux := v })
  |> withInt commonData "heartbeat_interval" (fun v c => { c with HeartbeatInterval := v })
  |> withInt commonData "heartbeat_timeout" (fun v c => { c with HeartbeatTimeout := v })
  |> withInt commonData "udp_packet_size" (fun v c => { c with UDPPacketSize := v })
  |> withStr commonData "frpcgui_name" (fun v c => { c with Name := v })
  |> withBool commonData "frpcgui_manual_start" (fun v c => { c with ManualStart := v })
  |> decodeTOMLAutoDelete lib commonData
  |> (fun c => { c with Metas := collectPrefixed "meta_" commonData })

/-- The `case consts.ProxyTypeHTTP, consts.ProxyTypeHTTPS` of the type switch of the
decoder. -/
def decodeTOMLProxyHTTP (proxyData : TomlTable) (p : Proxy) : Proxy :=
  p
  |> withStr proxyData "custom_domains" (fun v p => { p with CustomDomains := v })
  |> withStr proxyData "subdomain" (fun v p => { p with SubDomain := v })
  |> withStr proxyData "locations" (fun v p => { p with Locations := v })
  |> withStr proxyData "http_user" (fun v p => { p with HTTPUser := v })
  |> withStr proxyData "http_pwd" (fun v p => { p with HTTPPwd := v })
  |> withStr proxyData "host_header_rewrite" (fun v p => { p with HostHeaderRewrite := v })
  |> withStr proxyData "multiplexer" (fun v p => { p with Multiplexer := v })

/-- The `case consts.ProxyTypeSTCP, consts.ProxyTypeXTCP, consts.ProxyTypeSUDP` of the type
switch of the decoder. -/
def decodeTOMLProxySecret (proxyData : TomlTable) (p : Proxy) : Proxy :=
  p
  |> withStr proxyData "role" (fun v p => { p with Role := v })
  |> withStr proxyData "sk" (fun v p => { p with SK := v })
  |> withStr proxyData "allow_users" (fun v p => { p with AllowUsers := v })
  |> withStr proxyData "server_user" (fun v p => { p with ServerUser := v })
  |> withStr proxyData "server_name" (fun v p => { p with ServerName := v })
  |> withStr proxyData "bind_addr" (fun v p => { p with BindAddr := v })
  |> withInt proxyData "bind_port" (fun v p => { p with BindPort := v })
  |> withBool proxyData "keep_tunnel_open" (fun v p => { p with KeepTunnelOpen := v })
  |> withInt proxyData "max_retries_an_hour" (fun v p => { p with MaxRetriesAnHour := v })
  |> withInt proxyData "min_retry_interval" (fun v p => { p with MinRetryInterval := v })
  |> withStr proxyData "fallback_to" (fun v p => { p with FallbackTo := v })
  |> withInt proxyData "fallback_timeout_ms" (fun v p => { p with FallbackTimeoutMs := v })

/-- The type switch of the decoder, on the type decoded so far. -/
def decodeTOMLProxyTyped (proxyData : TomlTable) (p : Proxy) : Proxy :=
  if p.Type_ = ProxyTypeHTTP ∨ p.Type_ = ProxyTypeHTTPS then decodeTOMLProxyHTTP proxyData p
  else if p.Type_ = ProxyTypeSTCP ∨ p.Type_ = ProxyTypeXTCP ∨ p.Type_ = ProxyTypeSUDP then
    decodeTOMLProxySecret proxyData p
  else p

/-- The plugin part of the decoder, inside `if plugin, ok := ...; ok`. -/
def decodeTOMLProxyPlugin (proxyData : TomlTable) (p : Proxy) : Proxy :=
  match proxyData.getString "plugin" with
  | none => p
  | some plugin =>
    ({ p with Plugin := plugin } : Proxy)
    |> withStr proxyData "plugin_local_addr" (fun v p => { p with PluginLocalAddr := v })
    |> withStr proxyData "plugin_crt_path" (fun v p => { p with PluginCrtPath := v })
    |> withStr proxyData "plugin_key_path" (fun v p => { p with PluginKeyPath := v })
    |> withStr proxyData "plugin_host_header_rewrite"
        (fun v p => { p with PluginHostHeaderRewrite := v })
    |> withStr proxyData "plugin_http_user" (fun v p => { p with PluginHttpUser := v })
    |> withStr proxyData "plugin_http_passwd" (fun v p => { p with PluginHttpPasswd := v })
    |> withStr proxyData "plugin_user" (fun v p => { p with PluginUser := v })
    |> withStr proxyData "plugin_passwd" (fun v p => { p with PluginPasswd := v })
    |> withStr proxyData "plugin_local_path" (fun v p => { p with PluginLocalPath := v })
    |> withStr proxyData "plugin_strip_prefix" (fun v p => { p with PluginStripPrefix := v })
    |> withStr proxyData "plugin_unix_path" (fun v p => { p with PluginUnixPath := v })

/-- The health-check part of the decoder, inside `if healthCheckType, ok := ...; ok`. -/
def decodeTOMLProxyHealthCheck (proxyData : TomlTable) (p : Proxy) : Proxy :=
  match proxyData.getString "health_check_type" with
  | none => p
  | some healthCheckType =>
    ({ p with HealthCheckType := healthCheckType } : Proxy)
    |> withInt proxyData "health_check_timeout_s"
        (fun v p => { p with HealthCheckTimeoutS := v })
    |> withInt proxyData "health_check_max_failed"
        (fun v p => { p with HealthCheckMaxFailed := v })
    |> withInt proxyData "health_check_interval_s"
        (fun v p => { p with HealthCheckIntervalS := v })
    |> withStr proxyData "health_check_url" (fun v p => { p with HealthCheckURL := v })

/-- The proxy the decoder of the modern format builds from the table under `name`. -/
def decodeTOMLProxy (name : String) (proxyData : TomlTable) : Proxy :=
  NewDefaultProxyConfig name
  |> withStr proxyData "type" (fun v p => { p with Type_ := v })
  |> withStr proxyData "local_ip" (fun v p => { p with LocalIP := v })
  |> withStr proxyData "local_port" (fun v p => { p with LocalPort := v })
  |> withStr proxyData "remote_port" (fun v p => { p with RemotePort := v })
  |> withBool proxyData "use_encryption" (fun v p => { p with UseEncryption := v })
  |> withBool proxyData "use_compression" (fun v p => { p with UseCompression := v })
  |> withStr proxyData "group" (fun v p => { p with Group := v })
  |> withStr proxyData "group_key" (fun v p => { p with GroupKey := v })
  |> decodeTOMLProxyTyped proxyData
  |> decodeTOMLProxyPlugin proxyData
  |> decodeTOMLProxyHealthCheck proxyData
  |> (fun p => { p with Metas := collectPrefixed "meta_" proxyData })
  |> (fun p => { p with Headers := collectPrefixed "header_" proxyData })
  |> (fun p => { p with PluginHeaders := collectPrefixed "plugin_header_" proxyData })
  |> withStr proxyData "bandwidth_limit" (fun v p => { p with BandwidthLimit := v })
  |> withStr proxyData "bandwidth_limit_mode" (fun v p => { p with BandwidthLimitMode := v })
  |> withStr proxyData "proxy_protocol_version"
      (fun v p => { p with ProxyProtocolVersion := v })

/-- The loop `for name, data := range tomlData` of the decoder: every top-level key other
than `common` that holds a table gives a proxy, in the order the loop visits the map. -/
def decodeTOMLProxies : TomlDoc → List Proxy
  | [] => []
  | (name, data) :: rest =>
    if name ≠ "common" then
      match data with
      | TomlItem.table proxyData => decodeTOMLProxy name proxyData :: decodeTOMLProxies rest
      | TomlItem.value _ => decodeTOMLProxies rest
    else decodeTOMLProxies rest

/-- The part of `UnmarshalClientConf` after `toml.Unmarshal`: the configuration built from
the decoded document, completed in read mode. -/
def decodeTOML (lib : Libs) (k : Defaults) (tomlData : TomlDoc) : Option ClientConfig :=
  let conf := NewDefaultClientConfig k
  let common : ClientCommon :=
    match tomlData.lookup "common" with
    | some (TomlItem.table commonData) => decodeTOMLCommon lib commonData conf.toClientCommon
    | _ => conf.toClientCommon
  ClientConfig.Complete
    { toClientCommon := common, Proxies := conf.Proxies ++ decodeTOMLProxies tomlData } true

/-- Go `util.GetMapWithoutPrefix`: the keys that carry the prefix, the prefix stripped; the
nil map when there is none. -/
def GetMapWithoutPrefix (set : List (String × String)) (pre : String) : GoMap :=
  let m := set.foldl (fun acc kv =>
    if HasPrefix kv.1 pre then mapSet acc (TrimPrefix kv.1 pre) kv.2 else acc) []
  if m.length = 0 then none else some m

/-- Go `NewProxyFromIni`: a proxy from an ini section. -/
def NewProxyFromIni (lib : Libs) (name : String) (section_ : IniSection) :
    Except String Proxy :=
  match lib.iniMapProxy section_ (NewDefaultProxyConfig name) with
  | Except.error e => Except.error e
  | Except.ok proxy =>
    let proxy1 : Proxy := { proxy with Metas := GetMapWithoutPrefix section_.keys "meta_" }
    let proxy2 : Proxy := { proxy1 with Headers := GetMapWithoutPrefix section_.keys "header_" }
    let proxy3 : Proxy :=
      { proxy2 with PluginHeaders := GetMapWithoutPrefix section_.keys "plugin_header_" }
    Except.ok { proxy3 with Name := TrimPrefix proxy3.Name RangePrefix }

/-- The loop `for _, section := range cfg.Sections()` of `UnmarshalClientConfFromIni`. -/
def iniProxies (lib : Libs) : List IniSection → Except String (List Proxy)
  | [] => Except.ok []
  | section_ :: rest =>
    if section_.name = "DEFAULT" ∨ section_.name = "common" then iniProxies lib rest
    else
      match NewProxyFromIni lib section_.name section_ with
      | Except.error e => Except.error e
      | Except.ok proxy =>
        match iniProxies lib rest with
        | Except.error e => Except.error e
        | Except.ok proxies => Except.ok (proxy :: proxies)

/-- The assignment `conf.LegacyFormat = legacy`. -/
def ClientConfig.setLegacyFormat (conf : ClientConfig) (legacy : Bool) : ClientConfig :=
  { conf with LegacyFormat := legacy }

/-- Go `UnmarshalClientConfFromIni`; the outer `none` is a completion that does not
return. -/
def UnmarshalClientConfFromIni (lib : Libs) (k : Defaults) (source : String) :
    Option (Except String ClientConfig) :=
  let conf := NewDefaultClientConfig k
  match lib.iniLoad source with
  | Except.error e => some (Except.error e)
  | Except.ok sections =>
    match sections.find? (fun s => s.name = "common") with
    | none => some (Except.error "section \"common\" does not exist")
    | some common =>
      match lib.iniMapCommon common conf.toClientCommon with
      | Except.error e => some (Except.error e)
      | Except.ok mapped =>
        let c1 : ClientCommon := { mapped with Metas := GetMapWithoutPrefix common.keys "meta_" }
        let c2 : ClientCommon :=
          { c1 with OIDCAdditionalEndpointParams :=
              GetMapWithoutPrefix common.keys "oidc_additional_" }
        match iniProxies lib sections with
        | Except.error e => some (Except.error e)
        | Except.ok proxies =>
          match ClientConfig.Complete
              { toClientCommon := c2, Proxies := conf.Proxies ++ proxies } true with
          | none => none
          | some completed =>
            some (Except.ok (completed.setLegacyFormat true))

/-- Go `UnmarshalClientConf` on the bytes of the source: the legacy decoder when the
heuristic detects the legacy format, the modern decoder otherwise. -/
def UnmarshalClientConf (lib : Libs) (k : Defaults) (b : String) :
    Option (Except String ClientConfig) :=
  if DetectLegacyINIFormat b then UnmarshalClientConfFromIni lib k b
  else
    match lib.tomlUnmarshal b with
    | Except.error e => some (Except.error e)
    | Except.ok tomlData =>
      match decodeTOML lib k tomlData with
      | none => none
      | some conf => some (Except.ok conf)


/-! ## `util.PruneByTag` on values as reflection sees them -/

/-- The value of a struct field as far as projection is concerned: projection copies it
whole or leaves the zero value of its type. The last kind is the embedded `BaseProxyConf`
of a `Proxy`. -/
inductive FieldValue where
  | str (s : String)
  | int (i : Int)
  | bool (b : Bool)
  | strMap (m : GoMap)
  | base (b : BaseProxyConf)
  deriving DecidableEq

/-- The zero value of the type of a field value. -/
def FieldValue.zero : FieldValue → FieldValue
  | .str _ => .str ""
  | .int _ => .int 0
  | .bool _ => .bool false
  | .strMap _ => .strMap none
  | .base _ => .base {}

/-- One field of a struct value: what `inValue.Type().Field(i)` and `inValue.Field(i)`
give. -/
structure StructField where
  name : String
  tag : StructTag
  value : FieldValue
  deriving DecidableEq

/-- A `reflect.Value`, by the kinds `prune` tells apart: a nil pointer, a pointer, a struct,
or a value of any other kind. -/
inductive ReflValue where
  | nilPtr
  | ptr (elem : ReflValue)
  | struct (fields : List StructField)
  | other (v : FieldValue)

/-- The `case reflect.Struct` of `prune`: the loop over the fields. `ret` starts as the
zero struct; a field is set from the input when `f.Tag.Lookup(tag)` finds a key and the key
is "*" or equals `value`. -/
def pruneStructFields (fields : List StructField) (value tag : String) : List StructField :=
  fields.map (fun f =>
    match f.tag.lookup tag with
    | some key => if key == "*" || key == value then f else { f with value := f.value.zero }
    | none => { f with value := f.value.zero })

/-- Go `util.prune(inValue, ret, value, tag)`: the value `ret` holds after the call, and the
error returned. -/
def util.prune : ReflValue → String → String → ReflValue × Option String
  | .nilPtr, _, _ => (.nilPtr, none)
  | .ptr elem, value, tag => ((.ptr (util.prune elem value tag).1), (util.prune elem value tag).2)
  | .struct fields, value, tag => (.struct (pruneStructFields fields value tag), none)
  | .other v, _, _ => (.other v.zero, none)

/-- Go `util.PruneByTag(in, value, tag)` with its two results: the copy, or the error. -/
def util.PruneByTag (inValue : ReflValue) (value tag : String) : Except String ReflValue :=
  match util.prune inValue value tag with
  | (_, some err) => Except.error err
  | (ret, none) => Except.ok ret

/-- The fields of a `ClientAuth` as reflection lists them: name, struct tag and value, in
declaration order. -/
def ClientAuth.reflect (ca : ClientAuth) : List StructField :=
  [
    { name := "AuthMethod", tag := [("ini", "authentication_method,omitempty")],
      value := .str ca.AuthMethod },
    { name := "AuthenticateHeartBeats", tag := [("ini", "authenticate_heartbeats,omitempty"), ("token", "true"), ("oidc", "true")],
      value := .bool ca.AuthenticateHeartBeats },
    { name := "AuthenticateNewWorkConns", tag := [("ini", "authenticate_new_work_conns,omitempty"), ("token", "true"), ("oidc", "true")],
      value := .bool ca.AuthenticateNewWorkConns },
    { name := "Token", tag := [("ini", "token,omitempty"), ("token", "true")],
      value := .str ca.Token },
    { name := "TokenSource", tag := [("ini", "-"), ("token", "true")],
      value := .str ca.TokenSource },
    { name := "TokenSourceFile", tag := [("ini", "-"), ("token", "true")],
      value := .str ca.TokenSourceFile },
    { name := "OIDCClientId", tag := [("ini", "oidc_client_id,omitempty"), ("oidc", "true")],
      value := .str ca.OIDCClientId },
    { name := "OIDCClientSecret", tag := [("ini", "oidc_client_secret,omitempty"), ("oidc", "true")],
      value := .str ca.OIDCClientSecret },
    { name := "OIDCAudience", tag := [("ini", "oidc_audience,omitempty"), ("oidc", "true")],
      value := .str ca.OIDCAudience },
    { name := "OIDCScope", tag := [("ini", "oidc_scope,omitempty"), ("oidc", "true")],
      value := .str ca.OIDCScope },
    { name := "OIDCTokenEndpoint", tag := [("ini", "oidc_token_endpoint_url,omitempty"), ("oidc", "true")],
      value := .str ca.OIDCTokenEndpoint },
    { name := "OIDCAdditionalEndpointParams", tag := [("ini", "-"), ("oidc", "true")],
      value := .strMap ca.OIDCAdditionalEndpointParams } ]

/-- The fields of a `PluginParams` as reflection lists them: name, struct tag and value, in
declaration order. -/
def PluginParams.reflect (pp : PluginParams) : List StructField :=
  [
    { name := "PluginLocalAddr", tag := [("ini", "plugin_local_addr,omitempty"), ("http2https", "true"), ("http2http", "true"), ("https2https", "true"), ("https2http", "true"), ("tls2raw", "true")],
      value := .str pp.PluginLocalAddr },
    { name := "PluginCrtPath", tag := [("ini", "plugin_crt_path,omitempty"), ("https2https", "true"), ("https2http", "true"), ("tls2raw", "true")],
      value := .str pp.PluginCrtPath },
    { name := "PluginKeyPath", tag := [("ini", "plugin_key_path,omitempty"), ("https2https", "true"), ("https2http", "true"), ("tls2raw", "true")],
      value := .str pp.PluginKeyPath },
    { name := "PluginHostHeaderRewrite", tag := [("ini", "plugin_host_header_rewrite,omitempty"), ("http2https", "true"), ("http2http", "true"), ("https2https", "true"), ("https2http", "true")],
      value := .str pp.PluginHostHeaderRewrite },
    { name := "PluginHttpUser", tag := [("ini", "plugin_http_user,omitempty"), ("http_proxy", "true"), ("static_file", "true")],
      value := .str pp.PluginHttpUser },
    { name := "PluginHttpPasswd", tag := [("ini", "plugin_http_passwd,omitempty"), ("http_proxy", "true"), ("static_file", "true")],
      value := .str pp.PluginHttpPasswd },
    { name := "PluginUser", tag := [("ini", "plugin_user,omitempty"), ("socks5", "true")],
      value := .str pp.PluginUser },
    { name := "PluginPasswd", tag := [("ini", "plugin_passwd,omitempty"), ("socks5", "true")],
      value := .str pp.PluginPasswd },
    { name := "PluginLocalPath", tag := [("ini", "plugin_local_path,omitempty"), ("static_file", "true")],
      value := .str pp.PluginLocalPath },
    { name := "PluginStripPrefix", tag := [("ini", "plugin_strip_prefix,omitempty"), ("static_file", "true")],
      value := .str pp.PluginStripPrefix },
    { name := "PluginUnixPath", tag := [("ini", "plugin_unix_path,omitempty"), ("unix_domain_socket", "true")],
      value := .str pp.PluginUnixPath },
    { name := "PluginHeaders", tag := [("ini", "-"), ("http2https", "true"), ("http2http", "true"), ("https2https", "true"), ("https2http", "true")],
      value := .strMap pp.PluginHeaders },
    { name := "PluginEnableHTTP2", tag := [("ini", "-"), ("https2https", "true"), ("https2http", "true")],
      value := .bool pp.PluginEnableHTTP2 } ]

/-- The fields of a `HealthCheckConf` as reflection lists them: name, struct tag and value, in
declaration order. -/
def HealthCheckConf.reflect (hc : HealthCheckConf) : List StructField :=
  [
    { name := "HealthCheckTimeoutS", tag := [("ini", "health_check_timeout_s,omitempty"), ("tcp", "true"), ("http", "true")],
      value := .int hc.HealthCheckTimeoutS },
    { name := "HealthCheckMaxFailed", tag := [("ini", "health_check_max_failed,omitempty"), ("tcp", "true"), ("http", "true")],
      value := .int hc.HealthCheckMaxFailed },
    { name := "HealthCheckIntervalS", tag := [("ini", "health_check_interval_s,omitempty"), ("tcp", "true"), ("http", "true")],
      value := .int hc.HealthCheckIntervalS },
    { name := "HealthCheckURL", tag := [("ini", "health_check_url,omitempty"), ("http", "true")],
      value := .str hc.HealthCheckURL },
    { name := "HealthCheckHTTPHeaders", tag := [("ini", "-"), ("http", "true")],
      value := .strMap hc.HealthCheckHTTPHeaders } ]

/-- The fields of a `Proxy` as reflection lists them: name, struct tag and value, in
declaration order. -/
def Proxy.reflect (p : Proxy) : List StructField :=
  [
    { name := "BaseProxyConf", tag := [("ini", ",extends")],
      value := .base p.toBaseProxyConf },
    { name := "RemotePort", tag := [("ini", "remote_port,omitempty"), ("tcp", "true"), ("udp", "true")],
      value := .str p.RemotePort },
    { name := "Role", tag := [("ini", "role,omitempty"), ("stcp", "true"), ("xtcp", "true"), ("sudp", "true"), ("visitor", "*")],
      value := .str p.Role },
    { name := "SK", tag := [("ini", "sk,omitempty"), ("stcp", "true"), ("xtcp", "true"), ("sudp", "true"), ("visitor", "*")],
      value := .str p.SK },
    { name := "AllowUsers", tag := [("ini", "allow_users,omitempty"), ("stcp", "true"), ("xtcp", "true"), ("sudp", "true")],
      value := .str p.AllowUsers },
    { name := "ServerUser", tag := [("ini", "server_user,omitempty"), ("visitor", "*")],
      value := .str p.ServerUser },
    { name := "ServerName", tag := [("ini", "server_name,omitempty"), ("visitor", "*")],
      value := .str p.ServerName },
    { name := "BindAddr", tag := [("ini", "bind_addr,omitempty"), ("visitor", "*")],
      value := .str p.BindAddr },
    { name := "BindPort", tag := [("ini", "bind_port,omitempty"), ("visitor", "*")],
      value := .int p.BindPort },
    { name := "CustomDomains", tag := [("ini", "custom_domains,omitempty"), ("http", "true"), ("https", "true"), ("tcpmux", "true")],
      value := .str p.CustomDomains },
    { name := "SubDomain", tag := [("ini", "subdomain,omitempty"), ("http", "true"), ("https", "true"), ("tcpmux", "true")],
      value := .str p.SubDomain },
    { name := "Locations", tag := [("ini", "locations,omitempty"), ("http", "true")],
      value := .str p.Locations },
    { name := "HTTPUser", tag := [("ini", "http_user,omitempty"), ("http", "true"), ("tcpmux", "true")],
      value := .str p.HTTPUser },
    { name := "HTTPPwd", tag := [("ini", "http_pwd,omitempty"), ("http", "true"), ("tcpmux", "true")],
      value := .str p.HTTPPwd },
    { name := "HostHeaderRewrite", tag := [("ini", "host_header_rewrite,omitempty"), ("http", "true")],
      value := .str p.HostHeaderRewrite },
    { name := "Headers", tag := [("ini", "-"), ("http", "true")],
      value := .strMap p.Headers },
    { name := "ResponseHeaders", tag := [("ini", "-"), ("http", "true")],
      value := .strMap p.ResponseHeaders },
    { name := "Multiplexer", tag := [("ini", "multiplexer,omitempty"), ("tcpmux", "true")],
      value := .str p.Multiplexer },
    { name := "RouteByHTTPUser", tag := [("ini", "route_by_http_user,omitempty"), ("http", "true"), ("tcpmux", "true")],
      value := .str p.RouteByHTTPUser },
    { name := "Protocol", tag := [("ini", "protocol,omitempty"), ("visitor", "xtcp")],
      value := .str p.Protocol },
    { name := "KeepTunnelOpen", tag := [("ini", "keep_tunnel_open,omitempty"), ("visitor", "xtcp")],
      value := .bool p.KeepTunnelOpen },
    { name := "MaxRetriesAnHour", tag := [("ini", "max_retries_an_hour,omitempty"), ("visitor", "xtcp")],
      value := .int p.MaxRetriesAnHour },
    { name := "MinRetryInterval", tag := [("ini", "min_retry_interval,omitempty"), ("visitor", "xtcp")],
      value := .int p.MinRetryInterval },
    { name := "FallbackTo", tag := [("ini", "fallback_to,omitempty"), ("visitor", "xtcp")],
      value := .str p.FallbackTo },
    { name := "FallbackTimeoutMs", tag := [("ini", "fallback_timeout_ms,omitempty"), ("visitor", "xtcp")],
      value := .int p.FallbackTimeoutMs } ]

/-! ## `util.MoveSlice` -/

/-- The slice expression `s[lo:hi]` on a slice whose capacity is its length: the elements
from index `lo` up to `hi`, and `none` for the run-time panic when the bounds are out of
range. -/
def sliceOf {α : Type} (s : List α) (lo hi : Nat) : Option (List α) :=
  if lo ≤ hi ∧ hi ≤ s.length then some ((s.drop lo).take (hi - lo)) else none

/-- The built-in `copy(s[lo:hi], src)`, as the contents of `s` afterwards: the first
`min (hi - lo) (len src)` elements of `src` stand from index `lo` on. The elements of `src`
are the ones it held before the call, also when the two windows overlap. -/
def copyInto {α : Type} (s : List α) (lo hi : Nat) (src : List α) : List α :=
  s.take lo ++ src.take (hi - lo) ++ s.drop (lo + min (hi - lo) src.length)

/-- Go `util.MoveSlice(s, i, j)`: moves the element `s[i]` to index `j` in `s`. The result is
the contents of `s` afterwards; `none` is the panic of an index or slice expression out of
range. The indices are of type `int`; a negative index panics and is left out. -/
def MoveSlice {α : Type} (s : List α) (i j : Nat) : Option (List α) :=
  match s[i]? with
  | none => none
  | some x =>
    let moved : Option (List α) :=
      if i < j then
        match sliceOf s i j, sliceOf s (i + 1) (j + 1) with
        | some _, some src => some (copyInto s i j src)
        | _, _ => none
      else if i > j then
        match sliceOf s (j + 1) (i + 1), sliceOf s j i with
        | some _, some src => some (copyInto s (j + 1) (i + 1) src)
        | _, _ => none
      else some s
    match moved with
    | none => none
    | some s1 => if j < s1.length then some (s1.set j x) else none

/-! ## Log-line parsing (`pkg/ipc`, `ui`)

A log line is kept as its list of characters. The separators the parsers look for are
ASCII, so an index into the characters cuts the line where the byte index of the source
cuts it. -/

/-- The search of `strings.Index` from position `n` of the original string on. -/
def indexFrom (substr : List Char) : List Char → Nat → Int
  | [], n => if substr = [] then (n : Int) else -1
  | c :: rest, n =>
    if substr.isPrefixOf (c :: rest) then (n : Int) else indexFrom substr rest (n + 1)

/-- Go `strings.Index(s, substr)`: the index of the first instance of `substr` in `s`, or
-1 if `substr` is not present in `s`. -/
def Index (s substr : List Char) : Int := indexFrom substr s 0

/-- The slice expression `s[lo:hi]` on a string: `none` is the run-time panic for bounds
out of range. -/
def substring (s : List Char) (lo hi : Int) : Option (List Char) :=
  if 0 ≤ lo ∧ lo ≤ hi ∧ hi ≤ (s.length : Int) then
    some ((s.drop lo.toNat).take (hi - lo).toNat)
  else none

/-- Go `strings.SplitN(s, sep, 2)` for a separator that is not empty: the text before the
first instance of `sep` and the rest, or `s` alone when `sep` is not present. -/
def SplitN2 (s sep : List Char) : List (List Char) :=
  if Index s sep < 0 then [s]
  else [s.take (Index s sep).toNat, s.drop ((Index s sep).toNat + sep.length)]

/-- Struct `ipc.ProxyMessage`: status information of a proxy. -/
structure ProxyMessage where
  Name : String := ""
  Type_ : String := ""
  Status : String := ""
  Err : String := ""
  RemoteAddr : String := ""
  deriving DecidableEq

deriving instance DecidableEq for Except

/-- How a call ends: it returns a value, or it panics. -/
inductive Outcome (α : Type) where
  | returned (a : α)
  | panicked
  deriving DecidableEq

/-- The block `// Try to extract remote address if available` that closes both parsers, on
the message built so far. -/
def withRemoteAddr (line : List Char) (msg : ProxyMessage) : Outcome ProxyMessage :=
  if Contains line "remote address:".data then
    let addrStart := Index line "remote address:".data + ("remote address:".data.length : Int)
    match substring line addrStart line.length with
    | none => Outcome.panicked
    | some rest =>
      let addrEnd := if Index rest ",".data = -1 then (rest.length : Int)
        else Index rest ",".data
      match substring line addrStart (addrStart + addrEnd) with
      | none => Outcome.panicked
      | some remoteAddr =>
        Outcome.returned { msg with RemoteAddr := String.mk (TrimSpace remoteAddr) }
  else Outcome.returned msg

/-- Go `ipc.extractProxyInfo`: extracts proxy information from a log line of the format
"proxy [type:name] message". -/
def extractProxyInfo (line status errorMsg : String) :
    Outcome (Except String ProxyMessage) :=
  let start := Index line.data "[".data
  let end_ := Index line.data "]".data
  if start = -1 ∨ end_ = -1 then Outcome.returned (Except.error "invalid proxy info format")
  else
    match substring line.data (start + 1) end_ with
    | none => Outcome.panicked
    | some proxyInfo =>
      match SplitN2 proxyInfo ":".data with
      | [proxyType, proxyName] =>
        match withRemoteAddr line.data
            { Name := String.mk proxyName, Type_ := String.mk proxyType, Status := status,
              Err := errorMsg } with
        | Outcome.panicked => Outcome.panicked
        | Outcome.returned msg => Outcome.returned (Except.ok msg)
      | _ => Outcome.returned (Except.error "invalid proxy info format")

/-- Go `ProxyTracker.extractProxyStatusFromLog`: the same extraction in the proxy tracker,
with the nil pointer in place of the error. -/
def extractProxyStatusFromLog (line status errorMsg : String) :
    Outcome (Option ProxyMessage) :=
  let start := Index line.data "[".data
  let end_ := Index line.data "]".data
  if start = -1 ∨ end_ = -1 then Outcome.returned none
  else
    match substring line.data (start + 1) end_ with
    | none => Outcome.panicked
    | some proxyInfo =>
      match SplitN2 proxyInfo ":".data with
      | [proxyType, proxyName] =>
        match withRemoteAddr line.data
            { Name := String.mk proxyName, Type_ := String.mk proxyType, Status := status,
              Err := errorMsg } with
        | Outcome.panicked => Outcome.panicked
        | Outcome.returned msg => Outcome.returned (some msg)
      | _ => Outcome.returned none

/-! ## Notions used to state the properties -/

/-- A character is an ASCII decimal digit. -/
def IsDigitChar (c : Char) : Prop := 48 ≤ c.toNat ∧ c.toNat ≤ 57

/-- Numeric value of a run of decimal digits, most significant first. -/
def decimalValue (digits : List Char) : Nat :=
  Nat.ofDigits 10 (digits.reverse.map (fun c => c.toNat - 48))

/-- A decimal integer: an optional sign followed by one or more decimal digits. -/
def IsDecimalInt (t : List Char) (v : Int) : Prop :=
  ∃ digits : List Char, digits ≠ [] ∧ (∀ c ∈ digits, IsDigitChar c) ∧
    (((t = digits ∨ t = '+' :: digits) ∧ v = (decimalValue digits : Int)) ∨
      (t = '-' :: digits ∧ v = -(decimalValue digits : Int)))

/-- The value is one of Go's 64-bit `int`. -/
def FitsInt (v : Int) : Prop := -9223372036854775808 ≤ v ∧ v ≤ 9223372036854775807

/-- The integers `a, a+1, ..., b` in increasing order (none when `b < a`). -/
def intRange (a b : Int) : List Int :=
  (List.range (b - a + 1).toNat).map (fun (k : Nat) => a + (k : Int))

/-- The decimal rendering of a natural number, as a list of characters. -/
def decimalText (n : Nat) : List Char := (toString n).data

/-- A token of a range string: a single number, a range `a-b`, or nothing at all. -/
inductive RangeToken where
  | single (n : Nat)
  | range (a b : Nat)
  | blank
  deriving DecidableEq

/-- The text of a token, without surrounding spaces. -/
def RangeToken.core : RangeToken → List Char
  | .single n => decimalText n
  | .range a b => decimalText a ++ '-' :: decimalText b
  | .blank => []

/-- The numbers a token stands for: `[n]`, or `[a, a+1, ..., b]`, or none. -/
def RangeToken.nums : RangeToken → List Int
  | .single n => [(n : Int)]
  | .range a b => intRange (a : Int) (b : Int)
  | .blank => []

/-- Well-formedness of a token: a range has `a <= b`. -/
def RangeToken.WellFormed : RangeToken → Prop
  | .single _ => True
  | .range a b => a ≤ b
  | .blank => True

/-- The token stays inside Go's `int`: a single number is at most `2^63 - 1`, the end of a
range at most `2^63 - 2`. -/
def RangeToken.Fits : RangeToken → Prop
  | .single n => n ≤ 9223372036854775807
  | .range _ b => b ≤ 9223372036854775806
  | .blank => True

/-- A token with `pre` spaces before it and `post` spaces after it. -/
structure PaddedToken where
  pre : Nat
  token : RangeToken
  post : Nat

/-- The text of a padded token. -/
def PaddedToken.text (t : PaddedToken) : List Char :=
  List.replicate t.pre ' ' ++ (t.token.core ++ List.replicate t.post ' ')

/-- The range string made of the tokens joined by commas. -/
def rangeString (ts : List PaddedToken) : String :=
  String.mk (Join (ts.map PaddedToken.text) ',')

/-- The flattened numbers of the tokens, in token order. -/
def tokenNumbers : List PaddedToken → List Int
  | [] => []
  | t :: ts => t.token.nums ++ tokenNumbers ts

/-- The trimmed token splits at its hyphen into exactly two bounds, each (spaces around it
aside) a decimal integer of the 64-bit `int`, with values `a` and `b`. -/
def SplitsIntoBounds (t : List Char) (a b : Int) : Prop :=
  ∃ p0 p1, t = p0 ++ '-' :: p1 ∧ '-' ∉ p0 ∧ '-' ∉ p1 ∧
    IsDecimalInt (TrimSpace p0) a ∧ FitsInt a ∧ IsDecimalInt (TrimSpace p1) b ∧ FitsInt b

/-- A trimmed token is malformed: it has no hyphen and is not a decimal integer of the
64-bit `int`, or it has a hyphen and does not split into exactly two such bounds, or its
start is greater than its end. -/
def Malformed (t : List Char) : Prop :=
  ('-' ∉ t ∧ ¬ ∃ n, IsDecimalInt t n ∧ FitsInt n) ∨
  ('-' ∈ t ∧ ¬ ∃ a b, SplitsIntoBounds t a b) ∨
  (∃ a b, SplitsIntoBounds t a b ∧ a > b)

/-- The trimmed token is a range whose end is the largest `int`, the one value at which the
range loop does not exit. -/
def EndsAtMaxInt (t : List Char) : Prop :=
  ∃ p0 p1, t = p0 ++ '-' :: p1 ∧ '-' ∉ p0 ∧ '-' ∉ p1 ∧ IsDecimalInt (TrimSpace p1) maxInt

/-! ## Example configurations -/

/-- Example: the start list `a` with the proxies `a` (marked disabled) and `b`. -/
def exampleReadConf : ClientConfig :=
  { Start := some ["a"],
    Proxies := [{ Name := "a", Type_ := "tcp", LocalPort := "80", Disabled := true },
                { Name := "b", Type_ := "tcp", LocalPort := "81" }] }

/-- Example: `exampleReadConf` after read-mode completion. -/
def exampleReadResult : ClientConfig :=
  { Start := some ["a"],
    Proxies := [{ Name := "a", Type_ := "tcp", LocalPort := "80" },
                { Name := "b", Type_ := "tcp", LocalPort := "81", Disabled := true }] }

/-- Example: a stale start list, the disabled proxy `a` and the enabled range proxy `r`
with two local ports. -/
def exampleWriteConf : ClientConfig :=
  { Start := some ["x"],
    Proxies := [{ Name := "a", Type_ := "tcp", LocalPort := "80", Disabled := true },
                { Name := "r", Type_ := "tcp", LocalPort := "1-2" }] }

/-- Example: `exampleWriteConf` after write-mode completion. -/
def exampleWriteResult : ClientConfig :=
  { Start := some ["r_0", "r_1"],
    Proxies := [{ Name := "a", Type_ := "tcp", LocalPort := "80", Disabled := true },
                { Name := "r", Type_ := "tcp", LocalPort := "1-2" }] }

/-- Example: a tcp proxy with the socks5 plugin, with a local address and parameters of
another plugin kind left over. -/
def examplePluginProxy : Proxy :=
  { Name := "w", Type_ := "tcp", LocalIP := "127.0.0.1", LocalPort := "80",
    Plugin := "socks5", PluginUser := "u", PluginHttpUser := "h", RemotePort := "6000" }

/-- Example: an http proxy with a tcp health check, with fields of other proxy types and of
the http health check left over. -/
def exampleTypedProxy : Proxy :=
  { Name := "web", Type_ := "http", LocalPort := "8080", Group := "g",
    HealthCheckType := "tcp", HealthCheckTimeoutS := 3, HealthCheckURL := "/status",
    RemotePort := "6000", SK := "k", CustomDomains := "example.com", BindPort := 9 }

/-- Example: a tcp proxy whose local-port string holds a comma and no number. -/
def exampleBlankRangeProxy : Proxy :=
  { Name := "a", Type_ := "tcp", LocalPort := ",", RemotePort := "6000" }

/-- Example: a start list naming `b`, the disabled proxy `exampleBlankRangeProxy` and the
proxy `b`. -/
def exampleBlankRangeConf : ClientConfig :=
  { Start := some ["b"],
    Proxies := [exampleBlankRangeProxy.setDisabled true,
                { Name := "b", Type_ := "tcp", LocalPort := "81" }] }

/-- Example: three proxies with the pairwise disjoint alias lists `a`, `r_0, r_1` and `c`,
the first and the last disabled, and a stale start list. -/
def exampleFlagsConf : ClientConfig :=
  { Start := some ["x"],
    Proxies := [{ Name := "a", Type_ := "tcp", LocalPort := "80", Disabled := true },
                { Name := "r", Type_ := "tcp", LocalPort := "1-2" },
                { Name := "c", Type_ := "http", LocalPort := "8080", Disabled := true }] }

/-- Example: a configuration whose only proxy is named `common`. -/
def exampleCommonNamedConf : ClientConfig :=
  { ServerAddress := "example.com",
    Proxies := [{ Name := "common", Type_ := "tcp", LocalPort := "80" }] }

/-- Example: a configuration whose only proxy has the empty name. -/
def exampleUnnamedConf : ClientConfig :=
  { ServerAddress := "example.com",
    Proxies := [{ Name := "", Type_ := "tcp", LocalPort := "80" }] }

/-- Example: a configuration with two proxies of the same name. -/
def exampleSameNameConf : ClientConfig :=
  { ServerAddress := "example.com",
    Proxies := [{ Name := "a", Type_ := "tcp", LocalPort := "80" },
                { Name := "a", Type_ := "udp", LocalPort := "81" }] }

/-- Example: the map `toml.Unmarshal` fills from a document with the two tables `a` and
`b`, visited by the `range` loop with `a` first. -/
def exampleDocAB : TomlDoc :=
  [("a", TomlItem.table [("type", TomlScalar.str "tcp"), ("local_port", TomlScalar.str "80")]),
   ("b", TomlItem.table [("type", TomlScalar.str "tcp"), ("local_port", TomlScalar.str "81")])]

/-- Example: the same map, visited by the `range` loop with `b` first. -/
def exampleDocBA : TomlDoc :=
  [("b", TomlItem.table [("type", TomlScalar.str "tcp"), ("local_port", TomlScalar.str "81")]),
   ("a", TomlItem.table [("type", TomlScalar.str "tcp"), ("local_port", TomlScalar.str "80")])]

/-- Example: a range proxy whose name already starts with the reserved marker. -/
def exampleMarkedProxy : Proxy :=
  { Name := "range:a", Type_ := "tcp", LocalPort := "1-2", RemotePort := "6001-6002" }

/-- Example: a range proxy with a plain name. -/
def exampleRangeProxy : Proxy :=
  { Name := "r", Type_ := "tcp", LocalPort := "1-2", RemotePort := "6001-6002" }

/-- Example: a configuration with the oidc method, one extra OIDC parameter and one metadata
entry. -/
def exampleOidcConf : ClientConfig :=
  { ServerAddress := "example.com", AuthMethod := "oidc", OIDCClientId := "id",
    OIDCAdditionalEndpointParams := some [("audience", "x")],
    Metas := some [("1", "value")] }

/-! ## The switch-governed fields of the common config -/

/-- The fields of `ClientCommon` that `ClientConfig.Complete` clears depending on a switch,
together with the four switches (`AdminPort`, `TCPMux`, `TLSEnable`, `Protocol`), as one
record, to state what completion does to them. -/
structure CommonSwitched where
  AdminPort : Int
  AdminUser : String
  AdminPwd : String
  AssetsDir : String
  PprofEnable : Bool
  TCPMux : Bool
  TCPMuxKeepaliveInterval : Int
  TLSEnable : Bool
  TLSServerName : String
  TLSCertFile : String
  TLSKeyFile : String
  TLSTrustedCaFile : String
  Protocol : String
  DialServerTimeout : Int
  DialServerKeepAlive : Int
  QUICMaxIdleTimeout : Int
  QUICKeepalivePeriod : Int
  QUICMaxIncomingStreams : Int
  deriving DecidableEq

/-- The switch-governed fields of a common config, each under its own name. -/
def ClientCommon.switched (c : ClientCommon) : CommonSwitched :=
  { AdminPort := c.AdminPort, AdminUser := c.AdminUser, AdminPwd := c.AdminPwd,
    AssetsDir := c.AssetsDir, PprofEnable := c.PprofEnable,
    TCPMux := c.TCPMux, TCPMuxKeepaliveInterval := c.TCPMuxKeepaliveInterval,
    TLSEnable := c.TLSEnable, TLSServerName := c.TLSServerName, TLSCertFile := c.TLSCertFile,
    TLSKeyFile := c.TLSKeyFile, TLSTrustedCaFile := c.TLSTrustedCaFile,
    Protocol := c.Protocol, DialServerTimeout := c.DialServerTimeout,
    DialServerKeepAlive := c.DialServerKeepAlive,
    QUICMaxIdleTimeout := c.QUICMaxIdleTimeout,
    QUICKeepalivePeriod := c.QUICKeepalivePeriod,
    QUICMaxIncomingStreams := c.QUICMaxIncomingStreams }

/-- Example: a common config with every switch off and every governed field set, and one
plain tcp proxy. -/
def exampleSwitchedConf : ClientConfig :=
  { ServerAddress := "example.com", AdminUser := "admin", AdminPwd := "pw", AssetsDir := "d",
    PprofEnable := true, TCPMuxKeepaliveInterval := 30, TLSServerName := "n",
    TLSCertFile := "c", TLSKeyFile := "k", TLSTrustedCaFile := "t", Protocol := "tcp",
    DialServerTimeout := 10, DialServerKeepAlive := 7200, QUICMaxIdleTimeout := 30,
    QUICKeepalivePeriod := 10, QUICMaxIncomingStreams := 100000,
    Proxies := [{ Name := "a", Type_ := "tcp", LocalPort := "80" }] }

/-! ## The legacy document of the decoder test -/

/-- Example: the source text of `TestUnmarshalClientConfFromIni`. -/
def exampleLegacySource : String :=
  "\n\t\t[common]\n\t\tserver_addr = example.com\n\t\tserver_port = 7001\n" ++
  "\t\ttoken = 123456\n\t\tfrpcgui_manual_start = true\n" ++
  "\t\tfrpcgui_delete_method = absolute\n" ++
  "\t\tfrpcgui_delete_after_date = 2023-03-23T00:00:00Z\n\t\tmeta_1 = value\n\t\t\n" ++
  "\t\t[ssh]\n\t\ttype = tcp\n\t\tlocal_ip = 192.168.1.1\n\t\tlocal_port = 22\n" ++
  "\t\tremote_port = 6000\n\t\tmeta_2 = value\n\t"

/-- Example: the `[common]` section of the test document. -/
def exampleLegacyCommon : IniSection :=
  { name := "common",
    keys := [("server_addr", "example.com"), ("server_port", "7001"), ("token", "123456"),
             ("frpcgui_manual_start", "true"), ("frpcgui_delete_method", "absolute"),
             ("frpcgui_delete_after_date", "2023-03-23T00:00:00Z"), ("meta_1", "value")] }

/-- Example: the `[ssh]` section of the test document. -/
def exampleLegacySsh : IniSection :=
  { name := "ssh",
    keys := [("type", "tcp"), ("local_ip", "192.168.1.1"), ("local_port", "22"),
             ("remote_port", "6000"), ("meta_2", "value")] }

/-- Example: the sections of the test document as `cfg.Sections()` lists them, the default
section of the library first. -/
def exampleLegacySections : List IniSection :=
  [{ name := "DEFAULT", keys := [] }, exampleLegacyCommon, exampleLegacySsh]

/-- Example: what `MapTo` makes of the `[common]` section of the test document, the keys
that have a field written over the given config. -/
def exampleLegacyMapped (c : ClientCommon) (date : GoTime) : ClientCommon :=
  { c with ServerAddress := "example.com", ServerPort := 7001, Token := "123456",
           ManualStart := true, DeleteMethod := "absolute", DeleteAfterDate := date }

/-- Example: the model `TestUnmarshalClientConfFromIni` expects, built as the test builds
it: the default configuration with the fields of the document assigned. -/
def exampleLegacyExpected (k : Defaults) (date : GoTime) : ClientConfig :=
  { NewDefaultClientConfig k with
    LegacyFormat := true,
    ServerAddress := "example.com",
    ServerPort := 7001,
    Token := "123456",
    ManualStart := true,
    Metas := some [("1", "value")],
    DeleteMethod := "absolute",
    DeleteAfterDate := date,
    Proxies := (NewDefaultClientConfig k).Proxies ++
      [{ Name := "ssh", Type_ := "tcp", LocalIP := "192.168.1.1", LocalPort := "22",
         Metas := some [("2", "value")], RemotePort := "6000" }] }

/-- Example: 2023-03-23T00:00:00Z, as nanoseconds from the zero time. -/
def exampleLegacyDate : GoTime := { nanos := 63815126400000000000 }

/-- Example: a stand-in for the libraries that knows the test document only: it loads the
source of the test into its sections and maps these two sections onto the fields their keys
name; every other call fails or leaves its argument as it is. -/
def exampleLibs : Libs where
  tomlUnmarshal := fun _ => Except.error "not a TOML document"
  tomlValue := fun _ => []
  tomlQuoteKey := fun key => key.data
  iniLoad := fun source =>
    if source = exampleLegacySource then Except.ok exampleLegacySections
    else Except.error "unknown document"
  iniMapCommon := fun section_ c =>
    if section_ = exampleLegacyCommon then Except.ok (exampleLegacyMapped c exampleLegacyDate)
    else Except.ok c
  iniMapProxy := fun section_ p =>
    if section_ = exampleLegacySsh then
      Except.ok { p with Type_ := "tcp", LocalIP := "192.168.1.1", LocalPort := "22",
                         RemotePort := "6000" }
    else Except.ok p
  iniReflectCommon := fun _ => Except.ok []
  iniReflectProxy := fun _ => Except.ok []
  iniRender := fun _ => ""
  timeFormat := fun _ => ""
  timeParse := fun _ => none

/-- Example: values for the constants of the default configuration. -/
def exampleDefaults : Defaults :=
  { DefaultServerPort := 7000, LogLevelInfo := "info", DefaultLogMaxDays := 3 }

/-- Example: a stand-in for the libraries whose `toml.Unmarshal` knows the empty document
only, which it decodes to the empty map. -/
def exampleEmptyTomlLibs : Libs :=
  { exampleLibs with
    tomlUnmarshal := fun b =>
      if b = "" then Except.ok [] else Except.error "unknown document" }

/-! ## The ini library on plain documents

The legacy decoder hands its source to gopkg.in/ini.v1, which is not part of the sources at
hand. The definitions of this section describe that library, with the options the decoder
passes (`IgnoreInlineComment`, `AllowBooleanKeys`), on a fragment of its input: documents
made of blank lines, comment lines, section lines and `key = value` lines whose key is not
quoted and whose value stays on its line. They answer `none` outside the fragment and say
nothing about the library there. -/

/-- Go `strings.TrimLeftFunc(s, unicode.IsSpace)`. -/
def TrimLeftSpace (s : List Char) : List Char := s.dropWhile isSpace

/-- The library's `hasSurroundedQuote(in, quote)`. -/
def ini.hasSurroundedQuote (s : List Char) (quote : Char) : Bool :=
  decide (2 ≤ s.length) && (s.head? == some quote) && (s.getLast? == some quote)

/-- The library's `readValue` on the text after the delimiter: white space trimmed, one pair
of surrounding single or double quotes removed; inline comments are not looked for
(`IgnoreInlineComment`). It is `none`, not modelled, for a value that starts with three
double quotes or with a backquote (code 96) and for a value that ends with a backslash,
which continue on the next lines. -/
def ini.readValue (input : List Char) : Option (List Char) :=
  let line := TrimLeftSpace input
  if line = [] then some []
  else if [Char.ofNat 34, Char.ofNat 34, Char.ofNat 34].isPrefixOf line ||
      line.head? == some (Char.ofNat 96) then none
  else
    let line1 := TrimSpace line
    if line1.getLast? == some (Char.ofNat 92) then none
    else if ini.hasSurroundedQuote line1 (Char.ofNat 39) ||
        ini.hasSurroundedQuote line1 (Char.ofNat 34) then
      some ((line1.drop 1).dropLast)
    else some line1

/-- The library's `readKeyName` with the delimiters `=` and `:`: the key, white space
trimmed, and the text after the first delimiter. It is `none`, not modelled, for a key in
quotes and for a line without delimiter (a boolean key), and `none` for the error of an
empty key. -/
def ini.readKeyName (line : List Char) : Option (List Char × List Char) :=
  if line.head? == some (Char.ofNat 34) || line.head? == some (Char.ofNat 96) then none
  else
    match line.dropWhile (fun c => !(c == '=' || c == ':')) with
    | [] => none
    | _ :: value =>
      let key := line.takeWhile (fun c => !(c == '=' || c == ':'))
      if key = [] then none else some (TrimSpace key, value)

/-- The state of the library's parser: the sections of the file in the order of
`cfg.Sections()`, and the name of the section the next key goes to. -/
structure ini.File where
  sections : List IniSection
  current : String
  deriving DecidableEq

/-- One round of the loop of the library's `parse`, on a line without its line break: a
blank line and a comment line change nothing, a section line `[name]` (the name runs to the
last `]`) makes `cfg.NewSection(name)` the current section, a `key = value` line sets the
key in the current section, a later value replacing an earlier one. It is `none` for
the library's errors (no `]`, empty section name, empty key) and where the model stops: a
section name with white space at either end, the auto-increment key `-`, and the cases
`ini.readKeyName` and `ini.readValue` leave out. -/
def ini.parseLine (f : ini.File) (rawLine : List Char) : Option ini.File :=
  match TrimLeftSpace rawLine with
  | [] => some f
  | c :: rest =>
    if c = '#' ∨ c = ';' then some f
    else if c = '[' then
      let upto := ((c :: rest).reverse.dropWhile (fun d => !(d == ']'))).reverse
      if upto = [] then none
      else
        let name := upto.dropLast.drop 1
        if TrimSpace name ≠ name then none
        else
          match iniWriteSection f.sections (String.mk name) id with
          | Except.error _ => none
          | Except.ok sections => some { sections := sections, current := String.mk name }
    else
      match ini.readKeyName (c :: rest) with
      | none => none
      | some (key, text) =>
        if key = ['-'] then none
        else
          match ini.readValue text with
          | none => none
          | some value =>
            match iniWriteSection f.sections f.current
                (fun keys => mapSet keys (String.mk key) (String.mk value)) with
            | Except.error _ => none
            | Except.ok sections => some { f with sections := sections }

/-- The loop of the library's `parse` over the lines of the source. -/
def ini.parseLines (lines : List (List Char)) (f : ini.File) : Option ini.File :=
  lines.foldl (fun st line => st.bind (fun g => ini.parseLine g line)) (some f)

/-- The names a section name has before one of its dots, the names of the sections a child
section takes the keys it lacks from: `a.b.c` has `a` and `a.b`; a leading dot gives the
empty name, which stands for the default section. -/
def ini.dotPrefixes : List Char → List (List Char)
  | [] => []
  | c :: cs =>
    (if c = '.' then [[]] else []) ++ (ini.dotPrefixes cs).map (fun pre => c :: pre)

/-- Whether a section of the file has a parent section that holds keys, from which the
library's `GetKey` would take the keys the section lacks. -/
def ini.hasKeyedParent (sections : List IniSection) : Bool :=
  sections.any (fun child => (ini.dotPrefixes child.name.data).any (fun pre =>
    sections.any (fun parent =>
      (parent.name.data == pre || (pre == [] && parent.name == "DEFAULT")) &&
        !parent.keys.isEmpty)))

/-- The library call `ini.LoadSources(...)` followed by `cfg.Sections()`, on a source of
the fragment: the sections in file order, the default section of the library first. It is
`none`, not modelled, for a source that starts with a byte order mark, for a document with a
section named `frpcgui_delete_after_date`, from which `MapTo` would fill the field of that
name, and for a document in which a section has a parent section that holds keys: in the
documents that are left, what `MapTo` makes of a section depends on that section only. -/
def ini.LoadSources (source : String) : Option (List IniSection) :=
  if source.data.head? == some (Char.ofNat 0xFEFF) then none
  else
    match ini.parseLines (Split source.data '\n')
        { sections := [{ name := "DEFAULT", keys := [] }], current := "DEFAULT" } with
    | none => none
    | some f =>
      if f.sections.any (fun s => s.name = "frpcgui_delete_after_date") ||
          ini.hasKeyedParent f.sections then none
      else some f.sections

/-- The library's `parseBool`. -/
def ini.parseBool (str : String) : Option Bool :=
  if str ∈ ["1", "t", "T", "true", "TRUE", "True", "YES", "yes", "Yes", "y", "ON", "on",
      "On"] then some true
  else if str ∈ ["0", "f", "F", "false", "FALSE", "False", "NO", "no", "No", "n", "OFF",
      "off", "Off"] then some false
  else none

/-- Go `strconv.ParseInt(s, 0, 64)` on a decimal numeral without sign, without a leading
zero and without underscore: the value, or the inner `none` for a value out of range. The
outer `none` is every other text, not modelled. -/
def ini.parseInt (s : List Char) : Option (Option Int) :=
  match s with
  | [] => none
  | c :: rest =>
    if (c :: rest).all (fun d => decide (48 ≤ d.toNat) && decide (d.toNat ≤ 57)) &&
        (c != '0' || rest == []) then some (Atoi s)
    else none

/-- How `MapTo` sets a struct field from the key named by its `ini` tag: by the kind of the
field. `other` is a field whose kind is not modelled. -/
inductive IniField (σ : Type) where
  | str (set : String → σ → σ)
  | bool (set : Bool → σ → σ)
  | int (set : Int → σ → σ)
  | time (set : GoTime → σ → σ)
  | other

/-- One round of the loop of the library's `mapToField`, for a field that is not a struct:
nothing when the section has no key of that name; otherwise `setWithProperType` on
`key.String()`, which sets a string field unless the value is empty, and a boolean, integer
or time field unless the value does not parse (`MapTo` is not strict). The argument
`timeParse` is `time.Parse(time.RFC3339, s)`. It is `none`, not modelled, for a value that
holds a percent sign, which `key.String()` may expand, and for a key of a field of kind
`other`. -/
def ini.mapToField {σ : Type} (timeParse : String → Option GoTime) (section_ : IniSection)
    (st : Option σ) (field : String × IniField σ) : Option σ :=
  match st with
  | none => none
  | some c =>
    match section_.keys.lookup field.1 with
    | none => some c
    | some v =>
      if v.data.contains '%' then none
      else
        match field.2 with
        | IniField.str set => some (if v = "" then c else set v c)
        | IniField.bool set =>
          some (match ini.parseBool v with
            | some b => set b c
            | none => c)
        | IniField.int set =>
          match ini.parseInt v.data with
          | none => none
          | some (some i) => some (set i c)
          | some none => some c
        | IniField.time set =>
          some (match timeParse v with
            | some t => set t c
            | none => c)
        | IniField.other => none

/-- The library call `section.MapTo(&v)`, on a section of a document of the fragment, for
a struct whose fields, embedded structs included, are listed with their `ini` keys in
declaration order. -/
def ini.MapTo {σ : Type} (timeParse : String → Option GoTime)
    (fields : List (String × IniField σ)) (section_ : IniSection) (v : σ) : Option σ :=
  fields.foldl (ini.mapToField timeParse section_) (some v)

/-- Modelled from the spec: the `ini` keys of the struct `AutoDelete`, whose declaration is
outside the sources at hand. The keys of the method and of the date are those the decoder
test writes; the day count is not modelled. -/
def ini.autoDeleteFields : List (String × IniField ClientCommon) :=
  [("frpcgui_delete_method", IniField.str (fun v c => { c with DeleteMethod := v })),
   ("frpcgui_delete_after_days", IniField.other),
   ("frpcgui_delete_after_date", IniField.time (fun v c => { c with DeleteAfterDate := v }))]

/-- The fields of `ClientCommon` that `MapTo` visits, by the `ini` tags of the struct: the
fields of the embedded `ClientAuth`, the fields of `ClientCommon`, the fields of the
embedded `AutoDelete`. After an embedded struct the library looks for a key with the name of
the struct, which is not modelled. The slice `Start` is not modelled. -/
def ini.clientCommonFields : List (String × IniField ClientCommon) :=
  [("authentication_method", IniField.str (fun v c => { c with AuthMethod := v })),
   ("authenticate_heartbeats", IniField.bool (fun v c => { c with AuthenticateHeartBeats := v })),
   ("authenticate_new_work_conns",
     IniField.bool (fun v c => { c with AuthenticateNewWorkConns := v })),
   ("token", IniField.str (fun v c => { c with Token := v })),
   ("oidc_client_id", IniField.str (fun v c => { c with OIDCClientId := v })),
   ("oidc_client_secret", IniField.str (fun v c => { c with OIDCClientSecret := v })),
   ("oidc_audience", IniField.str (fun v c => { c with OIDCAudience := v })),
   ("oidc_scope", IniField.str (fun v c => { c with OIDCScope := v })),
   ("oidc_token_endpoint_url", IniField.str (fun v c => { c with OIDCTokenEndpoint := v })),
   ("ClientAuth", IniField.other),
   ("server_addr", IniField.str (fun v c => { c with ServerAddress := v })),
   ("server_port", IniField.int (fun v c => { c with ServerPort := v })),
   ("nat_hole_stun_server", IniField.str (fun v c => { c with NatHoleSTUNServer := v })),
   ("dial_server_timeout", IniField.int (fun v c => { c with DialServerTimeout := v })),
   ("dial_server_keepalive", IniField.int (fun v c => { c with DialServerKeepAlive := v })),
   ("connect_server_local_ip", IniField.str (fun v c => { c with ConnectServerLocalIP := v })),
   ("http_proxy", IniField.str (fun v c => { c with HTTPProxy := v })),
   ("log_file", IniField.str (fun v c => { c with LogFile := v })),
   ("log_level", IniField.str (fun v c => { c with LogLevel := v })),
   ("log_max_days", IniField.int (fun v c => { c with LogMaxDays := v })),
   ("admin_addr", IniField.str (fun v c => { c with AdminAddr := v })),
   ("admin_port", IniField.int (fun v c => { c with AdminPort := v })),
   ("admin_user", IniField.str (fun v c => { c with AdminUser := v })),
   ("admin_pwd", IniField.str (fun v c => { c with AdminPwd := v })),
   ("assets_dir", IniField.str (fun v c => { c with AssetsDir := v })),
   ("pool_count", IniField.int (fun v c => { c with PoolCount := v })),
   ("dns_server", IniField.str (fun v c => { c with DNSServer := v })),
   ("protocol", IniField.str (fun v c => { c with Protocol := v })),
   ("quic_keepalive_period", IniField.int (fun v c => { c with QUICKeepalivePeriod := v })),
   ("quic_max_idle_timeout", IniField.int (fun v c => { c with QUICMaxIdleTimeout := v })),
   ("quic_max_incoming_streams", IniField.int (fun v c => { c with QUICMaxIncomingStreams := v })),
   ("login_fail_exit", IniField.bool (fun v c => { c with LoginFailExit := v })),
   ("user", IniField.str (fun v c => { c with User := v })),
   ("heartbeat_interval", IniField.int (fun v c => { c with HeartbeatInterval := v })),
   ("heartbeat_timeout", IniField.int (fun v c => { c with HeartbeatTimeout := v })),
   ("tcp_mux", IniField.bool (fun v c => { c with TCPMux := v })),
   ("tcp_mux_keepalive_interval",
     IniField.int (fun v c => { c with TCPMuxKeepaliveInterval := v })),
   ("tls_enable", IniField.bool (fun v c => { c with TLSEnable := v })),
   ("tls_cert_file", IniField.str (fun v c => { c with TLSCertFile := v })),
   ("tls_key_file", IniField.str (fun v c => { c with TLSKeyFile := v })),
   ("tls_trusted_ca_file", IniField.str (fun v c => { c with TLSTrustedCaFile := v })),
   ("tls_server_name", IniField.str (fun v c => { c with TLSServerName := v })),
   ("udp_packet_size", IniField.int (fun v c => { c with UDPPacketSize := v })),
   ("start", IniField.other),
   ("pprof_enable", IniField.bool (fun v c => { c with PprofEnable := v })),
   ("disable_custom_tls_first_byte",
     IniField.bool (fun v c => { c with DisableCustomTLSFirstByte := v })),
   ("frpcgui_name", IniField.str (fun v c => { c with Name := v })),
   ("frpcgui_manual_start", IniField.bool (fun v c => { c with ManualStart := v }))] ++
  ini.autoDeleteFields ++ [("AutoDelete", IniField.other)]

/-- The fields of `Proxy` that `MapTo` visits, by the `ini` tags of the struct: the fields
of the embedded `BaseProxyConf` with its embedded `PluginParams` and `HealthCheckConf`,
then the fields of `Proxy`. -/
def ini.proxyFields : List (String × IniField Proxy) :=
  [("type", IniField.str (fun v p => { p with Type_ := v })),
   ("use_encryption", IniField.bool (fun v p => { p with UseEncryption := v })),
   ("use_compression", IniField.bool (fun v p => { p with UseCompression := v })),
   ("group", IniField.str (fun v p => { p with Group := v })),
   ("group_key", IniField.str (fun v p => { p with GroupKey := v })),
   ("proxy_protocol_version", IniField.str (fun v p => { p with ProxyProtocolVersion := v })),
   ("bandwidth_limit", IniField.str (fun v p => { p with BandwidthLimit := v })),
   ("bandwidth_limit_mode", IniField.str (fun v p => { p with BandwidthLimitMode := v })),
   ("local_ip", IniField.str (fun v p => { p with LocalIP := v })),
   ("local_port", IniField.str (fun v p => { p with LocalPort := v })),
   ("plugin", IniField.str (fun v p => { p with Plugin := v })),
   ("plugin_local_addr", IniField.str (fun v p => { p with PluginLocalAddr := v })),
   ("plugin_crt_path", IniField.str (fun v p => { p with PluginCrtPath := v })),
   ("plugin_key_path", IniField.str (fun v p => { p with PluginKeyPath := v })),
   ("plugin_host_header_rewrite",
     IniField.str (fun v p => { p with PluginHostHeaderRewrite := v })),
   ("plugin_http_user", IniField.str (fun v p => { p with PluginHttpUser := v })),
   ("plugin_http_passwd", IniField.str (fun v p => { p with PluginHttpPasswd := v })),
   ("plugin_user", IniField.str (fun v p => { p with PluginUser := v })),
   ("plugin_passwd", IniField.str (fun v p => { p with PluginPasswd := v })),
   ("plugin_local_path", IniField.str (fun v p => { p with PluginLocalPath := v })),
   ("plugin_strip_prefix", IniField.str (fun v p => { p with PluginStripPrefix := v })),
   ("plugin_unix_path", IniField.str (fun v p => { p with PluginUnixPath := v })),
   ("PluginParams", IniField.other),
   ("health_check_type", IniField.str (fun v p => { p with HealthCheckType := v })),
   ("health_check_timeout_s", IniField.int (fun v p => { p with HealthCheckTimeoutS := v })),
   ("health_check_max_failed", IniField.int (fun v p => { p with HealthCheckMaxFailed := v })),
   ("health_check_interval_s", IniField.int (fun v p => { p with HealthCheckIntervalS := v })),
   ("health_check_url", IniField.str (fun v p => { p with HealthCheckURL := v })),
   ("HealthCheckConf", IniField.other),
   ("BaseProxyConf", IniField.other),
   ("remote_port", IniField.str (fun v p => { p with RemotePort := v })),
   ("role", IniField.str (fun v p => { p with Role := v })),
   ("sk", IniField.str (fun v p => { p with SK := v })),
   ("allow_users", IniField.str (fun v p => { p with AllowUsers := v })),
   ("server_user", IniField.str (fun v p => { p with ServerUser := v })),
   ("server_name", IniField.str (fun v p => { p with ServerName := v })),
   ("bind_addr", IniField.str (fun v p => { p with BindAddr := v })),
   ("bind_port", IniField.int (fun v p => { p with BindPort := v })),
   ("custom_domains", IniField.str (fun v p => { p with CustomDomains := v })),
   ("subdomain", IniField.str (fun v p => { p with SubDomain := v })),
   ("locations", IniField.str (fun v p => { p with Locations := v })),
   ("http_user", IniField.str (fun v p => { p with HTTPUser := v })),
   ("http_pwd", IniField.str (fun v p => { p with HTTPPwd := v })),
   ("host_header_rewrite", IniField.str (fun v p => { p with HostHeaderRewrite := v })),
   ("multiplexer", IniField.str (fun v p => { p with Multiplexer := v })),
   ("route_by_http_user", IniField.str (fun v p => { p with RouteByHTTPUser := v })),
   ("protocol", IniField.str (fun v p => { p with Protocol := v })),
   ("keep_tunnel_open", IniField.bool (fun v p => { p with KeepTunnelOpen := v })),
   ("max_retries_an_hour", IniField.int (fun v p => { p with MaxRetriesAnHour := v })),
   ("min_retry_interval", IniField.int (fun v p => { p with MinRetryInterval := v })),
   ("fallback_to", IniField.str (fun v p => { p with FallbackTo := v })),
   ("fallback_timeout_ms", IniField.int (fun v p => { p with FallbackTimeoutMs := v }))]

/-! ## Documents of the shape of the decoder test -/

/-- The text of a section line: the indentation, then the name in brackets. -/
def ini.sectionLine (indent name : List Char) : List Char :=
  indent ++ ('[' :: name ++ [']'])

/-- The text of a key line: the indentation, the key, ` = `, the value. -/
def ini.keyLine (indent key value : List Char) : List Char :=
  indent ++ (key ++ ' ' :: '=' :: ' ' :: value)

/-- The text does not start with white space. -/
def startsPlain (v : List Char) : Bool :=
  match v.head? with
  | some c => !isSpace c
  | none => true

/-- The text does not end with white space. -/
def endsPlain (v : List Char) : Bool :=
  match v.getLast? with
  | some c => !isSpace c
  | none => true

/-- A value that an ini file holds as it is written, on one line: no line break, no white
space at either end, no leading backquote (code 96) or triple double quote, no trailing
backslash (code 92), and no pair of single or double quotes around it. -/
def IsPlainValue (v : String) : Prop :=
  '\n' ∉ v.data ∧ startsPlain v.data = true ∧ endsPlain v.data = true ∧
  [Char.ofNat 34, Char.ofNat 34, Char.ofNat 34].isPrefixOf v.data = false ∧
  v.data.head? ≠ some (Char.ofNat 96) ∧ v.data.getLast? ≠ some (Char.ofNat 92) ∧
  ini.hasSurroundedQuote v.data (Char.ofNat 39) = false ∧
  ini.hasSurroundedQuote v.data (Char.ofNat 34) = false

instance (v : String) : Decidable (IsPlainValue v) := by
  unfold IsPlainValue
  exact inferInstance

/-- A key that an ini file holds as it is written: not empty, no line break, no delimiter
`=` or `:`, no white space at either end, not starting with a comment sign, a bracket, a
double quote (code 34) or a backquote (code 96), and not the auto-increment key `-`. -/
def IsPlainKey (key : String) : Prop :=
  key.data ≠ [] ∧ '\n' ∉ key.data ∧
  key.data.head? ≠ some '#' ∧ key.data.head? ≠ some ';' ∧ key.data.head? ≠ some '[' ∧
  key.data.head? ≠ some (Char.ofNat 34) ∧ key.data.head? ≠ some (Char.ofNat 96) ∧
  '=' ∉ key.data ∧ ':' ∉ key.data ∧ startsPlain key.data = true ∧
  endsPlain key.data = true ∧ key.data ≠ ['-']

instance (key : String) : Decidable (IsPlainKey key) := by
  unfold IsPlainKey
  exact inferInstance

/-- The rest of a key name after a literal first part: no line break, no delimiter `=` or
`:`, no white space at the end. -/
def IsPlainKeyTail (key : String) : Prop :=
  '\n' ∉ key.data ∧ '=' ∉ key.data ∧ ':' ∉ key.data ∧ endsPlain key.data = true

instance (key : String) : Decidable (IsPlainKeyTail key) := by
  unfold IsPlainKeyTail
  exact inferInstance

/-- The values of a legacy document of the shape of the one in
`TestUnmarshalClientConfFromIni`: a `[common]` block with server address, server port,
token, manual-start flag, the absolute delete method with its date, and one metadata key;
then one tcp proxy section with local ip, local port, remote port and one metadata key. -/
structure LegacyScenario where
  indent : String
  serverAddr : String
  serverPort : Nat
  token : String
  manualStart : Bool
  dateText : String
  date : GoTime
  metaKey : String
  metaValue : String
  proxyName : String
  localIP : String
  localPort : String
  remotePort : String
  proxyMetaKey : String
  proxyMetaValue : String

/-- The keys of the `[common]` block with their values, as the document writes them. -/
def LegacyScenario.commonKeys (s : LegacyScenario) : List (String × String) :=
  [("server_addr", s.serverAddr),
   ("server_port", toString s.serverPort),
   ("token", s.token),
   ("frpcgui_manual_start", if s.manualStart then "true" else "false"),
   ("frpcgui_delete_method", "absolute"),
   ("frpcgui_delete_after_date", s.dateText),
   ("meta_" ++ s.metaKey, s.metaValue)]

/-- The keys of the proxy section with their values, as the document writes them. -/
def LegacyScenario.proxyKeys (s : LegacyScenario) : List (String × String) :=
  [("type", "tcp"),
   ("local_ip", s.localIP),
   ("local_port", s.localPort),
   ("remote_port", s.remotePort),
   ("meta_" ++ s.proxyMetaKey, s.proxyMetaValue)]

/-- The lines of the document, laid out as in the test: an empty first line, the `[common]`
block, a line of indentation only, the proxy section, and a last line holding one tab. -/
def LegacyScenario.lines (s : LegacyScenario) : List (List Char) :=
  [[], ini.sectionLine s.indent.data "common".data] ++
  s.commonKeys.map (fun kv => ini.keyLine s.indent.data kv.1.data kv.2.data) ++
  [s.indent.data, ini.sectionLine s.indent.data s.proxyName.data] ++
  s.proxyKeys.map (fun kv => ini.keyLine s.indent.data kv.1.data kv.2.data) ++
  [['\t']]

/-- The source text of the document: its lines, joined by line breaks. -/
def LegacyScenario.document (s : LegacyScenario) : String :=
  String.mk (Join s.lines '\n')

/-- The model the test expects for the document, built as the test builds it: the default
configuration with the fields of the document assigned, the one proxy appended. -/
def LegacyScenario.expected (s : LegacyScenario) (k : Defaults) : ClientConfig :=
  { NewDefaultClientConfig k with
    LegacyFormat := true,
    ServerAddress := s.serverAddr,
    ServerPort := (s.serverPort : Int),
    Token := s.token,
    ManualStart := s.manualStart,
    Metas := some [(s.metaKey, s.metaValue)],
    DeleteMethod := "absolute",
    DeleteAfterDate := s.date,
    Proxies := (NewDefaultClientConfig k).Proxies ++
      [{ Name := s.proxyName, Type_ := "tcp", LocalIP := s.localIP, LocalPort := s.localPort,
         Metas := some [(s.proxyMetaKey, s.proxyMetaValue)], RemotePort := s.remotePort }] }

/-- The conditions under which the document says what its values are: the indentation is
white space without line break; the port fits Go's `int`; the token is not empty; the values
are plain, and those of keys that name a field hold no percent sign; the metadata keys have
plain tails; the name of the proxy is not empty, not `common`, `DEFAULT` or
`frpcgui_delete_after_date`, has no line break and no white space at either end, is not the
name of a child section of `common`, and does not start with the marker of range
proxies. -/
structure LegacyScenario.WellFormed (s : LegacyScenario) : Prop where
  indent : ∀ c ∈ s.indent.data, isSpace c = true ∧ c ≠ '\n'
  serverPort : (s.serverPort : Int) ≤ maxInt
  token : s.token ≠ ""
  serverAddrPlain : IsPlainValue s.serverAddr ∧ '%' ∉ s.serverAddr.data
  tokenPlain : IsPlainValue s.token ∧ '%' ∉ s.token.data
  dateTextPlain : IsPlainValue s.dateText ∧ '%' ∉ s.dateText.data
  metaKeyPlain : IsPlainKeyTail s.metaKey
  metaValuePlain : IsPlainValue s.metaValue
  localIPPlain : IsPlainValue s.localIP ∧ '%' ∉ s.localIP.data
  localPortPlain : IsPlainValue s.localPort ∧ '%' ∉ s.localPort.data
  remotePortPlain : IsPlainValue s.remotePort ∧ '%' ∉ s.remotePort.data
  proxyMetaKeyPlain : IsPlainKeyTail s.proxyMetaKey
  proxyMetaValuePlain : IsPlainValue s.proxyMetaValue
  proxyName : s.proxyName ≠ "" ∧ s.proxyName ≠ "common" ∧ s.proxyName ≠ "DEFAULT" ∧
    s.proxyName ≠ "frpcgui_delete_after_date" ∧ '\n' ∉ s.proxyName.data ∧
    "common".data ∉ ini.dotPrefixes s.proxyName.data ∧
    startsPlain s.proxyName.data = true ∧
    endsPlain s.proxyName.data = true ∧ HasPrefix s.proxyName RangePrefix = false

/-- Example: the values of the document of `TestUnmarshalClientConfFromIni`. -/
def exampleScenario : LegacyScenario :=
  { indent := "\t\t", serverAddr := "example.com", serverPort := 7001, token := "123456",
    manualStart := true, dateText := "2023-03-23T00:00:00Z", date := exampleLegacyDate,
    metaKey := "1", metaValue := "value", proxyName := "ssh", localIP := "192.168.1.1",
    localPort := "22", remotePort := "6000", proxyMetaKey := "2", proxyMetaValue := "value" }

/-- Example: a document of the same shape with other values: two spaces of indentation, the
port 0, a token with a delimiter and a comment sign, the flag written `false`, a metadata
value with a blank, a proxy name with a dot, an empty local ip, port ranges, and the empty
metadata key. -/
def exampleOtherScenario : LegacyScenario :=
  { indent := "  ", serverAddr := "10.0.0.1", serverPort := 0, token := "s3cret=#1",
    manualStart := false, dateText := "2023-03-23T00:00:00Z", date := exampleLegacyDate,
    metaKey := "owner", metaValue := "a b", proxyName := "web.home-1", localIP := "",
    localPort := "8080-8081", remotePort := "9080-9081", proxyMetaKey := "",
    proxyMetaValue := "x:y" }

/-- Example: the source text of `exampleOtherScenario`. -/
def exampleOtherSource : String :=
  "\n  [common]\n  server_addr = 10.0.0.1\n  server_port = 0\n" ++
  "  token = s3cret=#1\n  frpcgui_manual_start = false\n" ++
  "  frpcgui_delete_method = absolute\n" ++
  "  frpcgui_delete_after_date = 2023-03-23T00:00:00Z\n  meta_owner = a b\n  \n" ++
  "  [web.home-1]\n  type = tcp\n  local_ip = \n  local_port = 8080-8081\n" ++
  "  remote_port = 9080-9081\n  meta_ = x:y\n\t"

/-- Example: the document of the test with the line `token = `, the token empty. -/
def exampleEmptyTokenScenario : LegacyScenario := { exampleScenario with token := "" }

/-- Example: the document of the test with the proxy section named `range:ssh`. -/
def exampleMarkedNameScenario : LegacyScenario :=
  { exampleScenario with proxyName := "range:ssh" }

/-- Example: the document of the test with the proxy section named `common`, a second
`[common]` line. -/
def exampleCommonNameScenario : LegacyScenario :=
  { exampleScenario with proxyName := "common" }

/-- Example: the document of the test with the port 9223372036854775808, one more than the
largest `int`. -/
def exampleLargePortScenario : LegacyScenario :=
  { exampleScenario with serverPort := 9223372036854775808 }

/-- Example: the document of the test with a blank at the start of the server address, two
blanks after the delimiter. -/
def examplePaddedScenario : LegacyScenario :=
  { exampleScenario with serverAddr := " example.com" }

/-- Example: a stand-in for `time.Parse(time.RFC3339, s)` that knows the date of the test
document only. -/
def exampleTimeParse (s : String) : Option GoTime :=
  if s = "2023-03-23T00:00:00Z" then some exampleLegacyDate else none

/-- Example: a stand-in for the libraries whose ini calls are the model of the library on
plain documents, and fail outside it. -/
def exampleIniLibs : Libs :=
  { exampleLibs with
    iniLoad := fun source =>
      match ini.LoadSources source with
      | some sections => Except.ok sections
      | none => Except.error "not modelled"
    iniMapCommon := fun section_ c =>
      match ini.MapTo exampleTimeParse ini.clientCommonFields section_ c with
      | some mapped => Except.ok mapped
      | none => Except.error "not modelled"
    iniMapProxy := fun section_ p =>
      match ini.MapTo exampleTimeParse ini.proxyFields section_ p with
      | some mapped => Except.ok mapped
      | none => Except.error "not modelled" }

/-- The field of the configuration the legacy decoder returns for the document of the
scenario, with the stand-in library `exampleIniLibs`; `none` when the decoder does not return
a configuration. -/
def LegacyScenario.decoded {α : Type} (s : LegacyScenario) (field : ClientConfig → α) :
    Option α :=
  match UnmarshalClientConfFromIni exampleIniLibs exampleDefaults s.document with
  | some (Except.ok conf) => some (field conf)
  | _ => none

/-! # Theorems -/

/-! ## Capability projection: the tag test -/

theorem tagAccepts_nil (value tag : String) : tagAccepts [] value tag = false := rfl

theorem tagAccepts_cons (k v : String) (rest : StructTag) (value tag : String) :
    tagAccepts ((k, v) :: rest) value tag =
      if tag = k then (v == "*" || v == value) else tagAccepts rest value tag := by
  unfold tagAccepts
  by_cases h : tag = k
  · subst h; simp [List.lookup]
  · have : (tag == k) = false := by simpa using h
    simp [List.lookup, this, h]

/-! ## C10: the auth block is projected onto its method -/

/-- C10: `ClientAuth.Complete` projects the auth block onto its method. An empty method
gives the zero block. The oidc method keeps the method, the two authentication flags and the
OIDC fields and clears the token fields. The token method keeps the two flags and the token
fields and clears the OIDC fields; in addition a non-empty `TokenSource` clears `Token`, an
empty `TokenSource` clears `TokenSourceFile`, and with `Token` empty as well the method is
reset to empty. Any other method keeps only the method, no field being tagged for it. Hence
the resulting method is empty exactly when the input method was empty or the input had the
token method with neither a token nor a token source. -/
theorem C10_auth_complete_projection (ca : ClientAuth) :
    (ca.AuthMethod = "" → ca.Complete = {}) ∧
    (ca.AuthMethod = "oidc" → ca.Complete =
      { AuthMethod := "oidc",
        AuthenticateHeartBeats := ca.AuthenticateHeartBeats,
        AuthenticateNewWorkConns := ca.AuthenticateNewWorkConns,
        OIDCClientId := ca.OIDCClientId,
        OIDCClientSecret := ca.OIDCClientSecret,
        OIDCAudience := ca.OIDCAudience,
        OIDCScope := ca.OIDCScope,
        OIDCTokenEndpoint := ca.OIDCTokenEndpoint,
        OIDCAdditionalEndpointParams := ca.OIDCAdditionalEndpointParams }) ∧
    (ca.AuthMethod = "token" → ca.TokenSource ≠ "" → ca.Complete =
      { AuthMethod := "token",
        AuthenticateHeartBeats := ca.AuthenticateHeartBeats,
        AuthenticateNewWorkConns := ca.AuthenticateNewWorkConns,
        Token := "",
        TokenSource := ca.TokenSource,
        TokenSourceFile := ca.TokenSourceFile }) ∧
    (ca.AuthMethod = "token" → ca.TokenSource = "" → ca.Token ≠ "" → ca.Complete =
      { AuthMethod := "token",
        AuthenticateHeartBeats := ca.AuthenticateHeartBeats,
        AuthenticateNewWorkConns := ca.AuthenticateNewWorkConns,
        Token := ca.Token,
        TokenSource := "",
        TokenSourceFile := "" }) ∧
    (ca.AuthMethod = "token" → ca.TokenSource = "" → ca.Token = "" → ca.Complete =
      { AuthMethod := "",
        AuthenticateHeartBeats := ca.AuthenticateHeartBeats,
        AuthenticateNewWorkConns := ca.AuthenticateNewWorkConns }) ∧
    (ca.AuthMethod ≠ "" → ca.AuthMethod ≠ "oidc" → ca.AuthMethod ≠ "token" →
      ca.Complete = { AuthMethod := ca.AuthMethod }) ∧
    (ca.Complete.AuthMethod = "" ↔
      ca.AuthMethod = "" ∨ (ca.AuthMethod = "token" ∧ ca.Token = "" ∧ ca.TokenSource = "")) := by
  refine ⟨?_, ?_, ?_, ?_, ?_, ?_, ?_⟩
  · intro h
    simp [ClientAuth.Complete, h]
  · intro h
    simp [ClientAuth.Complete, PruneByTag, Taggable.prune, pruneField, tagAccepts_cons,
      tagAccepts_nil, h, AuthToken]
  · intro h hs
    simp [ClientAuth.Complete, PruneByTag, Taggable.prune, pruneField, tagAccepts_cons,
      tagAccepts_nil, h, hs, AuthToken]
  · intro h hs ht
    simp [ClientAuth.Complete, PruneByTag, Taggable.prune, pruneField, tagAccepts_cons,
      tagAccepts_nil, h, hs, ht, AuthToken]
  · intro h hs ht
    simp [ClientAuth.Complete, PruneByTag, Taggable.prune, pruneField, tagAccepts_cons,
      tagAccepts_nil, h, hs, ht, AuthToken]
  · intro h0 h1 h2
    simp [ClientAuth.Complete, PruneByTag, Taggable.prune, pruneField, tagAccepts_cons,
      tagAccepts_nil, h0, h1, h2, AuthToken]
  · by_cases h0 : ca.AuthMethod = ""
    · simp [ClientAuth.Complete, h0]
    · by_cases ht : ca.AuthMethod = "token"
      · by_cases hs : ca.TokenSource = "" <;> by_cases hk : ca.Token = "" <;>
          simp [ClientAuth.Complete, PruneByTag, Taggable.prune, pruneField, tagAccepts_cons,
            tagAccepts_nil, ht, hs, hk, AuthToken]
      · simp [ClientAuth.Complete, h0, ht, AuthToken]

/-! ## Digits, `Atoi`, `Split`, `TrimSpace` and the range loop -/

theorem decimalValue_nil : decimalValue [] = 0 := by
  simp [decimalValue]

theorem decimalValue_cons (c : Char) (cs : List Char) :
    decimalValue (c :: cs) = (c.toNat - 48) * 10 ^ cs.length + decimalValue cs := by
  simp [decimalValue, Nat.ofDigits_append]
  ring

theorem decimalValue_append_singleton (cs : List Char) (c : Char) :
    decimalValue (cs ++ [c]) = decimalValue cs * 10 + (c.toNat - 48) := by
  simp [decimalValue, Nat.ofDigits_cons]
  ring

theorem digitsValue_eq_some_iff (l : List Char) (acc v : Nat) :
    digitsValue l acc = some v ↔
      (∀ c ∈ l, IsDigitChar c) ∧ v = acc * 10 ^ l.length + decimalValue l := by
  induction l generalizing acc with
  | nil => simp [digitsValue, decimalValue_nil, eq_comm]
  | cons c cs ih =>
    by_cases hc : 48 ≤ c.toNat ∧ c.toNat ≤ 57
    · simp only [digitsValue, hc, and_self, if_true, ih, List.mem_cons, forall_eq_or_imp,
        IsDigitChar, true_and, decimalValue_cons, List.length_cons]
      constructor
      · rintro ⟨h1, h2⟩; refine ⟨h1, ?_⟩; rw [h2]; ring
      · rintro ⟨h1, h2⟩; refine ⟨h1, ?_⟩; rw [h2]; ring
    · simp only [digitsValue, hc, if_false, List.mem_cons, forall_eq_or_imp, IsDigitChar,
        false_and, reduceCtorEq]

theorem digitsValue_zero_eq_some_iff (l : List Char) (v : Nat) :
    digitsValue l 0 = some v ↔ (∀ c ∈ l, IsDigitChar c) ∧ v = decimalValue l := by
  simp [digitsValue_eq_some_iff]

theorem not_isDigitChar_minus : ¬ IsDigitChar '-' := by unfold IsDigitChar; decide

theorem not_isDigitChar_plus : ¬ IsDigitChar '+' := by unfold IsDigitChar; decide

theorem Atoi_eq_some_iff (t : List Char) (v : Int) :
    Atoi t = some v ↔ IsDecimalInt t v ∧ FitsInt v := by
  cases t with
  | nil =>
    simp only [Atoi, List.head?_nil, reduceCtorEq, or_self, if_false, if_true, false_iff,
      not_and]
    rintro ⟨digits, hne, -, (⟨h | h, -⟩ | ⟨h, -⟩)⟩
    · exact absurd h.symm hne
    · cases h
    · cases h
  | cons c cs =>
    by_cases hm : c = '-'
    · subst hm
      simp only [Atoi, List.head?_cons, true_or, if_true, List.tail_cons]
      by_cases hcs : cs = []
      · subst hcs
        simp only [if_true, reduceCtorEq, false_iff, not_and]
        rintro ⟨digits, hne, hd, (⟨h | h, -⟩ | ⟨h, -⟩)⟩
        · have := hd '-' (by rw [← h]; simp)
          exact absurd this not_isDigitChar_minus
        · cases h
        · simp only [List.cons.injEq, true_and] at h
          exact absurd h.symm hne
      · simp only [hcs, if_false]
        cases hv : digitsValue cs 0 with
        | none =>
          simp only [reduceCtorEq, false_iff, not_and]
          rintro ⟨digits, hne, hd, (⟨h | h, -⟩ | ⟨h, -⟩)⟩
          · have := hd '-' (by rw [← h]; simp)
            exact absurd this not_isDigitChar_minus
          · cases h
          · simp only [List.cons.injEq, true_and] at h
            subst h
            have : digitsValue cs 0 = some (decimalValue cs) :=
              (digitsValue_zero_eq_some_iff cs _).2 ⟨hd, rfl⟩
            rw [hv] at this
            cases this
        | some n =>
          obtain ⟨hd, hn⟩ := (digitsValue_zero_eq_some_iff cs n).1 hv
          simp only []
          constructor
          · intro h
            split at h
            · rename_i hle
              simp only [Option.some.injEq] at h
              subst h
              refine ⟨⟨cs, hcs, hd, Or.inr ⟨rfl, by rw [hn]⟩⟩, ?_, ?_⟩
              · omega
              · omega
            · cases h
          · rintro ⟨⟨digits, hne, hd2, (⟨h | h, -⟩ | ⟨h, hval⟩)⟩, hfit⟩
            · have := hd2 '-' (by rw [← h]; simp)
              exact absurd this not_isDigitChar_minus
            · cases h
            · simp only [List.cons.injEq, true_and] at h
              subst h
              rw [← hn] at hval
              have hle : n ≤ 9223372036854775808 := by
                have := hfit.1
                omega
              simp [hle, hval]
    · by_cases hp : c = '+'
      · subst hp
        simp only [Atoi, List.head?_cons, or_true, if_true, List.tail_cons, Option.some.injEq,
          Char.reduceEq, if_false]
        by_cases hcs : cs = []
        · subst hcs
          simp only [if_true, reduceCtorEq, false_iff, not_and]
          rintro ⟨digits, hne, hd, (⟨h | h, -⟩ | ⟨h, -⟩)⟩
          · have := hd '+' (by rw [← h]; simp)
            exact absurd this not_isDigitChar_plus
          · simp only [List.cons.injEq, true_and] at h
            exact absurd h.symm hne
          · cases h
        · simp only [hcs, if_false]
          cases hv : digitsValue cs 0 with
          | none =>
            simp only [reduceCtorEq, false_iff, not_and]
            rintro ⟨digits, hne, hd, (⟨h | h, -⟩ | ⟨h, -⟩)⟩
            · have := hd '+' (by rw [← h]; simp)
              exact absurd this not_isDigitChar_plus
            · simp only [List.cons.injEq, true_and] at h
              subst h
              have : digitsValue cs 0 = some (decimalValue cs) :=
                (digitsValue_zero_eq_some_iff cs _).2 ⟨hd, rfl⟩
              rw [hv] at this
              cases this
            · cases h
          | some n =>
            obtain ⟨hd, hn⟩ := (digitsValue_zero_eq_some_iff cs n).1 hv
            simp only []
            constructor
            · intro h
              split at h
              · simp only [Option.some.injEq] at h
                subst h
                refine ⟨⟨cs, hcs, hd, Or.inl ⟨Or.inr rfl, by rw [hn]⟩⟩, ?_, ?_⟩
                · omega
                · omega
              · cases h
            · rintro ⟨⟨digits, hne, hd2, (⟨h | h, hval⟩ | ⟨h, -⟩)⟩, hfit⟩
              · have := hd2 '+' (by rw [← h]; simp)
                exact absurd this not_isDigitChar_plus
              · simp only [List.cons.injEq, true_and] at h
                subst h
                rw [← hn] at hval
                have hle : n ≤ 9223372036854775807 := by
                  have := hfit.2
                  omega
                simp [hle, hval]
              · simp only [List.cons.injEq] at h
                exact absurd h.1 (by decide)
      · simp only [Atoi, List.head?_cons, Option.some.injEq, hm, hp, or_self, if_false,
          reduceCtorEq]
        cases hv : digitsValue (c :: cs) 0 with
        | none =>
          simp only [reduceCtorEq, false_iff, not_and]
          rintro ⟨digits, hne, hd, (⟨h | h, -⟩ | ⟨h, -⟩)⟩
          · subst h
            have : digitsValue (c :: cs) 0 = some (decimalValue (c :: cs)) :=
              (digitsValue_zero_eq_some_iff _ _).2 ⟨hd, rfl⟩
            rw [hv] at this
            cases this
          · simp only [List.cons.injEq] at h
            exact absurd h.1 hp
          · simp only [List.cons.injEq] at h
            exact absurd h.1 hm
        | some n =>
          obtain ⟨hd, hn⟩ := (digitsValue_zero_eq_some_iff _ n).1 hv
          simp only []
          constructor
          · intro h
            split at h
            · simp only [Option.some.injEq] at h
              subst h
              refine ⟨⟨c :: cs, by simp, hd, Or.inl ⟨Or.inl rfl, by rw [hn]⟩⟩, ?_, ?_⟩
              · omega
              · omega
            · cases h
          · rintro ⟨⟨digits, hne, hd2, (⟨h | h, hval⟩ | ⟨h, -⟩)⟩, hfit⟩
            · subst h
              rw [← hn] at hval
              have hle : n ≤ 9223372036854775807 := by
                have := hfit.2
                omega
              simp [hle, hval]
            · simp only [List.cons.injEq] at h
              exact absurd h.1 hp
            · simp only [List.cons.injEq] at h
              exact absurd h.1 hm

theorem Split_ne_nil (l : List Char) (sep : Char) : Split l sep ≠ [] := by
  cases l with
  | nil => simp [Split]
  | cons c cs =>
    simp only [Split]
    split
    · simp
    · split <;> simp

theorem Split_of_not_mem (l : List Char) (sep : Char) (h : sep ∉ l) : Split l sep = [l] := by
  induction l with
  | nil => simp [Split]
  | cons c cs ih =>
    simp only [List.mem_cons, not_or] at h
    have hc : c ≠ sep := fun e => h.1 e.symm
    simp [Split, hc, ih h.2]

theorem Split_append_sep (x rest : List Char) (sep : Char) (h : sep ∉ x) :
    Split (x ++ sep :: rest) sep = x :: Split rest sep := by
  induction x with
  | nil => simp [Split]
  | cons c cs ih =>
    simp only [List.mem_cons, not_or] at h
    have hc : c ≠ sep := fun e => h.1 e.symm
    simp [Split, hc, ih h.2]

theorem Split_Join (pieces : List (List Char)) (sep : Char) (hne : pieces ≠ [])
    (h : ∀ p ∈ pieces, sep ∉ p) : Split (Join pieces sep) sep = pieces := by
  induction pieces with
  | nil => exact absurd rfl hne
  | cons p rest ih =>
    cases rest with
    | nil => simpa [Join] using Split_of_not_mem p sep (h p (by simp))
    | cons q rest2 =>
      simp only [Join]
      rw [Split_append_sep _ _ _ (h p (by simp)), ih (by simp)]
      intro r hr
      exact h r (List.mem_cons_of_mem _ hr)

theorem Join_Split (l : List Char) (sep : Char) : Join (Split l sep) sep = l := by
  induction l with
  | nil => simp [Split, Join]
  | cons c cs ih =>
    simp only [Split]
    split
    · rename_i hc
      subst hc
      cases hs : Split cs c with
      | nil => exact absurd hs (Split_ne_nil _ _)
      | cons p ps =>
        rw [hs] at ih
        simp [Join, ih]
    · cases hs : Split cs sep with
      | nil => exact absurd hs (Split_ne_nil _ _)
      | cons p ps =>
        rw [hs] at ih
        cases ps with
        | nil => simp only [Join] at ih ⊢; rw [ih]
        | cons q qs => simp only [Join] at ih ⊢; rw [← ih]; simp

theorem not_mem_of_mem_Split (l : List Char) (sep : Char) :
    ∀ p ∈ Split l sep, sep ∉ p := by
  induction l with
  | nil => simp [Split]
  | cons c cs ih =>
    intro p hp
    simp only [Split] at hp
    split at hp
    · simp only [List.mem_cons] at hp
      rcases hp with rfl | hp
      · simp
      · exact ih p hp
    · rename_i hc
      cases hs : Split cs sep with
      | nil => exact absurd hs (Split_ne_nil _ _)
      | cons q qs =>
        rw [hs] at hp ih
        simp only [List.mem_cons] at hp
        rcases hp with rfl | hp
        · simp only [List.mem_cons, not_or]
          exact ⟨fun e => hc e.symm, ih q (by simp)⟩
        · exact ih p (by simp [hp])

theorem Split_eq_pair_iff (l p0 p1 : List Char) (sep : Char) :
    Split l sep = [p0, p1] ↔ l = p0 ++ sep :: p1 ∧ sep ∉ p0 ∧ sep ∉ p1 := by
  constructor
  · intro h
    have hj := Join_Split l sep
    have hm := not_mem_of_mem_Split l sep
    rw [h] at hj hm
    exact ⟨by simpa [Join] using hj.symm, hm p0 (by simp), hm p1 (by simp)⟩
  · rintro ⟨rfl, h0, h1⟩
    rw [Split_append_sep _ _ _ h0, Split_of_not_mem _ _ h1]

theorem dropWhile_append_of_all (p : Char → Bool) (pre l : List Char)
    (h : ∀ c ∈ pre, p c = true) : (pre ++ l).dropWhile p = l.dropWhile p := by
  induction pre with
  | nil => rfl
  | cons c cs ih =>
    simp only [List.mem_cons, forall_eq_or_imp] at h
    simp [List.dropWhile, h.1, ih h.2]

theorem dropWhile_of_head (p : Char → Bool) (l : List Char)
    (h : ∀ c, l.head? = some c → p c = false) : l.dropWhile p = l := by
  cases l with
  | nil => rfl
  | cons c cs => simp [List.dropWhile, h c rfl]

theorem mem_of_mem_dropWhile (p : Char → Bool) (l : List Char) (c : Char)
    (h : c ∈ l.dropWhile p) : c ∈ l :=
  (List.dropWhile_sublist p).subset h

theorem mem_of_mem_TrimSpace (l : List Char) (c : Char) (h : c ∈ TrimSpace l) : c ∈ l := by
  unfold TrimSpace at h
  rw [List.mem_reverse] at h
  have := mem_of_mem_dropWhile _ _ _ h
  rw [List.mem_reverse] at this
  exact mem_of_mem_dropWhile _ _ _ this

theorem TrimSpace_of_all_space (l : List Char) (h : ∀ c ∈ l, isSpace c = true) :
    TrimSpace l = [] := by
  have : l.dropWhile isSpace = [] := by
    have := dropWhile_append_of_all isSpace l [] h
    simpa using this
  simp [TrimSpace, this]

theorem TrimSpace_padded (pre core post : List Char)
    (hpre : ∀ c ∈ pre, isSpace c = true) (hpost : ∀ c ∈ post, isSpace c = true)
    (hhead : ∀ c, core.head? = some c → isSpace c = false)
    (hlast : ∀ c, core.getLast? = some c → isSpace c = false) :
    TrimSpace (pre ++ (core ++ post)) = core := by
  by_cases hcore : core = []
  · subst hcore
    apply TrimSpace_of_all_space
    intro c hc
    simp only [List.nil_append, List.mem_append] at hc
    rcases hc with hc | hc
    · exact hpre c hc
    · exact hpost c hc
  · unfold TrimSpace
    rw [dropWhile_append_of_all _ _ _ hpre]
    have h1 : (core ++ post).dropWhile isSpace = core ++ post := by
      apply dropWhile_of_head
      intro c hc
      apply hhead
      cases core with
      | nil => exact absurd rfl hcore
      | cons d ds => simpa using hc
    rw [h1, List.reverse_append,
      dropWhile_append_of_all _ _ _ (fun c hc => hpost c (List.mem_reverse.1 hc))]
    have h2 : core.reverse.dropWhile isSpace = core.reverse := by
      apply dropWhile_of_head
      intro c hc
      apply hlast
      rw [List.head?_reverse] at hc
      exact hc
    rw [h2, List.reverse_reverse]

theorem intRange_of_lt (a b : Int) (h : b < a) : intRange a b = [] := by
  have h0 : (b - a + 1).toNat = 0 := by omega
  simp [intRange, h0]

theorem intRange_cons (a b : Int) (h : a ≤ b) : intRange a b = a :: intRange (a + 1) b := by
  have hlen : (b - a + 1).toNat = (b - (a + 1) + 1).toNat + 1 := by omega
  unfold intRange
  rw [hlen, List.range_succ_eq_map, List.map_cons, List.map_map]
  congr 1
  · simp
  · apply List.map_congr_left
    intro k _
    simp only [Function.comp, Nat.cast_succ]
    ring

theorem rangeLoop_eq_some (fuel : Nat) (i stop : Int) (acc : List Int)
    (hstop : stop < maxInt) (hfuel : (stop - i + 1).toNat ≤ fuel) :
    rangeLoop fuel i stop acc = some (acc ++ intRange i stop) := by
  induction fuel generalizing i acc with
  | zero =>
    have hi : ¬ i ≤ stop := by omega
    simp [rangeLoop, hi, intRange_of_lt i stop (by omega)]
  | succ fuel ih =>
    by_cases hi : i ≤ stop
    · have hne : i ≠ maxInt := by omega
      have hrec := ih (i + 1) (acc ++ [i]) (by omega)
      simp only [rangeLoop, hi, hne, if_true, if_false, hrec, intRange_cons i stop hi,
        List.append_assoc, List.singleton_append]
    · simp [rangeLoop, hi, intRange_of_lt i stop (by omega)]

theorem rangeLoop_maxInt (fuel : Nat) (i : Int) (acc : List Int) (hi : i ≤ maxInt) :
    rangeLoop fuel i maxInt acc = none := by
  induction fuel generalizing i acc with
  | zero => simp [rangeLoop, hi]
  | succ fuel ih =>
    by_cases hne : i = maxInt
    · simp [rangeLoop, hi, hne]
    · have : i + 1 ≤ maxInt := by omega
      simp [rangeLoop, hi, hne, ih (i + 1) (acc ++ [i]) this]

theorem mem_intRange (a b n : Int) : n ∈ intRange a b ↔ a ≤ n ∧ n ≤ b := by
  unfold intRange
  rw [List.mem_map]
  constructor
  · rintro ⟨k, hk, rfl⟩
    rw [List.mem_range] at hk
    have hk2 : (k : Int) < b - a + 1 := by
      have := Int.toNat_lt_toNat (a := (k : Int)) (b := b - a + 1)
      omega
    omega
  · rintro ⟨h1, h2⟩
    refine ⟨(n - a).toNat, ?_, ?_⟩
    · rw [List.mem_range]
      omega
    · have : ((n - a).toNat : Int) = n - a := Int.toNat_of_nonneg (by omega)
      omega

theorem digitChar_toNat (d : Nat) (h : d < 10) : (Nat.digitChar d).toNat = 48 + d := by
  interval_cases d <;> rfl

theorem toDigitsCore_spec (fuel n : Nat) (ds : List Char) (h : n < fuel) :
    ∃ l, Nat.toDigitsCore 10 fuel n ds = l ++ ds ∧ l ≠ [] ∧ (∀ c ∈ l, IsDigitChar c) ∧
      decimalValue l = n := by
  induction fuel generalizing n ds with
  | zero => omega
  | succ fuel ih =>
    have hd : (Nat.digitChar (n % 10)).toNat = 48 + n % 10 :=
      digitChar_toNat _ (Nat.mod_lt _ (by decide))
    have hdig : IsDigitChar (Nat.digitChar (n % 10)) := by
      unfold IsDigitChar
      have := Nat.mod_lt n (show 0 < 10 by decide)
      omega
    by_cases h0 : n / 10 = 0
    · refine ⟨[Nat.digitChar (n % 10)], ?_, by simp, ?_, ?_⟩
      · simp [Nat.toDigitsCore, h0]
      · intro c hc
        simp only [List.mem_singleton] at hc
        subst hc
        exact hdig
      · have := decimalValue_cons (Nat.digitChar (n % 10)) []
        rw [this, hd, decimalValue_nil]
        simp only [List.length_nil, pow_zero, mul_one, add_zero, Nat.add_sub_cancel_left]
        omega
    · obtain ⟨l, hl, hne, hdl, hv⟩ := ih (n / 10) (Nat.digitChar (n % 10) :: ds) (by omega)
      refine ⟨l ++ [Nat.digitChar (n % 10)], ?_, by simp, ?_, ?_⟩
      · simp [Nat.toDigitsCore, h0, hl]
      · intro c hc
        simp only [List.mem_append, List.mem_singleton] at hc
        rcases hc with hc | rfl
        · exact hdl c hc
        · exact hdig
      · rw [decimalValue_append_singleton, hv, hd]
        simp only [Nat.add_sub_cancel_left]
        omega

theorem decimalText_spec (n : Nat) :
    decimalText n ≠ [] ∧ (∀ c ∈ decimalText n, IsDigitChar c) ∧
      decimalValue (decimalText n) = n := by
  obtain ⟨l, hl, hne, hd, hv⟩ := toDigitsCore_spec (n + 1) n [] (Nat.lt_succ_self n)
  have : decimalText n = l := by
    simp only [decimalText, toString, Nat.repr, Nat.toDigits, List.asString]
    simpa using hl
  rw [this]
  exact ⟨hne, hd, hv⟩

/-! ## Steps of the token loop -/

theorem isSpace_of_isDigitChar (c : Char) (h : IsDigitChar c) : isSpace c = false := by
  unfold IsDigitChar at h
  simp only [isSpace, Bool.or_eq_false_iff, Bool.and_eq_false_iff, decide_eq_false_iff_not]
  omega

theorem parseParts_blank (raw : List Char) (rest : List (List Char)) (acc : List Int)
    (h : TrimSpace raw = []) : parseParts (raw :: rest) acc = parseParts rest acc := by
  simp [parseParts, h]

theorem parseParts_single (raw : List Char) (rest : List (List Char)) (acc : List Int)
    (n : Int) (h1 : TrimSpace raw ≠ []) (h2 : '-' ∉ TrimSpace raw)
    (h3 : Atoi (TrimSpace raw) = some n) :
    parseParts (raw :: rest) acc = parseParts rest (acc ++ [n]) := by
  simp [parseParts, h1, h2, h3]

theorem parseParts_range (raw : List Char) (rest : List (List Char)) (acc : List Int)
    (p0 p1 : List Char) (a b : Int) (h1 : TrimSpace raw ≠ []) (h2 : '-' ∈ TrimSpace raw)
    (hs : Split (TrimSpace raw) '-' = [p0, p1]) (ha : Atoi (TrimSpace p0) = some a)
    (hb : Atoi (TrimSpace p1) = some b) (hab : a ≤ b) (hmax : b < maxInt) :
    parseParts (raw :: rest) acc = parseParts rest (acc ++ intRange a b) := by
  have hgt : ¬ a > b := by omega
  simp [parseParts, h1, h2, hs, ha, hb, hgt, rangeLoop_eq_some _ a b acc hmax (le_refl _)]

theorem Atoi_decimalText (n : Nat) (h : n ≤ 9223372036854775807) :
    Atoi (decimalText n) = some (n : Int) := by
  obtain ⟨hne, hd, hv⟩ := decimalText_spec n
  rw [Atoi_eq_some_iff]
  refine ⟨⟨decimalText n, hne, hd, Or.inl ⟨Or.inl rfl, by rw [hv]⟩⟩, ?_, ?_⟩ <;> omega

theorem TrimSpace_decimalText (n : Nat) : TrimSpace (decimalText n) = decimalText n := by
  obtain ⟨-, hd, -⟩ := decimalText_spec n
  have := TrimSpace_padded [] (decimalText n) [] (by simp) (by simp)
    (fun c hc => isSpace_of_isDigitChar c (hd c (List.mem_of_mem_head? hc)))
    (fun c hc => isSpace_of_isDigitChar c (hd c (List.mem_of_mem_getLast? hc)))
  simpa using this

theorem not_mem_decimalText (n : Nat) (c : Char) (hc : ¬ IsDigitChar c) :
    c ∉ decimalText n := fun h => hc ((decimalText_spec n).2.1 c h)


/-! ## C3: well-formed range strings -/


theorem PaddedToken.trim_text (t : PaddedToken) : TrimSpace t.text = t.token.core := by
  unfold PaddedToken.text
  apply TrimSpace_padded
  · intro c hc
    rw [List.eq_of_mem_replicate hc]; decide
  · intro c hc
    rw [List.eq_of_mem_replicate hc]; decide
  · intro c hc
    cases ht : t.token with
    | single n =>
      rw [ht] at hc
      exact isSpace_of_isDigitChar c ((decimalText_spec n).2.1 c (List.mem_of_mem_head? hc))
    | range a b =>
      rw [ht] at hc
      simp only [RangeToken.core] at hc
      obtain ⟨hne, hd, -⟩ := decimalText_spec a
      cases hda : decimalText a with
      | nil => exact absurd hda hne
      | cons d ds =>
        rw [hda] at hc hd
        simp only [List.cons_append, List.head?_cons, Option.some.injEq] at hc
        subst hc
        exact isSpace_of_isDigitChar _ (hd _ (by simp))
    | blank =>
      rw [ht] at hc
      simp [RangeToken.core] at hc
  · intro c hc
    cases ht : t.token with
    | single n =>
      rw [ht] at hc
      exact isSpace_of_isDigitChar c ((decimalText_spec n).2.1 c (List.mem_of_mem_getLast? hc))
    | range a b =>
      rw [ht] at hc
      simp only [RangeToken.core] at hc
      obtain ⟨hne, hd, -⟩ := decimalText_spec b
      have hmem : c ∈ decimalText b := by
        rw [List.getLast?_append_of_ne_nil _ (by simp)] at hc
        cases hdb : decimalText b with
        | nil => exact absurd hdb hne
        | cons d ds =>
          rw [hdb, List.getLast?_cons_cons] at hc
          exact List.mem_of_mem_getLast? hc
      exact isSpace_of_isDigitChar _ (hd _ hmem)
    | blank =>
      rw [ht] at hc
      simp [RangeToken.core] at hc

theorem PaddedToken.comma_not_mem_text (t : PaddedToken) : ',' ∉ t.text := by
  have hdig : ¬ IsDigitChar ',' := by unfold IsDigitChar; decide
  unfold PaddedToken.text
  simp only [List.mem_append, not_or]
  refine ⟨fun h => absurd (List.eq_of_mem_replicate h) (by decide), ?_,
    fun h => absurd (List.eq_of_mem_replicate h) (by decide)⟩
  cases t.token with
  | single n => exact not_mem_decimalText n _ hdig
  | range a b =>
    simp only [RangeToken.core, List.mem_append, List.mem_cons, not_or]
    exact ⟨not_mem_decimalText a _ hdig, by decide, not_mem_decimalText b _ hdig⟩
  | blank => simp [RangeToken.core]

theorem Join_ne_nil (pieces : List (List Char)) (sep : Char) (p : List Char)
    (hp : p ∈ pieces) (hne : p ≠ []) : Join pieces sep ≠ [] := by
  induction pieces with
  | nil => simp at hp
  | cons q rest ih =>
    cases rest with
    | nil =>
      simp only [List.mem_singleton] at hp
      subst hp
      simpa [Join] using hne
    | cons r rest2 => simp [Join]

theorem parseParts_tokens (ts : List PaddedToken) (acc : List Int)
    (hwf : ∀ t ∈ ts, t.token.WellFormed) (hfit : ∀ t ∈ ts, t.token.Fits) :
    parseParts (ts.map PaddedToken.text) acc = some (ParseResult.ok (acc ++ tokenNumbers ts)) := by
  induction ts generalizing acc with
  | nil => simp [parseParts, tokenNumbers]
  | cons t ts ih =>
    have ih2 := fun acc2 => ih acc2 (fun u hu => hwf u (List.mem_cons_of_mem _ hu))
      (fun u hu => hfit u (List.mem_cons_of_mem _ hu))
    have hw := hwf t (by simp)
    have hf := hfit t (by simp)
    have htrim := t.trim_text
    have hminus : ¬ IsDigitChar '-' := not_isDigitChar_minus
    simp only [List.map_cons, tokenNumbers]
    cases ht : t.token with
    | single n =>
      rw [ht] at hw hf htrim
      simp only [RangeToken.core, RangeToken.Fits] at htrim hf
      rw [parseParts_single _ _ _ (n : Int) (by rw [htrim]; exact (decimalText_spec n).1)
        (by rw [htrim]; exact not_mem_decimalText n _ hminus)
        (by rw [htrim]; exact Atoi_decimalText n hf), ih2]
      simp [RangeToken.nums]
    | range a b =>
      rw [ht] at hw hf htrim
      simp only [RangeToken.core, RangeToken.Fits, RangeToken.WellFormed] at htrim hf hw
      have hsplit : Split (TrimSpace t.text) '-' = [decimalText a, decimalText b] := by
        rw [htrim, Split_eq_pair_iff]
        exact ⟨rfl, not_mem_decimalText a _ hminus, not_mem_decimalText b _ hminus⟩
      rw [parseParts_range _ _ _ (decimalText a) (decimalText b) (a : Int) (b : Int)
        (by rw [htrim]; simp) (by rw [htrim]; simp) hsplit
        (by rw [TrimSpace_decimalText]; exact Atoi_decimalText a (by omega))
        (by rw [TrimSpace_decimalText]; exact Atoi_decimalText b (by omega))
        (by exact_mod_cast hw) (by unfold maxInt; omega), ih2]
      simp [RangeToken.nums]
    | blank =>
      rw [ht] at htrim
      simp only [RangeToken.core] at htrim
      rw [parseParts_blank _ _ _ htrim, ih2]
      simp [RangeToken.nums]

/-- C3 (amended): for every list of tokens with at least one that is not blank, each a
decimal number `n <= 2^63 - 1`, a range `a-b` with `a <= b <= 2^63 - 2`, or blank, and each
with any number of spaces around it, `parseRangeNumbers` applied to the tokens joined by
commas returns, without error, the concatenation in token order of `[n]` for a number, of
`[a, a+1, ..., b]` for a range and of nothing for a blank token. -/
theorem C3_parse_tokens (ts : List PaddedToken) (hsome : ∃ t ∈ ts, t.token ≠ RangeToken.blank)
    (hwf : ∀ t ∈ ts, t.token.WellFormed) (hfit : ∀ t ∈ ts, t.token.Fits) :
    parseRangeNumbers (rangeString ts) = some (ParseResult.ok (tokenNumbers ts)) := by
  obtain ⟨t, htm, htne⟩ := hsome
  have htext : t.text ≠ [] := by
    intro h
    have h2 := t.trim_text
    rw [h] at h2
    cases ht : t.token with
    | single n =>
      rw [ht] at h2
      exact (decimalText_spec n).1 (by simpa [RangeToken.core, TrimSpace] using h2.symm)
    | range a b =>
      rw [ht] at h2
      simp [RangeToken.core, TrimSpace] at h2
    | blank => exact htne ht
  have hjoin : Join (ts.map PaddedToken.text) ',' ≠ [] :=
    Join_ne_nil _ _ t.text (List.mem_map_of_mem _ htm) htext
  have hstr : rangeString ts ≠ "" := by
    intro h
    apply hjoin
    have := congrArg String.data h
    simpa [rangeString] using this
  have hsplit : Split (rangeString ts).data ',' = ts.map PaddedToken.text := by
    simp only [rangeString]
    apply Split_Join
    · intro h
      rw [List.map_eq_nil_iff] at h
      rw [h] at htm
      simp at htm
    · intro p hp
      obtain ⟨u, -, rfl⟩ := List.mem_map.1 hp
      exact u.comma_not_mem_text
  unfold parseRangeNumbers
  rw [if_neg hstr, hsplit, parseParts_tokens ts [] hwf hfit]
  simp


/-- Example of C3: "1000-1002,1004" gives [1000,1001,1002,1004], also with spaces around the
tokens; the list is in token order, neither sorted nor deduplicated ("5,3,5" gives [5,3,5]). -/
theorem C3_parse_tokens_witness :
    (parseRangeNumbers (rangeString [⟨0, RangeToken.range 1000 1002, 0⟩,
        ⟨1, RangeToken.single 1004, 2⟩]) =
      some (ParseResult.ok (tokenNumbers [⟨0, RangeToken.range 1000 1002, 0⟩,
        ⟨1, RangeToken.single 1004, 2⟩]))) ∧
    rangeString [⟨0, RangeToken.range 1000 1002, 0⟩, ⟨1, RangeToken.single 1004, 2⟩] =
      "1000-1002, 1004  " ∧
    tokenNumbers [⟨0, RangeToken.range 1000 1002, 0⟩, ⟨1, RangeToken.single 1004, 2⟩] =
      [1000, 1001, 1002, 1004] ∧
    parseRangeNumbers "1000-1002,1004" = some (ParseResult.ok [1000, 1001, 1002, 1004]) ∧
    parseRangeNumbers "5" = some (ParseResult.ok [5]) ∧
    parseRangeNumbers "5,3,5" = some (ParseResult.ok [5, 3, 5]) :=
  ⟨C3_parse_tokens _ ⟨⟨1, RangeToken.single 1004, 2⟩, by simp, by simp⟩
      (by
        intro t ht
        simp only [List.mem_cons, List.mem_singleton, List.not_mem_nil, or_false] at ht
        rcases ht with rfl | rfl <;> simp [RangeToken.WellFormed])
      (by
        intro t ht
        simp only [List.mem_cons, List.mem_singleton, List.not_mem_nil, or_false] at ht
        rcases ht with rfl | rfl <;> simp [RangeToken.Fits]),
    by decide, by decide, by decide, by decide, by decide⟩

/-- Counterexample to C3 as stated: the single token 9223372036854775808 is a decimal
integer, yet `parseRangeNumbers` rejects it, because `strconv.Atoi` reports a value outside
the 64-bit `int`. -/
theorem C3_counterexample :
    (RangeToken.single 9223372036854775808).WellFormed ∧
    rangeString [⟨0, RangeToken.single 9223372036854775808, 0⟩] = "9223372036854775808" ∧
    tokenNumbers [⟨0, RangeToken.single 9223372036854775808, 0⟩] = [9223372036854775808] ∧
    parseRangeNumbers (rangeString [⟨0, RangeToken.single 9223372036854775808, 0⟩]) =
      some (ParseResult.err "invalid number: 9223372036854775808") :=
  ⟨trivial, by decide, by decide, by decide⟩

/-! ## C4: when `parseRangeNumbers` returns an error -/


theorem Atoi_nonneg (t : List Char) (v : Int) (h : Atoi t = some v) (hm : '-' ∉ t) :
    0 ≤ v := by
  obtain ⟨⟨digits, -, -, (⟨-, hv⟩ | ⟨ht, -⟩)⟩, -⟩ := (Atoi_eq_some_iff t v).1 h
  · rw [hv]; exact Int.natCast_nonneg _
  · exact absurd (by rw [ht]; simp) hm

theorem Atoi_le_maxInt (t : List Char) (v : Int) (h : Atoi t = some v) : v ≤ maxInt :=
  ((Atoi_eq_some_iff t v).1 h).2.2

theorem splitsIntoBounds_iff (t : List Char) (a b : Int) :
    SplitsIntoBounds t a b ↔ ∃ p0 p1, Split t '-' = [p0, p1] ∧
      Atoi (TrimSpace p0) = some a ∧ Atoi (TrimSpace p1) = some b := by
  constructor
  · rintro ⟨p0, p1, ht, h0, h1, ha, hfa, hb, hfb⟩
    exact ⟨p0, p1, (Split_eq_pair_iff t p0 p1 '-').2 ⟨ht, h0, h1⟩,
      (Atoi_eq_some_iff _ _).2 ⟨ha, hfa⟩, (Atoi_eq_some_iff _ _).2 ⟨hb, hfb⟩⟩
  · rintro ⟨p0, p1, hs, ha, hb⟩
    obtain ⟨ht, h0, h1⟩ := (Split_eq_pair_iff t p0 p1 '-').1 hs
    obtain ⟨ha1, ha2⟩ := (Atoi_eq_some_iff _ _).1 ha
    obtain ⟨hb1, hb2⟩ := (Atoi_eq_some_iff _ _).1 hb
    exact ⟨p0, p1, ht, h0, h1, ha1, ha2, hb1, hb2⟩

theorem malformed_iff_of_not_mem (t : List Char) (h : '-' ∉ t) :
    Malformed t ↔ Atoi t = none := by
  unfold Malformed
  constructor
  · rintro (⟨-, hn⟩ | ⟨hm, -⟩ | ⟨a, b, ⟨p0, p1, ht, -⟩, -⟩)
    · cases hv : Atoi t with
      | none => rfl
      | some v => exact absurd ⟨v, (Atoi_eq_some_iff t v).1 hv⟩ hn
    · exact absurd hm h
    · exact absurd (by rw [ht]; simp) h
  · intro hn
    refine Or.inl ⟨h, ?_⟩
    rintro ⟨n, hn2⟩
    rw [(Atoi_eq_some_iff t n).2 hn2] at hn
    cases hn

theorem malformed_iff_of_mem (t : List Char) (h : '-' ∈ t) :
    Malformed t ↔ ¬ ∃ p0 p1 a b, Split t '-' = [p0, p1] ∧
      Atoi (TrimSpace p0) = some a ∧ Atoi (TrimSpace p1) = some b ∧ a ≤ b := by
  unfold Malformed
  constructor
  · rintro (⟨hm, -⟩ | ⟨-, hn⟩ | ⟨a, b, hs, hgt⟩)
    · exact absurd h hm
    · rintro ⟨p0, p1, a, b, hs, ha, hb, -⟩
      exact hn ⟨a, b, (splitsIntoBounds_iff t a b).2 ⟨p0, p1, hs, ha, hb⟩⟩
    · rintro ⟨p0, p1, a2, b2, hs2, ha2, hb2, hle⟩
      obtain ⟨q0, q1, hs, ha, hb⟩ := (splitsIntoBounds_iff t a b).1 hs
      rw [hs2] at hs
      simp only [List.cons.injEq, and_true] at hs
      obtain ⟨rfl, rfl⟩ := hs
      rw [ha2] at ha
      rw [hb2] at hb
      simp only [Option.some.injEq] at ha hb
      omega
  · intro hn
    by_cases hex : ∃ a b, SplitsIntoBounds t a b
    · obtain ⟨a, b, hs⟩ := hex
      refine Or.inr (Or.inr ⟨a, b, hs, ?_⟩)
      obtain ⟨p0, p1, hsp, ha, hb⟩ := (splitsIntoBounds_iff t a b).1 hs
      by_contra hle
      exact hn ⟨p0, p1, a, b, hsp, ha, hb, by omega⟩
    · exact Or.inr (Or.inl ⟨h, hex⟩)

/-- A non-blank malformed token makes the loop return an error. -/
theorem parseParts_cons_malformed (raw : List Char) (rest : List (List Char))
    (acc : List Int) (h1 : TrimSpace raw ≠ []) (hm : Malformed (TrimSpace raw)) :
    ∃ msg, parseParts (raw :: rest) acc = some (ParseResult.err msg) := by
  by_cases h2 : '-' ∈ TrimSpace raw
  · rw [malformed_iff_of_mem _ h2] at hm
    simp only [parseParts, h1, h2, if_true, if_false]
    split
    · rename_i p0 p1 hs
      cases ha : Atoi (TrimSpace p0) with
      | none => exact ⟨_, rfl⟩
      | some a =>
        cases hb : Atoi (TrimSpace p1) with
        | none => exact ⟨_, rfl⟩
        | some b =>
          have hgt : a > b := by
            by_contra hle
            exact hm ⟨p0, p1, a, b, hs, ha, hb, by omega⟩
          simp only [hgt, if_true]
          exact ⟨_, rfl⟩
    · exact ⟨_, rfl⟩
  · rw [malformed_iff_of_not_mem _ h2] at hm
    simp only [parseParts, h1, h2, if_false, hm]
    exact ⟨_, rfl⟩

/-- A non-blank well-formed token whose range does not end at the largest `int` appends its
non-negative numbers and the loop goes on. -/
theorem parseParts_cons_wellformed (raw : List Char) (rest : List (List Char))
    (acc : List Int) (h1 : TrimSpace raw ≠ []) (hm : ¬ Malformed (TrimSpace raw))
    (hmax : ¬ EndsAtMaxInt (TrimSpace raw)) :
    ∃ nums, (∀ n ∈ nums, 0 ≤ n) ∧
      parseParts (raw :: rest) acc = parseParts rest (acc ++ nums) := by
  by_cases h2 : '-' ∈ TrimSpace raw
  · rw [malformed_iff_of_mem _ h2, not_not] at hm
    obtain ⟨p0, p1, a, b, hs, ha, hb, hle⟩ := hm
    obtain ⟨ht, h0, h1'⟩ := (Split_eq_pair_iff _ p0 p1 '-').1 hs
    have hbmax : b < maxInt := by
      have hble := Atoi_le_maxInt _ _ hb
      rcases lt_or_eq_of_le hble with hlt | heq
      · exact hlt
      · exfalso
        apply hmax
        refine ⟨p0, p1, ht, h0, h1', ?_⟩
        rw [← heq]
        exact ((Atoi_eq_some_iff _ _).1 hb).1
    have ha0 : 0 ≤ a :=
      Atoi_nonneg _ _ ha (fun hmem => h0 (mem_of_mem_TrimSpace _ _ hmem))
    refine ⟨intRange a b, ?_, parseParts_range raw rest acc p0 p1 a b h1 h2 hs ha hb hle hbmax⟩
    intro n hn
    have := (mem_intRange a b n).1 hn
    omega
  · have hsome : ∃ n, Atoi (TrimSpace raw) = some n := by
      cases hv : Atoi (TrimSpace raw) with
      | none => exact absurd ((malformed_iff_of_not_mem _ h2).2 hv) hm
      | some n => exact ⟨n, rfl⟩
    obtain ⟨n, hn⟩ := hsome
    refine ⟨[n], ?_, parseParts_single raw rest acc n h1 h2 hn⟩
    intro k hk
    simp only [List.mem_singleton] at hk
    subst hk
    exact Atoi_nonneg _ _ hn h2

theorem parseParts_returns_iff (parts : List (List Char)) (acc : List Int)
    (hmax : ∀ tok ∈ parts, ¬ EndsAtMaxInt (TrimSpace tok)) :
    ((∃ msg, parseParts parts acc = some (ParseResult.err msg)) ∧
        ∃ tok ∈ parts, TrimSpace tok ≠ [] ∧ Malformed (TrimSpace tok)) ∨
      ((∃ nums, parseParts parts acc = some (ParseResult.ok nums)) ∧
        ¬ ∃ tok ∈ parts, TrimSpace tok ≠ [] ∧ Malformed (TrimSpace tok)) := by
  induction parts generalizing acc with
  | nil => exact Or.inr ⟨⟨acc, by simp [parseParts]⟩, by simp⟩
  | cons raw rest ih =>
    have hmax2 : ∀ tok ∈ rest, ¬ EndsAtMaxInt (TrimSpace tok) :=
      fun tok ht => hmax tok (List.mem_cons_of_mem _ ht)
    by_cases h1 : TrimSpace raw = []
    · rw [parseParts_blank raw rest acc h1]
      rcases ih acc hmax2 with ⟨he, tok, ht, hne, hmal⟩ | ⟨ho, hno⟩
      · exact Or.inl ⟨he, tok, List.mem_cons_of_mem _ ht, hne, hmal⟩
      · refine Or.inr ⟨ho, ?_⟩
        rintro ⟨tok, ht, hne, hmal⟩
        simp only [List.mem_cons] at ht
        rcases ht with rfl | ht
        · exact hne h1
        · exact hno ⟨tok, ht, hne, hmal⟩
    · by_cases hm : Malformed (TrimSpace raw)
      · exact Or.inl ⟨parseParts_cons_malformed raw rest acc h1 hm, raw, by simp, h1, hm⟩
      · obtain ⟨nums, -, hstep⟩ :=
          parseParts_cons_wellformed raw rest acc h1 hm (hmax raw (by simp))
        rw [hstep]
        rcases ih (acc ++ nums) hmax2 with ⟨he, tok, ht, hne, hmal⟩ | ⟨ho, hno⟩
        · exact Or.inl ⟨he, tok, List.mem_cons_of_mem _ ht, hne, hmal⟩
        · refine Or.inr ⟨ho, ?_⟩
          rintro ⟨tok, ht, hne, hmal⟩
          simp only [List.mem_cons] at ht
          rcases ht with rfl | ht
          · exact hm hmal
          · exact hno ⟨tok, ht, hne, hmal⟩

theorem parseParts_ok_nonneg (parts : List (List Char)) (acc nums : List Int)
    (h : parseParts parts acc = some (ParseResult.ok nums)) (hacc : ∀ n ∈ acc, 0 ≤ n) :
    ∀ n ∈ nums, 0 ≤ n := by
  induction parts generalizing acc with
  | nil =>
    simp only [parseParts, Option.some.injEq, ParseResult.ok.injEq] at h
    subst h
    exact hacc
  | cons raw rest ih =>
    by_cases h1 : TrimSpace raw = []
    · rw [parseParts_blank raw rest acc h1] at h
      exact ih acc h hacc
    · by_cases hm : Malformed (TrimSpace raw)
      · obtain ⟨msg, he⟩ := parseParts_cons_malformed raw rest acc h1 hm
        rw [he] at h
        cases h
      · by_cases hmax : EndsAtMaxInt (TrimSpace raw)
        · exfalso
          have h2 : '-' ∈ TrimSpace raw := by
            obtain ⟨p0, p1, ht, -⟩ := hmax
            rw [ht]; simp
          rw [malformed_iff_of_mem _ h2, not_not] at hm
          obtain ⟨p0, p1, a, b, hs, ha, hb, hle⟩ := hm
          obtain ⟨q0, q1, ht, hq0, hq1, hdec⟩ := hmax
          have hs2 := (Split_eq_pair_iff _ q0 q1 '-').2 ⟨ht, hq0, hq1⟩
          rw [hs] at hs2
          simp only [List.cons.injEq, and_true] at hs2
          obtain ⟨rfl, rfl⟩ := hs2
          have hbm : Atoi (TrimSpace p1) = some maxInt :=
            (Atoi_eq_some_iff _ _).2 ⟨hdec, by unfold FitsInt maxInt; omega⟩
          rw [hb] at hbm
          simp only [Option.some.injEq] at hbm
          subst hbm
          have hgt : ¬ a > maxInt := by omega
          simp [parseParts, h1, h2, hs, ha, hb, hgt,
            rangeLoop_maxInt _ a acc hle] at h
        · obtain ⟨more, hmore, hstep⟩ := parseParts_cons_wellformed raw rest acc h1 hm hmax
          rw [hstep] at h
          apply ih (acc ++ more) h
          intro n hn
          rcases List.mem_append.1 hn with hn | hn
          · exact hacc n hn
          · exact hmore n hn


/-- C4 (amended): as long as no token is a range that ends at the largest `int`,
`parseRangeNumbers` returns, and it returns an error (and no list) exactly when the input
string is empty or some comma-separated token is, after trimming spaces, non-blank and
malformed: without a hyphen and not a decimal integer of the 64-bit `int`, or with a hyphen
and not splitting into exactly two such bounds, or with a start greater than its end. A
token with a leading minus sign is malformed, every number of a successful result is
non-negative, and "" and "3-1" are rejected. -/
theorem C4_parse_error_iff (s : String) :
    ((∀ tok ∈ Split s.data ',', ¬ EndsAtMaxInt (TrimSpace tok)) →
      (∃ r, parseRangeNumbers s = some r) ∧
      ((∃ msg, parseRangeNumbers s = some (ParseResult.err msg)) ↔
        (s = "" ∨ ∃ tok ∈ Split s.data ',',
          TrimSpace tok ≠ [] ∧ Malformed (TrimSpace tok)))) ∧
    (∀ tok ∈ Split s.data ',', (TrimSpace tok).head? = some '-' →
      TrimSpace tok ≠ [] ∧ Malformed (TrimSpace tok)) ∧
    (∀ nums, parseRangeNumbers s = some (ParseResult.ok nums) → ∀ n ∈ nums, 0 ≤ n) ∧
    parseRangeNumbers "" = some (ParseResult.err "empty range string") ∧
    parseRangeNumbers "3-1" = some (ParseResult.err
      "start number must be less than or equal to end number in range: 3-1") := by
  refine ⟨?_, ?_, ?_, by decide, by decide⟩
  · intro hmax
    by_cases hs : s = ""
    · subst hs
      exact ⟨⟨_, rfl⟩, by simp [parseRangeNumbers]⟩
    · simp only [parseRangeNumbers, hs, if_false, false_or]
      rcases parseParts_returns_iff (Split s.data ',') [] hmax with ⟨he, hex⟩ | ⟨ho, hno⟩
      · obtain ⟨msg, hmsg⟩ := he
        exact ⟨⟨_, hmsg⟩, ⟨fun _ => hex, fun _ => ⟨msg, hmsg⟩⟩⟩
      · obtain ⟨nums, hnums⟩ := ho
        refine ⟨⟨_, hnums⟩, ⟨?_, fun h => absurd h hno⟩⟩
        rintro ⟨msg, hmsg⟩
        rw [hnums] at hmsg
        cases hmsg
  · intro tok _ hhead
    have hne : TrimSpace tok ≠ [] := by
      intro h
      rw [h] at hhead
      cases hhead
    have hmem : '-' ∈ TrimSpace tok := List.mem_of_mem_head? hhead
    refine ⟨hne, (malformed_iff_of_mem _ hmem).2 ?_⟩
    rintro ⟨p0, p1, a, b, hsp, ha, -, -⟩
    obtain ⟨ht, h0, -⟩ := (Split_eq_pair_iff _ p0 p1 '-').1 hsp
    have hp0 : p0 = [] := by
      cases p0 with
      | nil => rfl
      | cons c cs =>
        rw [ht] at hhead
        simp only [List.cons_append, List.head?_cons, Option.some.injEq] at hhead
        subst hhead
        exact absurd (List.mem_cons_self _ _) h0
    subst hp0
    have hnone : Atoi (TrimSpace []) = none := by decide
    rw [hnone] at ha
    cases ha
  · intro nums h
    by_cases hs : s = ""
    · subst hs
      simp [parseRangeNumbers] at h
    · simp only [parseRangeNumbers, hs, if_false] at h
      exact parseParts_ok_nonneg _ [] nums h (by simp)

/-- Counterexample to C4 as stated: the token 9223372036854775808 has no hyphen and is a
decimal integer, so none of the stated grounds for an error applies, yet `parseRangeNumbers`
returns an error, because the value is outside the 64-bit `int`. -/
theorem C4_counterexample :
    ('-' ∉ "9223372036854775808".data) ∧
    IsDecimalInt "9223372036854775808".data 9223372036854775808 ∧
    Split "9223372036854775808".data ',' = ["9223372036854775808".data] ∧
    parseRangeNumbers "9223372036854775808" =
      some (ParseResult.err "invalid number: 9223372036854775808") := by
  refine ⟨by decide, ?_, by decide, by decide⟩
  refine ⟨"9223372036854775808".data, by decide, ?_, Or.inl ⟨Or.inl rfl, by decide⟩⟩
  intro c hc
  unfold IsDigitChar
  revert c
  decide

/-- Example of C4: in "1,x" no token is a range, the call returns, and it returns an error
because the token "x" is not a decimal integer. -/
theorem C4_parse_error_iff_witness :
    (∀ tok ∈ Split "1,x".data ',', ¬ EndsAtMaxInt (TrimSpace tok)) ∧
    (∃ r, parseRangeNumbers "1,x" = some r) ∧
    ((∃ msg, parseRangeNumbers "1,x" = some (ParseResult.err msg)) ↔
      ("1,x" = "" ∨ ∃ tok ∈ Split "1,x".data ',',
        TrimSpace tok ≠ [] ∧ Malformed (TrimSpace tok))) ∧
    parseRangeNumbers "1,x" = some (ParseResult.err "invalid number: x") := by
  have h : ∀ tok ∈ Split "1,x".data ',', ¬ EndsAtMaxInt (TrimSpace tok) := by
    intro tok htok
    have hs : Split "1,x".data ',' = [['1'], ['x']] := by decide
    rw [hs] at htok
    rintro ⟨p0, p1, ht, -⟩
    have hm : '-' ∈ TrimSpace tok := by rw [ht]; simp
    simp only [List.mem_cons, List.mem_singleton, List.not_mem_nil, or_false] at htok
    rcases htok with rfl | rfl
    · exact absurd hm (by decide)
    · exact absurd hm (by decide)
  exact ⟨h, ((C4_parse_error_iff "1,x").1 h).1, ((C4_parse_error_iff "1,x").1 h).2, by decide⟩


/-! ## Membership helpers -/

theorem lo_Some_iff {α : Type} [BEq α] [LawfulBEq α] (collection subset : List α) :
    lo.Some collection subset = true ↔ ∃ e ∈ subset, e ∈ collection := by
  simp [lo.Some, List.any_eq_true]

theorem lo_Every_iff {α : Type} [BEq α] [LawfulBEq α] (collection subset : List α) :
    lo.Every collection subset = true ↔ ∀ e ∈ subset, e ∈ collection := by
  simp [lo.Every, List.all_eq_true]

/-! ## C5, C6: aliases of a proxy -/

/-- C6: `IsRange` holds exactly for a tcp or udp proxy whose local-port or remote-port
string contains a comma or a hyphen; a proxy that is not a range proxy, and a range proxy
whose local-port string is rejected by `parseRangeNumbers`, has the single alias `Name`
(`GetAlias` has no error result). -/
theorem C6_isRange_iff_and_alias_fallback (p : Proxy) :
    (p.IsRange = true ↔
      (p.Type_ = "tcp" ∨ p.Type_ = "udp") ∧
        (',' ∈ p.LocalPort.data ∨ '-' ∈ p.LocalPort.data ∨
          ',' ∈ p.RemotePort.data ∨ '-' ∈ p.RemotePort.data)) ∧
    (p.IsRange = false → p.GetAlias = some [p.Name]) ∧
    (p.IsRange = true → ∀ msg, parseRangeNumbers p.LocalPort = some (ParseResult.err msg) →
      p.GetAlias = some [p.Name]) := by
  refine ⟨?_, ?_, ?_⟩
  · simp only [Proxy.IsRange, Bool.and_eq_true, Bool.or_eq_true, beq_iff_eq, lo_Some_iff,
      ProxyTypeTCP, ProxyTypeUDP, String.data_append, List.mem_append]
    constructor
    · rintro ⟨ht, e, he, hm⟩
      refine ⟨ht, ?_⟩
      simp only [List.mem_cons, List.mem_singleton, List.not_mem_nil, or_false] at he
      rcases he with rfl | rfl
      · rcases hm with h | h
        · exact Or.inl h
        · exact Or.inr (Or.inr (Or.inl h))
      · rcases hm with h | h
        · exact Or.inr (Or.inl h)
        · exact Or.inr (Or.inr (Or.inr h))
    · rintro ⟨ht, h⟩
      refine ⟨ht, ?_⟩
      rcases h with h | h | h | h
      · exact ⟨',', by simp, Or.inl h⟩
      · exact ⟨'-', by simp, Or.inl h⟩
      · exact ⟨',', by simp, Or.inr h⟩
      · exact ⟨'-', by simp, Or.inr h⟩
  · intro h
    simp [Proxy.GetAlias, h]
  · intro h msg hp
    simp [Proxy.GetAlias, h, hp]

/-- C5: for a range proxy whose local-port string parses to the numbers `nums`, `GetAlias`
returns `Name_0, ..., Name_(N-1)` in index order, with `N` the length of `nums`; the list is
the same for every range proxy with this name and local-port string, whatever its remote-port
string. -/
theorem C5_range_alias_list (p : Proxy) (nums : List Int) (hr : p.IsRange = true)
    (hp : parseRangeNumbers p.LocalPort = some (ParseResult.ok nums)) :
    p.GetAlias = some ((List.range nums.length).map (fun i => p.Name ++ "_" ++ toString i)) ∧
    (∀ q : Proxy, q.IsRange = true → q.Name = p.Name → q.LocalPort = p.LocalPort →
      q.GetAlias = p.GetAlias) := by
  constructor
  · simp [Proxy.GetAlias, hr, hp, aliasName]
  · intro q hq hn hl
    simp [Proxy.GetAlias, hr, hq, hn, hl]

/-- Example of C5: the proxy `test_tcp` with local port "6000-6006,6007" has the eight
aliases `test_tcp_0` to `test_tcp_7`, although its remote-port string has one entry. -/
theorem C5_range_alias_list_witness :
    Proxy.GetAlias { Name := "test_tcp", Type_ := "tcp", LocalPort := "6000-6006,6007",
                     RemotePort := "6000" } =
      some ["test_tcp_0", "test_tcp_1", "test_tcp_2", "test_tcp_3", "test_tcp_4",
        "test_tcp_5", "test_tcp_6", "test_tcp_7"] :=
  (C5_range_alias_list
    { Name := "test_tcp", Type_ := "tcp", LocalPort := "6000-6006,6007", RemotePort := "6000" }
    [6000, 6001, 6002, 6003, 6004, 6005, 6006, 6007] (by decide) (by decide)).1.trans
    (by decide)

/-! ## What completion leaves alone -/

theorem Proxy.resetRetries_base (p : Proxy) :
    p.resetRetries.toBaseProxyConf = p.toBaseProxyConf := by
  unfold Proxy.resetRetries; split_ifs <;> rfl

theorem Proxy.resetFallback_base (p : Proxy) :
    p.resetFallback.toBaseProxyConf = p.toBaseProxyConf := by
  unfold Proxy.resetFallback; split_ifs <;> rfl

theorem BaseProxyConf.completePlugin_frame (base : BaseProxyConf) :
    base.completePlugin.Name = base.Name ∧ base.completePlugin.Type_ = base.Type_ ∧
      base.completePlugin.Disabled = base.Disabled := by
  unfold BaseProxyConf.completePlugin; split_ifs <;> exact ⟨rfl, rfl, rfl⟩

theorem BaseProxyConf.completeHealthCheck_frame (base : BaseProxyConf) :
    base.completeHealthCheck.Name = base.Name ∧ base.completeHealthCheck.Type_ = base.Type_ ∧
      base.completeHealthCheck.Disabled = base.Disabled := by
  unfold BaseProxyConf.completeHealthCheck; split_ifs <;> exact ⟨rfl, rfl, rfl⟩

theorem Proxy.Complete_frame (p : Proxy) :
    p.Complete.Name = p.Name ∧ p.Complete.Type_ = p.Type_ ∧
      p.Complete.Disabled = p.Disabled := by
  unfold Proxy.Complete
  split_ifs
  · have h : p.visitorProjection.resetRetries.resetFallback.toBaseProxyConf =
        p.visitorProjection.toBaseProxyConf := by
      rw [Proxy.resetFallback_base, Proxy.resetRetries_base]
    have hn := congrArg BaseProxyConf.Name h
    have ht := congrArg BaseProxyConf.Type_ h
    have hd := congrArg BaseProxyConf.Disabled h
    exact ⟨hn, ht, hd⟩
  · obtain ⟨a1, a2, a3⟩ := p.toBaseProxyConf.completePlugin.completeHealthCheck_frame
    obtain ⟨b1, b2, b3⟩ := p.toBaseProxyConf.completePlugin_frame
    exact ⟨a1.trans b1, a2.trans b2, a3.trans b3⟩

theorem ClientCommon.Complete_Start (c : ClientCommon) : c.Complete.Start = c.Start := by
  have h1 : ∀ d : ClientCommon, d.completeAuth.Start = d.Start := by
    intro d; unfold ClientCommon.completeAuth; simp only []; split_ifs <;> rfl
  have h2 : ∀ d : ClientCommon, d.completeAdmin.Start = d.Start := by
    intro d; unfold ClientCommon.completeAdmin; split_ifs <;> rfl
  have h3 : ∀ d : ClientCommon, d.completeAutoDelete.Start = d.Start := fun _ => rfl
  have h4 : ∀ d : ClientCommon, d.completeTCPMux.Start = d.Start := by
    intro d; unfold ClientCommon.completeTCPMux; split_ifs <;> rfl
  have h5 : ∀ d : ClientCommon, d.completeTLS.Start = d.Start := by
    intro d; unfold ClientCommon.completeTLS; split_ifs <;> rfl
  have h6 : ∀ d : ClientCommon, d.completeProtocol.Start = d.Start := by
    intro d; unfold ClientCommon.completeProtocol; split_ifs <;> rfl
  unfold ClientCommon.Complete
  rw [h6, h5, h4, h3, h2, h1]


/-! ## The proxy loop of `Complete` -/

theorem completeProxy_read (start : Slice String) (p : Proxy) (h : 0 < start.len) :
    completeProxy true start p =
      p.Complete.GetAlias.map (fun aliases =>
        p.Complete.setDisabled (!lo.Every start.elems aliases)) := by
  have hc : (true && decide (start.len > 0)) = true := by simp [h]
  unfold completeProxy
  simp only [hc, if_true]
  cases p.Complete.GetAlias <;> rfl

theorem completeProxy_other (read : Bool) (start : Slice String) (p : Proxy)
    (h : read = false ∨ start.len = 0) : completeProxy read start p = some p.Complete := by
  have hc : (read && decide (start.len > 0)) = false := by
    rcases h with h | h <;> simp [h]
  unfold completeProxy
  simp only [hc, Bool.false_eq_true, if_false]

theorem completeProxies_eq_some_iff (read : Bool) (start : Slice String)
    (ps ps' : List Proxy) :
    completeProxies read start ps = some ps' ↔
      List.Forall₂ (fun p p' => completeProxy read start p = some p') ps ps' := by
  induction ps generalizing ps' with
  | nil =>
    simp only [completeProxies, Option.some.injEq, List.forall₂_nil_left_iff]
    exact eq_comm
  | cons p rest ih =>
    simp only [completeProxies]
    cases hp : completeProxy read start p with
    | none =>
      simp only [reduceCtorEq, false_iff]
      intro h
      cases h with
      | cons h1 _ => rw [hp] at h1; cases h1
    | some p1 =>
      cases hr : completeProxies read start rest with
      | none =>
        simp only [reduceCtorEq, false_iff]
        intro h
        cases h with
        | cons _ h2 => rw [← ih, hr] at h2; cases h2
      | some rest1 =>
        simp only [Option.some.injEq]
        constructor
        · rintro rfl
          exact List.Forall₂.cons hp ((ih rest1).1 hr)
        · intro h
          cases h with
          | cons h1 h2 =>
            rw [hp] at h1
            rw [← ih, hr] at h2
            simp only [Option.some.injEq] at h1 h2
            rw [h1, h2]

theorem completeProxies_isSome_iff (read : Bool) (start : Slice String) (ps : List Proxy) :
    (∃ ps', completeProxies read start ps = some ps') ↔
      ∀ p ∈ ps, ∃ p', completeProxy read start p = some p' := by
  induction ps with
  | nil => simp [completeProxies]
  | cons p rest ih =>
    simp only [completeProxies, List.mem_cons, forall_eq_or_imp, ← ih]
    cases hp : completeProxy read start p with
    | none => simp
    | some p1 =>
      cases hr : completeProxies read start rest with
      | none => simp
      | some rest1 => simp


/-! ## C7: read-mode completion -/

theorem ClientConfig.Complete_read (conf : ClientConfig) :
    conf.Complete true =
      (completeProxies true conf.Start conf.Proxies).map (fun proxies =>
        ({ toClientCommon := conf.toClientCommon.Complete, Proxies := proxies } :
          ClientConfig)) := by
  unfold ClientConfig.Complete
  simp only [ClientCommon.Complete_Start]
  cases completeProxies true conf.Start conf.Proxies <;> rfl

/-- C7: read-mode completion returns unless the start list is non-empty and an alias
computation does not return; it leaves `Start` unchanged; when `Start` is non-empty each
proxy is completed and its `Disabled` flag is true unless every alias of the completed proxy
is an element of `Start`, in which case it is false; when `Start` is empty each proxy is
completed and keeps its `Disabled` flag. -/
theorem C7_read_mode_disabled_flags (conf : ClientConfig) :
    ((∃ conf', conf.Complete true = some conf') ↔
      (conf.Start.len = 0 ∨ ∀ p ∈ conf.Proxies, p.Complete.GetAlias ≠ none)) ∧
    ∀ conf', conf.Complete true = some conf' →
      conf'.Start = conf.Start ∧
      List.Forall₂ (fun p p' =>
        (0 < conf.Start.len → ∃ aliases, p.Complete.GetAlias = some aliases ∧
            p' = p.Complete.setDisabled p'.Disabled ∧
            (p'.Disabled = true ↔ ¬ ∀ a ∈ aliases, a ∈ conf.Start.elems)) ∧
        (conf.Start.len = 0 → p' = p.Complete ∧ p'.Disabled = p.Disabled))
        conf.Proxies conf'.Proxies := by
  rw [ClientConfig.Complete_read]
  constructor
  · have hex : (∃ conf', (completeProxies true conf.Start conf.Proxies).map (fun proxies =>
        ({ toClientCommon := conf.toClientCommon.Complete, Proxies := proxies } :
          ClientConfig)) = some conf') ↔
        ∃ ps', completeProxies true conf.Start conf.Proxies = some ps' := by
      cases completeProxies true conf.Start conf.Proxies <;> simp
    rw [hex, completeProxies_isSome_iff]
    by_cases h0 : conf.Start.len = 0
    · simp only [h0, true_or, iff_true]
      intro p _
      exact ⟨_, completeProxy_other true conf.Start p (Or.inr h0)⟩
    · have hpos : 0 < conf.Start.len := Nat.pos_of_ne_zero h0
      simp only [h0, false_or]
      constructor
      · intro h p hp
        obtain ⟨p', hp'⟩ := h p hp
        rw [completeProxy_read _ _ hpos] at hp'
        intro hn
        rw [hn] at hp'
        cases hp'
      · intro h p hp
        rw [completeProxy_read _ _ hpos]
        cases ha : p.Complete.GetAlias with
        | none => exact absurd ha (h p hp)
        | some aliases => exact ⟨_, rfl⟩
  · intro conf' h
    simp only [Option.map_eq_some'] at h
    obtain ⟨proxies, hps, rfl⟩ := h
    refine ⟨ClientCommon.Complete_Start _, ?_⟩
    rw [completeProxies_eq_some_iff] at hps
    refine hps.imp ?_
    intro p p' hp
    constructor
    · intro hpos
      rw [completeProxy_read _ _ hpos] at hp
      simp only [Option.map_eq_some'] at hp
      obtain ⟨aliases, ha, rfl⟩ := hp
      refine ⟨aliases, ha, rfl, ?_⟩
      show (!lo.Every conf.Start.elems aliases) = true ↔ _
      rw [Bool.not_eq_true', ← Bool.not_eq_true, lo_Every_iff]
    · intro h0
      rw [completeProxy_other true _ _ (Or.inr h0)] at hp
      simp only [Option.some.injEq] at hp
      subst hp
      exact ⟨rfl, p.Complete_frame.2.2⟩

/-- Example of C7: with the start list `a`, read-mode completion of the proxies `a` and `b`
leaves the start list alone, enables `a` and disables `b`. -/
theorem C7_read_mode_disabled_flags_witness :
    exampleReadConf.Complete true = some exampleReadResult ∧
    exampleReadResult.Start = exampleReadConf.Start ∧
    List.Forall₂ (fun p p' =>
        (0 < exampleReadConf.Start.len →
          ∃ aliases, p.Complete.GetAlias = some aliases ∧
            p' = p.Complete.setDisabled p'.Disabled ∧
            (p'.Disabled = true ↔ ¬ ∀ a ∈ aliases, a ∈ exampleReadConf.Start.elems)) ∧
        (exampleReadConf.Start.len = 0 → p' = p.Complete ∧ p'.Disabled = p.Disabled))
      exampleReadConf.Proxies exampleReadResult.Proxies :=
  ⟨by decide, (C7_read_mode_disabled_flags exampleReadConf).2 exampleReadResult (by decide)⟩

/-! ## C8: write-mode completion -/

theorem gatherLoop_eq_some_iff (ps : List Proxy) (allStart : Bool) (start : List String)
    (r : Bool × List String) :
    gatherLoop ps allStart start = some r ↔
      ∃ lists, List.Forall₂ (fun p l => p.GetAlias = some l)
          (ps.filter (fun p => !p.Disabled)) lists ∧
        r = (allStart && ps.all (fun p => !p.Disabled), start ++ lists.flatten) := by
  induction ps generalizing allStart start with
  | nil =>
    simp only [gatherLoop, Option.some.injEq, List.filter_nil, List.forall₂_nil_left_iff,
      exists_eq_left, List.all_nil, Bool.and_true, List.flatten_nil, List.append_nil]
    exact eq_comm
  | cons p rest ih =>
    by_cases hd : p.Disabled = true
    · simp only [gatherLoop, hd, Bool.not_true, Bool.false_eq_true, if_false, ih,
        List.filter_cons, List.all_cons, Bool.false_and, Bool.and_false]
    · have hd' : p.Disabled = false := by simpa using hd
      simp only [gatherLoop, hd', Bool.not_false, if_true, List.filter_cons, List.all_cons,
        Bool.true_and]
      cases ha : p.GetAlias with
      | none =>
        simp only [reduceCtorEq, false_iff, not_exists, not_and]
        intro lists h
        cases h with
        | cons h1 _ => rw [ha] at h1; cases h1
      | some aliases =>
        simp only [ih]
        constructor
        · rintro ⟨lists, hl, rfl⟩
          exact ⟨aliases :: lists, List.Forall₂.cons ha hl, by simp⟩
        · rintro ⟨lists, hl, rfl⟩
          cases hl with
          | cons h1 h2 =>
            rw [ha] at h1
            simp only [Option.some.injEq] at h1
            subst h1
            exact ⟨_, h2, by simp⟩


theorem completeProxies_write (start : Slice String) (ps : List Proxy) :
    completeProxies false start ps = some (ps.map Proxy.Complete) := by
  induction ps with
  | nil => rfl
  | cons p rest ih =>
    simp only [completeProxies, completeProxy_other false start p (Or.inl rfl), ih,
      List.map_cons]

theorem forall₂_getAlias_iff (qs : List Proxy) :
    (∃ lists, List.Forall₂ (fun p l => p.GetAlias = some l) qs lists) ↔
      ∀ q ∈ qs, q.GetAlias ≠ none := by
  induction qs with
  | nil => simp
  | cons q rest ih =>
    simp only [List.mem_cons, forall_eq_or_imp, ← ih]
    constructor
    · rintro ⟨lists, h⟩
      cases h with
      | cons h1 h2 => exact ⟨by rw [h1]; simp, _, h2⟩
    · rintro ⟨h1, lists, h2⟩
      cases ha : q.GetAlias with
      | none => exact absurd ha h1
      | some l => exact ⟨l :: lists, List.Forall₂.cons ha h2⟩

theorem ClientConfig.Complete_write (conf : ClientConfig) :
    conf.Complete false =
      (gatherLoop (conf.Proxies.map Proxy.Complete) true []).map (fun r =>
        ({ toClientCommon := conf.toClientCommon.Complete,
           Proxies := conf.Proxies.map Proxy.Complete } : ClientConfig).setStart
          (if r.1 = true then none else some r.2)) := by
  unfold ClientConfig.Complete ClientConfig.gatherStart
  simp only [completeProxies_write]
  cases hg : gatherLoop (conf.Proxies.map Proxy.Complete) true [] with
  | none => simp [hg]
  | some r =>
    obtain ⟨a, b⟩ := r
    cases a <;> simp [hg]

/-- C8: write-mode completion returns unless the alias computation of an enabled proxy does
not return; it completes each proxy and leaves every `Disabled` flag as it was; afterwards
`Start` is the nil slice if no proxy is disabled, and otherwise the concatenation, in
proxy-list order, of the alias lists of the proxies whose `Disabled` flag is false. -/
theorem C8_write_mode_start_list (conf : ClientConfig) :
    ((∃ conf', conf.Complete false = some conf') ↔
      ∀ p ∈ conf.Proxies, p.Disabled = false → p.Complete.GetAlias ≠ none) ∧
    ∀ conf', conf.Complete false = some conf' →
      conf'.Proxies = conf.Proxies.map Proxy.Complete ∧
      conf'.Proxies.map (fun p => p.Disabled) = conf.Proxies.map (fun p => p.Disabled) ∧
      ((∀ p ∈ conf.Proxies, p.Disabled = false) → conf'.Start = none) ∧
      ((∃ p ∈ conf.Proxies, p.Disabled = true) →
        ∃ lists, List.Forall₂ (fun p l => p.GetAlias = some l)
            (conf'.Proxies.filter (fun p => !p.Disabled)) lists ∧
          conf'.Start = some lists.flatten) := by
  rw [ClientConfig.Complete_write]
  constructor
  · have hex : (∃ conf', (gatherLoop (conf.Proxies.map Proxy.Complete) true []).map (fun r =>
        ({ toClientCommon := conf.toClientCommon.Complete,
           Proxies := conf.Proxies.map Proxy.Complete } : ClientConfig).setStart
          (if r.1 = true then none else some r.2)) = some conf') ↔
        ∃ r, gatherLoop (conf.Proxies.map Proxy.Complete) true [] = some r := by
      cases gatherLoop (conf.Proxies.map Proxy.Complete) true [] <;> simp
    have hex2 : (∃ r, gatherLoop (conf.Proxies.map Proxy.Complete) true [] = some r) ↔
        ∃ lists, List.Forall₂ (fun p l => p.GetAlias = some l)
          ((conf.Proxies.map Proxy.Complete).filter (fun p => !p.Disabled)) lists := by
      constructor
      · rintro ⟨r, hr⟩
        obtain ⟨lists, hl, -⟩ := (gatherLoop_eq_some_iff _ _ _ _).1 hr
        exact ⟨lists, hl⟩
      · rintro ⟨lists, hl⟩
        exact ⟨_, (gatherLoop_eq_some_iff _ _ _ _).2 ⟨lists, hl, rfl⟩⟩
    rw [hex, hex2, forall₂_getAlias_iff]
    simp only [List.mem_filter, List.mem_map, Bool.not_eq_true', and_imp,
      forall_exists_index]
    constructor
    · intro h p hp hd
      exact h p.Complete p hp rfl (by rw [p.Complete_frame.2.2]; exact hd)
    · rintro h q p hp rfl hd
      exact h p hp (by rw [p.Complete_frame.2.2] at hd; exact hd)
  · intro conf' h
    simp only [Option.map_eq_some'] at h
    obtain ⟨r, hr, rfl⟩ := h
    obtain ⟨lists, hl, rfl⟩ := (gatherLoop_eq_some_iff _ _ _ _).1 hr
    have hdis : (conf.Proxies.map Proxy.Complete).map (fun p => p.Disabled) =
        conf.Proxies.map (fun p => p.Disabled) := by
      rw [List.map_map]
      apply List.map_congr_left
      intro p _
      exact p.Complete_frame.2.2
    have hall : (conf.Proxies.map Proxy.Complete).all (fun p => !p.Disabled) =
        conf.Proxies.all (fun p => !p.Disabled) := by
      rw [List.all_map]
      congr 1
      funext p
      simp only [Function.comp, p.Complete_frame.2.2]
    refine ⟨rfl, hdis, ?_, ?_⟩
    · intro hen
      have : conf.Proxies.all (fun p => !p.Disabled) = true := by
        rw [List.all_eq_true]
        intro p hp
        simp [hen p hp]
      show (if (true && (conf.Proxies.map Proxy.Complete).all (fun p => !p.Disabled)) = true
        then none else some ([] ++ lists.flatten)) = none
      rw [hall, this]
      rfl
    · rintro ⟨p, hp, hd⟩
      have : conf.Proxies.all (fun p => !p.Disabled) = false := by
        rw [List.all_eq_false]
        exact ⟨p, hp, by simp [hd]⟩
      refine ⟨lists, hl, ?_⟩
      show (if (true && (conf.Proxies.map Proxy.Complete).all (fun p => !p.Disabled)) = true
        then none else some ([] ++ lists.flatten)) = some lists.flatten
      rw [hall, this]
      rfl

/-- Example of C8: with `a` disabled and the range proxy `r` enabled, write-mode completion
replaces the start list by the aliases `r_0, r_1` and leaves the flags alone. -/
theorem C8_write_mode_start_list_witness :
    exampleWriteConf.Complete false = some exampleWriteResult ∧
    exampleWriteResult.Proxies = exampleWriteConf.Proxies.map Proxy.Complete ∧
    exampleWriteResult.Proxies.map (fun p => p.Disabled) =
      exampleWriteConf.Proxies.map (fun p => p.Disabled) ∧
    (∃ lists, List.Forall₂ (fun p l => p.GetAlias = some l)
        (exampleWriteResult.Proxies.filter (fun p => !p.Disabled)) lists ∧
      exampleWriteResult.Start = some lists.flatten) :=
  ⟨by decide,
    ((C8_write_mode_start_list exampleWriteConf).2 exampleWriteResult (by decide)).1,
    ((C8_write_mode_start_list exampleWriteConf).2 exampleWriteResult (by decide)).2.1,
    ((C8_write_mode_start_list exampleWriteConf).2 exampleWriteResult (by decide)).2.2.2
      ⟨{ Name := "a", Type_ := "tcp", LocalPort := "80", Disabled := true },
        by simp [exampleWriteConf], rfl⟩⟩

/-! ## Per-proxy completion applied twice -/

theorem pruneField_idem {α : Type} (t : StructTag) (value tag : String) (x z : α) :
    pruneField t value tag (pruneField t value tag x z) z = pruneField t value tag x z := by
  unfold pruneField
  split_ifs <;> rfl

theorem PruneByTag_PluginParams_idem (pp : PluginParams) (value tag : String) :
    PruneByTag (PruneByTag pp value tag) value tag = PruneByTag pp value tag := by
  simp only [PruneByTag, Taggable.prune, pruneField_idem]

theorem PruneByTag_HealthCheckConf_idem (hc : HealthCheckConf) (value tag : String) :
    PruneByTag (PruneByTag hc value tag) value tag = PruneByTag hc value tag := by
  simp only [PruneByTag, Taggable.prune, pruneField_idem]

theorem PruneByTag_Proxy_idem (p : Proxy) (value tag : String) :
    PruneByTag (PruneByTag p value tag) value tag = PruneByTag p value tag := by
  simp only [PruneByTag, Taggable.prune, pruneField_idem]

theorem BaseProxyConf.completePlugin_idem (b : BaseProxyConf) :
    b.completePlugin.completePlugin = b.completePlugin := by
  unfold BaseProxyConf.completePlugin
  by_cases h : b.Plugin = ""
  · simp [h]
  · simp [h, PruneByTag_PluginParams_idem]

theorem BaseProxyConf.completeHealthCheck_idem (b : BaseProxyConf) :
    b.completeHealthCheck.completeHealthCheck = b.completeHealthCheck := by
  unfold BaseProxyConf.completeHealthCheck
  by_cases h : b.HealthCheckType = ""
  · simp [h]
  · simp [h, PruneByTag_HealthCheckConf_idem]

theorem BaseProxyConf.completePlugin_completeHealthCheck (b : BaseProxyConf) :
    b.completeHealthCheck.completePlugin = b.completePlugin.completeHealthCheck := by
  unfold BaseProxyConf.completePlugin BaseProxyConf.completeHealthCheck
  by_cases h : b.Plugin = "" <;> by_cases h2 : b.HealthCheckType = "" <;> simp [h, h2]


theorem Proxy.visitorProjection_eq (p : Proxy) :
    p.visitorProjection =
      { Name := p.Name, Type_ := p.Type_, UseEncryption := p.UseEncryption,
        UseCompression := p.UseCompression, Disabled := p.Disabled,
        Role := p.Role, SK := p.SK, ServerUser := p.ServerUser, ServerName := p.ServerName,
        BindAddr := p.BindAddr, BindPort := p.BindPort,
        Protocol := if p.Type_ = "xtcp" then p.Protocol else "",
        KeepTunnelOpen := if p.Type_ = "xtcp" then p.KeepTunnelOpen else false,
        MaxRetriesAnHour := if p.Type_ = "xtcp" then p.MaxRetriesAnHour else 0,
        MinRetryInterval := if p.Type_ = "xtcp" then p.MinRetryInterval else 0,
        FallbackTo := if p.Type_ = "xtcp" then p.FallbackTo else "",
        FallbackTimeoutMs := if p.Type_ = "xtcp" then p.FallbackTimeoutMs else 0 } := by
  by_cases h : p.Type_ = "xtcp"
  · simp [Proxy.visitorProjection, PruneByTag, Taggable.prune, pruneField, tagAccepts_cons,
      tagAccepts_nil, h]
  · have h' : ¬ "xtcp" = p.Type_ := fun e => h e.symm
    simp [Proxy.visitorProjection, PruneByTag, Taggable.prune, pruneField, tagAccepts_cons,
      tagAccepts_nil, h, h']


theorem Proxy.IsVisitor_iff (p : Proxy) :
    p.IsVisitor = true ↔
      (p.Type_ = "xtcp" ∨ p.Type_ = "stcp" ∨ p.Type_ = "sudp") ∧ p.Role = "visitor" := by
  simp [Proxy.IsVisitor, ProxyTypeXTCP, ProxyTypeSTCP, ProxyTypeSUDP, or_assoc]

theorem Proxy.Complete_of_visitor (p : Proxy) (hv : p.IsVisitor = true) :
    p.Complete = p.visitorProjection.resetRetries.resetFallback := by
  simp [Proxy.Complete, hv]

theorem Proxy.Complete_of_not_visitor (p : Proxy) (hv : p.IsVisitor = false) :
    p.Complete = { (PruneByTag p "true" p.Type_ : Proxy) with
      toBaseProxyConf := p.toBaseProxyConf.completePlugin.completeHealthCheck } := by
  simp [Proxy.Complete, hv]

theorem Proxy.Complete_Role_of_visitor (p : Proxy) (hv : p.IsVisitor = true) :
    p.Complete.Role = p.Role := by
  rw [Proxy.Complete_of_visitor p hv, Proxy.visitorProjection_eq]
  unfold Proxy.resetFallback Proxy.resetRetries
  simp only []
  split_ifs <;> rfl

theorem Proxy.Complete_Role_of_not_visitor (p : Proxy) (hv : p.IsVisitor = false) :
    p.Complete.Role = p.Role ∨ p.Complete.Role = "" := by
  rw [Proxy.Complete_of_not_visitor p hv]
  simp only [PruneByTag, Taggable.prune, pruneField]
  split_ifs
  · exact Or.inl rfl
  · exact Or.inr rfl

theorem Proxy.IsVisitor_Complete (p : Proxy) : p.Complete.IsVisitor = p.IsVisitor := by
  cases hv : p.IsVisitor with
  | true =>
    rw [Proxy.IsVisitor_iff] at hv ⊢
    rw [p.Complete_frame.2.1, Proxy.Complete_Role_of_visitor p ((Proxy.IsVisitor_iff p).2 hv)]
    exact hv
  | false =>
    have hn : ¬ p.Complete.IsVisitor = true := by
      rw [Proxy.IsVisitor_iff, p.Complete_frame.2.1]
      rintro ⟨ht, hr⟩
      rcases Proxy.Complete_Role_of_not_visitor p hv with h | h
      · rw [h] at hr
        have := (Proxy.IsVisitor_iff p).2 ⟨ht, hr⟩
        rw [hv] at this
        cases this
      · rw [h] at hr
        exact absurd hr (by decide)
    simpa using hn

theorem Proxy.Complete_idem (p : Proxy) : p.Complete.Complete = p.Complete := by
  cases hv : p.IsVisitor with
  | true =>
    have hv2 : p.Complete.IsVisitor = true := by rw [Proxy.IsVisitor_Complete, hv]
    rw [Proxy.Complete_of_visitor _ hv2, Proxy.visitorProjection_eq,
      Proxy.Complete_of_visitor p hv, Proxy.visitorProjection_eq]
    unfold Proxy.resetFallback Proxy.resetRetries
    by_cases ht : p.Type_ = "xtcp" <;> by_cases hk : p.KeepTunnelOpen = true <;>
      by_cases hf : p.FallbackTo = "" <;> simp [ht, hk, hf]
  | false =>
    have hv2 : p.Complete.IsVisitor = false := by rw [Proxy.IsVisitor_Complete, hv]
    rw [Proxy.Complete_of_not_visitor _ hv2]
    have hb : p.Complete.toBaseProxyConf =
        p.toBaseProxyConf.completePlugin.completeHealthCheck := by
      rw [Proxy.Complete_of_not_visitor p hv]
    have hp : ∀ b : BaseProxyConf,
        ({ (PruneByTag p.Complete "true" p.Complete.Type_ : Proxy) with
            toBaseProxyConf := b } : Proxy) =
          { (PruneByTag p "true" p.Type_ : Proxy) with toBaseProxyConf := b } := by
      intro b
      rw [p.Complete_frame.2.1, Proxy.Complete_of_not_visitor p hv]
      simp only [PruneByTag, Taggable.prune, pruneField_idem]
    rw [hp, hb, Proxy.Complete_of_not_visitor p hv,
      BaseProxyConf.completePlugin_completeHealthCheck,
      BaseProxyConf.completePlugin_idem, BaseProxyConf.completeHealthCheck_idem]


/-! ## Write-mode completion followed by read-mode completion -/

theorem ClientConfig.Complete_write_eq (conf conf1 : ClientConfig)
    (h1 : conf.Complete false = some conf1) :
    conf1.Proxies = conf.Proxies.map Proxy.Complete ∧
    ∃ lists, List.Forall₂ (fun p l => p.GetAlias = some l)
        ((conf.Proxies.map Proxy.Complete).filter (fun p => !p.Disabled)) lists ∧
      conf1.Start = if conf.Proxies.all (fun p => !p.Disabled) = true then none
        else some lists.flatten := by
  rw [ClientConfig.Complete_write] at h1
  simp only [Option.map_eq_some'] at h1
  obtain ⟨r, hr, rfl⟩ := h1
  obtain ⟨lists, hl, rfl⟩ := (gatherLoop_eq_some_iff _ _ _ _).1 hr
  refine ⟨rfl, lists, hl, ?_⟩
  have hall : (conf.Proxies.map Proxy.Complete).all (fun p => !p.Disabled) =
      conf.Proxies.all (fun p => !p.Disabled) := by
    rw [List.all_map]
    congr 1
    funext p
    simp only [Function.comp, p.Complete_frame.2.2]
  show (if (true && (conf.Proxies.map Proxy.Complete).all (fun p => !p.Disabled)) = true
    then none else some ([] ++ lists.flatten)) = _
  rw [hall]
  simp

theorem ClientConfig.Complete_read_eq (conf conf2 : ClientConfig)
    (h2 : conf.Complete true = some conf2) :
    List.Forall₂ (fun p p' => completeProxy true conf.Start p = some p')
      conf.Proxies conf2.Proxies := by
  rw [ClientConfig.Complete_read] at h2
  simp only [Option.map_eq_some'] at h2
  obtain ⟨proxies, hps, rfl⟩ := h2
  exact (completeProxies_eq_some_iff _ _ _ _).1 hps

/-- Write-mode completion followed by read-mode completion, proxy by proxy: the second
pass sees the completed proxies and the regenerated start list. -/
theorem ClientConfig.Complete_write_read (conf conf1 conf2 : ClientConfig)
    (h1 : conf.Complete false = some conf1) (h2 : conf1.Complete true = some conf2) :
    List.Forall₂ (fun p p' =>
      (0 < conf1.Start.len → ∃ aliases, p.Complete.GetAlias = some aliases ∧
        p'.Disabled = !lo.Every conf1.Start.elems aliases) ∧
      (conf1.Start.len = 0 → p'.Disabled = p.Disabled)) conf.Proxies conf2.Proxies := by
  obtain ⟨hp1, -⟩ := ClientConfig.Complete_write_eq conf conf1 h1
  have hf := ClientConfig.Complete_read_eq conf1 conf2 h2
  rw [hp1, List.forall₂_map_left_iff] at hf
  refine hf.imp ?_
  intro p p' hpp
  constructor
  · intro hpos
    rw [completeProxy_read _ _ hpos, Proxy.Complete_idem] at hpp
    simp only [Option.map_eq_some'] at hpp
    obtain ⟨aliases, ha, rfl⟩ := hpp
    exact ⟨aliases, ha, rfl⟩
  · intro h0
    rw [completeProxy_other true _ _ (Or.inr h0), Proxy.Complete_idem] at hpp
    simp only [Option.some.injEq] at hpp
    rw [← hpp, p.Complete_frame.2.2]


theorem forall₂_imp_of_mem {α β : Type} {R S : α → β → Prop} {l1 : List α} {l2 : List β}
    (h : List.Forall₂ R l1 l2) (himp : ∀ a b, a ∈ l1 → R a b → S a b) :
    List.Forall₂ S l1 l2 := by
  induction h with
  | nil => exact List.Forall₂.nil
  | cons hab _ ih =>
    exact List.Forall₂.cons (himp _ _ (List.mem_cons_self _ _) hab)
      (ih (fun a b ha hr => himp a b (List.mem_cons_of_mem _ ha) hr))

theorem forall₂_exists_right {α β : Type} {R : α → β → Prop} {l1 : List α} {l2 : List β}
    (h : List.Forall₂ R l1 l2) (a : α) (ha : a ∈ l1) : ∃ b ∈ l2, R a b := by
  induction h with
  | nil => simp at ha
  | cons hab _ ih =>
    simp only [List.mem_cons] at ha
    rcases ha with rfl | ha
    · exact ⟨_, List.mem_cons_self _ _, hab⟩
    · obtain ⟨b, hb, hr⟩ := ih ha
      exact ⟨b, List.mem_cons_of_mem _ hb, hr⟩

theorem forall₂_exists_left {α β : Type} {R : α → β → Prop} {l1 : List α} {l2 : List β}
    (h : List.Forall₂ R l1 l2) (b : β) (hb : b ∈ l2) : ∃ a ∈ l1, R a b := by
  induction h with
  | nil => simp at hb
  | cons hab _ ih =>
    simp only [List.mem_cons] at hb
    rcases hb with rfl | hb
    · exact ⟨_, List.mem_cons_self _ _, hab⟩
    · obtain ⟨a, ha, hr⟩ := ih hb
      exact ⟨a, List.mem_cons_of_mem _ ha, hr⟩

theorem forall₂_map_eq {α β γ : Type} {f : α → γ} {g : β → γ} {l1 : List α} {l2 : List β}
    (h : List.Forall₂ (fun a b => g b = f a) l1 l2) : l2.map g = l1.map f := by
  induction h with
  | nil => rfl
  | cons hab _ ih => simp [hab, ih]

theorem ClientConfig.Complete_write_isSome (conf : ClientConfig)
    (h : ∀ p ∈ conf.Proxies, p.Disabled = false → p.Complete.GetAlias ≠ none) :
    ∃ conf1, conf.Complete false = some conf1 := by
  have hl : ∃ lists, List.Forall₂ (fun p l => p.GetAlias = some l)
      ((conf.Proxies.map Proxy.Complete).filter (fun p => !p.Disabled)) lists := by
    rw [forall₂_getAlias_iff]
    intro q hq
    simp only [List.mem_filter, List.mem_map, Bool.not_eq_true'] at hq
    obtain ⟨⟨p, hp, rfl⟩, hd⟩ := hq
    exact h p hp (by rw [p.Complete_frame.2.2] at hd; exact hd)
  obtain ⟨lists, hl⟩ := hl
  rw [ClientConfig.Complete_write,
    (gatherLoop_eq_some_iff _ _ _ _).2 ⟨lists, hl, rfl⟩]
  exact ⟨_, rfl⟩

theorem ClientConfig.Complete_read_isSome (conf : ClientConfig)
    (h : conf.Start.len = 0 ∨ ∀ p ∈ conf.Proxies, p.Complete.GetAlias ≠ none) :
    ∃ conf2, conf.Complete true = some conf2 := by
  have hps : ∃ ps', completeProxies true conf.Start conf.Proxies = some ps' := by
    rw [completeProxies_isSome_iff]
    intro p hp
    by_cases h0 : conf.Start.len = 0
    · exact ⟨_, completeProxy_other true conf.Start p (Or.inr h0)⟩
    · rw [completeProxy_read _ _ (Nat.pos_of_ne_zero h0)]
      rcases h with h | h
      · exact absurd h h0
      · cases ha : p.Complete.GetAlias with
        | none => exact absurd ha (h p hp)
        | some aliases => exact ⟨_, rfl⟩
  obtain ⟨ps', hps'⟩ := hps
  rw [ClientConfig.Complete_read, hps']
  exact ⟨_, rfl⟩


/-! ## C9: start-list symmetry -/

/-- C9 (amended): for every configuration whose proxies are `pre`, one disabled proxy `d`
and `post`, all others enabled, whose alias computations return and in which `d` has, after
completion, an alias `a` that is not an alias of any other proxy: `Complete(false)` produces
the start list made of the aliases of the other proxies, in list order, and `Complete(true)`
of the resulting configuration marks exactly `d` as disabled and all others as enabled. -/
theorem C9_start_list_symmetry (conf : ClientConfig) (pre post : List Proxy) (d : Proxy)
    (a : String) (ds : List String)
    (hps : conf.Proxies = pre ++ d :: post)
    (hd : d.Disabled = true)
    (hen : ∀ p ∈ pre ++ post, p.Disabled = false)
    (hret : ∀ p ∈ pre ++ post, p.Complete.GetAlias ≠ none)
    (hda : d.Complete.GetAlias = some ds) (ha : a ∈ ds)
    (hown : ∀ p ∈ pre ++ post, ∀ l, p.Complete.GetAlias = some l → a ∉ l) :
    ∃ conf1 conf2 lists,
      conf.Complete false = some conf1 ∧
      List.Forall₂ (fun p l => p.Complete.GetAlias = some l) (pre ++ post) lists ∧
      conf1.Start = some lists.flatten ∧
      conf1.Complete true = some conf2 ∧
      conf2.Proxies.map (fun p => p.Disabled) =
        pre.map (fun _ => false) ++ true :: post.map (fun _ => false) := by
  have hmem : ∀ p, p ∈ conf.Proxies ↔ p = d ∨ p ∈ pre ++ post := by
    intro p
    rw [hps]
    simp only [List.mem_append, List.mem_cons]
    tauto
  have hpre : ∀ p ∈ pre, p.Disabled = false := fun p hp => hen p (List.mem_append_left _ hp)
  have hpost : ∀ p ∈ post, p.Disabled = false :=
    fun p hp => hen p (List.mem_append_right _ hp)
  -- the first pass returns
  obtain ⟨conf1, h1⟩ := ClientConfig.Complete_write_isSome conf (by
    intro p hp hdis
    rcases (hmem p).1 hp with rfl | hp'
    · rw [hd] at hdis; cases hdis
    · exact hret p hp')
  obtain ⟨hp1, lists, hl, hstart⟩ := ClientConfig.Complete_write_eq conf conf1 h1
  -- the enabled proxies are the others
  have hfilter : (conf.Proxies.map Proxy.Complete).filter (fun p => !p.Disabled) =
      (pre ++ post).map Proxy.Complete := by
    have hf : ∀ l : List Proxy, (∀ p ∈ l, p.Disabled = false) →
        (l.map Proxy.Complete).filter (fun p => !p.Disabled) = l.map Proxy.Complete := by
      intro l hl
      rw [List.filter_eq_self]
      intro q hq
      obtain ⟨p, hp, rfl⟩ := List.mem_map.1 hq
      simp [p.Complete_frame.2.2, hl p hp]
    rw [hps, List.map_append, List.map_cons, List.filter_append, List.filter_cons,
      hf pre hpre, hf post hpost, List.map_append]
    simp [d.Complete_frame.2.2, hd]
  rw [hfilter, List.forall₂_map_left_iff] at hl
  have hall : conf.Proxies.all (fun p => !p.Disabled) = false := by
    rw [List.all_eq_false]
    exact ⟨d, (hmem d).2 (Or.inl rfl), by simp [hd]⟩
  rw [hall] at hstart
  simp only [Bool.false_eq_true, if_false] at hstart
  -- the second pass returns
  obtain ⟨conf2, h2⟩ := ClientConfig.Complete_read_isSome conf1 (by
    right
    intro q hq
    rw [hp1] at hq
    obtain ⟨p, hp, rfl⟩ := List.mem_map.1 hq
    rw [Proxy.Complete_idem]
    rcases (hmem p).1 hp with rfl | hp'
    · rw [hda]; simp
    · exact hret p hp')
  refine ⟨conf1, conf2, lists, h1, hl, hstart, h2, ?_⟩
  have hwr := ClientConfig.Complete_write_read conf conf1 conf2 h1 h2
  have hflags : List.Forall₂ (fun p p' => p'.Disabled = p.Disabled)
      conf.Proxies conf2.Proxies := by
    refine forall₂_imp_of_mem hwr ?_
    intro p p' hp hr
    by_cases h0 : conf1.Start.len = 0
    · exact hr.2 h0
    · obtain ⟨aliases, hal, hdis⟩ := hr.1 (Nat.pos_of_ne_zero h0)
      rw [hdis, hstart]
      simp only [Slice.elems, Option.getD_some]
      rcases (hmem p).1 hp with rfl | hp'
      · rw [hda] at hal
        simp only [Option.some.injEq] at hal
        subst hal
        rw [hd]
        have hnot : ¬ lo.Every lists.flatten ds = true := by
          rw [lo_Every_iff]
          intro hall
          have hain := hall a ha
          rw [List.mem_flatten] at hain
          obtain ⟨l, hl1, hl2⟩ := hain
          obtain ⟨q, hq, hql⟩ := forall₂_exists_left hl l hl1
          exact hown q hq l hql hl2
        simp [hnot]
      · rw [hen p hp']
        obtain ⟨l, hl1, hl2⟩ := forall₂_exists_right hl p hp'
        rw [hal] at hl2
        simp only [Option.some.injEq] at hl2
        subst hl2
        have hyes : lo.Every lists.flatten aliases = true := by
          rw [lo_Every_iff]
          intro e he
          exact List.mem_flatten.2 ⟨aliases, hl1, he⟩
        simp [hyes]
  rw [forall₂_map_eq hflags, hps, List.map_append, List.map_cons, hd]
  congr 1
  · exact List.map_congr_left hpre
  · congr 1
    exact List.map_congr_left hpost

/-- Example of C9: proxies `a` (disabled) and the range proxy `r` with two ports; the start
list is `r_0, r_1` and reading it back leaves `a` disabled and `r` enabled. -/
theorem C9_start_list_symmetry_witness :
    ∃ conf1 conf2 lists,
      ClientConfig.Complete
        { Proxies := [{ Name := "a", Type_ := "tcp", LocalPort := "80", Disabled := true },
                      { Name := "r", Type_ := "tcp", LocalPort := "1-2" }] } false =
        some conf1 ∧
      List.Forall₂ (fun p l => p.Complete.GetAlias = some l)
        ([] ++ [({ Name := "r", Type_ := "tcp", LocalPort := "1-2" } : Proxy)]) lists ∧
      conf1.Start = some lists.flatten ∧
      conf1.Complete true = some conf2 ∧
      conf2.Proxies.map (fun p => p.Disabled) =
        ([] : List Proxy).map (fun _ => false) ++
          true :: [({ Name := "r", Type_ := "tcp", LocalPort := "1-2" } : Proxy)].map
            (fun _ => false) :=
  C9_start_list_symmetry
    { Proxies := [{ Name := "a", Type_ := "tcp", LocalPort := "80", Disabled := true },
                  { Name := "r", Type_ := "tcp", LocalPort := "1-2" }] }
    [] [{ Name := "r", Type_ := "tcp", LocalPort := "1-2" }]
    { Name := "a", Type_ := "tcp", LocalPort := "80", Disabled := true } "a" ["a"]
    rfl rfl
    (by intro p hp
        simp only [List.nil_append, List.mem_singleton] at hp
        subst hp; rfl)
    (by intro p hp
        simp only [List.nil_append, List.mem_singleton] at hp
        subst hp; decide)
    (by decide) (by simp)
    (by intro p hp l hl
        simp only [List.nil_append, List.mem_singleton] at hp
        subst hp
        have h : Proxy.GetAlias (Proxy.Complete { Name := "r", Type_ := "tcp", LocalPort := "1-2" }) =
            some ["r_0", "r_1"] := by decide
        rw [h] at hl
        simp only [Option.some.injEq] at hl
        subst hl
        decide)

/-- Counterexample to C9 as stated: the disabled proxy `a_0` and the enabled range proxy
`a` with local ports "1-2". `Complete(false)` gives the start list `a_0, a_1`, the aliases
of the other proxy; `Complete(true)` with that list finds the alias `a_0` of the disabled
proxy in it and marks both proxies as enabled. -/
theorem C9_counterexample :
    (ClientConfig.Complete
        { Proxies := [{ Name := "a_0", Type_ := "tcp", LocalPort := "80", Disabled := true },
                      { Name := "a", Type_ := "tcp", LocalPort := "1-2" }] } false).map
      (fun c => c.Start) = some (some ["a_0", "a_1"]) ∧
    ((ClientConfig.Complete
        { Proxies := [{ Name := "a_0", Type_ := "tcp", LocalPort := "80", Disabled := true },
                      { Name := "a", Type_ := "tcp", LocalPort := "1-2" }] } false).bind
      (fun c => c.Complete true)).map (fun c => c.Proxies.map (fun p => p.Disabled)) =
      some [false, false] := by
  constructor <;> decide


/-! ## C2: completion applied twice -/

/-- C2, evaluated at the failing input: the configuration with the token method, heartbeat
authentication on, and neither a token nor a token source. One `Complete` resets the method
to empty and keeps the heartbeat flag; a second `Complete` finds the empty method and zeroes
the block, so the second application changes the state, in read mode and in write mode. -/
theorem C2_complete_twice_differs :
    ((ClientConfig.Complete { AuthMethod := "token", AuthenticateHeartBeats := true } true).map
      (fun c => (c.AuthMethod, c.AuthenticateHeartBeats)) = some ("", true)) ∧
    (((ClientConfig.Complete { AuthMethod := "token", AuthenticateHeartBeats := true }
      true).bind (fun c => c.Complete true)).map
      (fun c => (c.AuthMethod, c.AuthenticateHeartBeats)) = some ("", false)) ∧
    ((ClientConfig.Complete { AuthMethod := "token", AuthenticateHeartBeats := true } false).map
      (fun c => (c.AuthMethod, c.AuthenticateHeartBeats)) = some ("", true)) ∧
    (((ClientConfig.Complete { AuthMethod := "token", AuthenticateHeartBeats := true }
      false).bind (fun c => c.Complete false)).map
      (fun c => (c.AuthMethod, c.AuthenticateHeartBeats)) = some ("", false)) ∧
    ((ClientConfig.Complete { AuthMethod := "token", AuthenticateHeartBeats := true }
      true).bind (fun c => c.Complete true) ≠
      ClientConfig.Complete { AuthMethod := "token", AuthenticateHeartBeats := true } true) := by
  refine ⟨by decide, by decide, by decide, by decide, by decide⟩


/-! ## C1: the round trip through the modern format -/

theorem Contains_of_infix (a sub b : List Char) : Contains (a ++ (sub ++ b)) sub = true := by
  unfold Contains
  rw [List.any_eq_true]
  refine ⟨sub ++ b, ?_, ?_⟩
  · rw [List.mem_tails]
    exact List.suffix_append a (sub ++ b)
  · rw [List.isPrefixOf_iff_prefix]
    exact List.prefix_append sub b

theorem Join_infix (pieces : List (List Char)) (sep : Char) (p : List Char)
    (hp : p ∈ pieces) : ∃ a b, Join pieces sep = a ++ (p ++ b) := by
  induction pieces with
  | nil => simp at hp
  | cons q rest ih =>
    cases rest with
    | nil =>
      simp only [List.mem_singleton] at hp
      subst hp
      exact ⟨[], [], by simp [Join]⟩
    | cons r rest2 =>
      simp only [List.mem_cons] at hp
      rcases hp with rfl | hp
      · exact ⟨[], sep :: Join (r :: rest2) sep, by simp [Join]⟩
      · obtain ⟨a, b, hab⟩ := ih (by simpa using hp)
        exact ⟨q ++ sep :: a, b, by simp [Join, hab]⟩

theorem mapSet_mem_key {β : Type} (m : List (String × β)) (k0 k : String) (v : β)
    (h : ∃ t, (k0, t) ∈ m) : ∃ t, (k0, t) ∈ mapSet m k v := by
  induction m with
  | nil => simp at h
  | cons e rest ih =>
    obtain ⟨k1, v1⟩ := e
    obtain ⟨t, ht⟩ := h
    simp only [mapSet]
    split_ifs with hk
    · simp only [List.mem_cons, Prod.mk.injEq] at ht
      rcases ht with ⟨h1, -⟩ | ht
      · exact ⟨v, by rw [h1, ← hk]; exact List.mem_cons_self _ _⟩
      · exact ⟨t, List.mem_cons_of_mem _ ht⟩
    · simp only [List.mem_cons, Prod.mk.injEq] at ht
      rcases ht with ⟨h1, h2⟩ | ht
      · exact ⟨v1, by rw [h1]; exact List.mem_cons_self _ _⟩
      · obtain ⟨t2, ht2⟩ := ih ⟨t, ht⟩
        exact ⟨t2, List.mem_cons_of_mem _ ht2⟩

theorem saveTOMLData_has_common (lib : Libs) (conf : ClientConfig) :
    ∃ t, ("common", t) ∈ saveTOMLData lib conf := by
  unfold saveTOMLData
  generalize hd : [("common", saveTOMLCommon lib conf)] = doc
  have h0 : ∃ t, ("common", t) ∈ doc := ⟨_, by rw [← hd]; exact List.mem_cons_self _ _⟩
  clear hd
  induction conf.Proxies generalizing doc with
  | nil => exact h0
  | cons p rest ih => exact ih _ (mapSet_mem_key doc "common" p.Name _ h0)

theorem tomlTableText_common (lib : Libs) (t : TomlTable) :
    ∃ b, tomlTableText lib ("common", t) = "[common]".data ++ b := by
  have hb : isBareKey "common" = true := by decide
  exact ⟨'\n' :: ((sortByKey t).map (tomlLine lib)).flatten, by
    simp [tomlTableText, tomlKey, hb]⟩

theorem saveTOML_detected (lib : Libs) (conf : ClientConfig) :
    DetectLegacyINIFormat (conf.saveTOML lib) = true := by
  obtain ⟨t, ht⟩ := saveTOMLData_has_common lib conf
  have hs : ("common", t) ∈ sortByKey (saveTOMLData lib conf) :=
    (List.perm_insertionSort _ _).mem_iff.2 ht
  obtain ⟨b, hb⟩ := tomlTableText_common lib t
  obtain ⟨a, c, hac⟩ := Join_infix ((sortByKey (saveTOMLData lib conf)).map
    (tomlTableText lib)) '\n' _ (List.mem_map_of_mem (tomlTableText lib) hs)
  unfold DetectLegacyINIFormat ClientConfig.saveTOML tomlMarshal
  simp only [hac, hb, List.append_assoc]
  exact Contains_of_infix a _ _

theorem UnmarshalClientConfFromIni_legacy (lib : Libs) (k : Defaults) (b : String)
    (y : ClientConfig) (h : UnmarshalClientConfFromIni lib k b = some (Except.ok y)) :
    y.LegacyFormat = true := by
  unfold UnmarshalClientConfFromIni at h
  simp only [] at h
  split at h
  · cases h
  · split at h
    · cases h
    · split at h
      · cases h
      · split at h
        · cases h
        · split at h
          · cases h
          · simp only [Option.some.injEq, Except.ok.injEq] at h
            rw [← h]
            rfl


theorem ClientCommon.Complete_LegacyFormat (c : ClientCommon) :
    c.Complete.LegacyFormat = c.LegacyFormat := by
  have h1 : ∀ d : ClientCommon, d.completeAuth.LegacyFormat = d.LegacyFormat := by
    intro d; unfold ClientCommon.completeAuth; simp only []; split_ifs <;> rfl
  have h2 : ∀ d : ClientCommon, d.completeAdmin.LegacyFormat = d.LegacyFormat := by
    intro d; unfold ClientCommon.completeAdmin; split_ifs <;> rfl
  have h3 : ∀ d : ClientCommon, d.completeAutoDelete.LegacyFormat = d.LegacyFormat :=
    fun _ => rfl
  have h4 : ∀ d : ClientCommon, d.completeTCPMux.LegacyFormat = d.LegacyFormat := by
    intro d; unfold ClientCommon.completeTCPMux; split_ifs <;> rfl
  have h5 : ∀ d : ClientCommon, d.completeTLS.LegacyFormat = d.LegacyFormat := by
    intro d; unfold ClientCommon.completeTLS; split_ifs <;> rfl
  have h6 : ∀ d : ClientCommon, d.completeProtocol.LegacyFormat = d.LegacyFormat := by
    intro d; unfold ClientCommon.completeProtocol; split_ifs <;> rfl
  unfold ClientCommon.Complete
  rw [h6, h5, h4, h3, h2, h1]

theorem ClientConfig.Complete_read_LegacyFormat (conf conf2 : ClientConfig)
    (h : conf.Complete true = some conf2) : conf2.LegacyFormat = conf.LegacyFormat := by
  rw [ClientConfig.Complete_read] at h
  simp only [Option.map_eq_some'] at h
  obtain ⟨proxies, -, rfl⟩ := h
  exact ClientCommon.Complete_LegacyFormat _

theorem withStr_LegacyFormat (t : TomlTable) (k : String)
    (set : String → ClientCommon → ClientCommon) (c : ClientCommon)
    (h : ∀ v d, (set v d).LegacyFormat = d.LegacyFormat) :
    (withStr t k set c).LegacyFormat = c.LegacyFormat := by
  unfold withStr; split
  · exact h _ _
  · rfl

theorem withInt_LegacyFormat (t : TomlTable) (k : String)
    (set : Int → ClientCommon → ClientCommon) (c : ClientCommon)
    (h : ∀ v d, (set v d).LegacyFormat = d.LegacyFormat) :
    (withInt t k set c).LegacyFormat = c.LegacyFormat := by
  unfold withInt; split
  · exact h _ _
  · rfl

theorem withBool_LegacyFormat (t : TomlTable) (k : String)
    (set : Bool → ClientCommon → ClientCommon) (c : ClientCommon)
    (h : ∀ v d, (set v d).LegacyFormat = d.LegacyFormat) :
    (withBool t k set c).LegacyFormat = c.LegacyFormat := by
  unfold withBool; split
  · exact h _ _
  · rfl

theorem decodeTOMLAutoDelete_LegacyFormat (lib : Libs) (t : TomlTable) (c : ClientCommon) :
    (decodeTOMLAutoDelete lib t c).LegacyFormat = c.LegacyFormat := by
  unfold decodeTOMLAutoDelete
  split
  · rfl
  · simp only []
    split_ifs
    · split
      · rfl
      · split <;> rfl
    · split <;> rfl
    · rfl

theorem decodeTOMLCommon_LegacyFormat (lib : Libs) (t : TomlTable) (c : ClientCommon) :
    (decodeTOMLCommon lib t c).LegacyFormat = c.LegacyFormat := by
  unfold decodeTOMLCommon
  show (decodeTOMLAutoDelete lib t _).LegacyFormat = _
  rw [decodeTOMLAutoDelete_LegacyFormat]
  iterate 23
    first
      | refine (withStr_LegacyFormat _ _ _ _ ?_).trans ?_
      | refine (withInt_LegacyFormat _ _ _ _ ?_).trans ?_
      | refine (withBool_LegacyFormat _ _ _ _ ?_).trans ?_
    · intro _ _; rfl
  rfl

theorem decodeTOML_LegacyFormat (lib : Libs) (k : Defaults) (doc : TomlDoc)
    (x : ClientConfig) (h : decodeTOML lib k doc = some x) : x.LegacyFormat = false := by
  unfold decodeTOML at h
  rw [ClientConfig.Complete_read_LegacyFormat _ _ h]
  show ClientCommon.LegacyFormat _ = false
  split
  · rw [decodeTOMLCommon_LegacyFormat]; rfl
  · rfl


theorem UnmarshalClientConf_modern (lib : Libs) (k : Defaults) (b : String) (x : ClientConfig)
    (hb : DetectLegacyINIFormat b = false)
    (h : UnmarshalClientConf lib k b = some (Except.ok x)) : x.LegacyFormat = false := by
  unfold UnmarshalClientConf at h
  rw [hb] at h
  simp only [Bool.false_eq_true, if_false] at h
  split at h
  · cases h
  · split at h
    · cases h
    · rename_i conf hconf
      simp only [Option.some.injEq, Except.ok.injEq] at h
      subst h
      exact decodeTOML_LegacyFormat lib k _ _ hconf

theorem UnmarshalClientConf_saved_modern (lib : Libs) (k : Defaults) (x y : ClientConfig)
    (bytes : String) (hx : x.LegacyFormat = false) (hs : x.Save lib = Except.ok bytes)
    (h : UnmarshalClientConf lib k bytes = some (Except.ok y)) : y.LegacyFormat = true := by
  unfold ClientConfig.Save at hs
  rw [hx] at hs
  simp only [Bool.false_eq_true, if_false, Except.ok.injEq] at hs
  subst hs
  unfold UnmarshalClientConf at h
  rw [saveTOML_detected, if_pos rfl] at h
  exact UnmarshalClientConfFromIni_legacy lib k _ y h

/-- C1, the code on every model of the modern format, the failing input included: the bytes
`saveTOML` writes always contain the table header "[common]", so `DetectLegacyINIFormat`
takes them for the legacy format. A model `x` returned by `UnmarshalClientConf` through the
modern decoder has `LegacyFormat = false`; decoding the bytes `Save` writes for it goes
through the legacy decoder, whose every result has `LegacyFormat = true`; so the round trip
never gives `x` back. The empty source, which `toml.Unmarshal` decodes to the empty map, is
such an input. -/
theorem C1_modern_roundtrip_flips_format (lib : Libs) (k : Defaults) :
    (∀ conf : ClientConfig, DetectLegacyINIFormat (conf.saveTOML lib) = true) ∧
    (∀ (b : String) (x : ClientConfig), DetectLegacyINIFormat b = false →
      UnmarshalClientConf lib k b = some (Except.ok x) → x.LegacyFormat = false) ∧
    (∀ (x : ClientConfig) (bytes : String) (y : ClientConfig), x.LegacyFormat = false →
      x.Save lib = Except.ok bytes →
      UnmarshalClientConf lib k bytes = some (Except.ok y) → y.LegacyFormat = true) ∧
    (∀ (b : String) (x : ClientConfig) (bytes : String), DetectLegacyINIFormat b = false →
      UnmarshalClientConf lib k b = some (Except.ok x) → x.Save lib = Except.ok bytes →
      UnmarshalClientConf lib k bytes ≠ some (Except.ok x)) ∧
    (lib.tomlUnmarshal "" = Except.ok [] →
      ∃ x, UnmarshalClientConf lib k "" = some (Except.ok x) ∧ x.LegacyFormat = false ∧
        ∃ bytes, x.Save lib = Except.ok bytes ∧ DetectLegacyINIFormat bytes = true) := by
  refine ⟨saveTOML_detected lib, UnmarshalClientConf_modern lib k, ?_, ?_, ?_⟩
  · intro x bytes y hx hs h
    exact UnmarshalClientConf_saved_modern lib k x y bytes hx hs h
  · intro b x bytes hb hx hs h
    have h1 := UnmarshalClientConf_modern lib k b x hb hx
    have h2 := UnmarshalClientConf_saved_modern lib k x x bytes h1 hs h
    rw [h1] at h2
    cases h2
  · intro hempty
    have hd : DetectLegacyINIFormat "" = false := by decide
    obtain ⟨x, hx⟩ := ClientConfig.Complete_read_isSome
      ({ toClientCommon := (NewDefaultClientConfig k).toClientCommon,
         Proxies := (NewDefaultClientConfig k).Proxies ++ decodeTOMLProxies [] } : ClientConfig)
      (Or.inr (by intro p hp; simp [NewDefaultClientConfig, decodeTOMLProxies] at hp))
    have hu : UnmarshalClientConf lib k "" = some (Except.ok x) := by
      unfold UnmarshalClientConf
      rw [hd]
      simp only [Bool.false_eq_true, if_false, hempty]
      have : decodeTOML lib k [] = some x := by
        unfold decodeTOML
        simpa using hx
      rw [this]
    have hl := UnmarshalClientConf_modern lib k "" x hd hu
    refine ⟨x, hu, hl, x.saveTOML lib, ?_, saveTOML_detected lib x⟩
    unfold ClientConfig.Save
    rw [hl]
    simp


/-! ## C11: the invariant of the completed auth block -/

/-- C11, evaluated at the failing input: the block with the token method, both
authentication flags set and neither a token nor a token source. `ClientAuth.Complete`
returns a block whose method is empty and whose two flags are still set, so the result is
not the zero block. When the method of the result is not empty the invariant does hold: with
the token method the OIDC fields are zero, with the oidc method the token fields are zero,
and with any other method every field but the method is zero. -/
theorem C11_empty_method_keeps_flags :
    ClientAuth.Complete
        { AuthMethod := "token", AuthenticateHeartBeats := true,
          AuthenticateNewWorkConns := true } =
      { AuthMethod := "", AuthenticateHeartBeats := true, AuthenticateNewWorkConns := true } ∧
    ClientAuth.Complete
        { AuthMethod := "token", AuthenticateHeartBeats := true,
          AuthenticateNewWorkConns := true } ≠ {} ∧
    (∀ ca : ClientAuth, ca.Complete.AuthMethod = "token" →
      ca.Complete.OIDCClientId = "" ∧ ca.Complete.OIDCClientSecret = "" ∧
      ca.Complete.OIDCAudience = "" ∧ ca.Complete.OIDCScope = "" ∧
      ca.Complete.OIDCTokenEndpoint = "" ∧ ca.Complete.OIDCAdditionalEndpointParams = none) ∧
    (∀ ca : ClientAuth, ca.Complete.AuthMethod = "oidc" →
      ca.Complete.Token = "" ∧ ca.Complete.TokenSource = "" ∧
      ca.Complete.TokenSourceFile = "") ∧
    (∀ ca : ClientAuth, ca.Complete.AuthMethod ≠ "" → ca.Complete.AuthMethod ≠ "token" →
      ca.Complete.AuthMethod ≠ "oidc" →
      ca.Complete = { AuthMethod := ca.Complete.AuthMethod }) := by
  refine ⟨by decide, by decide, ?_, ?_, ?_⟩
  · intro ca h
    by_cases h0 : ca.AuthMethod = ""
    · simp [ClientAuth.Complete, h0]
    · by_cases ht : ca.AuthMethod = "token"
      · by_cases hs : ca.TokenSource = "" <;> by_cases hk : ca.Token = "" <;>
          simp [ClientAuth.Complete, PruneByTag, Taggable.prune, pruneField, tagAccepts_cons,
            tagAccepts_nil, ht, hs, hk, AuthToken]
      · simp [ClientAuth.Complete, h0, ht, AuthToken] at h
  · intro ca h
    by_cases h0 : ca.AuthMethod = ""
    · simp [ClientAuth.Complete, h0]
    · by_cases ht : ca.AuthMethod = "token"
      · by_cases hs : ca.TokenSource = "" <;> by_cases hk : ca.Token = "" <;>
          simp [ClientAuth.Complete, PruneByTag, Taggable.prune, pruneField, tagAccepts_cons,
            tagAccepts_nil, ht, hs, hk, AuthToken] at h
      · have ho : ca.AuthMethod = "oidc" := by
          simpa [ClientAuth.Complete, h0, ht, AuthToken] using h
        simp [ClientAuth.Complete, PruneByTag, Taggable.prune, pruneField, tagAccepts_cons,
          tagAccepts_nil, ho, AuthToken]
  · intro ca h0 ht ho
    by_cases h0' : ca.AuthMethod = ""
    · simp [ClientAuth.Complete, h0'] at h0
    · by_cases ht' : ca.AuthMethod = "token"
      · by_cases hs : ca.TokenSource = "" <;> by_cases hk : ca.Token = "" <;>
          simp [ClientAuth.Complete, PruneByTag, Taggable.prune, pruneField, tagAccepts_cons,
            tagAccepts_nil, ht', hs, hk, AuthToken] at h0 ht
      · have hm : ca.Complete.AuthMethod = ca.AuthMethod := by
          simp [ClientAuth.Complete, h0', ht', AuthToken]
        rw [hm] at ho ⊢
        simp [ClientAuth.Complete, PruneByTag, Taggable.prune, pruneField, tagAccepts_cons,
          tagAccepts_nil, h0', ht', ho, AuthToken]


/-! ## C12: what `util.PruneByTag` returns on a struct -/

theorem pruneStructFields_eq (fields : List StructField) (value tag : String) :
    pruneStructFields fields value tag =
      fields.map (fun f =>
        { f with value := pruneField f.tag value tag f.value f.value.zero }) := by
  unfold pruneStructFields
  congr 1
  funext f
  unfold pruneField tagAccepts
  cases h : f.tag.lookup tag with
  | none => simp
  | some key => by_cases hk : (key == "*" || key == value) = true <;> simp [hk]

theorem util.PruneByTag_struct (fields : List StructField) (value tag : String) :
    util.PruneByTag (.struct fields) value tag =
      Except.ok (.struct (pruneStructFields fields value tag)) := rfl

theorem pruneField_map {α β : Type} (f : α → β) (t : StructTag) (value tag : String)
    (x z : α) : pruneField t value tag (f x) (f z) = f (pruneField t value tag x z) := by
  unfold pruneField
  split <;> rfl

theorem pruneStructFields_ClientAuth (ca : ClientAuth) (value tag : String) :
    pruneStructFields ca.reflect value tag = (PruneByTag ca value tag).reflect := by
  rw [pruneStructFields_eq]
  simp only [ClientAuth.reflect, PruneByTag, Taggable.prune, List.map_cons, List.map_nil,
    FieldValue.zero, pruneField_map FieldValue.str, pruneField_map FieldValue.bool,
    pruneField_map FieldValue.int, pruneField_map FieldValue.strMap,
    pruneField_map FieldValue.base]

theorem pruneStructFields_PluginParams (pp : PluginParams) (value tag : String) :
    pruneStructFields pp.reflect value tag = (PruneByTag pp value tag).reflect := by
  rw [pruneStructFields_eq]
  simp only [PluginParams.reflect, PruneByTag, Taggable.prune, List.map_cons, List.map_nil,
    FieldValue.zero, pruneField_map FieldValue.str, pruneField_map FieldValue.bool,
    pruneField_map FieldValue.int, pruneField_map FieldValue.strMap,
    pruneField_map FieldValue.base]

theorem pruneStructFields_HealthCheckConf (hc : HealthCheckConf) (value tag : String) :
    pruneStructFields hc.reflect value tag = (PruneByTag hc value tag).reflect := by
  rw [pruneStructFields_eq]
  simp only [HealthCheckConf.reflect, PruneByTag, Taggable.prune, List.map_cons,
    List.map_nil,
    FieldValue.zero, pruneField_map FieldValue.str, pruneField_map FieldValue.bool,
    pruneField_map FieldValue.int, pruneField_map FieldValue.strMap,
    pruneField_map FieldValue.base]

theorem pruneStructFields_Proxy (p : Proxy) (value tag : String) :
    pruneStructFields p.reflect value tag = (PruneByTag p value tag).reflect := by
  rw [pruneStructFields_eq]
  simp only [Proxy.reflect, PruneByTag, Taggable.prune, List.map_cons, List.map_nil,
    FieldValue.zero, pruneField_map FieldValue.str, pruneField_map FieldValue.bool,
    pruneField_map FieldValue.int, pruneField_map FieldValue.strMap,
    pruneField_map FieldValue.base]

theorem tagAccepts_iff (t : StructTag) (value tag : String) :
    tagAccepts t value tag = true ↔ (t.lookup tag = some value ∨ t.lookup tag = some "*") := by
  unfold tagAccepts
  cases h : t.lookup tag with
  | none => simp
  | some key =>
    simp only [Bool.or_eq_true, beq_iff_eq, Option.some.injEq]
    exact or_comm

/-- C12: on a struct value `util.PruneByTag` returns no error, and the copy it returns has
the fields of the input, in the same order and with the same names and tags, where a field
holds the value of the input when its struct tag has the key `tag` with content `value` or
"*", and the zero value of its type otherwise. When no field has the key `tag`, every field of
the copy is zero. For the four record types of the configuration the copy is the record the
typed `PruneByTag` returns, which is the zero record when `tag` is a key that no field of the
type declares. The result is a function of the input alone: the source only assigns to the
fresh `ret`. -/
theorem C12_prune_by_tag_struct (fields : List StructField) (value tag : String) :
    util.PruneByTag (.struct fields) value tag =
      Except.ok (.struct (fields.map (fun f =>
        { f with value :=
            if f.tag.lookup tag = some value ∨ f.tag.lookup tag = some "*" then f.value
            else f.value.zero }))) ∧
    ((∀ f ∈ fields, f.tag.lookup tag = none) →
      util.PruneByTag (.struct fields) value tag =
        Except.ok (.struct (fields.map (fun f => { f with value := f.value.zero })))) ∧
    (∀ ca : ClientAuth, util.PruneByTag (.struct ca.reflect) value tag =
      Except.ok (.struct (PruneByTag ca value tag).reflect)) ∧
    (∀ pp : PluginParams, util.PruneByTag (.struct pp.reflect) value tag =
      Except.ok (.struct (PruneByTag pp value tag).reflect)) ∧
    (∀ hc : HealthCheckConf, util.PruneByTag (.struct hc.reflect) value tag =
      Except.ok (.struct (PruneByTag hc value tag).reflect)) ∧
    (∀ p : Proxy, util.PruneByTag (.struct p.reflect) value tag =
      Except.ok (.struct (PruneByTag p value tag).reflect)) ∧
    (∀ ca : ClientAuth, tag ≠ "ini" → tag ≠ "token" → tag ≠ "oidc" →
      PruneByTag ca value tag = {}) ∧
    (∀ hc : HealthCheckConf, tag ≠ "ini" → tag ≠ "tcp" → tag ≠ "http" →
      PruneByTag hc value tag = {}) := by
  refine ⟨?_, ?_, ?_, ?_, ?_, ?_, ?_, ?_⟩
  · rw [util.PruneByTag_struct, pruneStructFields_eq]
    congr 2
    apply List.map_congr_left
    intro f _
    unfold pruneField
    by_cases h : tagAccepts f.tag value tag = true
    · rw [if_pos h, if_pos ((tagAccepts_iff _ _ _).1 h)]
    · rw [if_neg h, if_neg (fun h2 => h ((tagAccepts_iff _ _ _).2 h2))]
  · intro hnone
    rw [util.PruneByTag_struct, pruneStructFields_eq]
    congr 2
    apply List.map_congr_left
    intro f hf
    have h : tagAccepts f.tag value tag = false := by
      unfold tagAccepts
      rw [hnone f hf]
    unfold pruneField
    rw [h]
    rfl
  · intro ca
    rw [util.PruneByTag_struct, pruneStructFields_ClientAuth]
  · intro pp
    rw [util.PruneByTag_struct, pruneStructFields_PluginParams]
  · intro hc
    rw [util.PruneByTag_struct, pruneStructFields_HealthCheckConf]
  · intro p
    rw [util.PruneByTag_struct, pruneStructFields_Proxy]
  · intro ca h1 h2 h3
    simp [PruneByTag, Taggable.prune, pruneField, tagAccepts_cons, tagAccepts_nil, h1, h2, h3]
  · intro hc h1 h2 h3
    simp [PruneByTag, Taggable.prune, pruneField, tagAccepts_cons, tagAccepts_nil, h1, h2, h3]

/-! ## C13: fields that declare nothing for the projected tag -/

theorem pruneStructFields_getElem? (fields : List StructField) (value tag : String) (i : Nat) :
    (pruneStructFields fields value tag)[i]? =
      (fields[i]?).map (fun f =>
        { f with value := pruneField f.tag value tag f.value f.value.zero }) := by
  rw [pruneStructFields_eq, List.getElem?_map]

/-- C13, as claimed, fails: a field that declares nothing for the projected tag is not
retained. The field `AuthMethod` of the auth block declares only the `ini` tag; projecting
the block with method and token set onto the tag `token` resets it, and the result is the
block holding the token alone. The embedded `BaseProxyConf` of a proxy is one field that
declares only `ini`: projecting a tcp proxy onto `tcp` leaves the zero base block and keeps
`RemotePort` only. -/
theorem C13_counterexample :
    ¬ (∀ (fields : List StructField) (value tag : String) (i : Nat) (f g : StructField),
        fields[i]? = some f → f.tag.lookup tag = none →
        (pruneStructFields fields value tag)[i]? = some g → g.value = f.value) ∧
    PruneByTag ({ AuthMethod := "token", Token := "t" } : ClientAuth) "true" "token" =
      { Token := "t" } ∧
    PruneByTag ({ Name := "a", Type_ := "tcp", LocalPort := "80", RemotePort := "90" } : Proxy)
      "true" "tcp" = { RemotePort := "90" } := by
  refine ⟨?_, by decide, by decide⟩
  intro h
  have h1 := h (ClientAuth.reflect { AuthMethod := "token", Token := "t" }) "true" "token" 0
    { name := "AuthMethod", tag := [("ini", "authentication_method,omitempty")],
      value := .str "token" }
    { name := "AuthMethod", tag := [("ini", "authentication_method,omitempty")],
      value := .str "" } (by decide) (by decide) (by decide)
  exact absurd h1 (by decide)

/-- C13, amended: projection resets the fields that declare nothing for the projected tag.
A field of the input whose struct tag has no entry for `tag` holds the zero value of its
type in the copy, and so does a field whose entry is neither `value` nor "*"; a field whose
entry is `value` or "*" is copied. An embedded record is one field of the struct and is not
descended into: the embedded base block of a proxy and the method of an auth block, which
declare only `ini`, are zero after a projection onto an accepted tag other than `ini`, so
that the callers restore them. -/
theorem C13_projection_resets_undeclared (fields : List StructField) (value tag : String)
    (i : Nat) (f : StructField) (hf : fields[i]? = some f) :
    (∃ out, util.PruneByTag (.struct fields) value tag = Except.ok (.struct out) ∧
      (f.tag.lookup tag = none → out[i]? = some { f with value := f.value.zero }) ∧
      (∀ key, f.tag.lookup tag = some key → key ≠ "*" → key ≠ value →
        out[i]? = some { f with value := f.value.zero }) ∧
      (f.tag.lookup tag = some value ∨ f.tag.lookup tag = some "*" → out[i]? = some f)) ∧
    (∀ p : Proxy, (tag = "ini" → value ≠ ",extends") →
      (PruneByTag p value tag).toBaseProxyConf = {}) ∧
    (∀ ca : ClientAuth, (tag = "ini" → value ≠ "authentication_method,omitempty") →
      (PruneByTag ca value tag).AuthMethod = "") := by
  refine ⟨⟨pruneStructFields fields value tag, rfl, ?_, ?_, ?_⟩, ?_, ?_⟩
  · intro hn
    rw [pruneStructFields_getElem?, hf]
    simp [pruneField, tagAccepts, hn]
  · intro key hk h1 h2
    rw [pruneStructFields_getElem?, hf]
    simp [pruneField, tagAccepts, hk, h1, h2]
  · intro hk
    rw [pruneStructFields_getElem?, hf]
    simp [pruneField, (tagAccepts_iff f.tag value tag).2 hk]
  · intro p ht
    by_cases h : tag = "ini"
    · have hv := ht h
      have hv2 : ¬ ",extends" = value := fun e => hv e.symm
      simp [PruneByTag, Taggable.prune, pruneField, tagAccepts_cons, tagAccepts_nil, h, hv2]
    · simp [PruneByTag, Taggable.prune, pruneField, tagAccepts_cons, tagAccepts_nil, h]
  · intro ca ht
    by_cases h : tag = "ini"
    · have hv := ht h
      have hv2 : ¬ "authentication_method,omitempty" = value := fun e => hv e.symm
      simp [PruneByTag, Taggable.prune, pruneField, tagAccepts_cons, tagAccepts_nil, h, hv2]
    · simp [PruneByTag, Taggable.prune, pruneField, tagAccepts_cons, tagAccepts_nil, h]

theorem C13_projection_resets_undeclared_witness :
    (∃ out, util.PruneByTag (.struct (ClientAuth.reflect { AuthMethod := "token", Token := "t" }))
        "true" "token" = Except.ok (.struct out) ∧
      out[0]? = some
        { name := "AuthMethod", tag := [("ini", "authentication_method,omitempty")],
          value := .str "" }) := by
  obtain ⟨⟨out, ho, h1, -, -⟩, -, -⟩ := C13_projection_resets_undeclared
    (ClientAuth.reflect { AuthMethod := "token", Token := "t" }) "true" "token" 0
    { name := "AuthMethod", tag := [("ini", "authentication_method,omitempty")],
      value := .str "token" } (by decide)
  exact ⟨out, ho, h1 (by decide)⟩

/-! ## C14: projecting twice onto the same tag -/

theorem FieldValue.zero_zero (v : FieldValue) : v.zero.zero = v.zero := by
  cases v <;> rfl

theorem PruneByTag_ClientAuth_idem (ca : ClientAuth) (value tag : String) :
    PruneByTag (PruneByTag ca value tag) value tag = PruneByTag ca value tag := by
  simp only [PruneByTag, Taggable.prune, pruneField_idem]

theorem pruneStructFields_idem (fields : List StructField) (value tag : String) :
    pruneStructFields (pruneStructFields fields value tag) value tag =
      pruneStructFields fields value tag := by
  rw [pruneStructFields_eq, pruneStructFields_eq, List.map_map]
  apply List.map_congr_left
  intro f _
  simp only [Function.comp, pruneField]
  split_ifs
  · rfl
  · rw [FieldValue.zero_zero]

/-- C14: projection is idempotent. For every auth block, plugin parameter block, health
check block and proxy, and every tag and value, projecting the projection again with the
same tag and value gives the projection; the same holds for `util.PruneByTag` on any struct
value, whatever its fields and tags. -/
theorem C14_projection_idempotent (value tag : String) :
    (∀ ca : ClientAuth,
      PruneByTag (PruneByTag ca value tag) value tag = PruneByTag ca value tag) ∧
    (∀ pp : PluginParams,
      PruneByTag (PruneByTag pp value tag) value tag = PruneByTag pp value tag) ∧
    (∀ hc : HealthCheckConf,
      PruneByTag (PruneByTag hc value tag) value tag = PruneByTag hc value tag) ∧
    (∀ p : Proxy,
      PruneByTag (PruneByTag p value tag) value tag = PruneByTag p value tag) ∧
    (∀ fields : List StructField, ∃ out,
      util.PruneByTag (.struct fields) value tag = Except.ok (.struct out) ∧
      util.PruneByTag (.struct out) value tag = Except.ok (.struct out)) :=
  ⟨fun ca => PruneByTag_ClientAuth_idem ca value tag,
   fun pp => PruneByTag_PluginParams_idem pp value tag,
   fun hc => PruneByTag_HealthCheckConf_idem hc value tag,
   fun p => PruneByTag_Proxy_idem p value tag,
   fun fields => ⟨pruneStructFields fields value tag, rfl, by
     rw [util.PruneByTag_struct, pruneStructFields_idem]⟩⟩

/-! ## C15: projecting onto one tag, then onto another -/

theorem pruneStructFields_comp (fields : List StructField) (va ta vb tb : String) :
    pruneStructFields (pruneStructFields fields va ta) vb tb =
      fields.map (fun f =>
        { f with value :=
            if tagAccepts f.tag va ta = true ∧ tagAccepts f.tag vb tb = true then f.value
            else f.value.zero }) := by
  rw [pruneStructFields_eq, pruneStructFields_eq, List.map_map]
  apply List.map_congr_left
  intro f _
  simp only [Function.comp, pruneField]
  by_cases ha : tagAccepts f.tag va ta = true <;> by_cases hb : tagAccepts f.tag vb tb = true <;>
    simp [ha, hb, FieldValue.zero_zero]

/-- C15, as claimed, fails, on the example the claim gives: the plugin parameters with only
`PluginUser` set, projected onto `http_proxy` and then onto `socks5`, are the zero record,
while projected onto `socks5` directly they keep `PluginUser`. -/
theorem C15_counterexample :
    PruneByTag (PruneByTag ({ PluginUser := "u" } : PluginParams) "true" "http_proxy")
      "true" "socks5" = {} ∧
    PruneByTag ({ PluginUser := "u" } : PluginParams) "true" "socks5" = { PluginUser := "u" } ∧
    PruneByTag (PruneByTag ({ PluginUser := "u" } : PluginParams) "true" "http_proxy")
      "true" "socks5" ≠ PruneByTag ({ PluginUser := "u" } : PluginParams) "true" "socks5" := by
  decide

/-- C15, amended: projection onto tag A followed by projection onto tag B keeps exactly the
fields that both tags accept and resets every other field. It equals the projection onto B
alone when every field accepted for B is accepted for A, as for the plugin parameters with
A `static_file` and B `http_proxy`. When no field is accepted for both, it is the record of
zero values, as for the plugin parameters with A `http_proxy` and B `socks5`, whatever the
input. -/
theorem C15_projection_composition (fields : List StructField) (va ta vb tb : String) :
    pruneStructFields (pruneStructFields fields va ta) vb tb =
      fields.map (fun f =>
        { f with value :=
            if tagAccepts f.tag va ta = true ∧ tagAccepts f.tag vb tb = true then f.value
            else f.value.zero }) ∧
    ((∀ f ∈ fields, tagAccepts f.tag vb tb = true → tagAccepts f.tag va ta = true) →
      pruneStructFields (pruneStructFields fields va ta) vb tb =
        pruneStructFields fields vb tb) ∧
    ((∀ f ∈ fields, ¬ (tagAccepts f.tag va ta = true ∧ tagAccepts f.tag vb tb = true)) →
      pruneStructFields (pruneStructFields fields va ta) vb tb =
        fields.map (fun f => { f with value := f.value.zero })) ∧
    (∀ pp : PluginParams,
      PruneByTag (PruneByTag pp "true" "static_file") "true" "http_proxy" =
        PruneByTag pp "true" "http_proxy") ∧
    (∀ pp : PluginParams,
      PruneByTag (PruneByTag pp "true" "http_proxy") "true" "socks5" = {}) := by
  refine ⟨pruneStructFields_comp fields va ta vb tb, ?_, ?_, ?_, ?_⟩
  · intro h
    rw [pruneStructFields_comp, pruneStructFields_eq]
    apply List.map_congr_left
    intro f hf
    unfold pruneField
    by_cases hb : tagAccepts f.tag vb tb = true
    · simp [hb, h f hf hb]
    · simp [hb]
  · intro h
    rw [pruneStructFields_comp]
    apply List.map_congr_left
    intro f hf
    rw [if_neg (h f hf)]
  · intro pp
    simp [PruneByTag, Taggable.prune, pruneField, tagAccepts_cons, tagAccepts_nil]
  · intro pp
    simp [PruneByTag, Taggable.prune, pruneField, tagAccepts_cons, tagAccepts_nil]

/-! ## C16: completion of a visitor -/

/-- C16: per-proxy completion of a visitor, that is of a proxy of type xtcp, stcp or sudp
with role "visitor". The base block of the result holds only `Name`, `Type`,
`UseEncryption`, `UseCompression` and `Disabled` of the input. `Role`, `SK`, `ServerUser`,
`ServerName`, `BindAddr` and `BindPort` are unchanged. `Protocol`, `KeepTunnelOpen` and
`FallbackTo` are kept when the type is xtcp; `MaxRetriesAnHour` and `MinRetryInterval` are
kept when the type is xtcp and `KeepTunnelOpen` is set; `FallbackTimeoutMs` is kept when the
type is xtcp and `FallbackTo` is not empty. Every other field is zero. -/
theorem C16_visitor_complete (p : Proxy)
    (ht : p.Type_ = ProxyTypeXTCP ∨ p.Type_ = ProxyTypeSTCP ∨ p.Type_ = ProxyTypeSUDP)
    (hr : p.Role = "visitor") :
    p.Complete =
      { Name := p.Name, Type_ := p.Type_, UseEncryption := p.UseEncryption,
        UseCompression := p.UseCompression, Disabled := p.Disabled,
        Role := p.Role, SK := p.SK, ServerUser := p.ServerUser, ServerName := p.ServerName,
        BindAddr := p.BindAddr, BindPort := p.BindPort,
        Protocol := if p.Type_ = "xtcp" then p.Protocol else "",
        KeepTunnelOpen := if p.Type_ = "xtcp" then p.KeepTunnelOpen else false,
        MaxRetriesAnHour :=
          if p.Type_ = "xtcp" ∧ p.KeepTunnelOpen = true then p.MaxRetriesAnHour else 0,
        MinRetryInterval :=
          if p.Type_ = "xtcp" ∧ p.KeepTunnelOpen = true then p.MinRetryInterval else 0,
        FallbackTo := if p.Type_ = "xtcp" then p.FallbackTo else "",
        FallbackTimeoutMs :=
          if p.Type_ = "xtcp" ∧ p.FallbackTo ≠ "" then p.FallbackTimeoutMs else 0 } := by
  have hv : p.IsVisitor = true := by
    rw [Proxy.IsVisitor_iff]
    exact ⟨ht, hr⟩
  rw [Proxy.Complete_of_visitor p hv, Proxy.visitorProjection_eq]
  unfold Proxy.resetFallback Proxy.resetRetries
  by_cases hx : p.Type_ = "xtcp" <;> by_cases hk : p.KeepTunnelOpen = true <;>
    by_cases hf : p.FallbackTo = "" <;> simp [hx, hk, hf]

theorem C16_visitor_complete_witness :
    Proxy.Complete { Name := "v", Type_ := "xtcp", LocalIP := "127.0.0.1", LocalPort := "22",
                     Group := "g", Role := "visitor", SK := "k", ServerName := "s",
                     BindPort := 6000, RemotePort := "7", KeepTunnelOpen := false,
                     MaxRetriesAnHour := 8, FallbackTo := "f", FallbackTimeoutMs := 200 } =
      { Name := "v", Type_ := "xtcp", Role := "visitor", SK := "k", ServerName := "s",
        BindPort := 6000, FallbackTo := "f", FallbackTimeoutMs := 200 } :=
  (C16_visitor_complete _ (Or.inl rfl) rfl).trans (by decide)

/-! ## C17 and C18: completion of a proxy that is not a visitor -/

theorem Proxy.Complete_base_of_not_visitor (p : Proxy) (hv : p.IsVisitor = false) :
    p.Complete.toBaseProxyConf = p.toBaseProxyConf.completePlugin.completeHealthCheck := by
  rw [Proxy.Complete_of_not_visitor p hv]

theorem BaseProxyConf.completeHealthCheck_plugin (b : BaseProxyConf) :
    b.completeHealthCheck.toPluginParams = b.toPluginParams ∧
    b.completeHealthCheck.LocalIP = b.LocalIP ∧
    b.completeHealthCheck.LocalPort = b.LocalPort ∧
    b.completeHealthCheck.Plugin = b.Plugin := by
  unfold BaseProxyConf.completeHealthCheck
  split_ifs <;> exact ⟨rfl, rfl, rfl, rfl⟩

/-- C17: a plugin supersedes direct forwarding. For a proxy that is not a visitor, after
`Complete`: the plugin kind is unchanged; when it is not empty, `LocalIP` and `LocalPort`
are empty and the plugin parameters are the projection of the input's onto the plugin kind,
each field being unchanged when the plugin kind is one of those its tag lists and zero
otherwise; when it is empty, the plugin parameters are entirely zero and `LocalIP` and
`LocalPort` are unchanged. -/
theorem C17_plugin_supersedes_local (p : Proxy) (hv : p.IsVisitor = false) :
    p.Complete.Plugin = p.Plugin ∧
    (p.Plugin ≠ "" →
      p.Complete.LocalIP = "" ∧ p.Complete.LocalPort = "" ∧
      p.Complete.toPluginParams = PruneByTag p.toPluginParams "true" p.Plugin ∧
      p.Complete.toPluginParams =
        { PluginLocalAddr :=
            if p.Plugin ∈ ["http2https", "http2http", "https2https", "https2http", "tls2raw"]
            then p.PluginLocalAddr else "",
          PluginCrtPath :=
            if p.Plugin ∈ ["https2https", "https2http", "tls2raw"] then p.PluginCrtPath
            else "",
          PluginKeyPath :=
            if p.Plugin ∈ ["https2https", "https2http", "tls2raw"] then p.PluginKeyPath
            else "",
          PluginHostHeaderRewrite :=
            if p.Plugin ∈ ["http2https", "http2http", "https2https", "https2http"]
            then p.PluginHostHeaderRewrite else "",
          PluginHttpUser :=
            if p.Plugin ∈ ["http_proxy", "static_file"] then p.PluginHttpUser else "",
          PluginHttpPasswd :=
            if p.Plugin ∈ ["http_proxy", "static_file"] then p.PluginHttpPasswd else "",
          PluginUser := if p.Plugin ∈ ["socks5"] then p.PluginUser else "",
          PluginPasswd := if p.Plugin ∈ ["socks5"] then p.PluginPasswd else "",
          PluginLocalPath := if p.Plugin ∈ ["static_file"] then p.PluginLocalPath else "",
          PluginStripPrefix := if p.Plugin ∈ ["static_file"] then p.PluginStripPrefix else "",
          PluginUnixPath := if p.Plugin ∈ ["unix_domain_socket"] then p.PluginUnixPath else "",
          PluginHeaders :=
            if p.Plugin ∈ ["http2https", "http2http", "https2https", "https2http"]
            then p.PluginHeaders else none,
          PluginEnableHTTP2 :=
            if p.Plugin ∈ ["https2https", "https2http"] then p.PluginEnableHTTP2
            else false }) ∧
    (p.Plugin = "" →
      p.Complete.toPluginParams = {} ∧ p.Complete.LocalIP = p.LocalIP ∧
      p.Complete.LocalPort = p.LocalPort) := by
  have hb := Proxy.Complete_base_of_not_visitor p hv
  obtain ⟨h1, h2, h3, h4⟩ := BaseProxyConf.completeHealthCheck_plugin
    p.toBaseProxyConf.completePlugin
  have e1 : p.Complete.toPluginParams = p.toBaseProxyConf.completePlugin.toPluginParams := by
    rw [← h1, ← hb]
  have e2 : p.Complete.LocalIP = p.toBaseProxyConf.completePlugin.LocalIP := by
    rw [← h2, ← hb]
  have e3 : p.Complete.LocalPort = p.toBaseProxyConf.completePlugin.LocalPort := by
    rw [← h3, ← hb]
  have e4 : p.Complete.Plugin = p.toBaseProxyConf.completePlugin.Plugin := by
    rw [← h4, ← hb]
  rw [e1, e2, e3, e4]
  unfold BaseProxyConf.completePlugin
  by_cases h : p.Plugin = ""
  · simp [h]
  · simp only [ne_eq, h, not_false_eq_true, if_true, true_implies, false_implies, and_true,
      true_and]
    simp only [PruneByTag, Taggable.prune, pruneField, tagAccepts_cons, tagAccepts_nil,
      List.mem_cons, List.mem_singleton, List.mem_nil_iff, or_false]
    have hini : ¬ p.Plugin = "ini" ∨ p.Plugin = "ini" := by tauto
    rcases hini with hini | hini
    · simp [hini, or_assoc]
    · simp [hini]

theorem C17_plugin_supersedes_local_witness :
    examplePluginProxy.IsVisitor = false ∧
    examplePluginProxy.Complete.LocalIP = "" ∧
    examplePluginProxy.Complete.LocalPort = "" ∧
    examplePluginProxy.Complete.toPluginParams = { PluginUser := "u" } :=
  ⟨by decide,
   ((C17_plugin_supersedes_local examplePluginProxy (by decide)).2.1 (by decide)).1,
   ((C17_plugin_supersedes_local examplePluginProxy (by decide)).2.1 (by decide)).2.1,
   (((C17_plugin_supersedes_local examplePluginProxy (by decide)).2.1
      (by decide)).2.2.1).trans (by decide)⟩

theorem BaseProxyConf.completePlugin_health (b : BaseProxyConf) :
    b.completePlugin.toHealthCheckConf = b.toHealthCheckConf ∧
    b.completePlugin.HealthCheckType = b.HealthCheckType := by
  unfold BaseProxyConf.completePlugin
  split_ifs <;> exact ⟨rfl, rfl⟩

theorem BaseProxyConf.complete_eq (b : BaseProxyConf) :
    b.completePlugin.completeHealthCheck =
      { b with
        toPluginParams := b.completePlugin.toPluginParams,
        LocalIP := b.completePlugin.LocalIP,
        LocalPort := b.completePlugin.LocalPort,
        toHealthCheckConf :=
          if b.HealthCheckType = "" then {}
          else PruneByTag b.toHealthCheckConf "true" b.HealthCheckType } := by
  unfold BaseProxyConf.completeHealthCheck
  rw [(BaseProxyConf.completePlugin_health b).1, (BaseProxyConf.completePlugin_health b).2]
  unfold BaseProxyConf.completePlugin
  by_cases h : b.Plugin = "" <;> by_cases h2 : b.HealthCheckType = "" <;> simp [h, h2]

theorem PruneByTag_HealthCheckConf_eq (hc : HealthCheckConf) (t : String) :
    PruneByTag hc "true" t =
      { HealthCheckTimeoutS := if t ∈ ["tcp", "http"] then hc.HealthCheckTimeoutS else 0,
        HealthCheckMaxFailed := if t ∈ ["tcp", "http"] then hc.HealthCheckMaxFailed else 0,
        HealthCheckIntervalS := if t ∈ ["tcp", "http"] then hc.HealthCheckIntervalS else 0,
        HealthCheckURL := if t ∈ ["http"] then hc.HealthCheckURL else "",
        HealthCheckHTTPHeaders := if t ∈ ["http"] then hc.HealthCheckHTTPHeaders else none } := by
  simp only [PruneByTag, Taggable.prune, pruneField, tagAccepts_cons, tagAccepts_nil,
    List.mem_cons, List.mem_singleton, List.mem_nil_iff, or_false]
  have hini : ¬ t = "ini" ∨ t = "ini" := by tauto
  rcases hini with hini | hini
  · simp [hini, or_assoc]
  · simp [hini]

theorem PruneByTag_Proxy_eq (p : Proxy) (t : String) :
    PruneByTag p "true" t =
      { RemotePort := if t ∈ ["tcp", "udp"] then p.RemotePort else "",
        Role := if t ∈ ["stcp", "xtcp", "sudp", "visitor"] then p.Role else "",
        SK := if t ∈ ["stcp", "xtcp", "sudp", "visitor"] then p.SK else "",
        AllowUsers := if t ∈ ["stcp", "xtcp", "sudp"] then p.AllowUsers else "",
        ServerUser := if t ∈ ["visitor"] then p.ServerUser else "",
        ServerName := if t ∈ ["visitor"] then p.ServerName else "",
        BindAddr := if t ∈ ["visitor"] then p.BindAddr else "",
        BindPort := if t ∈ ["visitor"] then p.BindPort else 0,
        CustomDomains := if t ∈ ["http", "https", "tcpmux"] then p.CustomDomains else "",
        SubDomain := if t ∈ ["http", "https", "tcpmux"] then p.SubDomain else "",
        Locations := if t ∈ ["http"] then p.Locations else "",
        HTTPUser := if t ∈ ["http", "tcpmux"] then p.HTTPUser else "",
        HTTPPwd := if t ∈ ["http", "tcpmux"] then p.HTTPPwd else "",
        HostHeaderRewrite := if t ∈ ["http"] then p.HostHeaderRewrite else "",
        Headers := if t ∈ ["http"] then p.Headers else none,
        ResponseHeaders := if t ∈ ["http"] then p.ResponseHeaders else none,
        Multiplexer := if t ∈ ["tcpmux"] then p.Multiplexer else "",
        RouteByHTTPUser := if t ∈ ["http", "tcpmux"] then p.RouteByHTTPUser else "" } := by
  simp only [PruneByTag, Taggable.prune, pruneField, tagAccepts_cons, tagAccepts_nil,
    List.mem_cons, List.mem_singleton, List.mem_nil_iff, or_false]
  have hini : ¬ t = "ini" ∨ t = "ini" := by tauto
  rcases hini with hini | hini
  · simp [hini, or_assoc]
  · simp [hini]

/-- C18: proxy-type projection of a proxy that is not a visitor. After `Complete`, each
field of the proxy outside the base block is unchanged when its struct tag has the key
`p.Type` with content "true" or "*", and zero otherwise: `RemotePort` is kept for tcp and udp;
`Role` and `SK` for stcp, xtcp, sudp (and for the type named "visitor"); `AllowUsers` for
stcp, xtcp, sudp; `CustomDomains` and `SubDomain` for http, https, tcpmux; `Locations`,
`HostHeaderRewrite`, `Headers` and `ResponseHeaders` for http; `HTTPUser`, `HTTPPwd` and
`RouteByHTTPUser` for http and tcpmux; `Multiplexer` for tcpmux; the fields tagged for the
visitor grouping only are zero (`ServerUser`, `ServerName`, `BindAddr`, `BindPort` survive
for the type named "visitor" alone, the xtcp tuning fields never). The base block is the
input's, with the plugin part completed (`PluginParams`, `LocalIP`, `LocalPort`) and with
`HealthCheckConf` projected onto `HealthCheckType` when that is set and zero when it is
empty: `Name`, `Type`, the encryption and compression flags, group, bandwidth limit,
metadata and `Disabled` are unchanged. -/
theorem C18_type_projection (p : Proxy) (hv : p.IsVisitor = false) :
    p.Complete.toBaseProxyConf =
      { p.toBaseProxyConf with
        toPluginParams := p.Complete.toPluginParams,
        LocalIP := p.Complete.LocalIP,
        LocalPort := p.Complete.LocalPort,
        toHealthCheckConf :=
          if p.HealthCheckType = "" then {}
          else
            { HealthCheckTimeoutS :=
                if p.HealthCheckType ∈ ["tcp", "http"] then p.HealthCheckTimeoutS else 0,
              HealthCheckMaxFailed :=
                if p.HealthCheckType ∈ ["tcp", "http"] then p.HealthCheckMaxFailed else 0,
              HealthCheckIntervalS :=
                if p.HealthCheckType ∈ ["tcp", "http"] then p.HealthCheckIntervalS else 0,
              HealthCheckURL := if p.HealthCheckType ∈ ["http"] then p.HealthCheckURL else "",
              HealthCheckHTTPHeaders :=
                if p.HealthCheckType ∈ ["http"] then p.HealthCheckHTTPHeaders else none } } ∧
    (p.HealthCheckType ≠ "" →
      p.Complete.toHealthCheckConf = PruneByTag p.toHealthCheckConf "true" p.HealthCheckType) ∧
    p.Complete =
      { toBaseProxyConf := p.Complete.toBaseProxyConf,
        RemotePort := if p.Type_ ∈ ["tcp", "udp"] then p.RemotePort else "",
        Role := if p.Type_ ∈ ["stcp", "xtcp", "sudp", "visitor"] then p.Role else "",
        SK := if p.Type_ ∈ ["stcp", "xtcp", "sudp", "visitor"] then p.SK else "",
        AllowUsers := if p.Type_ ∈ ["stcp", "xtcp", "sudp"] then p.AllowUsers else "",
        ServerUser := if p.Type_ ∈ ["visitor"] then p.ServerUser else "",
        ServerName := if p.Type_ ∈ ["visitor"] then p.ServerName else "",
        BindAddr := if p.Type_ ∈ ["visitor"] then p.BindAddr else "",
        BindPort := if p.Type_ ∈ ["visitor"] then p.BindPort else 0,
        CustomDomains := if p.Type_ ∈ ["http", "https", "tcpmux"] then p.CustomDomains else "",
        SubDomain := if p.Type_ ∈ ["http", "https", "tcpmux"] then p.SubDomain else "",
        Locations := if p.Type_ ∈ ["http"] then p.Locations else "",
        HTTPUser := if p.Type_ ∈ ["http", "tcpmux"] then p.HTTPUser else "",
        HTTPPwd := if p.Type_ ∈ ["http", "tcpmux"] then p.HTTPPwd else "",
        HostHeaderRewrite := if p.Type_ ∈ ["http"] then p.HostHeaderRewrite else "",
        Headers := if p.Type_ ∈ ["http"] then p.Headers else none,
        ResponseHeaders := if p.Type_ ∈ ["http"] then p.ResponseHeaders else none,
        Multiplexer := if p.Type_ ∈ ["tcpmux"] then p.Multiplexer else "",
        RouteByHTTPUser := if p.Type_ ∈ ["http", "tcpmux"] then p.RouteByHTTPUser else "",
        Protocol := "", KeepTunnelOpen := false, MaxRetriesAnHour := 0,
        MinRetryInterval := 0, FallbackTo := "", FallbackTimeoutMs := 0 } ∧
    p.Complete.reflect.tail =
      p.reflect.tail.map (fun f =>
        { f with value :=
            if f.tag.lookup p.Type_ = some "true" ∨ f.tag.lookup p.Type_ = some "*"
            then f.value else f.value.zero }) := by
  have hb := Proxy.Complete_base_of_not_visitor p hv
  have hc := Proxy.Complete_of_not_visitor p hv
  refine ⟨?_, ?_, ?_, ?_⟩
  · rw [hb, BaseProxyConf.complete_eq, PruneByTag_HealthCheckConf_eq]
  · intro h
    rw [hb, BaseProxyConf.complete_eq]
    simp [h]
  · rw [hb]
    rw [hc, PruneByTag_Proxy_eq]
  · have h1 : p.Complete.reflect.tail =
        (Proxy.reflect (PruneByTag p "true" p.Type_)).tail := by
      rw [hc]
      rfl
    rw [h1, ← pruneStructFields_Proxy, pruneStructFields_eq, ← List.map_tail]
    apply List.map_congr_left
    intro f _
    unfold pruneField
    by_cases h : tagAccepts f.tag "true" p.Type_ = true
    · rw [if_pos h, if_pos ((tagAccepts_iff _ _ _).1 h)]
    · rw [if_neg h, if_neg (fun h2 => h ((tagAccepts_iff _ _ _).2 h2))]

theorem C18_type_projection_witness :
    exampleTypedProxy.IsVisitor = false ∧
    exampleTypedProxy.Complete =
      { Name := "web", Type_ := "http", LocalPort := "8080", Group := "g",
        HealthCheckType := "tcp", HealthCheckTimeoutS := 3,
        CustomDomains := "example.com" } :=
  ⟨by decide, (C18_type_projection exampleTypedProxy (by decide)).2.2.1.trans (by decide)⟩

/-! ## C19: pruning of the common settings -/

theorem ClientCommon.completeAuth_switched (c : ClientCommon) :
    c.completeAuth.switched = c.switched := by
  unfold ClientCommon.completeAuth
  simp only []
  split_ifs <;> rfl

theorem ClientCommon.completeAdmin_switched (c : ClientCommon) :
    c.completeAdmin.switched =
      { c.switched with
        AdminUser := if c.switched.AdminPort = 0 then "" else c.switched.AdminUser,
        AdminPwd := if c.switched.AdminPort = 0 then "" else c.switched.AdminPwd,
        AssetsDir := if c.switched.AdminPort = 0 then "" else c.switched.AssetsDir,
        PprofEnable := if c.switched.AdminPort = 0 then false else c.switched.PprofEnable } := by
  unfold ClientCommon.completeAdmin
  by_cases h : c.AdminPort = 0 <;> simp [h, ClientCommon.switched]

theorem ClientCommon.completeAutoDelete_switched (c : ClientCommon) :
    c.completeAutoDelete.switched = c.switched := rfl

theorem ClientCommon.completeTCPMux_switched (c : ClientCommon) :
    c.completeTCPMux.switched =
      { c.switched with
        TCPMuxKeepaliveInterval :=
          if c.switched.TCPMux = false then 0 else c.switched.TCPMuxKeepaliveInterval } := by
  unfold ClientCommon.completeTCPMux
  by_cases h : c.TCPMux = false <;> simp [h, ClientCommon.switched]

theorem ClientCommon.completeTLS_switched (c : ClientCommon) :
    c.completeTLS.switched =
      { c.switched with
        TLSServerName := if c.switched.TLSEnable = false then "" else c.switched.TLSServerName,
        TLSCertFile := if c.switched.TLSEnable = false then "" else c.switched.TLSCertFile,
        TLSKeyFile := if c.switched.TLSEnable = false then "" else c.switched.TLSKeyFile,
        TLSTrustedCaFile := if c.switched.TLSEnable = false then "" else c.switched.TLSTrustedCaFile } := by
  unfold ClientCommon.completeTLS
  by_cases h : c.TLSEnable = false <;> simp [h, ClientCommon.switched]

theorem ClientCommon.completeProtocol_switched (c : ClientCommon) :
    c.completeProtocol.switched =
      { c.switched with
        DialServerTimeout := if c.switched.Protocol = ProtoQUIC then 0 else c.switched.DialServerTimeout,
        DialServerKeepAlive := if c.switched.Protocol = ProtoQUIC then 0 else c.switched.DialServerKeepAlive,
        QUICMaxIdleTimeout := if c.switched.Protocol = ProtoQUIC then c.switched.QUICMaxIdleTimeout else 0,
        QUICKeepalivePeriod := if c.switched.Protocol = ProtoQUIC then c.switched.QUICKeepalivePeriod else 0,
        QUICMaxIncomingStreams :=
          if c.switched.Protocol = ProtoQUIC then c.switched.QUICMaxIncomingStreams else 0 } := by
  unfold ClientCommon.completeProtocol
  by_cases h : c.Protocol = ProtoQUIC <;> simp [h, ClientCommon.switched]

theorem ClientCommon.Complete_switched (c : ClientCommon) :
    c.Complete.switched =
      { AdminPort := c.AdminPort,
        AdminUser := if c.AdminPort = 0 then "" else c.AdminUser,
        AdminPwd := if c.AdminPort = 0 then "" else c.AdminPwd,
        AssetsDir := if c.AdminPort = 0 then "" else c.AssetsDir,
        PprofEnable := if c.AdminPort = 0 then false else c.PprofEnable,
        TCPMux := c.TCPMux,
        TCPMuxKeepaliveInterval := if c.TCPMux = false then 0 else c.TCPMuxKeepaliveInterval,
        TLSEnable := c.TLSEnable,
        TLSServerName := if c.TLSEnable = false then "" else c.TLSServerName,
        TLSCertFile := if c.TLSEnable = false then "" else c.TLSCertFile,
        TLSKeyFile := if c.TLSEnable = false then "" else c.TLSKeyFile,
        TLSTrustedCaFile := if c.TLSEnable = false then "" else c.TLSTrustedCaFile,
        Protocol := c.Protocol,
        DialServerTimeout := if c.Protocol = ProtoQUIC then 0 else c.DialServerTimeout,
        DialServerKeepAlive := if c.Protocol = ProtoQUIC then 0 else c.DialServerKeepAlive,
        QUICMaxIdleTimeout := if c.Protocol = ProtoQUIC then c.QUICMaxIdleTimeout else 0,
        QUICKeepalivePeriod := if c.Protocol = ProtoQUIC then c.QUICKeepalivePeriod else 0,
        QUICMaxIncomingStreams :=
          if c.Protocol = ProtoQUIC then c.QUICMaxIncomingStreams else 0 } := by
  have h1 := ClientCommon.completeAuth_switched c
  have h2 := ClientCommon.completeAdmin_switched c.completeAuth
  have h3 := ClientCommon.completeAutoDelete_switched c.completeAuth.completeAdmin
  have h4 := ClientCommon.completeTCPMux_switched c.completeAuth.completeAdmin.completeAutoDelete
  have h5 := ClientCommon.completeTLS_switched
    c.completeAuth.completeAdmin.completeAutoDelete.completeTCPMux
  have h6 := ClientCommon.completeProtocol_switched
    c.completeAuth.completeAdmin.completeAutoDelete.completeTCPMux.completeTLS
  unfold ClientCommon.Complete
  rw [h6, h5, h4, h3, h2, h1]
  rfl

/-- C19: pruning of the common settings. In either mode `Complete` returns whenever the
alias computation of every completed proxy returns, and in its result the four switches
`AdminPort`, `TCPMux`, `TLSEnable` and `Protocol` are unchanged and: with `AdminPort` 0,
`AdminUser`, `AdminPwd` and `AssetsDir` are empty and `PprofEnable` is false; with `TCPMux`
false, `TCPMuxKeepaliveInterval` is 0; with `TLSEnable` false, `TLSServerName`,
`TLSCertFile`, `TLSKeyFile` and `TLSTrustedCaFile` are empty; with the QUIC protocol,
`DialServerTimeout` and `DialServerKeepAlive` are 0, and with any other protocol
`QUICMaxIdleTimeout`, `QUICKeepalivePeriod` and `QUICMaxIncomingStreams` are 0. In the
opposite case each of these fields is the input's. -/
theorem C19_common_pruning (conf : ClientConfig) (read : Bool) :
    ((∀ p ∈ conf.Proxies, p.Complete.GetAlias ≠ none) →
      ∃ conf', conf.Complete read = some conf') ∧
    ∀ conf', conf.Complete read = some conf' →
      conf'.toClientCommon.switched =
        { AdminPort := conf.AdminPort,
          AdminUser := if conf.AdminPort = 0 then "" else conf.AdminUser,
          AdminPwd := if conf.AdminPort = 0 then "" else conf.AdminPwd,
          AssetsDir := if conf.AdminPort = 0 then "" else conf.AssetsDir,
          PprofEnable := if conf.AdminPort = 0 then false else conf.PprofEnable,
          TCPMux := conf.TCPMux,
          TCPMuxKeepaliveInterval :=
            if conf.TCPMux = false then 0 else conf.TCPMuxKeepaliveInterval,
          TLSEnable := conf.TLSEnable,
          TLSServerName := if conf.TLSEnable = false then "" else conf.TLSServerName,
          TLSCertFile := if conf.TLSEnable = false then "" else conf.TLSCertFile,
          TLSKeyFile := if conf.TLSEnable = false then "" else conf.TLSKeyFile,
          TLSTrustedCaFile := if conf.TLSEnable = false then "" else conf.TLSTrustedCaFile,
          Protocol := conf.Protocol,
          DialServerTimeout :=
            if conf.Protocol = ProtoQUIC then 0 else conf.DialServerTimeout,
          DialServerKeepAlive :=
            if conf.Protocol = ProtoQUIC then 0 else conf.DialServerKeepAlive,
          QUICMaxIdleTimeout :=
            if conf.Protocol = ProtoQUIC then conf.QUICMaxIdleTimeout else 0,
          QUICKeepalivePeriod :=
            if conf.Protocol = ProtoQUIC then conf.QUICKeepalivePeriod else 0,
          QUICMaxIncomingStreams :=
            if conf.Protocol = ProtoQUIC then conf.QUICMaxIncomingStreams else 0 } := by
  constructor
  · intro h
    cases read with
    | true => exact ClientConfig.Complete_read_isSome conf (Or.inr h)
    | false => exact ClientConfig.Complete_write_isSome conf (fun p hp _ => h p hp)
  · intro conf' h
    cases read with
    | true =>
      rw [ClientConfig.Complete_read] at h
      simp only [Option.map_eq_some'] at h
      obtain ⟨ps, -, rfl⟩ := h
      exact ClientCommon.Complete_switched conf.toClientCommon
    | false =>
      rw [ClientConfig.Complete_write] at h
      simp only [Option.map_eq_some'] at h
      obtain ⟨r, -, rfl⟩ := h
      exact ClientCommon.Complete_switched conf.toClientCommon

theorem C19_common_pruning_witness :
    ∃ conf', exampleSwitchedConf.Complete false = some conf' ∧
      conf'.toClientCommon.switched =
        { AdminPort := 0, AdminUser := "", AdminPwd := "", AssetsDir := "",
          PprofEnable := false, TCPMux := false, TCPMuxKeepaliveInterval := 0,
          TLSEnable := false, TLSServerName := "", TLSCertFile := "", TLSKeyFile := "",
          TLSTrustedCaFile := "", Protocol := "tcp", DialServerTimeout := 10,
          DialServerKeepAlive := 7200, QUICMaxIdleTimeout := 0, QUICKeepalivePeriod := 0,
          QUICMaxIncomingStreams := 0 } := by
  obtain ⟨conf', h⟩ := (C19_common_pruning exampleSwitchedConf false).1 (by decide)
  exact ⟨conf', h, ((C19_common_pruning exampleSwitchedConf false).2 conf' h).trans
    (by decide)⟩

/-! ## Prefixes of strings and fresh map keys -/

theorem HasPrefix_append (pre s : String) : HasPrefix (pre ++ s) pre = true := by
  unfold HasPrefix
  rw [String.data_append, List.isPrefixOf_iff_prefix]
  exact List.prefix_append _ _

theorem TrimPrefix_append (pre s : String) : TrimPrefix (pre ++ s) pre = s := by
  unfold TrimPrefix
  rw [if_pos (HasPrefix_append pre s), String.data_append, List.drop_left]

theorem TrimPrefix_of_not (pre s : String) (h : HasPrefix s pre = false) :
    TrimPrefix s pre = s := by
  unfold TrimPrefix
  rw [h]
  rfl

theorem TrimPrefix_ne (pre s : String) (hp : pre ≠ "") (h : HasPrefix s pre = true) :
    TrimPrefix s pre ≠ s := by
  unfold TrimPrefix
  rw [if_pos h]
  intro e
  have hl := congrArg (fun t : String => t.data.length) e
  simp only [List.length_drop] at hl
  have h1 : pre.data.length ≤ s.data.length :=
    (List.isPrefixOf_iff_prefix.1 h).length_le
  have h2 : 0 < pre.data.length := by
    rcases Nat.eq_zero_or_pos pre.data.length with h0 | h0
    · exfalso
      apply hp
      have : pre.data = [] := List.length_eq_zero.1 h0
      exact String.ext this
    · exact h0
  omega

theorem mapSet_of_not_mem {β : Type} (m : List (String × β)) (k : String) (v : β)
    (h : k ∉ m.map Prod.fst) : mapSet m k v = m ++ [(k, v)] := by
  induction m with
  | nil => rfl
  | cons e rest ih =>
    obtain ⟨k1, v1⟩ := e
    simp only [List.map_cons, List.mem_cons, not_or] at h
    simp only [mapSet]
    rw [if_neg (fun e => h.1 e.symm), ih h.2]
    rfl

/-! ## C20: the legacy decode scenario -/

theorem iniProxies_skip (lib : Libs) (s : IniSection) (rest : List IniSection)
    (h : s.name = "DEFAULT" ∨ s.name = "common") :
    iniProxies lib (s :: rest) = iniProxies lib rest := by
  rw [iniProxies, if_pos h]

theorem iniProxies_cons (lib : Libs) (s : IniSection) (rest : List IniSection) (p : Proxy)
    (ps : List Proxy) (h : ¬ (s.name = "DEFAULT" ∨ s.name = "common"))
    (hp : NewProxyFromIni lib s.name s = Except.ok p)
    (hrest : iniProxies lib rest = Except.ok ps) :
    iniProxies lib (s :: rest) = Except.ok (p :: ps) := by
  rw [iniProxies, if_neg h, hp, hrest]

theorem completeProxies_single (start : Slice String) (p : Proxy) (h : start.len = 0) :
    completeProxies true start [p] = some [p.Complete] := by
  rw [completeProxies, completeProxy_other true start p (Or.inr h)]
  rfl

theorem startsPlain_iff (v : List Char) :
    startsPlain v = true ↔ ∀ c, v.head? = some c → isSpace c = false := by
  unfold startsPlain
  cases v with
  | nil => simp
  | cons c cs => simp

theorem endsPlain_iff (v : List Char) :
    endsPlain v = true ↔ ∀ c, v.getLast? = some c → isSpace c = false := by
  unfold endsPlain
  cases h : v.getLast? with
  | none => simp
  | some c => simp

theorem TrimLeftSpace_indent (indent l : List Char) (hi : ∀ c ∈ indent, isSpace c = true)
    (hl : startsPlain l = true) : TrimLeftSpace (indent ++ l) = l := by
  unfold TrimLeftSpace
  rw [dropWhile_append_of_all _ _ _ hi]
  exact dropWhile_of_head _ _ ((startsPlain_iff l).1 hl)

theorem TrimLeftSpace_of_all_space (l : List Char) (h : ∀ c ∈ l, isSpace c = true) :
    TrimLeftSpace l = [] := by
  have := dropWhile_append_of_all isSpace l [] h
  simpa [TrimLeftSpace] using this

theorem TrimSpace_of_plain (v : List Char) (h1 : startsPlain v = true)
    (h2 : endsPlain v = true) : TrimSpace v = v := by
  have := TrimSpace_padded [] v [] (by simp) (by simp) ((startsPlain_iff v).1 h1)
    ((endsPlain_iff v).1 h2)
  simpa using this

theorem ini.parseLine_blank (f : ini.File) (l : List Char) (h : ∀ c ∈ l, isSpace c = true) :
    ini.parseLine f l = some f := by
  unfold ini.parseLine
  rw [TrimLeftSpace_of_all_space l h]

theorem ini.readValue_plain (v : String) (h : IsPlainValue v) :
    ini.readValue (' ' :: v.data) = some v.data := by
  obtain ⟨-, h1, h2, h3, h4, h5, h6, h7⟩ := h
  have ht : TrimLeftSpace (' ' :: v.data) = v.data :=
    TrimLeftSpace_indent [' '] v.data (by decide) h1
  unfold ini.readValue
  simp only [ht]
  by_cases hv : v.data = []
  · rw [if_pos hv, hv]
  · rw [if_neg hv, TrimSpace_of_plain _ h1 h2]
    simp [h3, h4, h5, h6, h7]

theorem ini.readKeyName_plain (key rest : List Char) (hne : key ≠ [])
    (hq : key.head? ≠ some (Char.ofNat 34) ∧ key.head? ≠ some (Char.ofNat 96))
    (hd : ∀ d ∈ key, d ≠ '=' ∧ d ≠ ':') (h1 : startsPlain key = true)
    (h2 : endsPlain key = true) :
    ini.readKeyName (key ++ ' ' :: '=' :: rest) = some (key, rest) := by
  have hall : ∀ d ∈ key ++ [' '], (!(d == '=' || d == ':')) = true := by
    intro d hdm
    rw [List.mem_append, List.mem_singleton] at hdm
    rcases hdm with hdm | hdm
    · have := hd d hdm
      simp [this.1, this.2]
    · subst hdm
      decide
  have hsplit : key ++ ' ' :: '=' :: rest = (key ++ [' ']) ++ ('=' :: rest) := by simp
  have hdrop : (key ++ ' ' :: '=' :: rest).dropWhile (fun c => !(c == '=' || c == ':')) =
      '=' :: rest := by
    rw [hsplit, dropWhile_append_of_all _ _ _ hall]
    rfl
  have htake : (key ++ ' ' :: '=' :: rest).takeWhile (fun c => !(c == '=' || c == ':')) =
      key ++ [' '] := by
    rw [hsplit, List.takeWhile_append_of_pos hall]
    simp
  have hhead : (key ++ ' ' :: '=' :: rest).head? = key.head? := by
    cases key with
    | nil => exact absurd rfl hne
    | cons c cs => rfl
  have htrim : TrimSpace (key ++ [' ']) = key := by
    have := TrimSpace_padded [] key [' '] (by simp) (by decide) ((startsPlain_iff key).1 h1)
      ((endsPlain_iff key).1 h2)
    simpa using this
  unfold ini.readKeyName
  rw [hhead]
  simp only [hdrop, htake, htrim]
  have hne2 : key ++ [' '] ≠ [] := by simp
  simp [hq.1, hq.2, hne2]


theorem iniWriteSection_new (sections : List IniSection) (name : String)
    (write : List (String × String) → List (String × String)) (hne : name ≠ "")
    (hfresh : ∀ s ∈ sections, s.name ≠ name) :
    iniWriteSection sections name write =
      Except.ok (sections ++ [{ name := name, keys := write [] }]) := by
  unfold iniWriteSection
  rw [if_neg hne, if_neg]
  simp only [List.any_eq_true, decide_eq_true_eq, not_exists, not_and]
  exact hfresh

theorem iniWriteSection_last (pre : List IniSection) (name : String)
    (keys : List (String × String))
    (write : List (String × String) → List (String × String)) (hne : name ≠ "")
    (hfresh : ∀ s ∈ pre, s.name ≠ name) :
    iniWriteSection (pre ++ [{ name := name, keys := keys }]) name write =
      Except.ok (pre ++ [{ name := name, keys := write keys }]) := by
  unfold iniWriteSection
  rw [if_neg hne, if_pos (by simp)]
  congr 1
  rw [List.map_append]
  congr 1
  · conv_rhs => rw [← List.map_id pre]
    apply List.map_congr_left
    intro s hs
    rw [if_neg (hfresh s hs)]
    rfl
  · simp

theorem ini.parseLine_section (f : ini.File) (indent : List Char) (name : String)
    (hi : ∀ c ∈ indent, isSpace c = true)
    (h1 : startsPlain name.data = true) (h2 : endsPlain name.data = true) :
    ini.parseLine f (ini.sectionLine indent name.data) =
      match iniWriteSection f.sections name id with
      | Except.error _ => none
      | Except.ok sections => some { sections := sections, current := name } := by
  unfold ini.parseLine ini.sectionLine
  rw [TrimLeftSpace_indent indent _ hi (by rfl)]
  have hup : (('[' :: (name.data ++ [']'])).reverse.dropWhile (fun d => !(d == ']'))).reverse =
      '[' :: (name.data ++ [']']) := by
    have : ('[' :: (name.data ++ [']'])).reverse = ']' :: (name.data.reverse ++ ['[']) := by
      simp
    rw [this]
    simp [List.dropWhile]
  have hname : ('[' :: (name.data ++ [']'])).dropLast.drop 1 = name.data := by
    have : '[' :: (name.data ++ [']']) = ('[' :: name.data) ++ [']'] := by simp
    rw [this, List.dropLast_concat]
    rfl
  have hm : String.mk name.data = name := rfl
  have hname2 : ('[' :: (name.data ++ [']'])).dropLast.tail = name.data := by
    have : '[' :: (name.data ++ [']']) = ('[' :: name.data) ++ [']'] := by simp
    rw [this, List.dropLast_concat]
    rfl
  simp only [hup, hname, TrimSpace_of_plain _ h1 h2, hm]
  simp
  rw [hname2, TrimSpace_of_plain _ h1 h2, if_pos rfl]

theorem ini.parseLine_key (f : ini.File) (indent : List Char) (key value : String)
    (hi : ∀ c ∈ indent, isSpace c = true) (hkey : IsPlainKey key) (hv : IsPlainValue value) :
    ini.parseLine f (ini.keyLine indent key.data value.data) =
      match iniWriteSection f.sections f.current (fun keys => mapSet keys key value) with
      | Except.error _ => none
      | Except.ok sections => some { f with sections := sections } := by
  obtain ⟨hne, -, g1, g2, g3, g4, g5, g6, g7, h1, h2, hdash⟩ := hkey
  have hhead : ∀ c, key.data.head? = some c →
      c ≠ '#' ∧ c ≠ ';' ∧ c ≠ '[' ∧ c ≠ Char.ofNat 34 ∧ c ≠ Char.ofNat 96 := by
    intro c hc
    rw [hc] at g1 g2 g3 g4 g5
    exact ⟨fun e => g1 (by rw [e]), fun e => g2 (by rw [e]), fun e => g3 (by rw [e]),
      fun e => g4 (by rw [e]), fun e => g5 (by rw [e])⟩
  have hd : ∀ d ∈ key.data, d ≠ '=' ∧ d ≠ ':' := by
    intro d hdm
    exact ⟨fun e => g6 (e ▸ hdm), fun e => g7 (e ▸ hdm)⟩
  unfold ini.parseLine ini.keyLine
  have hsp : startsPlain (key.data ++ ' ' :: '=' :: ' ' :: value.data) = true := by
    cases hk : key.data with
    | nil => exact absurd hk hne
    | cons c cs =>
      rw [hk] at h1
      exact h1
  rw [TrimLeftSpace_indent indent _ hi hsp]
  cases hk : key.data with
  | nil => exact absurd hk hne
  | cons c cs =>
    obtain ⟨hc1, hc2, hc3, hc4, hc5⟩ := hhead c (by rw [hk]; rfl)
    have hrk := ini.readKeyName_plain key.data (' ' :: value.data) hne
      ⟨fun h => hc4 (by rw [hk] at h; exact (Option.some.inj h)),
       fun h => hc5 (by rw [hk] at h; exact (Option.some.inj h))⟩ hd h1 h2
    rw [hk] at hrk hdash
    simp only [List.cons_append]
    simp only [List.cons_append] at hrk
    simp only [hc1, hc2, hc3, or_self, if_false, hrk, hdash, ini.readValue_plain value hv]
    have e1 : String.mk (c :: cs) = key := by
      rw [← hk]
    have e2 : String.mk value.data = value := rfl
    rw [e1, e2]

theorem ini.parseLines_append (l1 l2 : List (List Char)) (f : ini.File) :
    ini.parseLines (l1 ++ l2) f = (ini.parseLines l1 f).bind (ini.parseLines l2) := by
  unfold ini.parseLines
  rw [List.foldl_append]
  cases h : List.foldl (fun st line => st.bind (fun g => ini.parseLine g line)) (some f) l1 with
  | some g => rfl
  | none =>
    simp only [Option.bind]
    induction l2 with
    | nil => rfl
    | cons l ls ih => exact ih

theorem ini.parseLines_cons (l : List Char) (ls : List (List Char)) (f : ini.File) :
    ini.parseLines (l :: ls) f = (ini.parseLine f l).bind (ini.parseLines ls) :=
  ini.parseLines_append [l] ls f

theorem ini.parseLines_keys (indent : List Char) (hi : ∀ c ∈ indent, isSpace c = true)
    (pre : List IniSection) (name : String) (hne : name ≠ "")
    (hfresh : ∀ s ∈ pre, s.name ≠ name) :
    ∀ (kvs keys : List (String × String)),
      (∀ kv ∈ kvs, IsPlainKey kv.1 ∧ IsPlainValue kv.2) →
      ini.parseLines (kvs.map (fun kv => ini.keyLine indent kv.1.data kv.2.data))
          { sections := pre ++ [{ name := name, keys := keys }], current := name } =
        some { sections :=
                 pre ++ [{ name := name,
                           keys := kvs.foldl (fun acc kv => mapSet acc kv.1 kv.2) keys }],
               current := name }
  | [], keys, _ => rfl
  | kv :: rest, keys, h => by
    obtain ⟨hk, hv⟩ := h kv (List.mem_cons_self _ _)
    rw [List.map_cons, ini.parseLines_cons, ini.parseLine_key _ indent kv.1 kv.2 hi hk hv]
    simp only [iniWriteSection_last pre name keys _ hne hfresh, Option.bind]
    exact ini.parseLines_keys indent hi pre name hne hfresh rest _
      (fun kv2 hkv2 => h kv2 (List.mem_cons_of_mem _ hkv2))

theorem foldl_mapSet_nodup :
    ∀ (kvs keys : List (String × String)), ((keys ++ kvs).map Prod.fst).Nodup →
      kvs.foldl (fun acc kv => mapSet acc kv.1 kv.2) keys = keys ++ kvs
  | [], keys, _ => by simp
  | kv :: rest, keys, h => by
    have hnot : kv.1 ∉ keys.map Prod.fst := by
      intro hm
      rw [List.map_append, List.nodup_append] at h
      exact h.2.2 hm (by simp)
    rw [List.foldl_cons, mapSet_of_not_mem keys kv.1 kv.2 hnot]
    rw [foldl_mapSet_nodup rest (keys ++ [(kv.1, kv.2)])]
    · simp
    · simpa using h

theorem IsPlainKey_meta (tail : String) (h : IsPlainKeyTail tail) :
    IsPlainKey ("meta_" ++ tail) := by
  obtain ⟨h1, h2, h3, h4⟩ := h
  have hd : ("meta_" ++ tail).data = 'm' :: 'e' :: 't' :: 'a' :: '_' :: tail.data := by
    rw [String.data_append]
    rfl
  unfold IsPlainKey
  rw [hd]
  refine ⟨by simp, ?_, by simp, by simp, by simp, by simp, by simp, ?_, ?_, rfl, ?_,
    by simp⟩
  · simp only [List.mem_cons, not_or]
    exact ⟨by decide, by decide, by decide, by decide, by decide, h1⟩
  · simp only [List.mem_cons, not_or]
    exact ⟨by decide, by decide, by decide, by decide, by decide, h2⟩
  · simp only [List.mem_cons, not_or]
    exact ⟨by decide, by decide, by decide, by decide, by decide, h3⟩
  · cases ht : tail.data with
    | nil => rfl
    | cons c cs =>
      rw [ht] at h4
      have e : 'm' :: 'e' :: 't' :: 'a' :: '_' :: c :: cs =
          ['m', 'e', 't', 'a', '_'] ++ (c :: cs) := rfl
      unfold endsPlain at h4 ⊢
      rw [e, List.getLast?_append_of_ne_nil _ (by simp)]
      exact h4

theorem IsPlainValue_toString (n : Nat) : IsPlainValue (toString n) := by
  obtain ⟨hne, hd, -⟩ := decimalText_spec n
  have hdt : (toString n).data = decimalText n := rfl
  unfold IsPlainValue
  rw [hdt]
  have hhead : ∀ c, (decimalText n).head? = some c → IsDigitChar c :=
    fun c hc => hd c (List.mem_of_mem_head? hc)
  have hlast : ∀ c, (decimalText n).getLast? = some c → IsDigitChar c :=
    fun c hc => hd c (List.mem_of_mem_getLast? hc)
  have hq : ∀ q : Char, ¬ IsDigitChar q → (decimalText n).head? ≠ some q :=
    fun q hq h => hq (hhead q h)
  have hq2 : ∀ q : Char, ¬ IsDigitChar q → (decimalText n).getLast? ≠ some q :=
    fun q hq h => hq (hlast q h)
  refine ⟨not_mem_decimalText n _ (by unfold IsDigitChar; decide), ?_, ?_, ?_,
    hq _ (by unfold IsDigitChar; decide), hq2 _ (by unfold IsDigitChar; decide), ?_, ?_⟩
  · rw [startsPlain_iff]
    exact fun c hc => isSpace_of_isDigitChar c (hhead c hc)
  · rw [endsPlain_iff]
    exact fun c hc => isSpace_of_isDigitChar c (hlast c hc)
  · cases hdn : decimalText n with
    | nil => exact absurd hdn hne
    | cons c cs =>
      have hc : c ≠ Char.ofNat 34 := by
        intro e
        have := hq (Char.ofNat 34) (by unfold IsDigitChar; decide)
        rw [hdn] at this
        exact this (by rw [e]; rfl)
      simp [List.isPrefixOf, hc.symm]
  · unfold ini.hasSurroundedQuote
    have := hq (Char.ofNat 39) (by unfold IsDigitChar; decide)
    simp [this]
  · unfold ini.hasSurroundedQuote
    have := hq (Char.ofNat 34) (by unfold IsDigitChar; decide)
    simp [this]

theorem LegacyScenario.commonKeys_plain (s : LegacyScenario) (h : s.WellFormed) :
    ∀ kv ∈ s.commonKeys, IsPlainKey kv.1 ∧ IsPlainValue kv.2 := by
  intro kv hkv
  simp only [LegacyScenario.commonKeys, List.mem_cons, List.mem_singleton, List.not_mem_nil,
    or_false] at hkv
  rcases hkv with rfl | rfl | rfl | rfl | rfl | rfl | rfl
  · exact ⟨show IsPlainKey "server_addr" from by decide, h.serverAddrPlain.1⟩
  · exact ⟨show IsPlainKey "server_port" from by decide, IsPlainValue_toString _⟩
  · exact ⟨show IsPlainKey "token" from by decide, h.tokenPlain.1⟩
  · refine ⟨show IsPlainKey "frpcgui_manual_start" from by decide, ?_⟩
    cases s.manualStart
    · exact (show IsPlainValue "false" from by decide)
    · exact (show IsPlainValue "true" from by decide)
  · exact ⟨show IsPlainKey "frpcgui_delete_method" from by decide,
      show IsPlainValue "absolute" from by decide⟩
  · exact ⟨show IsPlainKey "frpcgui_delete_after_date" from by decide, h.dateTextPlain.1⟩
  · exact ⟨IsPlainKey_meta _ h.metaKeyPlain, h.metaValuePlain⟩

theorem LegacyScenario.proxyKeys_plain (s : LegacyScenario) (h : s.WellFormed) :
    ∀ kv ∈ s.proxyKeys, IsPlainKey kv.1 ∧ IsPlainValue kv.2 := by
  intro kv hkv
  simp only [LegacyScenario.proxyKeys, List.mem_cons, List.mem_singleton, List.not_mem_nil,
    or_false] at hkv
  rcases hkv with rfl | rfl | rfl | rfl | rfl
  · exact ⟨show IsPlainKey "type" from by decide, show IsPlainValue "tcp" from by decide⟩
  · exact ⟨show IsPlainKey "local_ip" from by decide, h.localIPPlain.1⟩
  · exact ⟨show IsPlainKey "local_port" from by decide, h.localPortPlain.1⟩
  · exact ⟨show IsPlainKey "remote_port" from by decide, h.remotePortPlain.1⟩
  · exact ⟨IsPlainKey_meta _ h.proxyMetaKeyPlain, h.proxyMetaValuePlain⟩

theorem ne_append_of_HasPrefix_false (key pre tail : String) (h : HasPrefix key pre = false) :
    key ≠ pre ++ tail := by
  intro e
  rw [e, HasPrefix_append] at h
  cases h

theorem LegacyScenario.commonKeys_nodup (s : LegacyScenario) :
    (s.commonKeys.map Prod.fst).Nodup := by
  have hm : ∀ key : String, HasPrefix key "meta_" = false → key ≠ "meta_" ++ s.metaKey :=
    fun key hk => ne_append_of_HasPrefix_false key _ _ hk
  simp only [LegacyScenario.commonKeys, List.map_cons, List.map_nil, List.nodup_cons,
    List.mem_cons, List.mem_singleton, List.not_mem_nil, not_or, List.nodup_nil, and_true,
    not_false_eq_true]
  refine ⟨⟨by decide, by decide, by decide, by decide, by decide, hm _ (by decide)⟩,
    ⟨by decide, by decide, by decide, by decide, hm _ (by decide)⟩,
    ⟨by decide, by decide, by decide, hm _ (by decide)⟩,
    ⟨by decide, by decide, hm _ (by decide)⟩,
    ⟨by decide, hm _ (by decide)⟩, hm _ (by decide)⟩

theorem LegacyScenario.proxyKeys_nodup (s : LegacyScenario) :
    (s.proxyKeys.map Prod.fst).Nodup := by
  have hm : ∀ key : String, HasPrefix key "meta_" = false →
      key ≠ "meta_" ++ s.proxyMetaKey :=
    fun key hk => ne_append_of_HasPrefix_false key _ _ hk
  simp only [LegacyScenario.proxyKeys, List.map_cons, List.map_nil, List.nodup_cons,
    List.mem_cons, List.mem_singleton, List.not_mem_nil, not_or, List.nodup_nil, and_true,
    not_false_eq_true]
  refine ⟨⟨by decide, by decide, by decide, hm _ (by decide)⟩,
    ⟨by decide, by decide, hm _ (by decide)⟩,
    ⟨by decide, hm _ (by decide)⟩, hm _ (by decide)⟩

theorem ini.not_mem_keyLine (indent : List Char) (key value : String) (c : Char)
    (hi : c ∉ indent) (hk : c ∉ key.data) (hv : c ∉ value.data) (h1 : c ≠ ' ')
    (h2 : c ≠ '=') : c ∉ ini.keyLine indent key.data value.data := by
  unfold ini.keyLine
  simp only [List.mem_append, List.mem_cons, not_or]
  exact ⟨hi, hk, h1, h2, h1, hv⟩

theorem ini.not_mem_sectionLine (indent : List Char) (name : String) (c : Char)
    (hi : c ∉ indent) (hn : c ∉ name.data) (h1 : c ≠ '[') (h2 : c ≠ ']') :
    c ∉ ini.sectionLine indent name.data := by
  unfold ini.sectionLine
  simp only [List.mem_append, List.mem_cons, List.mem_singleton, List.not_mem_nil, not_or,
    or_false]
  exact ⟨hi, ⟨h1, hn⟩, h2⟩

theorem LegacyScenario.lines_eq (s : LegacyScenario) :
    s.lines = [] :: ini.sectionLine s.indent.data "common".data ::
      (s.commonKeys.map (fun kv => ini.keyLine s.indent.data kv.1.data kv.2.data) ++
        (s.indent.data :: ini.sectionLine s.indent.data s.proxyName.data ::
          (s.proxyKeys.map (fun kv => ini.keyLine s.indent.data kv.1.data kv.2.data) ++
            [['\t']]))) := by
  simp [LegacyScenario.lines]

theorem LegacyScenario.Split_document (s : LegacyScenario) (h : s.WellFormed) :
    Split s.document.data '\n' = s.lines := by
  have hnl : '\n' ∉ s.indent.data := fun hc => (h.indent _ hc).2 rfl
  have hkeys : ∀ kvs : List (String × String),
      (∀ kv ∈ kvs, IsPlainKey kv.1 ∧ IsPlainValue kv.2) →
      ∀ p ∈ kvs.map (fun kv => ini.keyLine s.indent.data kv.1.data kv.2.data), '\n' ∉ p := by
    intro kvs hk p hp
    obtain ⟨kv, hkv, rfl⟩ := List.mem_map.1 hp
    obtain ⟨hk1, hk2⟩ := hk kv hkv
    exact ini.not_mem_keyLine _ _ _ _ hnl hk1.2.1 hk2.1 (by decide) (by decide)
  apply Split_Join
  · rw [s.lines_eq]
    simp
  · intro p hp
    rw [s.lines_eq] at hp
    simp only [List.mem_cons, List.mem_append, List.mem_singleton, List.not_mem_nil,
      or_false] at hp
    rcases hp with rfl | rfl | hp | rfl | rfl | hp | rfl
    · simp
    · exact ini.not_mem_sectionLine _ "common" _ hnl (by decide) (by decide) (by decide)
    · exact hkeys _ (s.commonKeys_plain h) p hp
    · exact hnl
    · exact ini.not_mem_sectionLine _ _ _ hnl h.proxyName.2.2.2.2.1 (by decide) (by decide)
    · exact hkeys _ (s.proxyKeys_plain h) p hp
    · decide

theorem ini.dotPrefixes_length :
    ∀ (name pre : List Char), pre ∈ ini.dotPrefixes name → pre.length < name.length
  | [], pre, h => by simp [ini.dotPrefixes] at h
  | c :: cs, pre, h => by
    rw [ini.dotPrefixes, List.mem_append] at h
    rcases h with h | h
    · split_ifs at h
      · rw [List.mem_singleton] at h
        subst h
        simp
      · simp at h
    · obtain ⟨pre2, hp2, rfl⟩ := List.mem_map.1 h
      have := ini.dotPrefixes_length cs pre2 hp2
      simp only [List.length_cons]
      omega

theorem LegacyScenario.hasKeyedParent_sections (s : LegacyScenario) (h : s.WellFormed) :
    ini.hasKeyedParent
      [{ name := "DEFAULT", keys := [] }, { name := "common", keys := s.commonKeys },
        { name := s.proxyName, keys := s.proxyKeys }] = false := by
  obtain ⟨-, -, hn3, -, -, hdot, -, -, -⟩ := h.proxyName
  have h1 : ini.dotPrefixes ("DEFAULT" : String).data = [] := by decide
  have h2 : ini.dotPrefixes ("common" : String).data = [] := by decide
  unfold ini.hasKeyedParent
  simp only [List.any_cons, List.any_nil, Bool.or_false, h1, h2, Bool.false_or]
  rw [List.any_eq_false]
  intro pre hpre
  have hlen := ini.dotPrefixes_length _ _ hpre
  have hc : ("common" : String).data ≠ pre := fun e => hdot (e ▸ hpre)
  have hp : s.proxyName.data ≠ pre := by
    intro e
    rw [e] at hlen
    omega
  have hd : (s.proxyName == "DEFAULT") = false := by simpa using hn3
  simp [hc, hp, hd]

theorem LegacyScenario.LoadSources_document (s : LegacyScenario) (h : s.WellFormed) :
    ini.LoadSources s.document =
      some [{ name := "DEFAULT", keys := [] }, { name := "common", keys := s.commonKeys },
            { name := s.proxyName, keys := s.proxyKeys }] := by
  have hind : ∀ c ∈ s.indent.data, isSpace c = true := fun c hc => (h.indent c hc).1
  obtain ⟨hn1, hn2, hn3, hn4, -, -, hn5, hn6, -⟩ := h.proxyName
  have hbom : s.document.data.head? = some '\n' := by
    unfold LegacyScenario.document
    rw [s.lines_eq]
    rfl
  have hfresh1 : ∀ t ∈ [({ name := "DEFAULT", keys := [] } : IniSection)],
      t.name ≠ "common" := by
    intro t ht
    rw [List.mem_singleton] at ht
    subst ht
    decide
  have hfresh2 : ∀ t ∈ [({ name := "DEFAULT", keys := [] } : IniSection)] ++
      [{ name := "common", keys := s.commonKeys }], t.name ≠ s.proxyName := by
    intro t ht
    simp only [List.mem_append, List.mem_singleton] at ht
    rcases ht with rfl | rfl
    · exact fun e => hn3 e.symm
    · exact fun e => hn2 e.symm
  have hparse : ini.parseLines s.lines
      { sections := [{ name := "DEFAULT", keys := [] }], current := "DEFAULT" } =
      some { sections := [({ name := "DEFAULT", keys := [] } : IniSection)] ++
               [{ name := "common", keys := s.commonKeys }] ++
               [{ name := s.proxyName, keys := s.proxyKeys }],
             current := s.proxyName } := by
    rw [s.lines_eq, ini.parseLines_cons, ini.parseLine_blank _ [] (by simp), Option.bind,
      ini.parseLines_cons, ini.parseLine_section _ _ "common" hind (by decide) (by decide)]
    simp only [iniWriteSection_new _ "common" id (by decide) hfresh1, Option.bind]
    rw [ini.parseLines_append,
      ini.parseLines_keys _ hind _ "common" (by decide) hfresh1 _ _ (s.commonKeys_plain h),
      Option.bind, ini.parseLines_cons, ini.parseLine_blank _ _ hind, Option.bind,
      ini.parseLines_cons, ini.parseLine_section _ _ s.proxyName hind hn5 hn6,
      foldl_mapSet_nodup _ _ (by simpa using s.commonKeys_nodup)]
    simp only [id, List.nil_append]
    simp only [iniWriteSection_new _ s.proxyName id hn1 hfresh2, Option.bind]
    rw [ini.parseLines_append,
      ini.parseLines_keys _ hind _ s.proxyName hn1 hfresh2 _ _ (s.proxyKeys_plain h),
      Option.bind, ini.parseLines_cons, ini.parseLine_blank _ _ (by decide), Option.bind,
      foldl_mapSet_nodup _ _ (by simpa using s.proxyKeys_nodup)]
    rfl
  unfold ini.LoadSources
  rw [hbom, s.Split_document h, hparse]
  have hd : ("DEFAULT" : String) ≠ "frpcgui_delete_after_date" := by decide
  have hc : ("common" : String) ≠ "frpcgui_delete_after_date" := by decide
  simp [hd, hc, hn4, s.hasKeyedParent_sections h]

theorem ini.mapToField_none {σ : Type} (tp : String → Option GoTime) (section_ : IniSection)
    (fields : List (String × IniField σ)) :
    fields.foldl (ini.mapToField tp section_) none = none := by
  induction fields with
  | nil => rfl
  | cons f rest ih => exact ih

theorem ini.foldl_mapToField_filter {σ : Type} (tp : String → Option GoTime)
    (section_ : IniSection) (present : List String) :
    ∀ (fields : List (String × IniField σ)) (st : Option σ),
      (∀ f ∈ fields, f.1 ∉ present → section_.keys.lookup f.1 = none) →
      fields.foldl (ini.mapToField tp section_) st =
        (fields.filter (fun f => decide (f.1 ∈ present))).foldl
          (ini.mapToField tp section_) st
  | [], _, _ => rfl
  | f :: rest, st, h => by
    have hrest := fun st2 => ini.foldl_mapToField_filter tp section_ present rest st2
      (fun g hg => h g (List.mem_cons_of_mem _ hg))
    by_cases hf : f.1 ∈ present
    · rw [List.filter_cons_of_pos (by simpa using hf), List.foldl_cons, List.foldl_cons, hrest]
    · rw [List.filter_cons_of_neg (by simpa using hf), List.foldl_cons, ← hrest]
      congr 1
      cases st with
      | none => rfl
      | some c =>
        unfold ini.mapToField
        simp only [h f (List.mem_cons_self _ _) hf]

theorem lookup_eq_none_of_not_mem (keys : List (String × String)) (key : String)
    (h : key ∉ keys.map Prod.fst) : keys.lookup key = none := by
  rw [List.lookup_eq_none_iff]
  intro p hp
  simp only [bne_iff_ne, ne_eq]
  intro e
  exact h (List.mem_map.2 ⟨p, hp, e.symm⟩)

theorem LegacyScenario.commonKeys_lookup_none (s : LegacyScenario) (key : String)
    (hp : HasPrefix key "meta_" = false)
    (hk : key ∉ ["server_addr", "server_port", "token", "frpcgui_manual_start",
      "frpcgui_delete_method", "frpcgui_delete_after_date"]) :
    s.commonKeys.lookup key = none := by
  apply lookup_eq_none_of_not_mem
  simp only [LegacyScenario.commonKeys, List.map_cons, List.map_nil, List.mem_cons,
    List.mem_singleton, List.not_mem_nil, or_false, not_or] at hk ⊢
  exact ⟨hk.1, hk.2.1, hk.2.2.1, hk.2.2.2.1, hk.2.2.2.2.1, hk.2.2.2.2.2,
    ne_append_of_HasPrefix_false key _ _ hp⟩

theorem LegacyScenario.proxyKeys_lookup_none (s : LegacyScenario) (key : String)
    (hp : HasPrefix key "meta_" = false)
    (hk : key ∉ ["type", "local_ip", "local_port", "remote_port"]) :
    s.proxyKeys.lookup key = none := by
  apply lookup_eq_none_of_not_mem
  simp only [LegacyScenario.proxyKeys, List.map_cons, List.map_nil, List.mem_cons,
    List.mem_singleton, List.not_mem_nil, or_false, not_or] at hk ⊢
  exact ⟨hk.1, hk.2.1, hk.2.2.1, hk.2.2.2, ne_append_of_HasPrefix_false key _ _ hp⟩

theorem ini.clientCommonFields_no_meta :
    ∀ f ∈ ini.clientCommonFields, HasPrefix f.1 "meta_" = false := by
  decide

theorem ini.proxyFields_no_meta : ∀ f ∈ ini.proxyFields, HasPrefix f.1 "meta_" = false := by
  decide

theorem ini.clientCommonFields_filter :
    ini.clientCommonFields.filter (fun f => decide (f.1 ∈ ["server_addr", "server_port",
      "token", "frpcgui_manual_start", "frpcgui_delete_method",
      "frpcgui_delete_after_date"])) =
    [("token", IniField.str (fun v c => { c with Token := v })),
     ("server_addr", IniField.str (fun v c => { c with ServerAddress := v })),
     ("server_port", IniField.int (fun v c => { c with ServerPort := v })),
     ("frpcgui_manual_start", IniField.bool (fun v c => { c with ManualStart := v })),
     ("frpcgui_delete_method", IniField.str (fun v c => { c with DeleteMethod := v })),
     ("frpcgui_delete_after_date",
       IniField.time (fun v c => { c with DeleteAfterDate := v }))] := by
  rfl

theorem ini.proxyFields_filter :
    ini.proxyFields.filter (fun f => decide (f.1 ∈ ["type", "local_ip", "local_port",
      "remote_port"])) =
    [("type", IniField.str (fun v p => { p with Type_ := v })),
     ("local_ip", IniField.str (fun v p => { p with LocalIP := v })),
     ("local_port", IniField.str (fun v p => { p with LocalPort := v })),
     ("remote_port", IniField.str (fun v p => { p with RemotePort := v }))] := by
  rfl

theorem toDigitsCore_head (fuel n : Nat) (ds : List Char) (h : n < fuel) :
    ∃ l, Nat.toDigitsCore 10 fuel n ds = l ++ ds ∧
      ((n = 0 ∧ l = ['0']) ∨ (n ≠ 0 ∧ ∃ c cs, l = c :: cs ∧ c ≠ '0')) := by
  induction fuel generalizing n ds with
  | zero => omega
  | succ fuel ih =>
    by_cases h0 : n / 10 = 0
    · refine ⟨[Nat.digitChar (n % 10)], by simp [Nat.toDigitsCore, h0], ?_⟩
      have hlt : n < 10 := by omega
      by_cases hn : n = 0
      · subst hn
        exact Or.inl ⟨rfl, rfl⟩
      · refine Or.inr ⟨hn, _, _, rfl, ?_⟩
        interval_cases n <;> first | exact absurd rfl hn | decide
    · obtain ⟨l, hl, hcase⟩ := ih (n / 10) (Nat.digitChar (n % 10) :: ds) (by omega)
      refine ⟨l ++ [Nat.digitChar (n % 10)], by simp [Nat.toDigitsCore, h0, hl], ?_⟩
      rcases hcase with ⟨hz, -⟩ | ⟨-, c, cs, hcs, hc⟩
      · exact absurd hz h0
      · refine Or.inr ⟨by omega, c, cs ++ [Nat.digitChar (n % 10)], by simp [hcs], hc⟩

theorem decimalText_head (n : Nat) :
    ∃ c cs, decimalText n = c :: cs ∧ (c ≠ '0' ∨ cs = []) := by
  obtain ⟨l, hl, hcase⟩ := toDigitsCore_head (n + 1) n [] (Nat.lt_succ_self n)
  have : decimalText n = l := by
    simp only [decimalText, toString, Nat.repr, Nat.toDigits, List.asString]
    simpa using hl
  rw [this]
  rcases hcase with ⟨-, hz⟩ | ⟨-, c, cs, hcs, hc⟩
  · exact ⟨'0', [], hz, Or.inr rfl⟩
  · exact ⟨c, cs, hcs, Or.inl hc⟩

theorem ini.parseInt_decimalText (n : Nat) (h : (n : Int) ≤ maxInt) :
    ini.parseInt (decimalText n) = some (some (n : Int)) := by
  obtain ⟨c, cs, hcs, hc⟩ := decimalText_head n
  obtain ⟨-, hd, -⟩ := decimalText_spec n
  have hat := Atoi_decimalText n (by unfold maxInt at h; omega)
  rw [hcs] at hd hat
  rw [hcs]
  unfold ini.parseInt
  have hall :
      (c :: cs).all (fun d => decide (48 ≤ d.toNat) && decide (d.toNat ≤ 57)) = true := by
    rw [List.all_eq_true]
    intro d hdm
    have := hd d hdm
    unfold IsDigitChar at this
    simp [this.1, this.2]
  have hz : (c != '0' || cs == []) = true := by
    rcases hc with hc | hc
    · simp [hc]
    · simp [hc]
  simp only [hall, hz, Bool.and_self, if_true, hat]

theorem contains_eq_false_of_not_mem (l : List Char) (c : Char) (h : c ∉ l) :
    l.contains c = false := by
  simpa using h

theorem LegacyScenario.MapTo_common (s : LegacyScenario) (h : s.WellFormed)
    (tp : String → Option GoTime) (hdate : tp s.dateText = some s.date) (k : Defaults) :
    ini.MapTo tp ini.clientCommonFields { name := "common", keys := s.commonKeys }
        (NewDefaultClientConfig k).toClientCommon =
      some { (NewDefaultClientConfig k).toClientCommon with
             ServerAddress := s.serverAddr, ServerPort := (s.serverPort : Int),
             Token := s.token, ManualStart := s.manualStart, DeleteMethod := "absolute",
             DeleteAfterDate := s.date } := by
  have hm : ∀ key : String, HasPrefix key "meta_" = false → key ≠ "meta_" ++ s.metaKey :=
    fun key hk => ne_append_of_HasPrefix_false key _ _ hk
  have l1 : s.commonKeys.lookup "token" = some s.token := by
    simp [LegacyScenario.commonKeys, List.lookup]
  have l2 : s.commonKeys.lookup "server_addr" = some s.serverAddr := by
    simp [LegacyScenario.commonKeys, List.lookup]
  have l3 : s.commonKeys.lookup "server_port" = some (toString s.serverPort) := by
    simp [LegacyScenario.commonKeys, List.lookup]
  have l4 : s.commonKeys.lookup "frpcgui_manual_start" =
      some (if s.manualStart then "true" else "false") := by
    simp [LegacyScenario.commonKeys, List.lookup]
  have l5 : s.commonKeys.lookup "frpcgui_delete_method" = some "absolute" := by
    simp [LegacyScenario.commonKeys, List.lookup]
  have l6 : s.commonKeys.lookup "frpcgui_delete_after_date" = some s.dateText := by
    simp [LegacyScenario.commonKeys, List.lookup]
  have p1 := contains_eq_false_of_not_mem _ _ h.tokenPlain.2
  have p2 := contains_eq_false_of_not_mem _ _ h.serverAddrPlain.2
  have p3 : (toString s.serverPort).data.contains '%' = false :=
    contains_eq_false_of_not_mem _ _
      (not_mem_decimalText s.serverPort '%' (by unfold IsDigitChar; decide))
  have p4 : (if s.manualStart then "true" else "false" : String).data.contains '%' = false := by
    cases s.manualStart <;> decide
  have p5 : ("absolute" : String).data.contains '%' = false := by decide
  have p6 := contains_eq_false_of_not_mem _ _ h.dateTextPlain.2
  have b4 : ini.parseBool (if s.manualStart then "true" else "false") = some s.manualStart := by
    cases s.manualStart <;> decide
  have i3 : ini.parseInt (toString s.serverPort).data = some (some (s.serverPort : Int)) :=
    ini.parseInt_decimalText _ h.serverPort
  unfold ini.MapTo
  rw [ini.foldl_mapToField_filter tp _ ["server_addr", "server_port", "token",
    "frpcgui_manual_start", "frpcgui_delete_method", "frpcgui_delete_after_date"],
    ini.clientCommonFields_filter]
  · have habs : ("absolute" : String) ≠ "" := by decide
    simp only [List.foldl_cons, List.foldl_nil, ini.mapToField, l1, l2, l3, l4, l5, l6, p1, p2,
      p3, p4, p5, p6, b4, i3, hdate, Bool.false_eq_true, if_false, habs, h.token]
    by_cases ha : s.serverAddr = ""
    · rw [if_pos ha, ha]
      rfl
    · rw [if_neg ha]
  · intro f hf hnot
    exact s.commonKeys_lookup_none f.1 (ini.clientCommonFields_no_meta f hf) hnot

theorem LegacyScenario.MapTo_proxy (s : LegacyScenario) (h : s.WellFormed)
    (tp : String → Option GoTime) :
    ini.MapTo tp ini.proxyFields { name := s.proxyName, keys := s.proxyKeys }
        (NewDefaultProxyConfig s.proxyName) =
      some { Name := s.proxyName, Type_ := "tcp", LocalIP := s.localIP,
             LocalPort := s.localPort, RemotePort := s.remotePort } := by
  have l1 : s.proxyKeys.lookup "type" = some "tcp" := by
    simp [LegacyScenario.proxyKeys, List.lookup]
  have l2 : s.proxyKeys.lookup "local_ip" = some s.localIP := by
    simp [LegacyScenario.proxyKeys, List.lookup]
  have l3 : s.proxyKeys.lookup "local_port" = some s.localPort := by
    simp [LegacyScenario.proxyKeys, List.lookup]
  have l4 : s.proxyKeys.lookup "remote_port" = some s.remotePort := by
    simp [LegacyScenario.proxyKeys, List.lookup]
  have p1 : ("tcp" : String).data.contains '%' = false := by decide
  have p2 := contains_eq_false_of_not_mem _ _ h.localIPPlain.2
  have p3 := contains_eq_false_of_not_mem _ _ h.localPortPlain.2
  have p4 := contains_eq_false_of_not_mem _ _ h.remotePortPlain.2
  have htcp : ("tcp" : String) ≠ "" := by decide
  unfold ini.MapTo
  rw [ini.foldl_mapToField_filter tp _ ["type", "local_ip", "local_port", "remote_port"],
    ini.proxyFields_filter]
  · simp only [List.foldl_cons, List.foldl_nil, ini.mapToField, l1, l2, l3, l4, p1, p2, p3, p4,
      Bool.false_eq_true, if_false, htcp]
    by_cases h1 : s.localIP = "" <;> by_cases h2 : s.localPort = "" <;>
      by_cases h3 : s.remotePort = "" <;>
      simp only [h1, h2, h3, if_true, if_false] <;> rfl
  · intro f hf hnot
    exact s.proxyKeys_lookup_none f.1 (ini.proxyFields_no_meta f hf) hnot

theorem HasPrefix_meta_other (tail pre : String) (c : Char) (cs : List Char)
    (hp : pre.data = c :: cs) (hc : c ≠ 'm') : HasPrefix ("meta_" ++ tail) pre = false := by
  have hd : ("meta_" ++ tail).data = 'm' :: 'e' :: 't' :: 'a' :: '_' :: tail.data := by
    rw [String.data_append]
    rfl
  unfold HasPrefix
  rw [hd, hp]
  simp [List.isPrefixOf, hc]

theorem GetMapWithoutPrefix_literal_then_meta (keys : List (String × String))
    (tail value pre : String)
    (hkeys : ∀ kv ∈ keys, HasPrefix kv.1 pre = false) :
    GetMapWithoutPrefix (keys ++ [("meta_" ++ tail, value)]) pre =
      if HasPrefix ("meta_" ++ tail) pre then some [(TrimPrefix ("meta_" ++ tail) pre, value)]
      else none := by
  unfold GetMapWithoutPrefix
  have hfold : ∀ (l : List (String × String)) (acc : List (String × String)),
      (∀ kv ∈ l, HasPrefix kv.1 pre = false) →
      l.foldl (fun acc kv =>
        if HasPrefix kv.1 pre then mapSet acc (TrimPrefix kv.1 pre) kv.2 else acc) acc = acc := by
    intro l
    induction l with
    | nil => intros; rfl
    | cons kv rest ih =>
      intro acc hl
      rw [List.foldl_cons, hl kv (List.mem_cons_self _ _)]
      exact ih acc (fun kv2 h2 => hl kv2 (List.mem_cons_of_mem _ h2))
  rw [List.foldl_append, hfold keys [] hkeys]
  by_cases hp : HasPrefix ("meta_" ++ tail) pre = true
  · simp [hp, mapSet]
  · simp [hp]

theorem LegacyScenario.commonKeys_eq (s : LegacyScenario) :
    s.commonKeys =
      [("server_addr", s.serverAddr), ("server_port", toString s.serverPort),
       ("token", s.token),
       ("frpcgui_manual_start", if s.manualStart then "true" else "false"),
       ("frpcgui_delete_method", "absolute"), ("frpcgui_delete_after_date", s.dateText)] ++
      [("meta_" ++ s.metaKey, s.metaValue)] := rfl

theorem LegacyScenario.proxyKeys_eq (s : LegacyScenario) :
    s.proxyKeys =
      [("type", "tcp"), ("local_ip", s.localIP), ("local_port", s.localPort),
       ("remote_port", s.remotePort)] ++
      [("meta_" ++ s.proxyMetaKey, s.proxyMetaValue)] := rfl

theorem LegacyScenario.commonKeys_prefixes (s : LegacyScenario) :
    GetMapWithoutPrefix s.commonKeys "meta_" = some [(s.metaKey, s.metaValue)] ∧
    GetMapWithoutPrefix s.commonKeys "oidc_additional_" = none := by
  constructor
  · rw [s.commonKeys_eq, GetMapWithoutPrefix_literal_then_meta, if_pos (HasPrefix_append _ _),
      TrimPrefix_append]
    intro kv hkv
    simp only [List.mem_cons, List.mem_singleton, List.not_mem_nil, or_false] at hkv
    rcases hkv with rfl | rfl | rfl | rfl | rfl | rfl <;> (dsimp only; decide)
  · rw [s.commonKeys_eq, GetMapWithoutPrefix_literal_then_meta,
      HasPrefix_meta_other _ "oidc_additional_" 'o' _ rfl (by decide)]
    · rfl
    · intro kv hkv
      simp only [List.mem_cons, List.mem_singleton, List.not_mem_nil, or_false] at hkv
      rcases hkv with rfl | rfl | rfl | rfl | rfl | rfl <;> (dsimp only; decide)

theorem LegacyScenario.proxyKeys_prefixes (s : LegacyScenario) :
    GetMapWithoutPrefix s.proxyKeys "meta_" = some [(s.proxyMetaKey, s.proxyMetaValue)] ∧
    GetMapWithoutPrefix s.proxyKeys "header_" = none ∧
    GetMapWithoutPrefix s.proxyKeys "plugin_header_" = none := by
  refine ⟨?_, ?_, ?_⟩
  · rw [s.proxyKeys_eq, GetMapWithoutPrefix_literal_then_meta, if_pos (HasPrefix_append _ _),
      TrimPrefix_append]
    intro kv hkv
    simp only [List.mem_cons, List.mem_singleton, List.not_mem_nil, or_false] at hkv
    rcases hkv with rfl | rfl | rfl | rfl <;> (dsimp only; decide)
  · rw [s.proxyKeys_eq, GetMapWithoutPrefix_literal_then_meta,
      HasPrefix_meta_other _ "header_" 'h' _ rfl (by decide)]
    · rfl
    · intro kv hkv
      simp only [List.mem_cons, List.mem_singleton, List.not_mem_nil, or_false] at hkv
      rcases hkv with rfl | rfl | rfl | rfl <;> (dsimp only; decide)
  · rw [s.proxyKeys_eq, GetMapWithoutPrefix_literal_then_meta,
      HasPrefix_meta_other _ "plugin_header_" 'p' _ rfl (by decide)]
    · rfl
    · intro kv hkv
      simp only [List.mem_cons, List.mem_singleton, List.not_mem_nil, or_false] at hkv
      rcases hkv with rfl | rfl | rfl | rfl <;> (dsimp only; decide)

theorem LegacyScenario.proxy_Complete (s : LegacyScenario) :
    Proxy.Complete
      { Name := s.proxyName, Type_ := "tcp", LocalIP := s.localIP, LocalPort := s.localPort,
        Metas := some [(s.proxyMetaKey, s.proxyMetaValue)], RemotePort := s.remotePort } =
      { Name := s.proxyName, Type_ := "tcp", LocalIP := s.localIP, LocalPort := s.localPort,
        Metas := some [(s.proxyMetaKey, s.proxyMetaValue)], RemotePort := s.remotePort } := by
  rw [Proxy.Complete_of_not_visitor _ (by rfl)]
  simp [BaseProxyConf.complete_eq, PruneByTag_Proxy_eq, BaseProxyConf.completePlugin,
    BaseProxyConf.completeHealthCheck]

theorem LegacyScenario.iniProxies_sections (s : LegacyScenario) (h : s.WellFormed) (lib : Libs)
    (tp : String → Option GoTime)
    (hproxy : ∀ section_ p mapped, ini.MapTo tp ini.proxyFields section_ p = some mapped →
      lib.iniMapProxy section_ p = Except.ok mapped) :
    iniProxies lib [{ name := "DEFAULT", keys := [] }, { name := "common", keys := s.commonKeys },
        { name := s.proxyName, keys := s.proxyKeys }] =
      Except.ok [{ Name := s.proxyName, Type_ := "tcp", LocalIP := s.localIP,
                   LocalPort := s.localPort,
                   Metas := some [(s.proxyMetaKey, s.proxyMetaValue)],
                   RemotePort := s.remotePort }] := by
  obtain ⟨-, hn2, hn3, -, -, -, -, -, hn9⟩ := h.proxyName
  obtain ⟨hm1, hm2, hm3⟩ := s.proxyKeys_prefixes
  have hnew : NewProxyFromIni lib s.proxyName { name := s.proxyName, keys := s.proxyKeys } =
      Except.ok { Name := s.proxyName, Type_ := "tcp", LocalIP := s.localIP,
                  LocalPort := s.localPort,
                  Metas := some [(s.proxyMetaKey, s.proxyMetaValue)],
                  RemotePort := s.remotePort } := by
    unfold NewProxyFromIni
    rw [hproxy _ _ _ (s.MapTo_proxy h tp)]
    simp only [hm1, hm2, hm3, TrimPrefix_of_not _ _ hn9]
  rw [iniProxies_skip lib _ _ (Or.inl rfl), iniProxies_skip lib _ _ (Or.inr rfl)]
  refine iniProxies_cons lib _ _ _ _ ?_ hnew rfl
  rintro (e | e)
  · exact hn3 e
  · exact hn2 e

/-- C20, as claimed, fails at documents of the claimed shape. With the token empty the
decoder returns the authentication method empty, where the default configuration has
`token`. With the proxy section named `range:ssh` the proxy is named `ssh`. With the proxy
section named `common` no proxy is returned. With the port 9223372036854775808 the port of
the default configuration is kept. With a blank before the server address the address is
returned without the blank. -/
theorem C20_counterexample :
    (exampleEmptyTokenScenario.decoded (fun conf => (conf.Token, conf.AuthMethod)) =
        some ("", "") ∧
      (exampleEmptyTokenScenario.expected exampleDefaults).AuthMethod = "token") ∧
    (exampleMarkedNameScenario.decoded (fun conf => conf.Proxies.map (fun p => p.Name)) =
        some ["ssh"] ∧
      (exampleMarkedNameScenario.expected exampleDefaults).Proxies.map (fun p => p.Name) =
        ["range:ssh"]) ∧
    (exampleCommonNameScenario.decoded (fun conf => conf.Proxies.map (fun p => p.Name)) =
        some [] ∧
      (exampleCommonNameScenario.expected exampleDefaults).Proxies.map (fun p => p.Name) =
        ["common"]) ∧
    (exampleLargePortScenario.decoded (fun conf => conf.ServerPort) = some 7000 ∧
      (exampleLargePortScenario.expected exampleDefaults).ServerPort =
        9223372036854775808) ∧
    (examplePaddedScenario.decoded (fun conf => conf.ServerAddress) = some "example.com" ∧
      (examplePaddedScenario.expected exampleDefaults).ServerAddress = " example.com") := by
  decide

/-- C20, amended: the legacy decode scenario of `TestUnmarshalClientConfFromIni`, for every
document of its shape whose values are plain. The document is the text of the lines of the
test with any values in place of those of the test: a `[common]` block with `server_addr`,
`server_port`, `token`, `frpcgui_manual_start`, `frpcgui_delete_method = absolute`,
`frpcgui_delete_after_date` and one `meta_` key, then one section with `type = tcp`,
`local_ip`, `local_port`, `remote_port` and one `meta_` key. The values are plain, the token
is not empty and the name of the proxy section is not reserved
(`LegacyScenario.WellFormed`), the date text parses to the date, and the ini library reads
plain documents and maps plain sections as gopkg.in/ini.v1 does: wherever `ini.LoadSources`
and `ini.MapTo` give a result, the library gives that result. Then
`UnmarshalClientConfFromIni`, given the text of the document, returns, without error, the
model the test builds for these values: the default client configuration with exactly the
fields of the document assigned (server address, server port, token, manual start, the
delete method and its date, the metadata keyed without the `meta_` prefix), the one proxy
carrying its name, type, local ip, local port, remote port and its own metadata, and
`LegacyFormat` true. -/
theorem C20_legacy_decode (lib : Libs) (k : Defaults) (timeParse : String → Option GoTime)
    (s : LegacyScenario)
    (hload : ∀ source sections, ini.LoadSources source = some sections →
      lib.iniLoad source = Except.ok sections)
    (hcommon : ∀ section_ c mapped,
      ini.MapTo timeParse ini.clientCommonFields section_ c = some mapped →
      lib.iniMapCommon section_ c = Except.ok mapped)
    (hproxy : ∀ section_ p mapped,
      ini.MapTo timeParse ini.proxyFields section_ p = some mapped →
      lib.iniMapProxy section_ p = Except.ok mapped)
    (hs : s.WellFormed) (hdate : timeParse s.dateText = some s.date) :
    UnmarshalClientConfFromIni lib k s.document = some (Except.ok (s.expected k)) := by
  have h1 := hload _ _ (s.LoadSources_document hs)
  have h2 := hcommon _ _ _ (s.MapTo_common hs timeParse hdate k)
  have h3 := s.iniProxies_sections hs lib timeParse hproxy
  obtain ⟨hm1, hm2⟩ := s.commonKeys_prefixes
  have hfind : List.find? (fun t : IniSection => decide (t.name = "common"))
      [{ name := "DEFAULT", keys := [] }, { name := "common", keys := s.commonKeys },
        { name := s.proxyName, keys := s.proxyKeys }] =
      some { name := "common", keys := s.commonKeys } := by
    rfl
  unfold UnmarshalClientConfFromIni
  simp only [h1, hfind, h2, h3, hm1, hm2]
  have hnil : (NewDefaultClientConfig k).Proxies = [] := rfl
  rw [ClientConfig.Complete_read]
  simp only [hnil, List.nil_append]
  rw [completeProxies_single]
  · rw [s.proxy_Complete]
    simp only [Option.map_some']
    refine congrArg some (congrArg Except.ok ?_)
    have ht := hs.token
    simp [ClientConfig.setLegacyFormat, LegacyScenario.expected, NewDefaultClientConfig,
      ClientCommon.Complete, ClientCommon.completeAuth, ClientCommon.completeAdmin,
      ClientCommon.completeAutoDelete, ClientCommon.completeTCPMux, ClientCommon.completeTLS,
      ClientCommon.completeProtocol, ClientAuth.Complete, PruneByTag, Taggable.prune,
      pruneField, tagAccepts_cons, tagAccepts_nil, AuthToken, AutoDelete.Complete,
      DeleteAbsolute, DeleteRelative, ProtoQUIC, ht]
  · rfl

theorem C20_legacy_decode_witness :
    (exampleScenario.document = exampleLegacySource ∧
     UnmarshalClientConfFromIni exampleIniLibs exampleDefaults exampleLegacySource =
       some (Except.ok (exampleLegacyExpected exampleDefaults exampleLegacyDate)) ∧
     (exampleLegacyExpected exampleDefaults exampleLegacyDate).LegacyFormat = true ∧
     (exampleLegacyExpected exampleDefaults exampleLegacyDate).ServerPort = 7001 ∧
     (exampleLegacyExpected exampleDefaults exampleLegacyDate).LogLevel = "info") ∧
    (exampleOtherScenario.document = exampleOtherSource ∧
     UnmarshalClientConfFromIni exampleIniLibs exampleDefaults exampleOtherSource =
       some (Except.ok (exampleOtherScenario.expected exampleDefaults)) ∧
     (exampleOtherScenario.expected exampleDefaults).Token = "s3cret=#1" ∧
     (exampleOtherScenario.expected exampleDefaults).Metas = some [("owner", "a b")] ∧
     (exampleOtherScenario.expected exampleDefaults).Proxies.map (fun p => p.LocalPort) =
       ["8080-8081"]) := by
  have hdoc : exampleScenario.document = exampleLegacySource := by
    set_option maxRecDepth 4000 in decide
  have hdoc2 : exampleOtherScenario.document = exampleOtherSource := by
    set_option maxRecDepth 4000 in decide
  have h := C20_legacy_decode exampleIniLibs exampleDefaults exampleTimeParse exampleScenario
    (fun source sections hl => by simp only [exampleIniLibs, hl])
    (fun section_ c mapped hm => by simp only [exampleIniLibs, hm])
    (fun section_ p mapped hm => by simp only [exampleIniLibs, hm])
    ⟨by decide, by decide, by decide, by decide, by decide, by decide, by decide, by decide,
      by decide, by decide, by decide, by decide, by decide, by decide⟩
    rfl
  have h2 := C20_legacy_decode exampleIniLibs exampleDefaults exampleTimeParse
    exampleOtherScenario
    (fun source sections hl => by simp only [exampleIniLibs, hl])
    (fun section_ c mapped hm => by simp only [exampleIniLibs, hm])
    (fun section_ p mapped hm => by simp only [exampleIniLibs, hm])
    ⟨by decide, by decide, by decide, by decide, by decide, by decide, by decide, by decide,
      by decide, by decide, by decide, by decide, by decide, by decide⟩
    rfl
  rw [hdoc] at h
  rw [hdoc2] at h2
  exact ⟨⟨hdoc, h, rfl, rfl, rfl⟩, hdoc2, h2, rfl, rfl, rfl⟩

/-! ## C29: per-proxy completion twice -/

/-- C29: per-proxy completion is idempotent and role-stable. For every proxy, completing the
completed proxy gives the completed proxy, and completion leaves `Name`, `Type`, `Disabled`
and the value of `IsVisitor` as they were. -/
theorem C29_proxy_complete_idempotent (p : Proxy) :
    p.Complete.Complete = p.Complete ∧
    p.Complete.Name = p.Name ∧
    p.Complete.Type_ = p.Type_ ∧
    p.Complete.Disabled = p.Disabled ∧
    p.Complete.IsVisitor = p.IsVisitor :=
  ⟨Proxy.Complete_idem p, (Proxy.Complete_frame p).1, (Proxy.Complete_frame p).2.1,
    (Proxy.Complete_frame p).2.2, Proxy.IsVisitor_Complete p⟩

/-! ## C27: a proxy without an alias -/

/-- C27, evaluated at the failing input: the tcp proxy `a` whose local-port string is ",".
It is a range proxy, `parseRangeNumbers` skips both blank parts and returns no number and no
error, and `GetAlias` returns the empty list, before and after per-proxy completion. In read
mode with the start list `b` the disabled proxy `a` then passes the test of `lo.Every`
vacuously and comes out enabled. A proxy that is not a range proxy, and a range proxy whose
local-port string is rejected, do have the alias `Name`. -/
theorem C27_range_proxy_without_alias :
    exampleBlankRangeProxy.IsRange = true ∧
    parseRangeNumbers exampleBlankRangeProxy.LocalPort = some (ParseResult.ok []) ∧
    exampleBlankRangeProxy.GetAlias = some [] ∧
    exampleBlankRangeProxy.Complete.GetAlias = some [] ∧
    exampleBlankRangeConf.Proxies.map (fun p => p.Disabled) = [true, false] ∧
    (exampleBlankRangeConf.Complete true).map (fun c => c.Proxies.map (fun p => p.Disabled)) =
      some [false, false] ∧
    (∀ p : Proxy, p.IsRange = false → p.GetAlias = some [p.Name]) ∧
    (∀ (p : Proxy) (msg : String), parseRangeNumbers p.LocalPort = some (ParseResult.err msg) →
      p.GetAlias = some [p.Name]) := by
  refine ⟨by decide, by decide, by decide, by decide, by decide, by decide, ?_, ?_⟩
  · intro p h
    simp [Proxy.GetAlias, h]
  · intro p msg h
    unfold Proxy.GetAlias
    split_ifs <;> simp [h]

/-! ## C28: the flags after a write-mode and a read-mode completion -/

/-- C28: for every configuration whose proxies, after per-proxy completion, have non-empty
alias lists that are pairwise disjoint, `Complete(false)` returns, `Complete(true)` of its
result returns, and every proxy has the `Disabled` flag it had before the two calls,
whichever proxies were disabled. -/
theorem C28_flags_survive_write_read (conf : ClientConfig)
    (hne : ∀ p ∈ conf.Proxies, p.Complete.GetAlias ≠ none ∧ p.Complete.GetAlias ≠ some [])
    (hdisj : conf.Proxies.Pairwise (fun p q =>
      ∀ a ∈ p.Complete.GetAlias.getD [], a ∉ q.Complete.GetAlias.getD [])) :
    ∃ conf1 conf2,
      conf.Complete false = some conf1 ∧
      conf1.Complete true = some conf2 ∧
      conf2.Proxies.map (fun p => p.Disabled) = conf.Proxies.map (fun p => p.Disabled) := by
  have hsymm : Symmetric (fun p q : Proxy =>
      ∀ a ∈ p.Complete.GetAlias.getD [], a ∉ q.Complete.GetAlias.getD []) := by
    intro p q h a ha hb
    exact h a hb ha
  obtain ⟨conf1, h1⟩ := ClientConfig.Complete_write_isSome conf
    (fun p hp _ => (hne p hp).1)
  obtain ⟨hp1, lists, hl, hstart⟩ := ClientConfig.Complete_write_eq conf conf1 h1
  obtain ⟨conf2, h2⟩ := ClientConfig.Complete_read_isSome conf1 (by
    right
    intro q hq
    rw [hp1] at hq
    obtain ⟨p, hp, rfl⟩ := List.mem_map.1 hq
    rw [Proxy.Complete_idem]
    exact (hne p hp).1)
  refine ⟨conf1, conf2, h1, h2, ?_⟩
  have hwr := ClientConfig.Complete_write_read conf conf1 conf2 h1 h2
  have hflags : List.Forall₂ (fun p p' => p'.Disabled = p.Disabled)
      conf.Proxies conf2.Proxies := by
    refine forall₂_imp_of_mem hwr ?_
    intro p p' hp hr
    by_cases h0 : conf1.Start.len = 0
    · exact hr.2 h0
    · obtain ⟨aliases, hal, hdis⟩ := hr.1 (Nat.pos_of_ne_zero h0)
      have hsome : conf1.Start = some lists.flatten := by
        rw [hstart]
        split_ifs with hall
        · rw [hstart, if_pos hall] at h0
          exact absurd rfl h0
        · rfl
      rw [hdis, hsome]
      simp only [Slice.elems, Option.getD_some]
      cases hpd : p.Disabled with
      | false =>
        have hin : p.Complete ∈
            (conf.Proxies.map Proxy.Complete).filter (fun p => !p.Disabled) := by
          rw [List.mem_filter]
          exact ⟨List.mem_map_of_mem _ hp, by simp [p.Complete_frame.2.2, hpd]⟩
        obtain ⟨l, hl1, hl2⟩ := forall₂_exists_right hl p.Complete hin
        rw [hal] at hl2
        simp only [Option.some.injEq] at hl2
        subst hl2
        have hyes : lo.Every lists.flatten aliases = true := by
          rw [lo_Every_iff]
          intro e he
          exact List.mem_flatten.2 ⟨aliases, hl1, he⟩
        simp [hyes]
      | true =>
        have hnonempty : aliases ≠ [] := by
          intro he
          exact (hne p hp).2 (by rw [hal, he])
        obtain ⟨a, ha⟩ := List.exists_mem_of_ne_nil aliases hnonempty
        have hnot : ¬ lo.Every lists.flatten aliases = true := by
          rw [lo_Every_iff]
          intro hall
          have hain := hall a ha
          rw [List.mem_flatten] at hain
          obtain ⟨l, hl1, hl2⟩ := hain
          obtain ⟨q', hq', hql⟩ := forall₂_exists_left hl l hl1
          rw [List.mem_filter] at hq'
          obtain ⟨hqm, hqd⟩ := hq'
          obtain ⟨q, hq, rfl⟩ := List.mem_map.1 hqm
          have hqdis : q.Disabled = false := by
            simpa [q.Complete_frame.2.2] using hqd
          have hpq : p ≠ q := by
            intro e
            rw [e, hqdis] at hpd
            cases hpd
          have hR := hdisj.forall hsymm hp hq hpq
          exact hR a (by rw [hal]; exact ha) (by rw [hql]; exact hl2)
        simp [hnot]
  exact forall₂_map_eq hflags

theorem C28_flags_survive_write_read_witness :
    ∃ conf1 conf2,
      exampleFlagsConf.Complete false = some conf1 ∧
      conf1.Complete true = some conf2 ∧
      conf2.Proxies.map (fun p => p.Disabled) = [true, false, true] :=
  C28_flags_survive_write_read exampleFlagsConf (by decide) (by decide)

/-! ## C26: `MoveSlice` moves one element -/


theorem insertIdx_eq_take_drop {α : Type} (x : α) :
    ∀ (n : Nat) (l : List α), n ≤ l.length → l.insertIdx n x = l.take n ++ x :: l.drop n
  | 0, l, _ => by simp
  | n + 1, [], h => by simp at h
  | n + 1, a :: l, h => by
    simp only [List.insertIdx_succ_cons, List.take_succ_cons, List.drop_succ_cons,
      List.cons_append, List.cons.injEq, true_and]
    exact insertIdx_eq_take_drop x n l (by simpa using h)

theorem MoveSlice_forward {α : Type} (s : List α) (i j : Nat) (x : α) (hx : s[i]? = some x)
    (hij : i < j) (hj : j < s.length) :
    MoveSlice s i j = some (s.take i ++ (s.drop (i + 1)).take (j - i) ++ x :: s.drop (j + 1)) := by
  have h1 : sliceOf s i j = some ((s.drop i).take (j - i)) := by
    unfold sliceOf
    rw [if_pos ⟨by omega, by omega⟩]
  have h2 : sliceOf s (i + 1) (j + 1) = some ((s.drop (i + 1)).take (j - i)) := by
    unfold sliceOf
    rw [if_pos ⟨by omega, by omega⟩]
    congr 2
    omega
  unfold MoveSlice
  simp only [hx, if_pos hij, h1, h2]
  have hlen : ((s.drop (i + 1)).take (j - i)).length = j - i := by
    simp only [List.length_take, List.length_drop]
    omega
  have hc : copyInto s i j ((s.drop (i + 1)).take (j - i)) =
      (s.take i ++ (s.drop (i + 1)).take (j - i)) ++ s.drop j := by
    unfold copyInto
    rw [hlen, List.take_take, Nat.min_self]
    have e : i + (j - i) = j := by omega
    rw [e]
  have hl2 : (s.take i ++ (s.drop (i + 1)).take (j - i)).length = j := by
    simp only [List.length_append, List.length_take, List.length_drop]
    omega
  rw [hc]
  have hlt : j < ((s.take i ++ (s.drop (i + 1)).take (j - i)) ++ s.drop j).length := by
    simp only [List.length_append, List.length_take, List.length_drop]
    omega
  rw [if_pos hlt]
  congr 1
  rw [List.set_append_right _ _ (by omega), hl2, Nat.sub_self]
  have hd : s.drop j = s[j] :: s.drop (j + 1) := (List.drop_eq_getElem_cons hj)
  rw [hd, List.set_cons_zero]

theorem MoveSlice_backward {α : Type} (s : List α) (i j : Nat) (x : α)
    (hx : s[i]? = some x) (hji : j < i) (hi : i < s.length) :
    MoveSlice s i j =
      some (s.take j ++ x :: (s.drop j).take (i - j) ++ s.drop (i + 1)) := by
  have h1 : sliceOf s (j + 1) (i + 1) = some ((s.drop (j + 1)).take (i - j)) := by
    unfold sliceOf
    rw [if_pos ⟨by omega, by omega⟩]
    congr 2
    omega
  have h2 : sliceOf s j i = some ((s.drop j).take (i - j)) := by
    unfold sliceOf
    rw [if_pos ⟨by omega, by omega⟩]
  unfold MoveSlice
  simp only [hx, if_neg (show ¬ i < j by omega), if_pos (show i > j from hji), h1, h2]
  have hlen : ((s.drop j).take (i - j)).length = i - j := by
    simp only [List.length_take, List.length_drop]
    omega
  have hc : copyInto s (j + 1) (i + 1) ((s.drop j).take (i - j)) =
      s.take (j + 1) ++ ((s.drop j).take (i - j) ++ s.drop (i + 1)) := by
    unfold copyInto
    have e1 : i + 1 - (j + 1) = i - j := by omega
    rw [e1, hlen, List.take_take, Nat.min_self]
    have e : j + 1 + (i - j) = i + 1 := by omega
    rw [e, List.append_assoc]
  rw [hc]
  have hl1 : (s.take (j + 1)).length = j + 1 := by
    simp only [List.length_take]
    omega
  have hlt : j < (s.take (j + 1) ++ ((s.drop j).take (i - j) ++ s.drop (i + 1))).length := by
    simp only [List.length_append, List.length_take, List.length_drop]
    omega
  rw [if_pos hlt]
  congr 1
  have hjl : j < s.length := by omega
  have ht : s.take (j + 1) = s.take j ++ [s[j]] := by
    rw [List.take_succ, List.getElem?_eq_getElem hjl]
    rfl
  have hlj : (s.take j).length = j := by
    simp only [List.length_take]
    omega
  rw [List.set_append_left _ _ (by omega), ht, List.set_append_right _ _ (by omega), hlj,
    Nat.sub_self, List.set_cons_zero]
  simp

theorem set_getElem_same {α : Type} (s : List α) (i : Nat) (hi : i < s.length) :
    s.set i s[i] = s := by
  rw [List.set_eq_take_append_cons_drop, if_pos hi, ← List.drop_eq_getElem_cons hi,
    List.take_append_drop]

theorem MoveSlice_same {α : Type} (s : List α) (i : Nat) (hi : i < s.length) :
    MoveSlice s i i = some s := by
  unfold MoveSlice
  simp only [List.getElem?_eq_getElem hi, Nat.lt_irrefl, if_false, gt_iff_lt, if_pos hi]
  rw [set_getElem_same s i hi]

theorem MoveSlice_eq_insertIdx {α : Type} (s : List α) (i j : Nat) (hi : i < s.length)
    (hj : j < s.length) :
    MoveSlice s i j = some ((s.eraseIdx i).insertIdx j s[i]) := by
  have hx : s[i]? = some s[i] := List.getElem?_eq_getElem hi
  have hE : (s.eraseIdx i).length = s.length - 1 := List.length_eraseIdx_of_lt hi
  rw [insertIdx_eq_take_drop _ _ _ (by omega), List.eraseIdx_eq_take_drop_succ,
    List.take_append_eq_append_take, List.drop_append_eq_append_drop, List.take_take,
    List.length_take, Nat.min_eq_left (Nat.le_of_lt hi)]
  rcases Nat.lt_trichotomy i j with h | h | h
  · have hd : List.drop j (List.take i s) = [] :=
      List.drop_eq_nil_of_le (by simp only [List.length_take]; omega)
    have e : i + 1 + (j - i) = j + 1 := by omega
    rw [MoveSlice_forward s i j _ hx h hj, Nat.min_eq_right (Nat.le_of_lt h), hd,
      List.drop_drop, List.nil_append]
    simp [e, Nat.add_comm]
  · subst h
    have hd : List.drop i (List.take i s) = [] :=
      List.drop_eq_nil_of_le (by simp only [List.length_take]; omega)
    rw [MoveSlice_same s i hi, Nat.min_self, Nat.sub_self, List.take_zero, List.append_nil,
      hd, List.drop_zero, List.nil_append, ← List.drop_eq_getElem_cons hi,
      List.take_append_drop]
  · rw [MoveSlice_backward s i j _ hx h hi, Nat.min_eq_left (Nat.le_of_lt h),
      Nat.sub_eq_zero_of_le (Nat.le_of_lt h), List.take_zero, List.append_nil, List.drop_zero,
      List.drop_take]
    simp

/-- C26: `MoveSlice` moves one element. For every slice `s` and indices `i`, `j` below its
length, `MoveSlice(s, i, j)` returns without a panic; afterwards the length is unchanged, the
element at index `j` is the one formerly at index `i`, and the contents are the old contents
with the element at `i` removed and inserted again at position `j`, so that the other
elements keep their order and the result is a permutation of the input; `MoveSlice(s, i, i)`
changes nothing. -/
theorem C26_move_slice {α : Type} (s : List α) (i j : Nat) (hi : i < s.length)
    (hj : j < s.length) :
    ∃ r, MoveSlice s i j = some r ∧
      r.length = s.length ∧
      r[j]? = some s[i] ∧
      r = (s.eraseIdx i).insertIdx j s[i] ∧
      r.eraseIdx j = s.eraseIdx i ∧
      r.Perm s ∧
      MoveSlice s i i = some s := by
  have hE : (s.eraseIdx i).length = s.length - 1 := List.length_eraseIdx_of_lt hi
  have hjE : j ≤ (s.eraseIdx i).length := by omega
  have hlen : ((s.eraseIdx i).insertIdx j s[i]).length = s.length := by
    rw [List.length_insertIdx _ _ hjE]
    omega
  refine ⟨_, MoveSlice_eq_insertIdx s i j hi hj, hlen, ?_, rfl, List.eraseIdx_insertIdx _ _,
    ?_, MoveSlice_same s i hi⟩
  · rw [List.getElem?_eq_getElem (by omega), List.getElem_insertIdx_self _ _ _ hjE]
  · refine (List.perm_insertIdx _ _ hjE).trans ?_
    have hs : s = s.take i ++ s[i] :: s.drop (i + 1) := by
      rw [← List.drop_eq_getElem_cons hi, List.take_append_drop]
    rw [List.eraseIdx_eq_take_drop_succ]
    exact (List.perm_middle.symm).trans (by rw [← hs])

theorem C26_move_slice_witness :
    ∃ r, MoveSlice [10, 11, 12, 13, 14] 1 3 = some r ∧
      r.length = 5 ∧ r[3]? = some 11 ∧ r = [10, 12, 13, 11, 14] := by
  obtain ⟨r, h1, h2, h3, h4, -, -, -⟩ :=
    C26_move_slice [10, 11, 12, 13, 14] 1 3 (by decide) (by decide)
  exact ⟨r, h1, h2, h3, h4.trans (by decide)⟩

/-! ## C30: the log-line parsers -/

theorem indexFrom_spec (substr : List Char) :
    ∀ (s : List Char) (n : Nat), indexFrom substr s n = -1 ∨
      ∃ k : Nat, indexFrom substr s n = ((n + k : Nat) : Int) ∧ k + substr.length ≤ s.length
  | [], n => by
    unfold indexFrom
    by_cases h : substr = []
    · right
      exact ⟨0, by simp [h], by simp [h]⟩
    · left
      simp [h]
  | c :: rest, n => by
    unfold indexFrom
    by_cases h : substr.isPrefixOf (c :: rest) = true
    · right
      refine ⟨0, by simp [h], ?_⟩
      have := (List.isPrefixOf_iff_prefix.1 h).length_le
      simpa using this
    · rw [if_neg h]
      rcases indexFrom_spec substr rest (n + 1) with h1 | ⟨k, h1, h2⟩
      · exact Or.inl h1
      · right
        refine ⟨k + 1, ?_, ?_⟩
        · rw [h1]
          congr 1
          omega
        · simp only [List.length_cons]
          omega

theorem Index_spec (s substr : List Char) :
    Index s substr = -1 ∨
      ∃ k : Nat, Index s substr = (k : Int) ∧ k + substr.length ≤ s.length := by
  unfold Index
  rcases indexFrom_spec substr s 0 with h | ⟨k, h1, h2⟩
  · exact Or.inl h
  · right
    refine ⟨k, ?_, h2⟩
    rw [h1, Nat.zero_add]

theorem substring_nat (s : List Char) (lo hi : Nat) (h1 : lo ≤ hi) (h2 : hi ≤ s.length) :
    substring s (lo : Int) (hi : Int) = some ((s.drop lo).take (hi - lo)) := by
  unfold substring
  rw [if_pos ⟨Int.natCast_nonneg _, by exact_mod_cast h1, by exact_mod_cast h2⟩]
  have e : ((hi : Int) - (lo : Int)).toNat = hi - lo := by omega
  rw [e, Int.toNat_ofNat]

theorem indexFrom_of_Contains (substr : List Char) :
    ∀ (s : List Char) (n : Nat), Contains s substr = true → indexFrom substr s n ≠ -1
  | [], n => by
    intro h
    have hs : substr = [] := by
      simpa [Contains] using h
    unfold indexFrom
    rw [if_pos hs]
    omega
  | c :: rest, n => by
    intro h
    unfold indexFrom
    by_cases hp : substr.isPrefixOf (c :: rest) = true
    · rw [if_pos hp]
      omega
    · rw [if_neg hp]
      apply indexFrom_of_Contains substr rest (n + 1)
      simp only [Contains, List.tails, List.any_cons, Bool.or_eq_true] at h ⊢
      rcases h with h | h
      · exact absurd h hp
      · exact h

theorem withRemoteAddr_returns (line : List Char) (msg : ProxyMessage) :
    ∃ addr, withRemoteAddr line msg = Outcome.returned { msg with RemoteAddr := addr } := by
  unfold withRemoteAddr
  by_cases hc : Contains line "remote address:".data = true
  · rw [if_pos hc]
    have hne : Index line "remote address:".data ≠ -1 := indexFrom_of_Contains _ _ 0 hc
    rcases Index_spec line "remote address:".data with h | ⟨k, hk, hk2⟩
    · exact absurd h hne
    · have e1 : Index line "remote address:".data + ("remote address:".data.length : Int) =
          ((k + "remote address:".data.length : Nat) : Int) := by
        rw [hk]
        push_cast
        rfl
      simp only [e1]
      generalize k + "remote address:".data.length = a at hk2
      rw [substring_nat line a line.length hk2 (le_refl _)]
      simp only []
      have hlen : ((line.drop a).take (line.length - a)).length = line.length - a := by
        simp only [List.length_take, List.length_drop, Nat.min_self]
      generalize (line.drop a).take (line.length - a) = rest at hlen
      have hend : ∀ e : Nat, e ≤ rest.length →
          substring line (a : Int) ((a : Int) + (e : Int)) =
            some ((line.drop a).take (a + e - a)) := by
        intro e he
        have := substring_nat line a (a + e) (by omega) (by omega)
        rw [← this]
        push_cast
        rfl
      by_cases hcomma : Index rest ",".data = -1
      · rw [if_pos hcomma, hend rest.length (le_refl _)]
        exact ⟨_, rfl⟩
      · rw [if_neg hcomma]
        rcases Index_spec rest ",".data with h | ⟨k2, hk3, hk4⟩
        · exact absurd h hcomma
        · rw [hk3, hend k2 (by omega)]
          exact ⟨_, rfl⟩
  · rw [if_neg hc]
    exact ⟨msg.RemoteAddr, rfl⟩

theorem SplitN2_cases (s sep : List Char) :
    (Index s sep < 0 ∧ SplitN2 s sep = [s]) ∨
    (0 ≤ Index s sep ∧
      SplitN2 s sep = [s.take (Index s sep).toNat, s.drop ((Index s sep).toNat + sep.length)]) := by
  unfold SplitN2
  by_cases h : Index s sep < 0
  · exact Or.inl ⟨h, if_pos h⟩
  · exact Or.inr ⟨by omega, if_neg h⟩

theorem extractProxyStatusFromLog_eq (line status errorMsg : String) :
    extractProxyStatusFromLog line status errorMsg =
      match extractProxyInfo line status errorMsg with
      | Outcome.panicked => Outcome.panicked
      | Outcome.returned (Except.ok msg) => Outcome.returned (some msg)
      | Outcome.returned (Except.error _) => Outcome.returned none := by
  unfold extractProxyStatusFromLog extractProxyInfo
  simp only []
  split_ifs with h
  · rfl
  · cases substring line.data (Index line.data "[".data + 1) (Index line.data "]".data) with
    | none => rfl
    | some info =>
      simp only []
      rcases SplitN2_cases info ":".data with ⟨-, h2⟩ | ⟨-, h2⟩
      · rw [h2]
      · rw [h2]
        simp only []
        cases withRemoteAddr line.data
            { Name := String.mk (info.drop ((Index info ":".data).toNat + ":".data.length)),
              Type_ := String.mk (info.take (Index info ":".data).toNat), Status := status,
              Err := errorMsg } <;> rfl

theorem extractProxyInfo_panics_iff (line status errorMsg : String) :
    extractProxyInfo line status errorMsg = Outcome.panicked ↔
      Index line.data "]".data ≠ -1 ∧ Index line.data "]".data ≤ Index line.data "[".data := by
  have hS := Index_spec line.data "[".data
  have hE := Index_spec line.data "]".data
  unfold extractProxyInfo
  generalize Index line.data "[".data = st at hS ⊢
  generalize Index line.data "]".data = en at hE ⊢
  simp only []
  rcases hS with hs | ⟨ks, hs, -⟩
  · rw [if_pos (Or.inl hs), hs]
    constructor
    · intro h
      cases h
    · rintro ⟨hne, hle⟩
      rcases hE with he | ⟨ke, he, -⟩
      · exact absurd he hne
      · omega
  · rcases hE with he | ⟨ke, he, hke⟩
    · rw [if_pos (Or.inr he)]
      constructor
      · intro h
        cases h
      · rintro ⟨hne, -⟩
        exact absurd he hne
    · rw [if_neg (by omega), hs, he]
      have ecast : ((ks : Int) + 1) = ((ks + 1 : Nat) : Int) := by push_cast; rfl
      rw [ecast]
      have hlen : ke ≤ line.data.length := by omega
      by_cases hord : ks + 1 ≤ ke
      · rw [substring_nat _ _ _ hord hlen]
        have hfalse : ¬ ((ke : Int) ≠ -1 ∧ (ke : Int) ≤ (ks : Int)) := by omega
        simp only [hfalse, iff_false]
        generalize (line.data.drop (ks + 1)).take (ke - (ks + 1)) = info
        rcases SplitN2_cases info ":".data with ⟨-, h2⟩ | ⟨-, h2⟩
        · rw [h2]
          intro h
          cases h
        · rw [h2]
          show ¬ (match withRemoteAddr line.data
              { Name := String.mk (info.drop ((Index info ":".data).toNat + ":".data.length)),
                Type_ := String.mk (info.take (Index info ":".data).toNat),
                Status := status, Err := errorMsg } with
            | Outcome.panicked => Outcome.panicked
            | Outcome.returned msg => Outcome.returned (Except.ok msg)) = Outcome.panicked
          obtain ⟨addr, ha⟩ := withRemoteAddr_returns line.data
            { Name := String.mk (info.drop ((Index info ":".data).toNat + ":".data.length)),
              Type_ := String.mk (info.take (Index info ":".data).toNat),
              Status := status, Err := errorMsg }
          rw [ha]
          intro h
          cases h
      · have hnone : substring line.data ((ks + 1 : Nat) : Int) (ke : Int) = none := by
          unfold substring
          rw [if_neg (by omega)]
        rw [hnone]
        constructor
        · intro _
          omega
        · intro _
          rfl

theorem extractProxyInfo_ok (line status errorMsg : String) (msg : ProxyMessage)
    (h : extractProxyInfo line status errorMsg = Outcome.returned (Except.ok msg)) :
    ∃ info, substring line.data (Index line.data "[".data + 1) (Index line.data "]".data) =
        some info ∧
      0 ≤ Index info ":".data ∧
      msg.Type_ = String.mk (info.take (Index info ":".data).toNat) ∧
      msg.Name = String.mk (info.drop ((Index info ":".data).toNat + 1)) ∧
      msg.Status = status ∧ msg.Err = errorMsg := by
  unfold extractProxyInfo at h
  generalize Index line.data "[".data = st at h ⊢
  generalize Index line.data "]".data = en at h ⊢
  simp only [] at h
  by_cases hse : st = -1 ∨ en = -1
  · rw [if_pos hse] at h
    cases h
  · rw [if_neg hse] at h
    cases hsub : substring line.data (st + 1) en with
    | none =>
      rw [hsub] at h
      cases h
    | some info =>
      rw [hsub] at h
      refine ⟨info, rfl, ?_⟩
      rcases SplitN2_cases info ":".data with ⟨-, h2⟩ | ⟨h0, h2⟩
      · have hm : (match SplitN2 info ":".data with
              | [proxyType, proxyName] =>
                match withRemoteAddr line.data
                    { Name := String.mk proxyName, Type_ := String.mk proxyType,
                      Status := status, Err := errorMsg } with
                | Outcome.panicked => Outcome.panicked
                | Outcome.returned msg => Outcome.returned (Except.ok msg)
              | _ => Outcome.returned (Except.error "invalid proxy info format")) =
            Outcome.returned (Except.ok msg) := h
        rw [h2] at hm
        cases hm
      · have hm : (match some info with
            | none => (Outcome.panicked : Outcome (Except String ProxyMessage))
            | some proxyInfo =>
              match SplitN2 proxyInfo ":".data with
              | [proxyType, proxyName] =>
                match withRemoteAddr line.data
                    { Name := String.mk proxyName, Type_ := String.mk proxyType,
                      Status := status, Err := errorMsg } with
                | Outcome.panicked => Outcome.panicked
                | Outcome.returned msg => Outcome.returned (Except.ok msg)
              | _ => Outcome.returned (Except.error "invalid proxy info format")) =
            Outcome.returned (Except.ok msg) := h
        change (match SplitN2 info ":".data with
              | [proxyType, proxyName] =>
                match withRemoteAddr line.data
                    { Name := String.mk proxyName, Type_ := String.mk proxyType,
                      Status := status, Err := errorMsg } with
                | Outcome.panicked => Outcome.panicked
                | Outcome.returned msg => Outcome.returned (Except.ok msg)
              | _ => Outcome.returned (Except.error "invalid proxy info format")) =
            Outcome.returned (Except.ok msg) at hm
        rw [h2] at hm
        obtain ⟨addr, ha⟩ := withRemoteAddr_returns line.data
          { Name := String.mk (info.drop ((Index info ":".data).toNat + ":".data.length)),
            Type_ := String.mk (info.take (Index info ":".data).toNat),
            Status := status, Err := errorMsg }
        change (match withRemoteAddr line.data
              { Name := String.mk (info.drop ((Index info ":".data).toNat + ":".data.length)),
                Type_ := String.mk (info.take (Index info ":".data).toNat),
                Status := status, Err := errorMsg } with
            | Outcome.panicked => Outcome.panicked
            | Outcome.returned msg => Outcome.returned (Except.ok msg)) =
            Outcome.returned (Except.ok msg) at hm
        rw [ha] at hm
        simp only [Outcome.returned.injEq, Except.ok.injEq] at hm
        subst hm
        exact ⟨h0, rfl, rfl, rfl, rfl⟩

theorem extractProxyStatusFromLog_panics_iff (line status errorMsg : String) :
    extractProxyStatusFromLog line status errorMsg = Outcome.panicked ↔
      extractProxyInfo line status errorMsg = Outcome.panicked := by
  rw [extractProxyStatusFromLog_eq]
  cases extractProxyInfo line status errorMsg with
  | panicked => simp
  | returned r => cases r <;> simp

theorem extractProxyStatusFromLog_some_iff (line status errorMsg : String)
    (msg : ProxyMessage) :
    extractProxyStatusFromLog line status errorMsg = Outcome.returned (some msg) ↔
      extractProxyInfo line status errorMsg = Outcome.returned (Except.ok msg) := by
  rw [extractProxyStatusFromLog_eq]
  cases extractProxyInfo line status errorMsg with
  | panicked => simp
  | returned r => cases r <;> simp

/-- C30, evaluated at the failing input, the line "] proxy [tcp:ssh] starts successfully":
the first "]" stands before the first "[", the slice expression `line[start+1 : end]` has
its bounds out of range, and both parsers panic. In general either parser panics exactly
when the line has a "]" and its first "]" is not after its first "["; on every other line it
returns a message or a failure value. When a parser returns a message, the text between the
first "[" and the first "]" has a ":", the `Type` of the message is the text before the first
":" and its `Name` is the rest, as for the line "proxy [tcp:ssh] starts successfully". -/
theorem C30_bracket_order_panics :
    extractProxyInfo "] proxy [tcp:ssh] starts successfully" "running" "" =
      Outcome.panicked ∧
    extractProxyStatusFromLog "] proxy [tcp:ssh] starts successfully" "running" "" =
      Outcome.panicked ∧
    (∀ line status errorMsg : String,
      (extractProxyInfo line status errorMsg = Outcome.panicked ↔
        Index line.data "]".data ≠ -1 ∧
          Index line.data "]".data ≤ Index line.data "[".data) ∧
      (extractProxyStatusFromLog line status errorMsg = Outcome.panicked ↔
        Index line.data "]".data ≠ -1 ∧
          Index line.data "]".data ≤ Index line.data "[".data)) ∧
    (∀ (line status errorMsg : String) (msg : ProxyMessage),
      extractProxyInfo line status errorMsg = Outcome.returned (Except.ok msg) ∨
        extractProxyStatusFromLog line status errorMsg = Outcome.returned (some msg) →
      ∃ info,
        substring line.data (Index line.data "[".data + 1) (Index line.data "]".data) =
          some info ∧
        0 ≤ Index info ":".data ∧
        msg.Type_ = String.mk (info.take (Index info ":".data).toNat) ∧
        msg.Name = String.mk (info.drop ((Index info ":".data).toNat + 1)) ∧
        msg.Status = status ∧ msg.Err = errorMsg) ∧
    extractProxyInfo "proxy [tcp:ssh] starts successfully" "running" "" =
      Outcome.returned (Except.ok { Name := "ssh", Type_ := "tcp", Status := "running" }) ∧
    extractProxyStatusFromLog "proxy [tcp:ssh] starts successfully" "running" "" =
      Outcome.returned (some { Name := "ssh", Type_ := "tcp", Status := "running" }) := by
  refine ⟨by decide, by decide, ?_, ?_, by decide, by decide⟩
  · intro line status errorMsg
    refine ⟨extractProxyInfo_panics_iff line status errorMsg, ?_⟩
    rw [extractProxyStatusFromLog_panics_iff]
    exact extractProxyInfo_panics_iff line status errorMsg
  · intro line status errorMsg msg h
    rcases h with h | h
    · exact extractProxyInfo_ok line status errorMsg msg h
    · exact extractProxyInfo_ok line status errorMsg msg
        ((extractProxyStatusFromLog_some_iff line status errorMsg msg).1 h)

/-! ## C25: a source without the common block -/

theorem decodeTOML_without_common (lib : Libs) (k : Defaults) (doc : TomlDoc)
    (h : ∀ t, doc.lookup "common" ≠ some (TomlItem.table t)) :
    ∃ conf, decodeTOML lib k doc = some conf ∧
      conf.toClientCommon = (NewDefaultClientConfig k).toClientCommon.Complete := by
  have hc : decodeTOML lib k doc = ClientConfig.Complete
      { toClientCommon := (NewDefaultClientConfig k).toClientCommon,
        Proxies := (NewDefaultClientConfig k).Proxies ++ decodeTOMLProxies doc } true := by
    unfold decodeTOML
    cases hl : doc.lookup "common" with
    | none => rfl
    | some item =>
      cases item with
      | table t => exact absurd hl (h t)
      | value v => rfl
  rw [hc]
  obtain ⟨conf2, h2⟩ := ClientConfig.Complete_read_isSome
    { toClientCommon := (NewDefaultClientConfig k).toClientCommon,
      Proxies := (NewDefaultClientConfig k).Proxies ++ decodeTOMLProxies doc } (Or.inl rfl)
  refine ⟨conf2, h2, ?_⟩
  rw [ClientConfig.Complete_read] at h2
  simp only [Option.map_eq_some'] at h2
  obtain ⟨ps, -, rfl⟩ := h2
  rfl

theorem UnmarshalClientConfFromIni_without_common (lib : Libs) (k : Defaults) (b : String)
    (sections : List IniSection) (hload : lib.iniLoad b = Except.ok sections)
    (h : ∀ s ∈ sections, s.name ≠ "common") :
    ∃ e, UnmarshalClientConfFromIni lib k b = some (Except.error e) := by
  have hfind : sections.find? (fun s => s.name = "common") = none := by
    rw [List.find?_eq_none]
    intro s hs
    simpa using h s hs
  unfold UnmarshalClientConfFromIni
  simp only [hload, hfind]
  exact ⟨_, rfl⟩

/-- C25, evaluated at the failing input, the empty source, and on every source of the
modern format without a table `common`: `toml.Unmarshal` succeeds, the decoder finds no
common block, skips the `if commonData, ok := ...; ok` statement and returns, without an
error, a configuration whose common settings are the completed defaults. The legacy decoder
does return an error, and no model, when the document has no section `common`. -/
theorem C25_missing_common_accepted (lib : Libs) (k : Defaults) :
    (∀ (b : String) (doc : TomlDoc), DetectLegacyINIFormat b = false →
      lib.tomlUnmarshal b = Except.ok doc →
      (∀ t, doc.lookup "common" ≠ some (TomlItem.table t)) →
      ∃ conf, UnmarshalClientConf lib k b = some (Except.ok conf) ∧
        conf.toClientCommon = (NewDefaultClientConfig k).toClientCommon.Complete) ∧
    (lib.tomlUnmarshal "" = Except.ok [] →
      ∃ conf, UnmarshalClientConf lib k "" = some (Except.ok conf) ∧
        conf.toClientCommon = (NewDefaultClientConfig k).toClientCommon.Complete ∧
        conf.Proxies = []) ∧
    (∃ conf, UnmarshalClientConf exampleEmptyTomlLibs exampleDefaults "" =
      some (Except.ok conf) ∧ conf.ServerAddress = "" ∧ conf.ServerPort = 7000) ∧
    (∀ (b : String) (sections : List IniSection), DetectLegacyINIFormat b = true →
      lib.iniLoad b = Except.ok sections → (∀ s ∈ sections, s.name ≠ "common") →
      ∃ e, UnmarshalClientConf lib k b = some (Except.error e)) := by
  have hmodern : ∀ (lib : Libs) (k : Defaults) (b : String) (doc : TomlDoc),
      DetectLegacyINIFormat b = false →
      lib.tomlUnmarshal b = Except.ok doc →
      (∀ t, doc.lookup "common" ≠ some (TomlItem.table t)) →
      ∃ conf, UnmarshalClientConf lib k b = some (Except.ok conf) ∧
        conf.toClientCommon = (NewDefaultClientConfig k).toClientCommon.Complete ∧
        (doc = [] → conf.Proxies = []) := by
    intro lib k b doc hd hu hc
    obtain ⟨conf, h1, h2⟩ := decodeTOML_without_common lib k doc hc
    refine ⟨conf, ?_, h2, ?_⟩
    · unfold UnmarshalClientConf
      rw [hd]
      simp only [Bool.false_eq_true, if_false, hu, h1]
    · intro he
      subst he
      have h3 : decodeTOML lib k [] = some conf := h1
      unfold decodeTOML at h3
      rw [ClientConfig.Complete_read] at h3
      simp only [Option.map_eq_some'] at h3
      obtain ⟨ps, hps, rfl⟩ := h3
      have : completeProxies true
          ({ toClientCommon := (NewDefaultClientConfig k).toClientCommon,
             Proxies := (NewDefaultClientConfig k).Proxies ++ decodeTOMLProxies [] } :
            ClientConfig).Start [] = some ps := hps
      simp only [completeProxies, Option.some.injEq] at this
      exact this.symm
  refine ⟨?_, ?_, ?_, ?_⟩
  · intro b doc hd hu hc
    obtain ⟨conf, h1, h2, -⟩ := hmodern lib k b doc hd hu hc
    exact ⟨conf, h1, h2⟩
  · intro hu
    obtain ⟨conf, h1, h2, h3⟩ := hmodern lib k "" [] (by decide) hu (by simp)
    exact ⟨conf, h1, h2, h3 rfl⟩
  · obtain ⟨conf, h1, h2, -⟩ := hmodern exampleEmptyTomlLibs exampleDefaults "" []
      (by decide) rfl (by simp)
    refine ⟨conf, h1, ?_, ?_⟩
    · have := congrArg ClientCommon.ServerAddress h2
      exact this.trans (by decide)
    · have := congrArg ClientCommon.ServerPort h2
      exact this.trans (by decide)
  · intro b sections hd hload h
    obtain ⟨e, he⟩ := UnmarshalClientConfFromIni_without_common lib k b sections hload h
    refine ⟨e, ?_⟩
    unfold UnmarshalClientConf
    rw [hd, if_pos rfl, he]

/-! ## C24: the blocks of the modern format -/

theorem lookup_mapSet {β : Type} (m : List (String × β)) (k key : String) (v : β) :
    (mapSet m k v).lookup key = if key = k then some v else m.lookup key := by
  induction m with
  | nil =>
    simp only [mapSet, List.lookup]
    by_cases h : key = k
    · simp [h]
    · have : (key == k) = false := by simpa using h
      simp [h, this]
  | cons e rest ih =>
    obtain ⟨k1, v1⟩ := e
    simp only [mapSet]
    by_cases h1 : k1 = k
    · subst h1
      rw [if_pos rfl]
      by_cases h : key = k1
      · subst h
        simp [List.lookup]
      · have : (key == k1) = false := by simpa using h
        simp [List.lookup, this, h]
    · rw [if_neg h1]
      by_cases h : key = k1
      · subst h
        simp [List.lookup, h1]
      · have : (key == k1) = false := by simpa using h
        simp only [List.lookup, this]
        exact ih

theorem foldl_mapSet_fresh {β : Type} (f : Proxy → β) :
    ∀ (ps : List Proxy) (doc : List (String × β)),
      (ps.map (fun p => p.Name)).Nodup → (∀ p ∈ ps, p.Name ∉ doc.map Prod.fst) →
      ps.foldl (fun doc p => mapSet doc p.Name (f p)) doc =
        doc ++ ps.map (fun p => (p.Name, f p))
  | [], doc, _, _ => by simp
  | p :: rest, doc, hn, hd => by
    simp only [List.map_cons, List.nodup_cons] at hn
    simp only [List.foldl_cons]
    rw [mapSet_of_not_mem doc p.Name (f p) (hd p (List.mem_cons_self _ _)),
      foldl_mapSet_fresh f rest _ hn.2]
    · simp
    · intro q hq
      simp only [List.map_append, List.map_cons, List.map_nil, List.mem_append,
        List.mem_singleton, not_or]
      refine ⟨hd q (List.mem_cons_of_mem _ hq), ?_⟩
      intro e
      exact hn.1 (by rw [← e]; exact List.mem_map_of_mem (fun p => p.Name) hq)

theorem foldl_mapSet_lookup {β : Type} (f : Proxy → β) (key : String) :
    ∀ (ps : List Proxy) (doc : List (String × β)),
      (ps.foldl (fun doc p => mapSet doc p.Name (f p)) doc).lookup key =
        match ps.reverse.find? (fun p => p.Name = key) with
        | some p => some (f p)
        | none => doc.lookup key
  | [], doc => by simp
  | p :: rest, doc => by
    simp only [List.foldl_cons, List.reverse_cons, List.find?_append]
    rw [foldl_mapSet_lookup f key rest]
    cases rest.reverse.find? (fun p => p.Name = key) with
    | some q => rfl
    | none =>
      simp only [Option.none_or, lookup_mapSet, List.find?]
      by_cases h : key = p.Name
      · subst h
        simp
      · have h2 : ¬ p.Name = key := fun e => h e.symm
        simp [h, h2]

/-- C24, as claimed, fails: the configuration whose only proxy is named `common` is saved
as one block, the block of the proxy, which has replaced the block of the common settings;
the configuration with two proxies named `a` is saved as two blocks, the block `a` being the
one of the second proxy. -/
theorem C24_counterexample :
    saveTOMLData exampleLibs exampleCommonNamedConf =
      [("common", [("type", TomlScalar.str "tcp"), ("local_port", TomlScalar.str "80")])] ∧
    (saveTOMLData exampleLibs exampleCommonNamedConf).length ≠
      exampleCommonNamedConf.Proxies.length + 1 ∧
    (saveTOMLData exampleLibs exampleSameNameConf).map Prod.fst = ["common", "a"] ∧
    (saveTOMLData exampleLibs exampleSameNameConf).lookup "a" =
      some [("type", TomlScalar.str "udp"), ("local_port", TomlScalar.str "81")] := by
  decide

/-- C24, amended: for every configuration with n proxies whose names are pairwise distinct
and none of which is "common", the top-level table built by `saveTOML` is the block `common`
holding the client-common settings followed by one block per proxy keyed by the name of the
proxy, n+1 blocks with distinct keys. For every configuration the block stored under a key
is the block of the last proxy with that name, and the block of the common settings only when
the key is "common" and no proxy has that name. -/
theorem C24_modern_layout (lib : Libs) (conf : ClientConfig)
    (hn : (conf.Proxies.map (fun p => p.Name)).Nodup)
    (hc : ∀ p ∈ conf.Proxies, p.Name ≠ "common") :
    saveTOMLData lib conf =
      ("common", saveTOMLCommon lib conf) ::
        conf.Proxies.map (fun p => (p.Name, saveTOMLProxy p)) ∧
    (saveTOMLData lib conf).length = conf.Proxies.length + 1 ∧
    ((saveTOMLData lib conf).map Prod.fst).Nodup ∧
    (∀ (other : ClientConfig) (key : String),
      (saveTOMLData lib other).lookup key =
        match other.Proxies.reverse.find? (fun p => p.Name = key) with
        | some p => some (saveTOMLProxy p)
        | none => if key = "common" then some (saveTOMLCommon lib other) else none) := by
  have h1 : saveTOMLData lib conf =
      ("common", saveTOMLCommon lib conf) ::
        conf.Proxies.map (fun p => (p.Name, saveTOMLProxy p)) := by
    unfold saveTOMLData
    rw [foldl_mapSet_fresh saveTOMLProxy conf.Proxies _ hn]
    · rfl
    · intro p hp
      simp only [List.map_cons, List.map_nil, List.mem_singleton]
      exact hc p hp
  refine ⟨h1, ?_, ?_, ?_⟩
  · rw [h1]
    simp
  · rw [h1]
    simp only [List.map_cons, List.map_map, List.nodup_cons, List.mem_map, Function.comp,
      not_exists, not_and]
    refine ⟨?_, hn⟩
    intro p hp e
    exact hc p hp e
  · intro other key
    unfold saveTOMLData
    rw [foldl_mapSet_lookup]
    cases other.Proxies.reverse.find? (fun p => p.Name = key) with
    | some q => rfl
    | none =>
      simp only [List.lookup]
      by_cases h : key = "common"
      · subst h
        simp
      · have : (key == "common") = false := by simpa using h
        simp [this, h]

theorem C24_modern_layout_witness :
    saveTOMLData exampleLibs exampleWriteConf =
      ("common", saveTOMLCommon exampleLibs exampleWriteConf) ::
        exampleWriteConf.Proxies.map (fun p => (p.Name, saveTOMLProxy p)) ∧
    (saveTOMLData exampleLibs exampleWriteConf).length = 3 :=
  ⟨(C24_modern_layout exampleLibs exampleWriteConf (by decide) (by decide)).1,
   (C24_modern_layout exampleLibs exampleWriteConf (by decide) (by decide)).2.1⟩

/-! ## C23: the order of the decoded proxies -/

theorem withStr_proj {σ γ : Type} (g : σ → γ) (t : TomlTable) (k : String)
    (set : String → σ → σ) (s : σ) (h : ∀ v d, g (set v d) = g d) :
    g (withStr t k set s) = g s := by
  unfold withStr; split
  · exact h _ _
  · rfl

theorem withInt_proj {σ γ : Type} (g : σ → γ) (t : TomlTable) (k : String)
    (set : Int → σ → σ) (s : σ) (h : ∀ v d, g (set v d) = g d) :
    g (withInt t k set s) = g s := by
  unfold withInt; split
  · exact h _ _
  · rfl

theorem withBool_proj {σ γ : Type} (g : σ → γ) (t : TomlTable) (k : String)
    (set : Bool → σ → σ) (s : σ) (h : ∀ v d, g (set v d) = g d) :
    g (withBool t k set s) = g s := by
  unfold withBool; split
  · exact h _ _
  · rfl

theorem decodeTOMLProxyTyped_Name (t : TomlTable) (p : Proxy) :
    (decodeTOMLProxyTyped t p).Name = p.Name := by
  unfold decodeTOMLProxyTyped
  split_ifs
  · unfold decodeTOMLProxyHTTP
    iterate 7
      first
        | refine (withStr_proj (fun q : Proxy => q.Name) _ _ _ _ ?_).trans ?_
        | refine (withInt_proj (fun q : Proxy => q.Name) _ _ _ _ ?_).trans ?_
        | refine (withBool_proj (fun q : Proxy => q.Name) _ _ _ _ ?_).trans ?_
      · intro _ _; rfl
    rfl
  · unfold decodeTOMLProxySecret
    iterate 12
      first
        | refine (withStr_proj (fun q : Proxy => q.Name) _ _ _ _ ?_).trans ?_
        | refine (withInt_proj (fun q : Proxy => q.Name) _ _ _ _ ?_).trans ?_
        | refine (withBool_proj (fun q : Proxy => q.Name) _ _ _ _ ?_).trans ?_
      · intro _ _; rfl
    rfl
  · rfl

theorem decodeTOMLProxyPlugin_Name (t : TomlTable) (p : Proxy) :
    (decodeTOMLProxyPlugin t p).Name = p.Name := by
  unfold decodeTOMLProxyPlugin
  split
  · rfl
  · iterate 11
      first
        | refine (withStr_proj (fun q : Proxy => q.Name) _ _ _ _ ?_).trans ?_
      · intro _ _; rfl
    rfl

theorem decodeTOMLProxyHealthCheck_Name (t : TomlTable) (p : Proxy) :
    (decodeTOMLProxyHealthCheck t p).Name = p.Name := by
  unfold decodeTOMLProxyHealthCheck
  split
  · rfl
  · iterate 4
      first
        | refine (withStr_proj (fun q : Proxy => q.Name) _ _ _ _ ?_).trans ?_
        | refine (withInt_proj (fun q : Proxy => q.Name) _ _ _ _ ?_).trans ?_
      · intro _ _; rfl
    rfl

theorem decodeTOMLProxy_Name (name : String) (t : TomlTable) :
    (decodeTOMLProxy name t).Name = name := by
  unfold decodeTOMLProxy
  iterate 3
    first
      | refine (withStr_proj (fun q : Proxy => q.Name) _ _ _ _ ?_).trans ?_
    · intro _ _; rfl
  show (decodeTOMLProxyHealthCheck t _).Name = name
  rw [decodeTOMLProxyHealthCheck_Name, decodeTOMLProxyPlugin_Name, decodeTOMLProxyTyped_Name]
  iterate 8
    first
      | refine (withStr_proj (fun q : Proxy => q.Name) _ _ _ _ ?_).trans ?_
      | refine (withInt_proj (fun q : Proxy => q.Name) _ _ _ _ ?_).trans ?_
      | refine (withBool_proj (fun q : Proxy => q.Name) _ _ _ _ ?_).trans ?_
    · intro _ _; rfl
  rfl

theorem decodeTOMLProxies_names (doc : TomlDoc) :
    (decodeTOMLProxies doc).map (fun p => p.Name) =
      doc.filterMap (fun e =>
        match e.2 with
        | TomlItem.table _ => if e.1 ≠ "common" then some e.1 else none
        | TomlItem.value _ => none) := by
  induction doc with
  | nil => rfl
  | cons e rest ih =>
    obtain ⟨name, data⟩ := e
    unfold decodeTOMLProxies
    by_cases h : name = "common"
    · subst h
      cases data <;> simp [ih]
    · cases data with
      | table t => simp [h, ih, decodeTOMLProxy_Name]
      | value v => simp [h, ih]

theorem decodeTOMLAutoDelete_Start (lib : Libs) (t : TomlTable) (c : ClientCommon) :
    (decodeTOMLAutoDelete lib t c).Start = c.Start := by
  unfold decodeTOMLAutoDelete
  split
  · rfl
  · simp only []
    split_ifs
    · split
      · rfl
      · split <;> rfl
    · split <;> rfl
    · rfl

theorem decodeTOMLCommon_Start (lib : Libs) (t : TomlTable) (c : ClientCommon) :
    (decodeTOMLCommon lib t c).Start = c.Start := by
  unfold decodeTOMLCommon
  show (decodeTOMLAutoDelete lib t _).Start = _
  rw [decodeTOMLAutoDelete_Start]
  iterate 23
    first
      | refine (withStr_proj (fun d : ClientCommon => d.Start) _ _ _ _ ?_).trans ?_
      | refine (withInt_proj (fun d : ClientCommon => d.Start) _ _ _ _ ?_).trans ?_
      | refine (withBool_proj (fun d : ClientCommon => d.Start) _ _ _ _ ?_).trans ?_
    · intro _ _; rfl
  rfl

theorem decodeTOML_returns (lib : Libs) (k : Defaults) (doc : TomlDoc) :
    ∃ conf, decodeTOML lib k doc = some conf ∧
      conf.Proxies = (decodeTOMLProxies doc).map Proxy.Complete := by
  unfold decodeTOML
  simp only []
  generalize hc : (match doc.lookup "common" with
    | some (TomlItem.table commonData) =>
      decodeTOMLCommon lib commonData (NewDefaultClientConfig k).toClientCommon
    | _ => (NewDefaultClientConfig k).toClientCommon) = common
  have hstart : common.Start = none := by
    rw [← hc]
    split
    · rw [decodeTOMLCommon_Start]
      rfl
    · rfl
  have h0 : common.Start.len = 0 := by
    rw [hstart]
    rfl
  obtain ⟨conf2, h2⟩ := ClientConfig.Complete_read_isSome
    { toClientCommon := common,
      Proxies := (NewDefaultClientConfig k).Proxies ++ decodeTOMLProxies doc } (Or.inl h0)
  refine ⟨conf2, h2, ?_⟩
  have hf := ClientConfig.Complete_read_eq _ _ h2
  have hf2 : List.Forall₂ (fun p p' => p' = p.Complete) (decodeTOMLProxies doc)
      conf2.Proxies := by
    refine forall₂_imp_of_mem hf ?_
    intro p p' _ hpp
    rw [completeProxy_other true _ _ (Or.inr h0)] at hpp
    simp only [Option.some.injEq] at hpp
    exact hpp.symm
  have := forall₂_map_eq (f := Proxy.Complete) (g := fun p : Proxy => p) hf2
  simpa using this

theorem decodeTOML_names (lib : Libs) (k : Defaults) (doc : TomlDoc) :
    ∃ conf, decodeTOML lib k doc = some conf ∧
      conf.Proxies.map (fun p => p.Name) =
        doc.filterMap (fun e =>
          match e.2 with
          | TomlItem.table _ => if e.1 ≠ "common" then some e.1 else none
          | TomlItem.value _ => none) := by
  obtain ⟨conf, h1, h2⟩ := decodeTOML_returns lib k doc
  refine ⟨conf, h1, ?_⟩
  rw [h2, List.map_map, ← decodeTOMLProxies_names]
  apply List.map_congr_left
  intro p _
  exact (Proxy.Complete_frame p).1

theorem completeProxy_Name (read : Bool) (start : Slice String) (p p' : Proxy)
    (h : completeProxy read start p = some p') : p'.Name = p.Name := by
  unfold completeProxy at h
  simp only [] at h
  split_ifs at h
  · split at h
    · cases h
    · simp only [Option.some.injEq] at h
      rw [← h]
      exact (Proxy.Complete_frame p).1
  · simp only [Option.some.injEq] at h
    rw [← h]
    exact (Proxy.Complete_frame p).1

theorem iniProxies_forall₂ (lib : Libs) :
    ∀ (sections : List IniSection) (ps : List Proxy), iniProxies lib sections = Except.ok ps →
      List.Forall₂ (fun s p => NewProxyFromIni lib s.name s = Except.ok p)
        (sections.filter (fun s => ¬ (s.name = "DEFAULT" ∨ s.name = "common"))) ps
  | [], ps, h => by
    simp only [iniProxies, Except.ok.injEq] at h
    subst h
    exact List.Forall₂.nil
  | s :: rest, ps, h => by
    unfold iniProxies at h
    by_cases hs : s.name = "DEFAULT" ∨ s.name = "common"
    · rw [if_pos hs] at h
      rw [List.filter_cons_of_neg (by simp [hs])]
      exact iniProxies_forall₂ lib rest ps h
    · rw [if_neg hs] at h
      rw [List.filter_cons_of_pos (by simp [hs])]
      cases hp : NewProxyFromIni lib s.name s with
      | error e =>
        rw [hp] at h
        cases h
      | ok p =>
        rw [hp] at h
        cases hr : iniProxies lib rest with
        | error e =>
          rw [hr] at h
          cases h
        | ok ps2 =>
          rw [hr] at h
          simp only [Except.ok.injEq] at h
          subst h
          exact List.Forall₂.cons hp (iniProxies_forall₂ lib rest ps2 hr)

theorem forall₂_comp {α β γ : Type} {R : α → β → Prop} {S : β → γ → Prop} :
    ∀ {l1 : List α} {l2 : List β} {l3 : List γ}, List.Forall₂ R l1 l2 → List.Forall₂ S l2 l3 →
      List.Forall₂ (fun a c => ∃ b, R a b ∧ S b c) l1 l3
  | _, _, _, List.Forall₂.nil, List.Forall₂.nil => List.Forall₂.nil
  | _, _, _, List.Forall₂.cons h1 t1, List.Forall₂.cons h2 t2 =>
    List.Forall₂.cons ⟨_, h1, h2⟩ (forall₂_comp t1 t2)

theorem UnmarshalClientConfFromIni_proxies (lib : Libs) (k : Defaults) (b : String)
    (sections : List IniSection) (conf : ClientConfig)
    (hload : lib.iniLoad b = Except.ok sections)
    (h : UnmarshalClientConfFromIni lib k b = some (Except.ok conf)) :
    List.Forall₂ (fun s p => ∃ q, NewProxyFromIni lib s.name s = Except.ok q ∧ p.Name = q.Name)
      (sections.filter (fun s => ¬ (s.name = "DEFAULT" ∨ s.name = "common")))
      conf.Proxies := by
  unfold UnmarshalClientConfFromIni at h
  rw [hload] at h
  simp only [] at h
  split at h
  · cases h
  · split at h
    · cases h
    · split at h
      · cases h
      · rename_i proxies hprox
        split at h
        · cases h
        · rename_i completed hcomp
          simp only [Option.some.injEq, Except.ok.injEq] at h
          subst h
          have hf := iniProxies_forall₂ lib sections proxies hprox
          have hc := ClientConfig.Complete_read_eq _ _ hcomp
          simp only [List.nil_append, NewDefaultClientConfig] at hc
          have hc2 : List.Forall₂ (fun p p' : Proxy => p'.Name = p.Name) proxies
              completed.Proxies :=
            hc.imp (fun _ _ hpp => completeProxy_Name _ _ _ _ hpp)
          exact forall₂_comp hf hc2

/-- C23, evaluated at the failing input, a document of the modern format with the two
tables `a` and `b`: the decoder ranges over the map `toml.Unmarshal` has filled, and the
proxies come out in the order in which the loop visits the keys of the map, whatever the
order of the tables in the source. The two visiting orders of that one map give the proxy
lists `a, b` and `b, a`. In general the names of the decoded proxies are the keys of the
tables other than `common` in visiting order. The legacy decoder does keep the order: its
proxies are those of the sections other than the default section and `common`, in the order
in which `cfg.Sections()` lists them. -/
theorem C23_modern_order_is_visit_order (lib : Libs) (k : Defaults) :
    (∀ (b : String) (doc : TomlDoc), DetectLegacyINIFormat b = false →
      lib.tomlUnmarshal b = Except.ok doc →
      ∃ conf, UnmarshalClientConf lib k b = some (Except.ok conf) ∧
        conf.Proxies.map (fun p => p.Name) =
          doc.filterMap (fun e =>
            match e.2 with
            | TomlItem.table _ => if e.1 ≠ "common" then some e.1 else none
            | TomlItem.value _ => none)) ∧
    exampleDocBA.Perm exampleDocAB ∧
    (∀ key, exampleDocBA.lookup key = exampleDocAB.lookup key) ∧
    (decodeTOML lib k exampleDocAB).map (fun c => c.Proxies.map (fun p => p.Name)) =
      some ["a", "b"] ∧
    (decodeTOML lib k exampleDocBA).map (fun c => c.Proxies.map (fun p => p.Name)) =
      some ["b", "a"] ∧
    (∀ (b : String) (sections : List IniSection) (conf : ClientConfig),
      DetectLegacyINIFormat b = true → lib.iniLoad b = Except.ok sections →
      UnmarshalClientConf lib k b = some (Except.ok conf) →
      List.Forall₂
        (fun s p => ∃ q, NewProxyFromIni lib s.name s = Except.ok q ∧ p.Name = q.Name)
        (sections.filter (fun s => ¬ (s.name = "DEFAULT" ∨ s.name = "common")))
        conf.Proxies) := by
  refine ⟨?_, ?_, ?_, ?_, ?_, ?_⟩
  · intro b doc hd hu
    obtain ⟨conf, h1, h2⟩ := decodeTOML_names lib k doc
    refine ⟨conf, ?_, h2⟩
    unfold UnmarshalClientConf
    rw [hd]
    simp only [Bool.false_eq_true, if_false, hu, h1]
  · exact List.Perm.swap _ _ _
  · intro key
    unfold exampleDocBA exampleDocAB
    simp only [List.lookup]
    by_cases ha : key = "a"
    · subst ha
      rfl
    · by_cases hb : key = "b"
      · subst hb
        rfl
      · have h1 : (key == "a") = false := by simpa using ha
        have h2 : (key == "b") = false := by simpa using hb
        simp [h1, h2]
  · obtain ⟨conf, h1, h2⟩ := decodeTOML_names lib k exampleDocAB
    rw [h1, Option.map_some', h2]
    rfl
  · obtain ⟨conf, h1, h2⟩ := decodeTOML_names lib k exampleDocBA
    rw [h1, Option.map_some', h2]
    rfl
  · intro b sections conf hd hload h
    unfold UnmarshalClientConf at h
    rw [hd, if_pos rfl] at h
    exact UnmarshalClientConfFromIni_proxies lib k b sections conf hload h

/-! ## C22: section names of the legacy format -/

theorem iniSectionName_eq (p : Proxy) :
    iniSectionName p =
      if p.IsRange = true ∧ HasPrefix p.Name RangePrefix = false then RangePrefix ++ p.Name
      else p.Name := by
  unfold iniSectionName
  by_cases h1 : p.IsRange = true <;> by_cases h2 : HasPrefix p.Name RangePrefix = true <;>
    simp [h1, h2]

theorem NewProxyFromIni_Name (lib : Libs) (name : String) (section_ : IniSection)
    (mapped : Proxy)
    (h : lib.iniMapProxy section_ (NewDefaultProxyConfig name) = Except.ok mapped) :
    ∃ q, NewProxyFromIni lib name section_ = Except.ok q ∧
      q.Name = TrimPrefix mapped.Name RangePrefix := by
  unfold NewProxyFromIni
  rw [h]
  exact ⟨_, rfl, rfl⟩

theorem mapSet_keys {β : Type} (m : List (String × β)) (k key : String) (v : β) :
    key ∈ (mapSet m k v).map Prod.fst ↔ key = k ∨ key ∈ m.map Prod.fst := by
  induction m with
  | nil => simp [mapSet]
  | cons e rest ih =>
    obtain ⟨k1, v1⟩ := e
    simp only [mapSet]
    split_ifs with h
    · subst h
      simp
    · simp only [List.map_cons, List.mem_cons, ih]
      tauto

theorem saveTOMLData_keys (lib : Libs) (conf : ClientConfig) (key : String) :
    key ∈ (saveTOMLData lib conf).map Prod.fst ↔
      key = "common" ∨ ∃ q ∈ conf.Proxies, q.Name = key := by
  unfold saveTOMLData
  have hgen : ∀ (ps : List Proxy) (doc : List (String × TomlTable)),
      key ∈ (ps.foldl (fun doc proxy => mapSet doc proxy.Name (saveTOMLProxy proxy)) doc).map
          Prod.fst ↔ key ∈ doc.map Prod.fst ∨ ∃ q ∈ ps, q.Name = key := by
    intro ps
    induction ps with
    | nil => simp
    | cons p rest ih =>
      intro doc
      simp only [List.foldl_cons, ih, mapSet_keys, List.mem_cons, exists_eq_or_imp]
      constructor
      · rintro ((h | h) | h)
        · exact Or.inr (Or.inl h.symm)
        · exact Or.inl h
        · exact Or.inr (Or.inr h)
      · rintro (h | h | h)
        · exact Or.inl (Or.inr h)
        · exact Or.inl (Or.inl h.symm)
        · exact Or.inr h
  rw [hgen]
  simp

theorem ClientConfig.saveINI_eq_render (lib : Libs) (conf : ClientConfig) :
    conf.saveINI lib =
      match conf.saveINISections lib with
      | Except.error e => Except.error e
      | Except.ok sections => Except.ok (lib.iniRender sections) := by
  unfold ClientConfig.saveINI ClientConfig.saveINISections
  cases lib.iniReflectCommon conf.toClientCommon with
  | error e => rfl
  | ok reflected =>
    simp only []
    split
    · rfl
    · rfl

theorem iniWriteSection_names (sections : List IniSection) (name : String)
    (write : List (String × String) → List (String × String)) (h : name ≠ "") :
    ∃ sections1, iniWriteSection sections name write = Except.ok sections1 ∧
      sections1.map (fun s => s.name) =
        if name ∈ sections.map (fun s => s.name) then sections.map (fun s => s.name)
        else sections.map (fun s => s.name) ++ [name] := by
  unfold iniWriteSection
  rw [if_neg h]
  by_cases hany : sections.any (fun s => s.name = name) = true
  · rw [if_pos hany]
    refine ⟨_, rfl, ?_⟩
    have hmem : name ∈ sections.map (fun s => s.name) := by
      simp only [List.any_eq_true, decide_eq_true_eq] at hany
      obtain ⟨s, hs, hn⟩ := hany
      exact List.mem_map.2 ⟨s, hs, hn⟩
    rw [if_pos hmem, List.map_map]
    apply List.map_congr_left
    intro s _
    simp only [Function.comp]
    split_ifs <;> rfl
  · rw [if_neg hany]
    refine ⟨_, rfl, ?_⟩
    have hmem : name ∉ sections.map (fun s => s.name) := by
      intro hm
      apply hany
      obtain ⟨s, hs, hn⟩ := List.mem_map.1 hm
      simp only [List.any_eq_true, decide_eq_true_eq]
      exact ⟨s, hs, hn⟩
    rw [if_neg hmem, List.map_append]
    rfl

theorem saveINIProxies_names (lib : Libs) :
    ∀ (ps : List Proxy) (sections : List IniSection),
      (∀ p ∈ ps, ∃ keys, lib.iniReflectProxy p = Except.ok keys) →
      (∀ p ∈ ps, iniSectionName p ≠ "") →
      ∃ sections1, saveINIProxies lib ps sections = Except.ok sections1 ∧
        sections1.map (fun s => s.name) =
          (ps.map iniSectionName).foldl
            (fun acc n => if n ∈ acc then acc else acc ++ [n]) (sections.map (fun s => s.name))
  | [], sections, _, _ => ⟨sections, rfl, rfl⟩
  | p :: rest, sections, hrefl, hne => by
    obtain ⟨keys, hk⟩ := hrefl p (List.mem_cons_self _ _)
    unfold saveINIProxies
    rw [hk]
    simp only []
    obtain ⟨sections1, h1, hn1⟩ := iniWriteSection_names sections (iniSectionName p)
      (fun keys1 =>
          keys.foldl (fun acc kv => mapSet acc kv.1 kv.2) keys1
          |> iniSetAll "meta_" p.Metas
          |> iniSetAll "header_" p.Headers
          |> iniSetAll "plugin_header_" p.PluginHeaders) (hne p (List.mem_cons_self _ _))
    rw [h1]
    simp only []
    obtain ⟨sections2, h2, hn2⟩ := saveINIProxies_names lib rest sections1
      (fun q hq => hrefl q (List.mem_cons_of_mem _ hq))
      (fun q hq => hne q (List.mem_cons_of_mem _ hq))
    refine ⟨sections2, h2, ?_⟩
    rw [hn2, hn1]
    rfl

theorem foldl_addName_mem (x : String) :
    ∀ (ns acc : List String),
      x ∈ ns.foldl (fun acc n => if n ∈ acc then acc else acc ++ [n]) acc ↔ x ∈ acc ∨ x ∈ ns
  | [], acc => by simp
  | n :: rest, acc => by
    rw [List.foldl_cons, foldl_addName_mem x rest]
    by_cases h : n ∈ acc
    · rw [if_pos h]
      simp only [List.mem_cons]
      constructor
      · rintro (h1 | h1)
        · exact Or.inl h1
        · exact Or.inr (Or.inr h1)
      · rintro (h1 | h1 | h1)
        · exact Or.inl h1
        · subst h1
          exact Or.inl h
        · exact Or.inr h1
    · rw [if_neg h]
      simp only [List.mem_append, List.mem_singleton, List.mem_cons]
      tauto

theorem foldl_addName_nodup :
    ∀ (ns acc : List String), acc.Nodup →
      (ns.foldl (fun acc n => if n ∈ acc then acc else acc ++ [n]) acc).Nodup
  | [], _, h => h
  | n :: rest, acc, h => by
    rw [List.foldl_cons]
    apply foldl_addName_nodup rest
    by_cases hn : n ∈ acc
    · rw [if_pos hn]
      exact h
    · rw [if_neg hn]
      rw [List.nodup_append]
      refine ⟨h, List.nodup_singleton n, ?_⟩
      intro a ha hb
      rw [List.mem_singleton] at hb
      subst hb
      exact hn ha

theorem foldl_addName_fresh :
    ∀ (ns acc : List String), ns.Nodup → (∀ n ∈ ns, n ∉ acc) →
      ns.foldl (fun acc n => if n ∈ acc then acc else acc ++ [n]) acc = acc ++ ns
  | [], acc, _, _ => by simp
  | n :: rest, acc, hnd, hfresh => by
    rw [List.foldl_cons, if_neg (hfresh n (List.mem_cons_self _ _))]
    rw [List.nodup_cons] at hnd
    rw [foldl_addName_fresh rest (acc ++ [n]) hnd.2]
    · simp
    · intro m hm hmem
      rw [List.mem_append, List.mem_singleton] at hmem
      rcases hmem with hmem | hmem
      · exact hfresh m (List.mem_cons_of_mem _ hm) hmem
      · subst hmem
        exact hnd.1 hm

theorem iniProxies_returns (lib : Libs)
    (hmap : ∀ s q, ∃ m, lib.iniMapProxy s q = Except.ok m ∧ m.Name = q.Name) :
    ∀ sections : List IniSection, ∃ qs, iniProxies lib sections = Except.ok qs ∧
      List.Forall₂ (fun (s : IniSection) (q : Proxy) =>
          NewProxyFromIni lib s.name s = Except.ok q ∧ q.Name = TrimPrefix s.name RangePrefix)
        (sections.filter (fun s => ¬ (s.name = "DEFAULT" ∨ s.name = "common"))) qs
  | [] => ⟨[], rfl, List.Forall₂.nil⟩
  | s :: rest => by
    obtain ⟨qs, hqs, hf⟩ := iniProxies_returns lib hmap rest
    by_cases hs : s.name = "DEFAULT" ∨ s.name = "common"
    · refine ⟨qs, ?_, ?_⟩
      · rw [iniProxies, if_pos hs, hqs]
      · rw [List.filter_cons_of_neg (by simp [hs])]
        exact hf
    · obtain ⟨m, hm, hmn⟩ := hmap s (NewDefaultProxyConfig s.name)
      obtain ⟨q, hq, hqn⟩ := NewProxyFromIni_Name lib s.name s m hm
      refine ⟨q :: qs, ?_, ?_⟩
      · rw [iniProxies, if_neg hs, hq, hqs]
      · rw [List.filter_cons_of_pos (by simp [hs])]
        refine List.Forall₂.cons ⟨hq, ?_⟩ hf
        rw [hqn, hmn]
        rfl

theorem ClientConfig.saveINISections_names (lib : Libs) (conf : ClientConfig)
    (hcommon : ∃ keys, lib.iniReflectCommon conf.toClientCommon = Except.ok keys)
    (hrefl : ∀ p ∈ conf.Proxies, ∃ keys, lib.iniReflectProxy p = Except.ok keys)
    (hne : ∀ p ∈ conf.Proxies, iniSectionName p ≠ "") :
    ∃ sections, conf.saveINISections lib = Except.ok sections ∧
      sections.map (fun s => s.name) =
        (conf.Proxies.map iniSectionName).foldl
          (fun acc n => if n ∈ acc then acc else acc ++ [n]) ["DEFAULT", "common"] := by
  obtain ⟨keys, hk⟩ := hcommon
  unfold ClientConfig.saveINISections
  rw [hk]
  simp only []
  obtain ⟨base, hb, hbn⟩ := iniWriteSection_names [{ name := "DEFAULT", keys := [] }] "common"
    (fun keys1 =>
        keys.foldl (fun acc kv => mapSet acc kv.1 kv.2) keys1
        |> iniSetAll "meta_" conf.Metas
        |> iniSetAll "oidc_additional_" conf.OIDCAdditionalEndpointParams) (by decide)
  rw [hb]
  simp only []
  obtain ⟨sections, hs, hsn⟩ := saveINIProxies_names lib conf.Proxies base hrefl hne
  refine ⟨sections, hs, ?_⟩
  rw [hsn, hbn]
  rfl

/-- C22, as claimed, fails. The range proxy named "range:a" is written under the section
name "range:a", the marker not being added a second time, and the decoder strips the marker
and returns the name "a". The proxy named "common" is written into the `common` section, the
file has no section of its own for it, and the decoder returns no proxy. For the proxy with
the empty name `saveINI` fails and writes no section. -/
theorem C22_counterexample :
    (exampleMarkedProxy.IsRange = true ∧
     iniSectionName exampleMarkedProxy = "range:a" ∧
     (NewProxyFromIni exampleLibs (iniSectionName exampleMarkedProxy)
         { name := iniSectionName exampleMarkedProxy,
           keys := [("type", "tcp"), ("local_port", "1-2")] }).toOption.map
       (fun q => q.Name) = some "a" ∧
     exampleMarkedProxy.Name ≠ "a") ∧
    ((exampleCommonNamedConf.Proxies.map (fun p => p.Name) = ["common"]) ∧
     (exampleCommonNamedConf.saveINISections exampleLibs).toOption.map
         (fun sections => sections.map (fun s => s.name)) = some ["DEFAULT", "common"] ∧
     (exampleCommonNamedConf.saveINISections exampleLibs).toOption.map
         (fun sections => (iniProxies exampleLibs sections).toOption.map
           (fun qs => qs.map (fun q => q.Name))) = some (some [])) ∧
    (exampleUnnamedConf.Proxies.map (fun p => p.Name) = [""] ∧
     exampleUnnamedConf.saveINI exampleLibs = Except.error "empty section name") := by
  decide

/-- C22, amended: the legacy encoder names the section of a proxy with the marker "range:"
followed by the name when the proxy is a range proxy whose name does not start with the
marker, and with the name itself otherwise. When `ReflectFrom` succeeds and no proxy has an
empty section name, `saveINI` returns the text of sections with pairwise distinct names: the
default section, `common`, and the section names of the proxies (`cfg.NewSection` hands out
the existing section for a name already in the file). The legacy decoder, whose `MapTo`
succeeds and leaves `Name`, returns one proxy for each section other than the default
section and `common`, in file order, named by the section name without one leading marker.
So for every proxy whose section name is neither `common` nor `DEFAULT`, the file holds the
section written for it and the decoder returns a proxy decoded from that section, whose name
equals the name of the proxy when that name does not start with the marker, and is the name
without its leading marker, a different name, when it does. When the section names of the
proxies are pairwise distinct and none is `common` or `DEFAULT`, the sections after
`common` are those of the proxies in order and the decoded names are, in order, the section
names without a leading marker; they are the names of the proxies when no name starts with
the marker. The modern format keys every proxy by its name, and the modern decoder gives
the proxy the key as its name. -/
theorem C22_section_name_roundtrip (lib : Libs) (conf : ClientConfig)
    (hcommon : ∃ keys, lib.iniReflectCommon conf.toClientCommon = Except.ok keys)
    (hrefl : ∀ p ∈ conf.Proxies, ∃ keys, lib.iniReflectProxy p = Except.ok keys)
    (hmap : ∀ s q, ∃ m, lib.iniMapProxy s q = Except.ok m ∧ m.Name = q.Name)
    (hne : ∀ p ∈ conf.Proxies, iniSectionName p ≠ "") :
    (∀ p : Proxy, iniSectionName p =
      (if p.IsRange = true ∧ HasPrefix p.Name RangePrefix = false then RangePrefix ++ p.Name
       else p.Name)) ∧
    (∃ sections qs,
      conf.saveINISections lib = Except.ok sections ∧
      conf.saveINI lib = Except.ok (lib.iniRender sections) ∧
      iniProxies lib sections = Except.ok qs ∧
      (sections.map (fun s => s.name)).Nodup ∧
      (∀ n, n ∈ sections.map (fun s => s.name) ↔
        n = "DEFAULT" ∨ n = "common" ∨ ∃ p ∈ conf.Proxies, iniSectionName p = n) ∧
      List.Forall₂ (fun (s : IniSection) (q : Proxy) =>
          NewProxyFromIni lib s.name s = Except.ok q ∧ q.Name = TrimPrefix s.name RangePrefix)
        (sections.filter (fun s => ¬ (s.name = "DEFAULT" ∨ s.name = "common"))) qs ∧
      (∀ p ∈ conf.Proxies, iniSectionName p ≠ "common" → iniSectionName p ≠ "DEFAULT" →
        ∃ s ∈ sections, s.name = iniSectionName p ∧
          ∃ q ∈ qs, NewProxyFromIni lib s.name s = Except.ok q ∧
            (HasPrefix p.Name RangePrefix = false → q.Name = p.Name) ∧
            (HasPrefix p.Name RangePrefix = true →
              q.Name = TrimPrefix p.Name RangePrefix ∧ q.Name ≠ p.Name)) ∧
      ((conf.Proxies.map iniSectionName).Nodup →
        (∀ p ∈ conf.Proxies, iniSectionName p ≠ "common" ∧ iniSectionName p ≠ "DEFAULT") →
        sections.map (fun s => s.name) =
          "DEFAULT" :: "common" :: conf.Proxies.map iniSectionName ∧
        qs.map (fun q => q.Name) =
          conf.Proxies.map (fun p => TrimPrefix (iniSectionName p) RangePrefix) ∧
        ((∀ p ∈ conf.Proxies, HasPrefix p.Name RangePrefix = false) →
          qs.map (fun q => q.Name) = conf.Proxies.map (fun p => p.Name)))) ∧
    (∀ (p : Proxy) (t : TomlTable), (decodeTOMLProxy p.Name t).Name = p.Name) ∧
    (∀ key : String, key ∈ (saveTOMLData lib conf).map Prod.fst ↔
      key = "common" ∨ ∃ q ∈ conf.Proxies, q.Name = key) := by
  refine ⟨iniSectionName_eq, ?_, fun p t => decodeTOMLProxy_Name p.Name t,
    fun key => saveTOMLData_keys lib conf key⟩
  obtain ⟨sections, hsec, hnames⟩ :=
    ClientConfig.saveINISections_names lib conf hcommon hrefl hne
  obtain ⟨qs, hqs, hf⟩ := iniProxies_returns lib hmap sections
  have hmem : ∀ n, n ∈ sections.map (fun s => s.name) ↔
      n = "DEFAULT" ∨ n = "common" ∨ ∃ p ∈ conf.Proxies, iniSectionName p = n := by
    intro n
    rw [hnames, foldl_addName_mem]
    simp only [List.mem_cons, List.mem_singleton, List.not_mem_nil, or_false, List.mem_map,
      or_assoc]
  have hround : ∀ p : Proxy,
      (HasPrefix p.Name RangePrefix = false →
        TrimPrefix (iniSectionName p) RangePrefix = p.Name) ∧
      (HasPrefix p.Name RangePrefix = true →
        TrimPrefix (iniSectionName p) RangePrefix = TrimPrefix p.Name RangePrefix ∧
        TrimPrefix (iniSectionName p) RangePrefix ≠ p.Name) := by
    intro p
    constructor
    · intro hpre
      rw [iniSectionName_eq]
      by_cases hr : p.IsRange = true
      · rw [if_pos ⟨hr, hpre⟩, TrimPrefix_append]
      · rw [if_neg (fun h => hr h.1), TrimPrefix_of_not _ _ hpre]
    · intro hpre
      have hs : iniSectionName p = p.Name := by
        rw [iniSectionName_eq, if_neg]
        rintro ⟨-, h⟩
        rw [hpre] at h
        cases h
      rw [hs]
      exact ⟨rfl, TrimPrefix_ne _ _ (by decide) hpre⟩
  refine ⟨sections, qs, hsec, ?_, hqs, ?_, hmem, hf, ?_, ?_⟩
  · rw [ClientConfig.saveINI_eq_render, hsec]
  · rw [hnames]
    exact foldl_addName_nodup _ _ (by decide)
  · intro p hp hc hd
    obtain ⟨s, hs, hsn⟩ := List.mem_map.1
      ((hmem (iniSectionName p)).2 (Or.inr (Or.inr ⟨p, hp, rfl⟩)))
    have hsf : s ∈ sections.filter (fun s => ¬ (s.name = "DEFAULT" ∨ s.name = "common")) := by
      rw [List.mem_filter]
      refine ⟨hs, ?_⟩
      simp only [hsn, hc, hd, or_self, not_false_eq_true, decide_True]
    obtain ⟨q, hq, hnew, hqn⟩ := forall₂_exists_right hf s hsf
    refine ⟨s, hs, hsn, q, hq, hnew, ?_, ?_⟩
    · intro hpre
      rw [hqn, hsn]
      exact (hround p).1 hpre
    · intro hpre
      rw [hqn, hsn]
      exact (hround p).2 hpre
  · intro hnd hres
    have hfresh : (conf.Proxies.map iniSectionName).foldl
        (fun acc n => if n ∈ acc then acc else acc ++ [n]) ["DEFAULT", "common"] =
        ["DEFAULT", "common"] ++ conf.Proxies.map iniSectionName := by
      apply foldl_addName_fresh _ _ hnd
      intro n hn hmem2
      obtain ⟨p, hp, rfl⟩ := List.mem_map.1 hn
      simp only [List.mem_cons, List.mem_singleton, List.not_mem_nil, or_false] at hmem2
      rcases hmem2 with h | h
      · exact (hres p hp).2 h
      · exact (hres p hp).1 h
    have hsn : sections.map (fun s => s.name) =
        "DEFAULT" :: "common" :: conf.Proxies.map iniSectionName := by
      rw [hnames, hfresh]
      rfl
    have hqn : qs.map (fun q => q.Name) =
        conf.Proxies.map (fun p => TrimPrefix (iniSectionName p) RangePrefix) := by
      have h1 : qs.map (fun q : Proxy => q.Name) =
          (sections.filter (fun s => ¬ (s.name = "DEFAULT" ∨ s.name = "common"))).map
            (fun s => TrimPrefix s.name RangePrefix) :=
        forall₂_map_eq (hf.imp (fun _ _ h => h.2))
      have h2 : (sections.filter (fun s => ¬ (s.name = "DEFAULT" ∨ s.name = "common"))).map
            (fun s => s.name) =
          (sections.map (fun s => s.name)).filter
            (fun n => ¬ (n = "DEFAULT" ∨ n = "common")) := by
        rw [List.filter_map]
        rfl
      have h3 : (conf.Proxies.map iniSectionName).filter
            (fun n => ¬ (n = "DEFAULT" ∨ n = "common")) = conf.Proxies.map iniSectionName := by
        rw [List.filter_eq_self]
        intro n hn
        obtain ⟨p, hp, rfl⟩ := List.mem_map.1 hn
        simp [(hres p hp).1, (hres p hp).2]
      have h4 : (sections.filter (fun s => ¬ (s.name = "DEFAULT" ∨ s.name = "common"))).map
            (fun s => TrimPrefix s.name RangePrefix) =
          ((sections.filter (fun s => ¬ (s.name = "DEFAULT" ∨ s.name = "common"))).map
            (fun s => s.name)).map (fun n => TrimPrefix n RangePrefix) := by
        rw [List.map_map]
        rfl
      rw [h1, h4, h2, hsn]
      rw [List.filter_cons_of_neg (by simp), List.filter_cons_of_neg (by simp), h3,
        List.map_map]
      rfl
    refine ⟨hsn, hqn, ?_⟩
    intro hpre
    rw [hqn]
    apply List.map_congr_left
    intro p hp
    exact (hround p).1 (hpre p hp)

theorem C22_section_name_roundtrip_witness :
    exampleWriteConf.Proxies.map (fun p => p.Name) = ["a", "r"] ∧
    ∃ sections qs,
      exampleWriteConf.saveINISections exampleLibs = Except.ok sections ∧
      iniProxies exampleLibs sections = Except.ok qs ∧
      sections.map (fun s => s.name) = ["DEFAULT", "common", "a", "range:r"] ∧
      qs.map (fun q => q.Name) = ["a", "r"] := by
  obtain ⟨-, ⟨sections, qs, h1, -, h2, -, -, -, -, h3⟩, -, -⟩ :=
    C22_section_name_roundtrip exampleLibs exampleWriteConf ⟨[], rfl⟩
      (fun _ _ => ⟨[], rfl⟩)
      (fun s q => by
        simp only [exampleLibs]
        split_ifs
        · exact ⟨_, rfl, rfl⟩
        · exact ⟨_, rfl, rfl⟩)
      (by decide)
  obtain ⟨h4, -, h5⟩ := h3 (by decide) (by decide)
  exact ⟨by decide, sections, qs, h1, h2, h4.trans (by decide),
    (h5 (by decide)).trans (by decide)⟩

/-! ## C21: the side-maps through the codecs -/

theorem ClientAuth.Complete_OIDCParams_none (ca : ClientAuth)
    (h : ca.OIDCAdditionalEndpointParams = none) :
    ca.Complete.OIDCAdditionalEndpointParams = none := by
  have hp : ∀ (t : StructTag) (value tag : String),
      pruneField t value tag ca.OIDCAdditionalEndpointParams none = none := by
    intro t value tag
    rw [h]
    unfold pruneField
    split_ifs <;> rfl
  unfold ClientAuth.Complete
  simp only []
  split_ifs
  · exact hp _ _ _
  · exact hp _ _ _
  · exact hp _ _ _
  · exact hp _ _ _
  · rfl

theorem ClientCommon.Complete_OIDCParams (c : ClientCommon)
    (h : c.OIDCAdditionalEndpointParams = none) :
    c.Complete.OIDCAdditionalEndpointParams = none := by
  have h1 : c.completeAuth.OIDCAdditionalEndpointParams = none := by
    unfold ClientCommon.completeAuth
    simp only []
    split_ifs
    · exact ClientAuth.Complete_OIDCParams_none _ h
    · exact ClientAuth.Complete_OIDCParams_none _ h
  have h2 : ∀ d : ClientCommon,
      d.completeAdmin.OIDCAdditionalEndpointParams = d.OIDCAdditionalEndpointParams := by
    intro d; unfold ClientCommon.completeAdmin; split_ifs <;> rfl
  have h3 : ∀ d : ClientCommon,
      d.completeAutoDelete.OIDCAdditionalEndpointParams = d.OIDCAdditionalEndpointParams :=
    fun _ => rfl
  have h4 : ∀ d : ClientCommon,
      d.completeTCPMux.OIDCAdditionalEndpointParams = d.OIDCAdditionalEndpointParams := by
    intro d; unfold ClientCommon.completeTCPMux; split_ifs <;> rfl
  have h5 : ∀ d : ClientCommon,
      d.completeTLS.OIDCAdditionalEndpointParams = d.OIDCAdditionalEndpointParams := by
    intro d; unfold ClientCommon.completeTLS; split_ifs <;> rfl
  have h6 : ∀ d : ClientCommon,
      d.completeProtocol.OIDCAdditionalEndpointParams = d.OIDCAdditionalEndpointParams := by
    intro d; unfold ClientCommon.completeProtocol; split_ifs <;> rfl
  unfold ClientCommon.Complete
  rw [h6, h5, h4, h3, h2, h1]

theorem decodeTOMLAutoDelete_OIDCParams (lib : Libs) (t : TomlTable) (c : ClientCommon) :
    (decodeTOMLAutoDelete lib t c).OIDCAdditionalEndpointParams =
      c.OIDCAdditionalEndpointParams := by
  unfold decodeTOMLAutoDelete
  split
  · rfl
  · simp only []
    split_ifs
    · split
      · rfl
      · split <;> rfl
    · split <;> rfl
    · rfl

theorem decodeTOMLCommon_OIDCParams (lib : Libs) (t : TomlTable) (c : ClientCommon) :
    (decodeTOMLCommon lib t c).OIDCAdditionalEndpointParams =
      c.OIDCAdditionalEndpointParams := by
  unfold decodeTOMLCommon
  show (decodeTOMLAutoDelete lib t _).OIDCAdditionalEndpointParams = _
  rw [decodeTOMLAutoDelete_OIDCParams]
  iterate 23
    first
      | refine (withStr_proj (fun d : ClientCommon => d.OIDCAdditionalEndpointParams)
          _ _ _ _ ?_).trans ?_
      | refine (withInt_proj (fun d : ClientCommon => d.OIDCAdditionalEndpointParams)
          _ _ _ _ ?_).trans ?_
      | refine (withBool_proj (fun d : ClientCommon => d.OIDCAdditionalEndpointParams)
          _ _ _ _ ?_).trans ?_
    · intro _ _; rfl
  rfl

theorem decodeTOML_OIDCParams (lib : Libs) (k : Defaults) (doc : TomlDoc)
    (conf : ClientConfig) (h : decodeTOML lib k doc = some conf) :
    conf.OIDCAdditionalEndpointParams = none := by
  unfold decodeTOML at h
  rw [ClientConfig.Complete_read] at h
  simp only [Option.map_eq_some'] at h
  obtain ⟨ps, -, rfl⟩ := h
  apply ClientCommon.Complete_OIDCParams
  split
  · rw [decodeTOMLCommon_OIDCParams]
    rfl
  · rfl

theorem prefix_append_inj (pre a b : String) (h : pre ++ a = pre ++ b) : a = b := by
  have hd := congrArg String.data h
  rw [String.data_append, String.data_append] at hd
  exact String.ext (List.append_cancel_left hd)

theorem foldl_mapSet_prefixed {β : Type} (pre : String) (f : String → β) :
    ∀ (m : List (String × String)) (acc : List (String × β)),
      (m.map Prod.fst).Nodup → (∀ kv ∈ m, pre ++ kv.1 ∉ acc.map Prod.fst) →
      m.foldl (fun acc kv => mapSet acc (pre ++ kv.1) (f kv.2)) acc =
        acc ++ m.map (fun kv => (pre ++ kv.1, f kv.2))
  | [], acc, _, _ => by simp
  | kv :: rest, acc, hn, hf => by
    simp only [List.map_cons, List.nodup_cons] at hn
    simp only [List.foldl_cons]
    rw [mapSet_of_not_mem acc _ _ (hf kv (List.mem_cons_self _ _)),
      foldl_mapSet_prefixed pre f rest _ hn.2]
    · simp
    · intro e he
      simp only [List.map_append, List.map_cons, List.map_nil, List.mem_append,
        List.mem_singleton, not_or]
      refine ⟨hf e (List.mem_cons_of_mem _ he), ?_⟩
      intro heq
      have := prefix_append_inj pre _ _ heq
      exact hn.1 (by rw [← this]; exact List.mem_map_of_mem Prod.fst he)

theorem foldl_stripPrefix (pre : String) :
    ∀ (m acc : List (String × String)),
      (m.map Prod.fst).Nodup → (∀ kv ∈ m, kv.1 ∉ acc.map Prod.fst) →
      (m.map (fun kv => (pre ++ kv.1, kv.2))).foldl (fun acc kv =>
        if HasPrefix kv.1 pre then mapSet acc (TrimPrefix kv.1 pre) kv.2 else acc) acc =
        acc ++ m
  | [], acc, _, _ => by simp
  | kv :: rest, acc, hn, hf => by
    simp only [List.map_cons, List.nodup_cons] at hn
    simp only [List.map_cons, List.foldl_cons, HasPrefix_append, if_true, TrimPrefix_append]
    rw [mapSet_of_not_mem acc _ _ (hf kv (List.mem_cons_self _ _)),
      foldl_stripPrefix pre rest _ hn.2]
    · simp
    · intro e he
      simp only [List.map_append, List.map_cons, List.map_nil, List.mem_append,
        List.mem_singleton, not_or]
      refine ⟨hf e (List.mem_cons_of_mem _ he), ?_⟩
      intro heq
      exact hn.1 (by rw [← heq]; exact List.mem_map_of_mem Prod.fst he)

theorem foldl_stripPrefix_skip (pre : String) :
    ∀ (keys acc : List (String × String)), (∀ kv ∈ keys, HasPrefix kv.1 pre = false) →
      keys.foldl (fun acc kv =>
        if HasPrefix kv.1 pre then mapSet acc (TrimPrefix kv.1 pre) kv.2 else acc) acc = acc
  | [], acc, _ => rfl
  | kv :: rest, acc, h => by
    simp only [List.foldl_cons, h kv (List.mem_cons_self _ _), Bool.false_eq_true, if_false]
    exact foldl_stripPrefix_skip pre rest acc (fun e he => h e (List.mem_cons_of_mem _ he))

theorem GetMapWithoutPrefix_iniSetAll (pre : String) (m keys : List (String × String))
    (hne : m ≠ []) (hn : (m.map Prod.fst).Nodup)
    (hk : ∀ kv ∈ keys, HasPrefix kv.1 pre = false) :
    GetMapWithoutPrefix (iniSetAll pre (some m) keys) pre = some m := by
  have hfresh : ∀ kv ∈ m, pre ++ kv.1 ∉ keys.map Prod.fst := by
    intro kv _ hmem
    obtain ⟨e, he, heq⟩ := List.mem_map.1 hmem
    have := hk e he
    rw [heq, HasPrefix_append] at this
    cases this
  have h1 : iniSetAll pre (some m) keys = keys ++ m.map (fun kv => (pre ++ kv.1, kv.2)) := by
    unfold iniSetAll
    exact foldl_mapSet_prefixed pre (fun v => v) m keys hn hfresh
  unfold GetMapWithoutPrefix
  rw [h1, List.foldl_append, foldl_stripPrefix_skip pre keys [] hk,
    foldl_stripPrefix pre m [] hn (by simp)]
  simp [hne]

theorem foldl_collect (pre : String) :
    ∀ (m acc : List (String × String)),
      (m.map Prod.fst).Nodup → (∀ kv ∈ m, kv.1 ∉ acc.map Prod.fst) →
      (m.map (fun kv => (pre ++ kv.1, TomlScalar.str kv.2))).foldl (fun acc kv =>
        if HasPrefix kv.1 pre then
          match kv.2 with
          | TomlScalar.str v => mapSet acc (TrimPrefix kv.1 pre) v
          | _ => acc
        else acc) acc = acc ++ m
  | [], acc, _, _ => by simp
  | kv :: rest, acc, hn, hf => by
    simp only [List.map_cons, List.nodup_cons] at hn
    simp only [List.map_cons, List.foldl_cons, HasPrefix_append, if_true, TrimPrefix_append]
    rw [mapSet_of_not_mem acc _ _ (hf kv (List.mem_cons_self _ _)),
      foldl_collect pre rest _ hn.2]
    · simp
    · intro e he
      simp only [List.map_append, List.map_cons, List.map_nil, List.mem_append,
        List.mem_singleton, not_or]
      refine ⟨hf e (List.mem_cons_of_mem _ he), ?_⟩
      intro heq
      exact hn.1 (by rw [← heq]; exact List.mem_map_of_mem Prod.fst he)

theorem foldl_collect_skip (pre : String) :
    ∀ (t : TomlTable) (acc : List (String × String)),
      (∀ kv ∈ t, HasPrefix kv.1 pre = false) →
      t.foldl (fun acc kv =>
        if HasPrefix kv.1 pre then
          match kv.2 with
          | TomlScalar.str v => mapSet acc (TrimPrefix kv.1 pre) v
          | _ => acc
        else acc) acc = acc
  | [], acc, _ => rfl
  | kv :: rest, acc, h => by
    simp only [List.foldl_cons, h kv (List.mem_cons_self _ _), Bool.false_eq_true, if_false]
    exact foldl_collect_skip pre rest acc (fun e he => h e (List.mem_cons_of_mem _ he))

theorem collectPrefixed_putAll (pre : String) (m : List (String × String)) (t : TomlTable)
    (hn : (m.map Prod.fst).Nodup) (hk : ∀ kv ∈ t, HasPrefix kv.1 pre = false) :
    collectPrefixed pre (putAll pre (some m) t) = some m := by
  have hfresh : ∀ kv ∈ m, pre ++ kv.1 ∉ t.map Prod.fst := by
    intro kv _ hmem
    obtain ⟨e, he, heq⟩ := List.mem_map.1 hmem
    have := hk e he
    rw [heq, HasPrefix_append] at this
    cases this
  have h1 : putAll pre (some m) t =
      t ++ m.map (fun kv => (pre ++ kv.1, TomlScalar.str kv.2)) := by
    unfold putAll
    exact foldl_mapSet_prefixed pre TomlScalar.str m t hn hfresh
  unfold collectPrefixed
  rw [h1, List.foldl_append, foldl_collect_skip pre t [] hk, foldl_collect pre m [] hn (by simp)]
  simp

/-- C21, evaluated at the failing input, a configuration with the oidc method and the extra
OIDC parameter `audience`: completion retains the parameter, the modern encoder writes it
under the key `oidc_additional_audience`, and the modern decoder, which has no loop for the
prefix `oidc_additional_`, returns no extra OIDC parameter, for this and for every document;
the metadata entry of the same block is recovered. The other paths do what the claim says:
`GetMapWithoutPrefix` recovers from the keys the legacy encoder writes under a prefix the
non-empty map it was given, for all four side-maps, and the prefix loops of the modern
decoder recover the map written by the prefix loop of the modern encoder, when no other key
of the block carries the prefix. -/
theorem C21_modern_decoder_drops_oidc_params (lib : Libs) (k : Defaults) :
    (exampleOidcConf.Complete false).map (fun c => c.OIDCAdditionalEndpointParams) =
      some (some [("audience", "x")]) ∧
    (saveTOMLCommon exampleLibs exampleOidcConf).lookup "oidc_additional_audience" =
      some (TomlScalar.str "x") ∧
    (decodeTOMLCommon exampleLibs (saveTOMLCommon exampleLibs exampleOidcConf)
      exampleOidcConf.toClientCommon).Metas = some [("1", "value")] ∧
    (decodeTOML exampleLibs exampleDefaults
      [("common", TomlItem.table (saveTOMLCommon exampleLibs exampleOidcConf))]).map
        (fun c => (c.Metas, c.OIDCAdditionalEndpointParams)) =
      some (some [("1", "value")], none) ∧
    (∀ (doc : TomlDoc) (conf : ClientConfig), decodeTOML lib k doc = some conf →
      conf.OIDCAdditionalEndpointParams = none) ∧
    (∀ (pre : String) (m keys : List (String × String)), m ≠ [] →
      (m.map Prod.fst).Nodup → (∀ kv ∈ keys, HasPrefix kv.1 pre = false) →
      GetMapWithoutPrefix (iniSetAll pre (some m) keys) pre = some m) ∧
    (∀ (pre : String) (m : List (String × String)) (t : TomlTable),
      (m.map Prod.fst).Nodup → (∀ kv ∈ t, HasPrefix kv.1 pre = false) →
      collectPrefixed pre (putAll pre (some m) t) = some m) := by
  refine ⟨by decide, by decide, by decide, by decide, ?_, ?_, ?_⟩
  · exact fun doc conf h => decodeTOML_OIDCParams lib k doc conf h
  · exact fun pre m keys hne hn hk => GetMapWithoutPrefix_iniSetAll pre m keys hne hn hk
  · exact fun pre m t hn hk => collectPrefixed_putAll pre m t hn hk

end FrpcGUI
